import Mathlib

/-!
# Provider keeper of the cross-chain validation module

A shallow embedding of the provider-side store accessors
(`x/ccv/provider/keeper/keeper.go`) and of the consumer-chain lifecycle
(`x/ccv/provider/keeper/proposal.go`), with theorems about them.

Conventions of the embedding

* a Go `[]byte` and a Go `string` are both a list of byte values (`Bytes`);
* the key-value store is the list of its entries in ascending key order, which
  is the order in which a store iterator yields them;
* `store.Get` returning `nil` is `none`;
* a Go panic is the `Except.error` branch of a result, a returned Go `error`
  is ordinary data (`Option Error`);
* `uint64` arithmetic is arithmetic on `Nat` modulo `2^64`, a `time.Time` is
  its number of nanoseconds since the Unix epoch (`Int`).
-/

namespace CCV

/-! ## Bytes and the key-value store -/

/-- A byte string: the contents of a Go `[]byte` or `string`. -/
abbrev Bytes := List Nat

deriving instance DecidableEq for Except

/-- The bytes of an ASCII string literal. -/
def ascii (s : String) : Bytes := s.data.map Char.toNat

/-- The key-value store: its entries, in ascending order of key. -/
abbrev Store := List (Bytes × Bytes)

namespace Store

/-- The keys of a well-formed store are strictly ascending (so also unique). -/
def WF (s : Store) : Prop := (s.map Prod.fst).Pairwise (· < ·)

instance (s : Store) : Decidable (WF s) := by
  unfold WF; infer_instance

/-- The method `store.Get(key)`; `none` is Go's `nil`. -/
def get : Store → Bytes → Option Bytes
  | [], _ => none
  | (k', v') :: rest, k => if k = k' then some v' else get rest k

/-- The method `store.Set(key, value)`: replaces the value of an existing key,
or inserts the entry at its place in key order. -/
def set : Store → Bytes → Bytes → Store
  | [], k, v => [(k, v)]
  | (k', v') :: rest, k, v =>
    if k = k' then (k, v) :: rest
    else if k < k' then (k, v) :: (k', v') :: rest
    else (k', v') :: set rest k v

/-- The method `store.Delete(key)`. -/
def delete (s : Store) (k : Bytes) : Store := s.filter (fun e => e.1 ≠ k)

/-- The entries `KVStorePrefixIterator(store, p)` yields, in the order it
yields them: every entry whose key starts with `p`, by ascending key. The key
of a yielded entry is the whole key, the bytes of `p` included. -/
def prefixIterator (s : Store) (p : Bytes) : List (Bytes × Bytes) :=
  s.filter (fun e => p.isPrefixOf e.1)

end Store

/-! ## Fixed-width integers -/

/-- The function `binary.BigEndian.PutUint64` on a fresh 8-byte slice. -/
def PutUint64 (v : Nat) : Bytes :=
  [v / 2 ^ 56 % 256, v / 2 ^ 48 % 256, v / 2 ^ 40 % 256, v / 2 ^ 32 % 256,
   v / 2 ^ 24 % 256, v / 2 ^ 16 % 256, v / 2 ^ 8 % 256, v % 256]

/-- The function `binary.BigEndian.Uint64`: reads the first 8 bytes; `none`
is the index-out-of-range panic on a slice shorter than 8 bytes. -/
def Uint64 : Bytes → Option Nat
  | b0 :: b1 :: b2 :: b3 :: b4 :: b5 :: b6 :: b7 :: _ =>
    some (b0 * 2 ^ 56 + b1 * 2 ^ 48 + b2 * 2 ^ 40 + b3 * 2 ^ 32
      + b4 * 2 ^ 24 + b5 * 2 ^ 16 + b6 * 2 ^ 8 + b7)
  | _ => none

/-- The conversion `uint64(x)` of a signed 64-bit value. -/
def toUint64 (x : Int) : Nat := (x % 2 ^ 64).toNat

/-- The conversion `int64(x)` of an unsigned 64-bit value. -/
def toInt64 (x : Nat) : Int :=
  if x % 2 ^ 64 < 2 ^ 63 then (x % 2 ^ 64 : Nat) else (x % 2 ^ 64 : Nat) - 2 ^ 64

/-! ## Data types -/

/-- A returned Go `error`, identified by its sentinel; the wrapped message
is kept only where it carries data the callers can observe. -/
inductive Error where
  | ErrChannelNotFound (channelID : Bytes)
  | ErrTooManyConnectionHops
  | ErrConnectionNotFound (connectionID : Bytes)
  | ErrClientNotFound (clientID : Bytes)
  | ErrInvalidClientType
  | ErrConsumerClientNotFound (chainID : Bytes)
  | ErrInvalidConsumerClient (expected got : Bytes)
  | ErrDuplicateChannel (prevChannelID chainID : Bytes)
  | ErrConsensusStateNotFound
  | ErrUnbondingOpNotFound (id : Nat)
  | external (msg : String)
  deriving DecidableEq, Repr

/-- The type `clienttypes.Height`. -/
structure Height where
  RevisionNumber : Nat
  RevisionHeight : Nat
  deriving DecidableEq, Repr

/-- The type `ibctmtypes.ClientState`: the fields the provider writes, and the
remaining fields of the template client as one value. -/
structure TmClientState where
  ChainId : Bytes
  TrustingPeriod : Int
  UnbondingPeriod : Int
  LatestHeight : Height
  Rest : Bytes
  deriving DecidableEq, Repr

/-- The interface `exported.ClientState`: a tendermint client state, or a
client state of another type. -/
inductive ClientState where
  | tendermint (cs : TmClientState)
  | other (clientType : Bytes)
  deriving DecidableEq, Repr

/-- The type `ibctmtypes.ConsensusState`. -/
structure ConsensusState where
  Timestamp : Int
  Root : Bytes
  NextValidatorsHash : Bytes
  deriving DecidableEq, Repr

/-- The type `abci.ValidatorUpdate`. -/
structure ValidatorUpdate where
  PubKey : Bytes
  Power : Int
  deriving DecidableEq, Repr

/-- The consumer genesis state the provider stores per chain: the fields
`MakeConsumerGenesis` sets. -/
structure GenesisState where
  Enabled : Bool
  NewChain : Bool
  ProviderClientState : Option TmClientState
  ProviderConsensusState : Option ConsensusState
  InitialValSet : List ValidatorUpdate
  deriving DecidableEq, Repr

/-- The type `ccv.ValidatorSetChangePacketData`. -/
structure ValidatorSetChangePacketData where
  ValidatorUpdates : List ValidatorUpdate
  ValsetUpdateId : Nat
  SlashAcks : List Bytes
  deriving DecidableEq, Repr

/-- The type `types.CreateConsumerChainProposal`: the fields the keeper reads. -/
structure types.CreateConsumerChainProposal where
  ChainId : Bytes
  InitialHeight : Height
  SpawnTime : Int
  LockUnbondingOnTimeout : Bool
  deriving DecidableEq, Repr

/-- The type `ccv.UnbondingOp`. -/
structure UnbondingOp where
  Id : Nat
  UnbondingConsumerChains : List Bytes
  deriving DecidableEq, Repr

/-- The type `channeltypes.Channel`: `closed` is `State == CLOSED`. -/
structure Channel where
  closed : Bool
  ConnectionHops : List Bytes
  deriving DecidableEq, Repr

/-- The type `conntypes.ConnectionEnd`. -/
structure ConnectionEnd where
  ClientId : Bytes
  deriving DecidableEq, Repr

/-- The type `stakingtypes.Validator`: the result of `TmConsPublicKey`. -/
structure Validator where
  TmConsPublicKey : Except String Bytes

/-- A protobuf codec for the values of one message type. -/
structure Codec (α : Type) where
  marshal : α → Except String Bytes
  unmarshal : Bytes → Except String α

/-- Unmarshalling what was marshalled gives the value back. -/
def Codec.RoundTrip {α : Type} (c : Codec α) : Prop :=
  ∀ a bz, c.marshal a = .ok bz → c.unmarshal bz = .ok a

/-- Every value marshals. -/
def Codec.Total {α : Type} (c : Codec α) : Prop :=
  ∀ a, ∃ bz, c.marshal a = .ok bz

/-- The block context `sdk.Context`: the fields the keeper reads. `Revision`
is the revision number `clienttypes.GetSelfHeight` parses from the chain ID. -/
structure Context where
  BlockTime : Int
  BlockHeight : Nat
  ChainID : Bytes
  Revision : Nat
  NextValidatorsHash : Bytes
  deriving DecidableEq, Repr

/-- The provider `Keeper`: the codecs and the collaborating keepers, each
collaborator method as the function of its arguments it is during one call. -/
structure Keeper where
  cdc : Codec types.CreateConsumerChainProposal
  genesisCodec : Codec GenesisState
  slashAcksCodec : Codec (List Bytes)
  packetsCodec : Codec (List ValidatorSetChangePacketData)
  unbondingOpCodec : Codec UnbondingOp
  indexCodec : Codec (List Nat)
  GetChannel : Bytes → Bytes → Option Channel
  ChanCloseInit : Bytes → Bytes → Option Error
  GetConnection : Bytes → Option ConnectionEnd
  GetClientState : Bytes → Option ClientState
  CreateClient : TmClientState → ConsensusState → Except Error Bytes
  GetSelfConsensusState : Height → Except Error ConsensusState
  UnbondingTime : Int
  LastValidatorPowers : List (Bytes × Int)
  GetValidator : Bytes → Option Validator
  UnbondingCanComplete : Nat → Option Error
  TemplateClient : TmClientState

/-- A call the keeper made to a collaborating keeper that acts on that
keeper's own state. -/
inductive Call where
  | CreateClient (cs : TmClientState) (cons : ConsensusState)
  | ChanCloseInit (portID channelID : Bytes)
  | UnbondingCanComplete (id : Nat)
  deriving DecidableEq, Repr

/-- An event emitted through the event manager. -/
inductive Event where
  | ChannelEstablished (chainID clientID channelID connectionID : Bytes)
  deriving DecidableEq, Repr

/-- What a keeper method acts on: the module store, the calls made so far to
the collaborating keepers (latest last) and the emitted events. -/
structure State where
  store : Store
  calls : List Call
  events : List Event
  deriving DecidableEq, Repr

/-! ## Store keys -/

/-- Modelled from the spec: the one-byte key namespaces of `types/keys.go`,
which is not among the sources. The spec lists the namespaces as separate
(valset-update-id, chain-to-channel, channel-to-chain, chain-to-client, ...);
each gets a byte of its own, and only their being distinct is used. -/
def ValidatorSetUpdateIdByteKey : Nat := 2

/-- Modelled from the spec: see `ValidatorSetUpdateIdByteKey`. -/
def ChainToChannelBytePrefix : Nat := 5

/-- Modelled from the spec: see `ValidatorSetUpdateIdByteKey`. -/
def ChannelToChainBytePrefix : Nat := 6

/-- Modelled from the spec: see `ValidatorSetUpdateIdByteKey`. -/
def ChainToClientBytePrefix : Nat := 7

/-- Modelled from the spec: see `ValidatorSetUpdateIdByteKey`. -/
def UnbondingOpBytePrefix : Nat := 11

/-- Modelled from the spec: see `ValidatorSetUpdateIdByteKey`. -/
def UnbondingOpIndexBytePrefix : Nat := 12

/-- Modelled from the spec: see `ValidatorSetUpdateIdByteKey`. -/
def ConsumerGenesisBytePrefix : Nat := 14

/-- Modelled from the spec: see `ValidatorSetUpdateIdByteKey`. -/
def SlashAcksBytePrefix : Nat := 15

/-- Modelled from the spec: see `ValidatorSetUpdateIdByteKey`. -/
def InitChainHeightBytePrefix : Nat := 16

/-- Modelled from the spec: see `ValidatorSetUpdateIdByteKey`. -/
def PendingVSCsBytePrefix : Nat := 17

/-- Modelled from the spec: see `ValidatorSetUpdateIdByteKey`. -/
def LockUnbondingOnTimeoutBytePrefix : Nat := 18

/-- The key `types.ValidatorSetUpdateIdKey()`. -/
def ValidatorSetUpdateIdKey : Bytes := [ ValidatorSetUpdateIdByteKey]

/-- The key `types.ChainToChannelKey(chainID)`. -/
def ChainToChannelKey (chainID : Bytes) : Bytes := ChainToChannelBytePrefix :: chainID

/-- The key `types.ChannelToChainKey(channelID)`. -/
def ChannelToChainKey (channelID : Bytes) : Bytes := ChannelToChainBytePrefix :: channelID

/-- The key `types.ChainToClientKey(chainID)`: the format the comment of
`GetAllRegisteredConsumerChainIDs` gives, `ChainToClientBytePrefix | chainID`. -/
def ChainToClientKey (chainID : Bytes) : Bytes := ChainToClientBytePrefix :: chainID

/-- The key `types.ConsumerGenesisKey(chainID)`. -/
def ConsumerGenesisKey (chainID : Bytes) : Bytes := ConsumerGenesisBytePrefix :: chainID

/-- The key `types.SlashAcksKey(chainID)`. -/
def SlashAcksKey (chainID : Bytes) : Bytes := SlashAcksBytePrefix :: chainID

/-- The key `types.InitChainHeightKey(chainID)`. -/
def InitChainHeightKey (chainID : Bytes) : Bytes := InitChainHeightBytePrefix :: chainID

/-- The key `types.PendingVSCsKey(chainID)`. -/
def PendingVSCsKey (chainID : Bytes) : Bytes := PendingVSCsBytePrefix :: chainID

/-- The port `ccv.ProviderPortID`. -/
def ProviderPortID : Bytes := ascii "provider"

/-! ## keeper.go -/

/-- The method `Keeper.SetChainToChannel`. -/
def SetChainToChannel (store : Store) (chainID channelID : Bytes) : Store :=
  store.set (ChainToChannelKey chainID) channelID

/-- The method `Keeper.GetChainToChannel`. -/
def GetChainToChannel (store : Store) (chainID : Bytes) : Bytes × Bool :=
  match store.get (ChainToChannelKey chainID) with
  | none => ([], false)
  | some bz => (bz, true)

/-- The method `Keeper.DeleteChainToChannel`. -/
def DeleteChainToChannel (store : Store) (chainID : Bytes) : Store :=
  store.delete (ChainToChannelKey chainID)

/-- The method `Keeper.SetChannelToChain`. -/
def SetChannelToChain (store : Store) (channelID chainID : Bytes) : Store :=
  store.set (ChannelToChainKey channelID) chainID

/-- The method `Keeper.GetChannelToChain`. -/
def GetChannelToChain (store : Store) (channelID : Bytes) : Bytes × Bool :=
  match store.get (ChannelToChainKey channelID) with
  | none => ([], false)
  | some bz => (bz, true)

/-- The method `Keeper.DeleteChannelToChain`. -/
def DeleteChannelToChain (store : Store) (channelID : Bytes) : Store :=
  store.delete (ChannelToChainKey channelID)

/-- The method `Keeper.SetConsumerClientId`. -/
def SetConsumerClientId (store : Store) (chainID clientID : Bytes) : Store :=
  store.set (ChainToClientKey chainID) clientID

/-- The method `Keeper.GetConsumerClientId`. -/
def GetConsumerClientId (store : Store) (chainID : Bytes) : Bytes × Bool :=
  match store.get (ChainToClientKey chainID) with
  | none => ([], false)
  | some bz => (bz, true)

/-- The method `Keeper.DeleteConsumerClientId`. -/
def DeleteConsumerClientId (store : Store) (chainID : Bytes) : Store :=
  store.delete (ChainToClientKey chainID)

/-- The method `Keeper.GetAllRegisteredConsumerChainIDs`: the key of every
entry under the chain-to-client namespace, its first byte removed. -/
def GetAllRegisteredConsumerChainIDs (store : Store) : List Bytes :=
  (store.prefixIterator [ ChainToClientBytePrefix]).map (fun e => e.1.drop 1)

/-- The method `Keeper.SetConsumerGenesis`. -/
def SetConsumerGenesis (k : Keeper) (store : Store) (chainID : Bytes) (gen : GenesisState) :
    Option Error × Store :=
  match k.genesisCodec.marshal gen with
  | .error e => (some (.external e), store)
  | .ok bz => (none, store.set (ConsumerGenesisKey chainID) bz)

/-- The zero value `ccv.ConsumerGenesisState{}`. -/
def zeroGenesis : GenesisState :=
  { Enabled := false, NewChain := false, ProviderClientState := none,
    ProviderConsensusState := none, InitialValSet := [] }

/-- The method `Keeper.GetConsumerGenesis`; it panics on bytes that do not
unmarshal. -/
def GetConsumerGenesis (k : Keeper) (store : Store) (chainID : Bytes) :
    Except String (GenesisState × Bool) :=
  match store.get (ConsumerGenesisKey chainID) with
  | none => .ok (zeroGenesis, false)
  | some bz =>
    match k.genesisCodec.unmarshal bz with
    | .error e => .error ("consumer genesis could not be unmarshaled: " ++ e)
    | .ok data => .ok (data, true)

/-- The method `Keeper.DeleteConsumerGenesis`. -/
def DeleteConsumerGenesis (store : Store) (chainID : Bytes) : Store :=
  store.delete (ConsumerGenesisKey chainID)

/-- The method `Keeper.SetValidatorSetUpdateId`. -/
def SetValidatorSetUpdateId (store : Store) (valUpdateID : Nat) : Store :=
  store.set ValidatorSetUpdateIdKey (PutUint64 valUpdateID)

/-- The method `Keeper.GetValidatorSetUpdateId`; `binary.BigEndian.Uint64`
panics on a stored value shorter than 8 bytes. -/
def GetValidatorSetUpdateId (store : Store) : Except String Nat :=
  match store.get ValidatorSetUpdateIdKey with
  | none => .ok 0
  | some bz =>
    match Uint64 bz with
    | none => .error "index out of range"
    | some v => .ok v

/-- The method `Keeper.IncrementValidatorSetUpdateId`; the sum is a `uint64`. -/
def IncrementValidatorSetUpdateId (store : Store) : Except String Store :=
  match GetValidatorSetUpdateId store with
  | .error e => .error e
  | .ok validatorSetUpdateId =>
    .ok (SetValidatorSetUpdateId store ((validatorSetUpdateId + 1) % 2 ^ 64))

/-- The method `Keeper.SetSlashAcks`; it panics when the list does not marshal. -/
def SetSlashAcks (k : Keeper) (store : Store) (chainID : Bytes) (acks : List Bytes) :
    Except String Store :=
  match k.slashAcksCodec.marshal acks with
  | .error e => .error ("failed to marshal SlashAcks: " ++ e)
  | .ok bz => .ok (store.set (SlashAcksKey chainID) bz)

/-- The method `Keeper.GetSlashAcks`; a `nil` result is the empty list; it
panics on bytes that do not unmarshal. -/
def GetSlashAcks (k : Keeper) (store : Store) (chainID : Bytes) : Except String (List Bytes) :=
  match store.get (SlashAcksKey chainID) with
  | none => .ok []
  | some bz =>
    match k.slashAcksCodec.unmarshal bz with
    | .error e => .error ("failed to unmarshal SlashAcks: " ++ e)
    | .ok acks => .ok acks

/-- The method `Keeper.ConsumeSlashAcks`: returns the stored acks and the store
it leaves. -/
def ConsumeSlashAcks (k : Keeper) (store : Store) (chainID : Bytes) :
    Except String (List Bytes × Store) :=
  match GetSlashAcks k store chainID with
  | .error e => .error e
  | .ok acks =>
    if acks.length < 1 then .ok (acks, store)
    else .ok (acks, store.delete (SlashAcksKey chainID))

/-- The method `Keeper.DeleteSlashAcks`. -/
def DeleteSlashAcks (store : Store) (chainID : Bytes) : Store :=
  store.delete (SlashAcksKey chainID)

/-- The method `Keeper.AppendSlashAck`. -/
def AppendSlashAck (k : Keeper) (store : Store) (chainID ack : Bytes) : Except String Store :=
  match GetSlashAcks k store chainID with
  | .error e => .error e
  | .ok acks => SetSlashAcks k store chainID (acks ++ [ack])

/-- The method `Keeper.SetInitChainHeight`. -/
def SetInitChainHeight (store : Store) (chainID : Bytes) (height : Nat) : Store :=
  store.set (InitChainHeightKey chainID) (PutUint64 height)

/-- The method `Keeper.GetInitChainHeight`. -/
def GetInitChainHeight (store : Store) (chainID : Bytes) : Except String (Nat × Bool) :=
  match store.get (InitChainHeightKey chainID) with
  | none => .ok (0, false)
  | some bz =>
    match Uint64 bz with
    | none => .error "index out of range"
    | some v => .ok (v, true)

/-- The method `Keeper.DeleteInitChainHeight`. -/
def DeleteInitChainHeight (store : Store) (chainID : Bytes) : Store :=
  store.delete (InitChainHeightKey chainID)

/-- The method `Keeper.GetPendingVSCPackets`; it panics on bytes that do not
unmarshal. -/
def GetPendingVSCPackets (k : Keeper) (store : Store) (chainID : Bytes) :
    Except String (List ValidatorSetChangePacketData) :=
  match store.get (PendingVSCsKey chainID) with
  | none => .ok []
  | some bz =>
    match k.packetsCodec.unmarshal bz with
    | .error e => .error ("cannot unmarshal pending validator set changes: " ++ e)
    | .ok packets => .ok packets

/-- The method `Keeper.AppendPendingVSCPackets`; it panics when the new list
does not marshal. -/
def AppendPendingVSCPackets (k : Keeper) (store : Store) (chainID : Bytes)
    (newPackets : List ValidatorSetChangePacketData) : Except String Store :=
  match GetPendingVSCPackets k store chainID with
  | .error e => .error e
  | .ok old =>
    match k.packetsCodec.marshal (old ++ newPackets) with
    | .error e => .error ("cannot marshal pending validator set changes: " ++ e)
    | .ok buf => .ok (store.set (PendingVSCsKey chainID) buf)

/-- The method `Keeper.DeletePendingVSCPackets`. -/
def DeletePendingVSCPackets (store : Store) (chainID : Bytes) : Store :=
  store.delete (PendingVSCsKey chainID)

/-- The method `Keeper.getUnderlyingClient`. -/
def getUnderlyingClient (k : Keeper) (connectionID : Bytes) :
    Except Error (Bytes × TmClientState) :=
  match k.GetConnection connectionID with
  | none => .error (.ErrConnectionNotFound connectionID)
  | some conn =>
    match k.GetClientState conn.ClientId with
    | none => .error (.ErrClientNotFound conn.ClientId)
    | some (.other _) => .error .ErrInvalidClientType
    | some (.tendermint tmClient) => .ok (conn.ClientId, tmClient)

/-- The method `Keeper.VerifyConsumerChain`. -/
def VerifyConsumerChain (k : Keeper) (store : Store) (_channelID : Bytes)
    (connectionHops : List Bytes) : Option Error :=
  match connectionHops with
  | [connectionID] =>
    match getUnderlyingClient k connectionID with
    | .error err => some err
    | .ok (clientID, tmClient) =>
      match GetConsumerClientId store tmClient.ChainId with
      | (_, false) => some (.ErrConsumerClientNotFound tmClient.ChainId)
      | (ccvClientId, true) =>
        if ccvClientId ≠ clientID then some (.ErrInvalidConsumerClient ccvClientId clientID)
        else
          match GetChainToChannel store tmClient.ChainId with
          | (prevChannel, true) => some (.ErrDuplicateChannel prevChannel tmClient.ChainId)
          | (_, false) => none
  | _ => some .ErrTooManyConnectionHops

/-- The method `Keeper.SetConsumerChain`: the returned error and the state the
call leaves. -/
def SetConsumerChain (k : Keeper) (ctx : Context) (st : State) (channelID : Bytes) :
    Option Error × State :=
  match k.GetChannel ProviderPortID channelID with
  | none => (some (.ErrChannelNotFound channelID), st)
  | some channel =>
    match channel.ConnectionHops with
    | [connectionID] =>
      match getUnderlyingClient k connectionID with
      | .error err => (some err, st)
      | .ok (clientID, tmClient) =>
        let chainID := tmClient.ChainId
        match GetChainToChannel st.store chainID with
        | (prevChannelID, true) => (some (.ErrDuplicateChannel prevChannelID chainID), st)
        | (_, false) =>
          let store1 := SetChainToChannel st.store chainID channelID
          let store2 := SetChannelToChain store1 channelID chainID
          let store3 := SetInitChainHeight store2 chainID ctx.BlockHeight
          (none, { st with
            store := store3,
            events := st.events ++ [.ChannelEstablished chainID clientID channelID connectionID] })
    | _ => (some .ErrTooManyConnectionHops, st)

/-- The method `Keeper.chanCloseInit`: the call is recorded, its error returned. -/
def chanCloseInit (k : Keeper) (st : State) (channelID : Bytes) : Option Error × State :=
  (k.ChanCloseInit ProviderPortID channelID,
    { st with calls := st.calls ++ [.ChanCloseInit ProviderPortID channelID] })

/-! ## Helpers of proposal.go that are not among the sources -/

/-- Modelled from the spec: the key namespace `types.PendingClientKeyPrefix` of
the pending consumer additions (`pending-client-info`); `types/keys.go` is not
among the sources. -/
def PendingClientKeyPrefix : Bytes := ascii "pendingclient"

/-- Modelled from the spec: the key namespace
`types.PendingStopProposalKeyPrefix` of the pending removals
(`pending-stop-proposal`). -/
def PendingStopProposalKeyPrefix : Bytes := ascii "pendingstopproposal"

/-- The byte `/`. -/
def slash : Nat := 47

/-- Modelled from the spec: `types.PendingClientKey(timestamp, chainID)`, the
time-ordered key `<namespace>/<8-byte big-endian UnixNano>/<chainID>` (the
spec: pending records keyed by time and chain ID, with a big-endian time so
that key order is time order). -/
def PendingClientKey (timestamp : Int) (chainID : Bytes) : Bytes :=
  PendingClientKeyPrefix ++ [slash] ++ PutUint64 (toUint64 timestamp) ++ [slash] ++ chainID

/-- Modelled from the spec: `types.PendingStopProposalKey(timestamp, chainID)`,
of the same form as `PendingClientKey`. -/
def PendingStopProposalKey (timestamp : Int) (chainID : Bytes) : Bytes :=
  PendingStopProposalKeyPrefix ++ [slash] ++ PutUint64 (toUint64 timestamp) ++ [slash] ++ chainID

/-- Modelled from the spec: `types.LockUnbondingOnTimeoutKey(chainID)`. -/
def LockUnbondingOnTimeoutKey (chainID : Bytes) : Bytes :=
  LockUnbondingOnTimeoutBytePrefix :: chainID

/-- Modelled from the spec: `types.UnbondingOpKey(id)`, the key of the record of
one unbonding operation. -/
def UnbondingOpKey (id : Nat) : Bytes := UnbondingOpBytePrefix :: PutUint64 id

/-- Modelled from the spec: the part of an unbonding-op index key that selects
one chain: the namespace byte, the length of the chain ID and the chain ID. -/
def UnbondingOpIndexChainKey (chainID : Bytes) : Bytes :=
  UnbondingOpIndexBytePrefix :: (PutUint64 chainID.length ++ chainID)

/-- Modelled from the spec: `types.UnbondingOpIndexKey(chainID, vscID)`, the key
of the index `(chainID, valsetUpdateID) → [operationID...]`. -/
def UnbondingOpIndexKey (chainID : Bytes) (vscID : Nat) : Bytes :=
  UnbondingOpIndexChainKey chainID ++ PutUint64 vscID

/-- Modelled from the spec: `Keeper.SetConsumerClient`, which binds
`chainID → clientID`; the binding `GetConsumerClientId` reads. -/
def SetConsumerClient (store : Store) (chainID clientID : Bytes) : Store :=
  SetConsumerClientId store chainID clientID

/-- Modelled from the spec: `Keeper.DeleteConsumerClient`, which deletes the
client binding of the chain. -/
def DeleteConsumerClient (store : Store) (chainID : Bytes) : Store :=
  DeleteConsumerClientId store chainID

/-- Modelled from the spec: `Keeper.SetLockUnbondingOnTimeout`, which stores the
unbonding-lock flag of the chain. -/
def SetLockUnbondingOnTimeout (store : Store) (chainID : Bytes) : Store :=
  store.set (LockUnbondingOnTimeoutKey chainID) [1]

/-- Modelled from the spec: `Keeper.GetLockUnbondingOnTimeout`. -/
def GetLockUnbondingOnTimeout (store : Store) (chainID : Bytes) : Bool :=
  (store.get (LockUnbondingOnTimeoutKey chainID)).isSome

/-- Modelled from the spec: `Keeper.DeleteLockUnbondingOnTimeout`, which
deletes the unbonding-lock flag of the chain. -/
def DeleteLockUnbondingOnTimeout (store : Store) (chainID : Bytes) : Store :=
  store.delete (LockUnbondingOnTimeoutKey chainID)

/-- Modelled from the spec: `Keeper.EmptySlashAcks`, which drains the slash acks
of the chain; the read-and-clear of `ConsumeSlashAcks`. -/
def EmptySlashAcks (k : Keeper) (store : Store) (chainID : Bytes) :
    Except String (List Bytes × Store) :=
  ConsumeSlashAcks k store chainID

/-- Modelled from the spec: `Keeper.GetUnbondingOp`, the record of an unbonding
operation and whether it exists. -/
def GetUnbondingOp (k : Keeper) (store : Store) (id : Nat) :
    Except String (UnbondingOp × Bool) :=
  match store.get (UnbondingOpKey id) with
  | none => .ok ({ Id := 0, UnbondingConsumerChains := [] }, false)
  | some bz =>
    match k.unbondingOpCodec.unmarshal bz with
    | .error e => .error ("failed to unmarshal UnbondingOp: " ++ e)
    | .ok op => .ok (op, true)

/-- Modelled from the spec: `Keeper.SetUnbondingOp`, which persists the record
of an unbonding operation under its ID. -/
def SetUnbondingOp (k : Keeper) (store : Store) (unbondingOp : UnbondingOp) :
    Except String Store :=
  match k.unbondingOpCodec.marshal unbondingOp with
  | .error e => .error ("unbonding op could not be marshaled: " ++ e)
  | .ok bz => .ok (store.set (UnbondingOpKey unbondingOp.Id) bz)

/-- Modelled from the spec: `Keeper.DeleteUnbondingOp`, which deletes the record
of an unbonding operation. -/
def DeleteUnbondingOp (store : Store) (id : Nat) : Store :=
  store.delete (UnbondingOpKey id)

/-- Modelled from the spec: `Keeper.DeleteUnbondingOpIndex`, which deletes one
entry of the index. -/
def DeleteUnbondingOpIndex (store : Store) (chainID : Bytes) (vscID : Nat) : Store :=
  store.delete (UnbondingOpIndexKey chainID vscID)

/-- Modelled from the spec: `Keeper.SetUnbondingOpIndex`, which stores the IDs
of the operations indexed under `(chainID, vscID)`. -/
def SetUnbondingOpIndex (k : Keeper) (store : Store) (chainID : Bytes) (vscID : Nat)
    (ids : List Nat) : Except String Store :=
  match k.indexCodec.marshal ids with
  | .error e => .error ("unbonding op index could not be marshaled: " ++ e)
  | .ok bz => .ok (store.set (UnbondingOpIndexKey chainID vscID) bz)

/-- Modelled from the spec: `removeStringFromSlice`, which removes a chain ID
from the wait-set of an operation and counts the removals. -/
def removeStringFromSlice (slice : List Bytes) (x : Bytes) : List Bytes × Nat :=
  let newSlice := slice.filter (fun y => x ≠ y)
  (newSlice, slice.length - newSlice.length)

/-- The walk of `IterateOverUnbondingOpIndex` over the entries the iterator
yielded: the callback gets the VSC ID and the operation IDs of each entry and
the walk goes on while it returns `true`. -/
def iterateIndexEntries {σ : Type} (k : Keeper) (chainID : Bytes)
    (cb : σ → Nat → List Nat → Except String (Bool × σ)) :
    List (Bytes × Bytes) → σ → Except String σ
  | [], acc => .ok acc
  | (key, value) :: rest, acc =>
    match Uint64 (key.drop (UnbondingOpIndexChainKey chainID).length) with
    | none => .error "unbonding op index key could not be parsed"
    | some vscID =>
      match k.indexCodec.unmarshal value with
      | .error e => .error ("unbonding op index could not be unmarshaled: " ++ e)
      | .ok ids =>
        match cb acc vscID ids with
        | .error e => .error e
        | .ok (true, acc') => iterateIndexEntries k chainID cb rest acc'
        | .ok (false, acc') => .ok acc'

/-- Modelled from the spec: `Keeper.IterateOverUnbondingOpIndex`, the walk over
the index entries of one chain by ascending VSC ID, which stops when the
callback returns `false`. -/
def IterateOverUnbondingOpIndex {σ : Type} (k : Keeper) (store : Store) (chainID : Bytes)
    (cb : σ → Nat → List Nat → Except String (Bool × σ)) (init : σ) : Except String σ :=
  iterateIndexEntries k chainID cb (store.prefixIterator (UnbondingOpIndexChainKey chainID)) init

/-- The function `strings.Split(s, "/")`, for a one-byte separator. -/
def Split (sep : Nat) : Bytes → List Bytes
  | [] => [[]]
  | b :: rest =>
    if b = sep then [] :: Split sep rest
    else
      match Split sep rest with
      | [] => [[b]]
      | h :: t => (b :: h) :: t

/-- The root `ibctmtypes.SentinelRoot`. -/
def SentinelRoot : Bytes := ascii "sentinel_root"

/-! ## proposal.go -/

/-- The loop of `MakeConsumerGenesis` over the last validator powers: one
update per entry; a validator the staking keeper does not have, or whose
consensus key does not convert, is a panic. -/
def makeUpdates (k : Keeper) : List (Bytes × Int) → Except String (List ValidatorUpdate)
  | [] => .ok []
  | (addr, power) :: rest =>
    match k.GetValidator addr with
    | none => .error "Validator from LastValidatorPowers not found in staking keeper"
    | some val =>
      match val.TmConsPublicKey with
      | .error e => .error e
      | .ok tmProtoPk =>
        match makeUpdates k rest with
        | .error e => .error e
        | .ok updates => .ok ({ PubKey := tmProtoPk, Power := power } :: updates)

/-- The method `Keeper.MakeConsumerGenesis`: a panic, or the returned pair of
genesis and error. -/
def MakeConsumerGenesis (k : Keeper) (ctx : Context) :
    Except String (GenesisState × Option Error) :=
  let unbondingTime := k.UnbondingTime
  let height : Height := { RevisionNumber := ctx.Revision, RevisionHeight := ctx.BlockHeight }
  let clientState : TmClientState :=
    { k.TemplateClient with
      ChainId := ctx.ChainID, LatestHeight := height,
      TrustingPeriod := Int.tdiv unbondingTime 2, UnbondingPeriod := unbondingTime }
  match k.GetSelfConsensusState height with
  | .error _ => .ok (zeroGenesis, some .ErrConsensusStateNotFound)
  | .ok consState =>
    match makeUpdates k k.LastValidatorPowers with
    | .error e => .error e
    | .ok updates =>
      .ok ({ Enabled := true, NewChain := true, ProviderClientState := some clientState,
             ProviderConsensusState := some consState, InitialValSet := updates }, none)

/-- The client state `CreateConsumerClient` builds from the template client. -/
def newClientState (k : Keeper) (chainID : Bytes) (initialHeight : Height) : TmClientState :=
  { k.TemplateClient with
    ChainId := chainID, LatestHeight := initialHeight,
    TrustingPeriod := Int.tdiv k.UnbondingTime 2, UnbondingPeriod := k.UnbondingTime }

/-- The consensus state `CreateConsumerClient` builds from the block header. -/
def newConsensusState (ctx : Context) : ConsensusState :=
  { Timestamp := ctx.BlockTime, Root := SentinelRoot,
    NextValidatorsHash := ctx.NextValidatorsHash }

/-- The method `Keeper.CreateConsumerClient`: a panic, or the returned error
and the state the call leaves. -/
def CreateConsumerClient (k : Keeper) (ctx : Context) (st : State) (chainID : Bytes)
    (initialHeight : Height) (lockUbdOnTimeout : Bool) : Except String (Option Error × State) :=
  let clientState := newClientState k chainID initialHeight
  let consensusState := newConsensusState ctx
  let st1 := { st with calls := st.calls ++ [.CreateClient clientState consensusState] }
  match k.CreateClient clientState consensusState with
  | .error err => .ok (some err, st1)
  | .ok clientID =>
    let st2 := { st1 with store := SetConsumerClient st1.store chainID clientID }
    match MakeConsumerGenesis k ctx with
    | .error e => .error e
    | .ok (_, some err) => .ok (some err, st2)
    | .ok (consumerGen, none) =>
      let store3 := (SetConsumerGenesis k st2.store chainID consumerGen).2
      let store4 := if lockUbdOnTimeout then SetLockUnbondingOnTimeout store3 chainID else store3
      .ok (none, { st2 with store := store4 })

/-- The method `Keeper.SetPendingClientInfo`. -/
def SetPendingClientInfo (k : Keeper) (store : Store) (clientInfo : types.CreateConsumerChainProposal) :
    Option Error × Store :=
  match k.cdc.marshal clientInfo with
  | .error e => (some (.external e), store)
  | .ok bz => (none, store.set (PendingClientKey clientInfo.SpawnTime clientInfo.ChainId) bz)

/-- The method `Keeper.CreateConsumerChainProposal`. -/
def CreateConsumerChainProposal (k : Keeper) (ctx : Context) (st : State)
    (p : types.CreateConsumerChainProposal) : Except String (Option Error × State) :=
  if ctx.BlockTime > p.SpawnTime then
    CreateConsumerClient k ctx st p.ChainId p.InitialHeight p.LockUnbondingOnTimeout
  else
    .ok (none, { st with store := (SetPendingClientInfo k st.store p).2 })

/-- The method `Keeper.CloseChannel`; its port `types.PortID` is the provider
port. -/
def CloseChannel (k : Keeper) (st : State) (channelID : Bytes) : State :=
  match k.GetChannel ProviderPortID channelID with
  | some channel => if channel.closed then st else (chanCloseInit k st channelID).2
  | none => st

/-- The loop of the callback of `StopConsumerChain` over the operations of one
VSC ID, acting on the named result `err` and on the state; the flag is `false`
when the callback returns `false` from inside the loop. -/
def releaseUnbondingOps (k : Keeper) (chainID : Bytes) :
    List Nat → Option Error × State → Except String (Bool × (Option Error × State))
  | [], acc => .ok (true, acc)
  | id :: ids, (err, st) =>
    match GetUnbondingOp k st.store id with
    | .error e => .error e
    | .ok (_, false) => .ok (false, (some (.ErrUnbondingOpNotFound id), st))
    | .ok (unbondingOp, true) =>
      let chains := (removeStringFromSlice unbondingOp.UnbondingConsumerChains chainID).1
      if chains.length = 0 then
        let st1 := { st with calls := st.calls ++ [.UnbondingCanComplete unbondingOp.Id] }
        match k.UnbondingCanComplete unbondingOp.Id with
        | some e => .ok (false, (some e, st1))
        | none =>
          releaseUnbondingOps k chainID ids
            (none, { st1 with store := DeleteUnbondingOp st1.store unbondingOp.Id })
      else
        match SetUnbondingOp k st.store { unbondingOp with UnbondingConsumerChains := chains } with
        | .error e => .error e
        | .ok store' => releaseUnbondingOps k chainID ids (err, { st with store := store' })

/-- The callback `StopConsumerChain` passes to `IterateOverUnbondingOpIndex`:
after the operations of the VSC ID it deletes the index entry and returns
`true`. -/
def stopCallback (k : Keeper) (chainID : Bytes) (acc : Option Error × State) (vscID : Nat)
    (ids : List Nat) : Except String (Bool × (Option Error × State)) :=
  match releaseUnbondingOps k chainID ids acc with
  | .error e => .error e
  | .ok (false, acc') => .ok (false, acc')
  | .ok (true, (err, st)) =>
    .ok (true, (err, { st with store := DeleteUnbondingOpIndex st.store chainID vscID }))

/-- The first part of `StopConsumerChain`, up to `DeleteInitChainHeight`: the
client binding and the unbonding-lock flag are deleted, the channel, if the
chain has one, is closed and unbound, the init height is deleted. -/
def stopCleanup (k : Keeper) (st : State) (chainID : Bytes) (closeChan : Bool) : State :=
  let st1 := { st with store := DeleteConsumerClient st.store chainID }
  let st2 := { st1 with store := DeleteLockUnbondingOnTimeout st1.store chainID }
  let st3 :=
    match GetChainToChannel st2.store chainID with
    | (channelID, true) =>
      let sa := if closeChan then CloseChannel k st2 channelID else st2
      let sb := (chanCloseInit k sa channelID).2
      let sc := { sb with store := DeleteChainToChannel sb.store chainID }
      { sc with store := DeleteChannelToChain sc.store channelID }
    | (_, false) => st2
  { st3 with store := DeleteInitChainHeight st3.store chainID }

/-- The method `Keeper.StopConsumerChain`: a panic, or the returned error and
the state the call leaves. -/
def StopConsumerChain (k : Keeper) (st : State) (chainID : Bytes) (lockUbd closeChan : Bool) :
    Except String (Option Error × State) :=
  let st4 := stopCleanup k st chainID closeChan
  match EmptySlashAcks k st4.store chainID with
  | .error e => .error e
  | .ok (_, store5) =>
    let st5 := { st4 with store := store5 }
    if lockUbd then .ok (none, st5)
    else IterateOverUnbondingOpIndex k st5.store chainID (stopCallback k chainID) (none, st5)

/-- The entries of the unbonding-op index that an iterator yielded, decoded as
`IterateOverUnbondingOpIndex` decodes them: the VSC ID and the operation IDs of
each entry. -/
def decodeIndexEntries (k : Keeper) (chainID : Bytes) :
    List (Bytes × Bytes) → Except String (List (Nat × List Nat))
  | [] => .ok []
  | (key, value) :: rest =>
    match Uint64 (key.drop (UnbondingOpIndexChainKey chainID).length) with
    | none => .error "unbonding op index key could not be parsed"
    | some vscID =>
      match k.indexCodec.unmarshal value with
      | .error e => .error ("unbonding op index could not be unmarshaled: " ++ e)
      | .ok ids =>
        match decodeIndexEntries k chainID rest with
        | .error e => .error e
        | .ok idx => .ok ((vscID, ids) :: idx)

/-- Modelled from the spec: the index `(chainID, valsetUpdateID) →
[operationID...]` of one chain, decoded: for each VSC ID, by ascending key, the
IDs of the operations indexed under it. -/
def GetAllUnbondingOpIndexes (k : Keeper) (store : Store) (chainID : Bytes) :
    Except String (List (Nat × List Nat)) :=
  decodeIndexEntries k chainID (store.prefixIterator (UnbondingOpIndexChainKey chainID))

/-- The IDs of all the operations in a decoded index, in the order of the walk. -/
def indexedIds (idx : List (Nat × List Nat)) : List Nat := (idx.map Prod.snd).flatten

/-- The walk of `IterateOverUnbondingOpIndex` on a decoded index. -/
def walkIndex {σ : Type} (cb : σ → Nat → List Nat → Except String (Bool × σ)) :
    List (Nat × List Nat) → σ → Except String σ
  | [], acc => .ok acc
  | (vscID, ids) :: rest, acc =>
    match cb acc vscID ids with
    | .error e => .error e
    | .ok (true, acc') => walkIndex cb rest acc'
    | .ok (false, acc') => .ok acc'

/-- The loop of `IteratePendingClientInfo` over the entries the iterator
yielded. -/
def iteratePendingClients (k : Keeper) (ctx : Context) :
    List (Bytes × Bytes) → State → Except String State
  | [], st => .ok st
  | (suffixKey, value) :: rest, st =>
    let splitKey := Split slash suffixKey
    match Uint64 (splitKey.getD 0 []) with
    | none => .error "index out of range"
    | some timeNano =>
      let spawnTime := toInt64 timeNano
      match k.cdc.unmarshal value with
      | .error e => .error e
      | .ok clientInfo =>
        if ctx.BlockTime > spawnTime then
          match splitKey.get? 1 with
          | none => .error "index out of range"
          | some chainID =>
            match CreateConsumerClient k ctx st chainID clientInfo.InitialHeight
                clientInfo.LockUnbondingOnTimeout with
            | .error e => .error e
            | .ok (_, st') => iteratePendingClients k ctx rest st'
        else .ok st

/-- The method `Keeper.IteratePendingClientInfo`. -/
def IteratePendingClientInfo (k : Keeper) (ctx : Context) (st : State) : Except String State :=
  iteratePendingClients k ctx
    (st.store.prefixIterator ( PendingClientKeyPrefix ++ [slash])) st

/-- The method `Keeper.SetPendingStopProposal`. -/
def SetPendingStopProposal (store : Store) (chainID : Bytes) (timestamp : Int) : Store :=
  store.set (PendingStopProposalKey timestamp chainID) []

/-- The method `Keeper.GetPendingStopProposal`. -/
def GetPendingStopProposal (store : Store) (chainID : Bytes) (timestamp : Int) : Bool :=
  (store.get (PendingStopProposalKey timestamp chainID)).isSome

/-- The method `Keeper.DeletePendingStopProposal`. -/
def DeletePendingStopProposal (store : Store) (chainID : Bytes) (timestamp : Int) : Store :=
  store.delete (PendingStopProposalKey timestamp chainID)

/-- The loop of `IteratePendingStopProposal` over the entries the iterator
yielded. -/
def iteratePendingStops (k : Keeper) (ctx : Context) :
    List (Bytes × Bytes) → State → Except String State
  | [], st => .ok st
  | (suffixKey, _) :: rest, st =>
    let splitKey := Split slash suffixKey
    match Uint64 (splitKey.getD 0 []) with
    | none => .error "index out of range"
    | some timeNano =>
      let stopTime := toInt64 timeNano
      match splitKey.get? 1 with
      | none => .error "index out of range"
      | some chainID =>
        if ctx.BlockTime > stopTime then
          match StopConsumerChain k st chainID false true with
          | .error e => .error e
          | .ok (_, st') =>
            iteratePendingStops k ctx rest
              { st' with store := DeletePendingStopProposal st'.store chainID stopTime }
        else .ok st

/-- The method `Keeper.IteratePendingStopProposal`. -/
def IteratePendingStopProposal (k : Keeper) (ctx : Context) (st : State) : Except String State :=
  iteratePendingStops k ctx
    (st.store.prefixIterator ( PendingStopProposalKeyPrefix ++ [slash])) st

/-- The method `Keeper.StopConsumerChainProposal`. -/
def StopConsumerChainProposal (k : Keeper) (ctx : Context) (st : State) (chainID : Bytes)
    (stopTime : Int) : Except String (Option Error × State) :=
  if ctx.BlockTime > stopTime then StopConsumerChain k st chainID false true
  else .ok (none, { st with store := SetPendingStopProposal st.store chainID stopTime })

/-! ## A concrete codec

The keeper is parametric in its codecs. The codecs below are one lawful choice,
used to run the keeper on concrete states. -/

/-- A self-delimiting wire format for the values of a type: `get` reads one
value from the front of the input and returns what follows it. -/
structure Wire (α : Type) where
  put : α → Bytes
  get : Bytes → Option (α × Bytes)

/-- Reading what was written gives the value back and leaves what followed. -/
def Wire.Lawful {α : Type} (w : Wire α) : Prop :=
  ∀ a rest, w.get (w.put a ++ rest) = some (a, rest)

namespace Wire

/-- A number, as one element. -/
def nat : Wire Nat where
  put n := [n]
  get
    | [] => none
    | n :: rest => some (n, rest)

/-- Two values, one after the other. -/
def pair {α β : Type} (wa : Wire α) (wb : Wire β) : Wire (α × β) where
  put p := wa.put p.1 ++ wb.put p.2
  get bz :=
    match wa.get bz with
    | none => none
    | some (a, rest) =>
      match wb.get rest with
      | none => none
      | some (b, rest') => some ((a, b), rest')

/-- Reads `n` values. -/
def getMany {α : Type} (w : Wire α) : Nat → Bytes → Option (List α × Bytes)
  | 0, bz => some ([], bz)
  | n + 1, bz =>
    match w.get bz with
    | none => none
    | some (a, rest) =>
      match getMany w n rest with
      | none => none
      | some (as, rest') => some (a :: as, rest')

/-- Writes the values of a list. -/
def putMany {α : Type} (w : Wire α) : List α → Bytes
  | [] => []
  | a :: as => w.put a ++ putMany w as

/-- A list: its length, then its values. -/
def list {α : Type} (w : Wire α) : Wire (List α) where
  put l := l.length :: putMany w l
  get
    | [] => none
    | n :: rest => getMany w n rest

/-- The format of a type that embeds in a type with a format. -/
def iso {α β : Type} (w : Wire α) (f : α → β) (g : β → α) : Wire β where
  put b := w.put (g b)
  get bz :=
    match w.get bz with
    | none => none
    | some (a, rest) => some (f a, rest)

/-- A boolean. -/
def bool : Wire Bool := iso nat (fun n => decide (n ≠ 0)) (fun b => if b then 1 else 0)

/-- A signed number: its sign, then its magnitude. -/
def int : Wire Int :=
  iso (pair bool nat) (fun p => if p.1 then -(p.2 : Int) - 1 else (p.2 : Int))
    (fun i => (decide (i < 0), if i < 0 then (-i - 1).toNat else i.toNat))

/-- An optional value. -/
def option {α : Type} (w : Wire α) : Wire (Option α) :=
  iso (list w) List.head? Option.toList

/-- A byte string. -/
def bytes : Wire Bytes := list nat

/-- The format of `Height`. -/
def height : Wire Height :=
  iso (pair nat nat) (fun p => { RevisionNumber := p.1, RevisionHeight := p.2 })
    (fun h => (h.RevisionNumber, h.RevisionHeight))

/-- The format of `types.CreateConsumerChainProposal`. -/
def proposal : Wire types.CreateConsumerChainProposal :=
  iso (pair bytes (pair height (pair int bool)))
    (fun p => { ChainId := p.1, InitialHeight := p.2.1, SpawnTime := p.2.2.1,
                LockUnbondingOnTimeout := p.2.2.2 })
    (fun c => (c.ChainId, c.InitialHeight, c.SpawnTime, c.LockUnbondingOnTimeout))

/-- The format of `UnbondingOp`. -/
def unbondingOp : Wire UnbondingOp :=
  iso (pair nat (list bytes)) (fun p => { Id := p.1, UnbondingConsumerChains := p.2 })
    (fun o => (o.Id, o.UnbondingConsumerChains))

/-- The format of `TmClientState`. -/
def tmClientState : Wire TmClientState :=
  iso (pair bytes (pair int (pair int (pair height bytes))))
    (fun p => { ChainId := p.1, TrustingPeriod := p.2.1, UnbondingPeriod := p.2.2.1,
                LatestHeight := p.2.2.2.1, Rest := p.2.2.2.2 })
    (fun c => (c.ChainId, c.TrustingPeriod, c.UnbondingPeriod, c.LatestHeight, c.Rest))

/-- The format of `ConsensusState`. -/
def consensusState : Wire ConsensusState :=
  iso (pair int (pair bytes bytes))
    (fun p => { Timestamp := p.1, Root := p.2.1, NextValidatorsHash := p.2.2 })
    (fun c => (c.Timestamp, c.Root, c.NextValidatorsHash))

/-- The format of `ValidatorUpdate`. -/
def validatorUpdate : Wire ValidatorUpdate :=
  iso (pair bytes int) (fun p => { PubKey := p.1, Power := p.2 }) (fun u => (u.PubKey, u.Power))

/-- The format of `GenesisState`. -/
def genesis : Wire GenesisState :=
  iso (pair bool (pair bool (pair (option tmClientState)
      (pair (option consensusState) (list validatorUpdate)))))
    (fun p => { Enabled := p.1, NewChain := p.2.1, ProviderClientState := p.2.2.1,
                ProviderConsensusState := p.2.2.2.1, InitialValSet := p.2.2.2.2 })
    (fun g => (g.Enabled, g.NewChain, g.ProviderClientState, g.ProviderConsensusState,
               g.InitialValSet))

/-- The format of `ValidatorSetChangePacketData`. -/
def packet : Wire ValidatorSetChangePacketData :=
  iso (pair (list validatorUpdate) (pair nat (list bytes)))
    (fun p => { ValidatorUpdates := p.1, ValsetUpdateId := p.2.1, SlashAcks := p.2.2 })
    (fun d => (d.ValidatorUpdates, d.ValsetUpdateId, d.SlashAcks))

/-- The codec of a wire format: unmarshalling fails unless the input is exactly
one value. -/
def codec {α : Type} (w : Wire α) : Codec α where
  marshal a := .ok (w.put a)
  unmarshal bz :=
    match w.get bz with
    | some (a, []) => .ok a
    | _ => .error "unexpected EOF"

end Wire

/-- A keeper with the codecs of the wire formats, collaborating keepers that
know no channel, connection or client and accept every request, a three-week
unbonding time and no validators. -/
def testKeeper : Keeper where
  cdc := Wire.codec Wire.proposal
  genesisCodec := Wire.codec Wire.genesis
  slashAcksCodec := Wire.codec (Wire.list Wire.bytes)
  packetsCodec := Wire.codec (Wire.list Wire.packet)
  unbondingOpCodec := Wire.codec Wire.unbondingOp
  indexCodec := Wire.codec (Wire.list Wire.nat)
  GetChannel := fun _ _ => none
  ChanCloseInit := fun _ _ => none
  GetConnection := fun _ => none
  GetClientState := fun _ => none
  CreateClient := fun _ _ => .ok (ascii "07-tendermint-0")
  GetSelfConsensusState := fun _ =>
    .ok { Timestamp := 0, Root := [], NextValidatorsHash := [] }
  UnbondingTime := 1814400000000000
  LastValidatorPowers := []
  GetValidator := fun _ => none
  UnbondingCanComplete := fun _ => none
  TemplateClient :=
    { ChainId := [], TrustingPeriod := 0, UnbondingPeriod := 0,
      LatestHeight := { RevisionNumber := 0, RevisionHeight := 0 }, Rest := [] }

/-- The state with an empty store, before any call and event. -/
def emptyState : State := { store := [], calls := [], events := [] }

/-- A sequence of `SetConsumerClientId` calls, the first call first. -/
def setConsumerClientIds (store : Store) (calls : List (Bytes × Bytes)) : Store :=
  calls.foldl (fun s c => SetConsumerClientId s c.1 c.2) store

/-! ## Concrete inputs -/

/-- A block context: height 10, one hundred seconds after the epoch. -/
def testCtx : Context :=
  { BlockTime := 100000000000, BlockHeight := 10, ChainID := ascii "provider-1",
    Revision := 1, NextValidatorsHash := [] }

/-- The tendermint client state of the chain `consu`. -/
def consuClient : TmClientState :=
  { testKeeper.TemplateClient with ChainId := ascii "consu" }

/-- A keeper whose channel `channel-1` runs over `connection-0`, whose client
`07-tendermint-0` is the tendermint client of the chain `consu`. -/
def channelKeeper : Keeper :=
  { testKeeper with
    GetChannel := fun _ channelID =>
      if channelID = ascii "channel-1" then
        some { closed := false, ConnectionHops := [ascii "connection-0"] }
      else none
    GetConnection := fun connectionID =>
      if connectionID = ascii "connection-0" then some { ClientId := ascii "07-tendermint-0" }
      else none
    GetClientState := fun clientID =>
      if clientID = ascii "07-tendermint-0" then some (.tendermint consuClient) else none }

/-- A state in which the chain `consu` has the channel `channel-0`. -/
def boundState : State :=
  { emptyState with store := SetChainToChannel [] (ascii "consu") (ascii "channel-0") }

/-- Two packets. -/
def packet1 : ValidatorSetChangePacketData :=
  { ValidatorUpdates := [{ PubKey := [1], Power := 1 }, { PubKey := [2], Power := 2 }],
    ValsetUpdateId := 1, SlashAcks := [] }

/-- See `packet1`. -/
def packet2 : ValidatorSetChangePacketData :=
  { ValidatorUpdates := [{ PubKey := [3], Power := 3 }], ValsetUpdateId := 2, SlashAcks := [] }

/-- A store in which `packet1` is pending for the chain `consu`. -/
def packetStore : Store :=
  [(PendingVSCsKey (ascii "consu"), (Wire.list Wire.packet).put [packet1])]

/-- A store with the slash acks `alice`, `bob` of the chain `consu`. -/
def acksStore : Store :=
  [(SlashAcksKey (ascii "consu"), (Wire.list Wire.bytes).put [ascii "alice", ascii "bob"])]

/-- A consumer genesis. -/
def testGenesis : GenesisState :=
  { Enabled := true, NewChain := true, ProviderClientState := some consuClient,
    ProviderConsensusState := none, InitialValSet := [{ PubKey := [1], Power := 5 }] }

/-- A proposal for the chain `consu` whose spawn time, 50 seconds after the
epoch, is before the block time of `testCtx`. -/
def pastProposal : types.CreateConsumerChainProposal :=
  { ChainId := ascii "consu", InitialHeight := { RevisionNumber := 0, RevisionHeight := 1 },
    SpawnTime := 50000000000, LockUnbondingOnTimeout := false }

/-- A proposal for the chain `consu` whose spawn time, 200 seconds after the
epoch, is after the block time of `testCtx`. -/
def futureProposal : types.CreateConsumerChainProposal :=
  { pastProposal with SpawnTime := 200000000000 }

/-- A keeper whose client keeper refuses to create a client. -/
def failingClientKeeper : Keeper :=
  { testKeeper with CreateClient := fun _ _ => .error (.external "invalid client state") }

/-- A block context in September 2226: `8.1 * 10^18` nanoseconds after the
epoch. -/
def lateCtx : Context := { testCtx with BlockTime := 8100000000000000000 }

/-- A proposal for the chain `consu` with a spawn time in 2229: `8.2 * 10^18`
nanoseconds after the epoch. -/
def laterProposal : types.CreateConsumerChainProposal :=
  { pastProposal with SpawnTime := 8200000000000000000 }

/-- The state after `SetPendingClientInfo` of `laterProposal` on the empty
store: one pending consumer addition. -/
def pendingState : State :=
  { emptyState with store := (SetPendingClientInfo testKeeper [] laterProposal).2 }

/-- Two stores hold the same unbonding operations and the same unbonding-op
index. -/
def sameUnbonding (s s' : Store) : Prop :=
  (∀ id, s'.get (UnbondingOpKey id) = s.get (UnbondingOpKey id)) ∧
  (∀ c, s'.prefixIterator (UnbondingOpIndexChainKey c)
    = s.prefixIterator (UnbondingOpIndexChainKey c))

/-- The record of an operation that waits for the given chains, in the wire
format. -/
def opEntry (id : Nat) (chains : List Bytes) : Bytes × Bytes :=
  (UnbondingOpKey id, Wire.unbondingOp.put { Id := id, UnbondingConsumerChains := chains })

/-- An entry of the unbonding-op index of a chain, in the wire format. -/
def indexEntry (chainID : Bytes) (vscID : Nat) (ids : List Nat) : Bytes × Bytes :=
  (UnbondingOpIndexKey chainID vscID, (Wire.list Wire.nat).put ids)

/-- A state in which the index of the chain `consu` lists, under VSC ID 1, the
operation 8, which has no record, and then the operation 7, which waits for
`consu` only. -/
def danglingState : State :=
  { emptyState with
    store := [opEntry 7 [ascii "consu"], indexEntry (ascii "consu") 1 [8, 7]] }

/-- A state in which the index of the chain `consu` lists the operations 7 and
9 under VSC ID 1 and the operation 4 under VSC ID 2; the operations 7 and 4
wait for `consu` only, the operation 9 also for the chain `other`. The chain
has the channel `channel-0`. -/
def unbondingState : State :=
  { emptyState with
    store :=
      [(ChainToChannelKey (ascii "consu"), ascii "channel-0"),
       (ChannelToChainKey (ascii "channel-0"), ascii "consu"),
       opEntry 4 [ascii "consu"], opEntry 7 [ascii "consu"],
       opEntry 9 [ascii "consu", ascii "other"],
       indexEntry (ascii "consu") 1 [7, 9], indexEntry (ascii "consu") 2 [4]] }

/-- The second store differs from the first at most under the namespaces of the
unbonding operations and of their index, the second state has the events of
the first, and its calls are those of the first followed by calls of
`UnbondingCanComplete` only. -/
def unbondingOnly (st st' : State) : Prop :=
  (∀ b rest, b ≠ UnbondingOpBytePrefix → b ≠ UnbondingOpIndexBytePrefix →
    st'.store.get (b :: rest) = st.store.get (b :: rest)) ∧
  st'.events = st.events ∧
  ∃ calls, st'.calls = st.calls ++ calls ∧ ∀ c ∈ calls, ∃ id, c = Call.UnbondingCanComplete id

/-- A state in which the chain `consu` is active: it has a client binding, the
unbonding-lock flag, an init height, a stored genesis, one pending VSC packet
and one slash ack, besides the channel, the unbonding operations and the index
of `unbondingState`. -/
def activeState : State :=
  { emptyState with
    store :=
      (((((unbondingState.store.set (ChainToClientKey (ascii "consu"))
          (ascii "07-tendermint-0")).set
        (LockUnbondingOnTimeoutKey (ascii "consu")) [1]).set
        (InitChainHeightKey (ascii "consu")) (PutUint64 5)).set
        (ConsumerGenesisKey (ascii "consu")) (Wire.genesis.put testGenesis)).set
        (PendingVSCsKey (ascii "consu")) ((Wire.list Wire.packet).put [packet1])).set
        (SlashAcksKey (ascii "consu")) ((Wire.list Wire.bytes).put [ascii "alice"]) }

/-- The state `StopConsumerChain` leaves of `activeState`: the multi-chain
operation 9, and the genesis and the pending packet of the chain. -/
def stoppedState : State :=
  { store :=
      [opEntry 9 [ascii "other"],
       (ConsumerGenesisKey (ascii "consu"), Wire.genesis.put testGenesis),
       (PendingVSCsKey (ascii "consu"), (Wire.list Wire.packet).put [packet1])],
    calls := [.ChanCloseInit ProviderPortID (ascii "channel-0"),
              .UnbondingCanComplete 7, .UnbondingCanComplete 4],
    events := [] }

/-- Every stored unbonding operation is stored under its own ID, as
`SetUnbondingOp` stores it. -/
def opsUnderOwnId (k : Keeper) (store : Store) : Prop :=
  ∀ id op, id < 2 ^ 64 → GetUnbondingOp k store id = .ok (op, true) → op.Id = id

/-- The operation after the line `unbondingOp.UnbondingConsumerChains, _ =
removeStringFromSlice(unbondingOp.UnbondingConsumerChains, chainID)` of the
callback of `StopConsumerChain`. -/
def withoutChain (op : UnbondingOp) (chainID : Bytes) : UnbondingOp :=
  { op with
    UnbondingConsumerChains := (removeStringFromSlice op.UnbondingConsumerChains chainID).1 }

/-- The keys of the index entries of the chain are keys of
`UnbondingOpIndexKey`, as `SetUnbondingOpIndex` writes them. -/
def indexKeysOf (store : Store) (chainID : Bytes) : Prop :=
  ∀ e ∈ store.prefixIterator (UnbondingOpIndexChainKey chainID),
    ∃ v, v < 2 ^ 64 ∧ e.1 = UnbondingOpIndexKey chainID v

/-- A state in which the index of the chain `consu` lists, under VSC ID 1, the
operation 8, which has no record, and then the operation 9, which waits for
`consu` and for the chain `other`. -/
def blockedState : State :=
  { emptyState with
    store := [opEntry 9 [ascii "consu", ascii "other"],
              indexEntry (ascii "consu") 1 [8, 9]] }

/-- The state `StopConsumerChain` leaves of `unbondingState`: the operation 9,
which waits for the chain `other`. -/
def releasedState : State :=
  { store := [opEntry 9 [ascii "other"]],
    calls := [.ChanCloseInit ProviderPortID (ascii "channel-0"),
              .UnbondingCanComplete 7, .UnbondingCanComplete 4],
    events := [] }

/-- A keeper whose staking keeper refuses the completion of the operation 4
and accepts every other. -/
def refusingKeeper : Keeper :=
  { testKeeper with
    UnbondingCanComplete := fun id => if id = 4 then some (.external "refused") else none }

/-- The state `StopConsumerChain` leaves of `unbondingState` when the staking
keeper refuses the operation 4: the operation 7 is released, the operation 9
shrunk, and the operation 4 and the index entry that lists it are as they
were. -/
def abortedState : State :=
  { store := [opEntry 4 [ascii "consu"], opEntry 9 [ascii "other"],
              indexEntry (ascii "consu") 2 [4]],
    calls := [.ChanCloseInit ProviderPortID (ascii "channel-0"),
              .UnbondingCanComplete 7, .UnbondingCanComplete 4],
    events := [] }

/-- A state in which the index of the chain `consu` lists the operations 7 and
4 under the same VSC ID; both wait for `consu` only. -/
def sameBatchState : State :=
  { emptyState with
    store := [opEntry 4 [ascii "consu"], opEntry 7 [ascii "consu"],
              indexEntry (ascii "consu") 1 [7, 4]] }

/-- The state `StopConsumerChain` leaves of `sameBatchState` when the staking
keeper refuses the operation 4: the operation 7 is released, and the index
entry still lists it. -/
def halfReleasedState : State :=
  { store := [opEntry 4 [ascii "consu"], indexEntry (ascii "consu") 1 [7, 4]],
    calls := [.UnbondingCanComplete 7, .UnbondingCanComplete 4],
    events := [] }

/-- The state a second `StopConsumerChain`, with a staking keeper that accepts
every completion, leaves of `abortedState`. -/
def retriedState : State :=
  { store := [opEntry 9 [ascii "other"]],
    calls := [.ChanCloseInit ProviderPortID (ascii "channel-0"),
              .UnbondingCanComplete 7, .UnbondingCanComplete 4, .UnbondingCanComplete 4],
    events := [] }

/-- The spawn time `IteratePendingClientInfo` reads off the key of an entry:
`time.Unix(0, int64(binary.BigEndian.Uint64(splitKey[0])))`; `none` is the
index-out-of-range panic. -/
def scannedTime (suffixKey : Bytes) : Option Int :=
  (Uint64 ((Split slash suffixKey).getD 0 [])).map toInt64

/-- The chain ID `IteratePendingClientInfo` reads off the key of an entry:
`splitKey[1]`; `none` is the index-out-of-range panic. -/
def scannedChainID (suffixKey : Bytes) : Option Bytes := (Split slash suffixKey).get? 1

/-- A block context whose block time is `8099000882440333155` nanoseconds
after the epoch. -/
def boundaryCtx : Context := { testCtx with BlockTime := 8099000882440333155 }

/-- A block context one nanosecond after `boundaryCtx`. -/
def afterBoundaryCtx : Context := { testCtx with BlockTime := 8099000882440333156 }

/-- A proposal for the chain `consu` whose spawn time is the block time of
`boundaryCtx`. -/
def boundaryProposal : types.CreateConsumerChainProposal :=
  { pastProposal with SpawnTime := 8099000882440333155 }

/-- The state after `SetPendingClientInfo` of `boundaryProposal` on the empty
store: one pending consumer addition. -/
def boundaryState : State :=
  { emptyState with store := (SetPendingClientInfo testKeeper [] boundaryProposal).2 }

/-- A state in which the chain `consu` is active, as in `activeState`, and a
stop proposal for it is pending with the stop time 50 seconds after the
epoch, stored by `SetPendingStopProposal`. -/
def stopPendingState : State :=
  { emptyState with
    store := SetPendingStopProposal activeState.store (ascii "consu") 50000000000 }

/-- A store whose entries for the chain `consu` under the keys of the consumer
genesis, the slash acks and the pending VSC packets hold bytes that are no
value of the wire formats. -/
def corruptStore : Store :=
  [(ConsumerGenesisKey (ascii "consu"), [1]), (SlashAcksKey (ascii "consu"), [5]),
   (PendingVSCsKey (ascii "consu"), [2, 0])]

/-- Modelled from the spec: see `ValidatorSetUpdateIdByteKey`. -/
def ValsetUpdateBlockHeightBytePrefix : Nat := 13

/-- The key `types.ValsetUpdateBlockHeightKey(valsetUpdateId)`: the format the
comment of `GetAllValsetUpdateBlockHeights` gives,
`ValsetUpdateBlockHeightBytePrefix | vscID`, with the ID as 8 big-endian bytes,
which is how the method reads it back. -/
def ValsetUpdateBlockHeightKey (valsetUpdateId : Nat) : Bytes :=
  ValsetUpdateBlockHeightBytePrefix :: PutUint64 valsetUpdateId

/-- The method `Keeper.SetValsetUpdateBlockHeight`. -/
def SetValsetUpdateBlockHeight (store : Store) (valsetUpdateId blockHeight : Nat) : Store :=
  store.set (ValsetUpdateBlockHeightKey valsetUpdateId) (PutUint64 blockHeight)

/-- The method `Keeper.GetValsetUpdateBlockHeight`; `binary.BigEndian.Uint64`
panics on a stored value shorter than 8 bytes. -/
def GetValsetUpdateBlockHeight (store : Store) (valsetUpdateId : Nat) :
    Except String (Nat × Bool) :=
  match store.get (ValsetUpdateBlockHeightKey valsetUpdateId) with
  | none => .ok (0, false)
  | some bz =>
    match Uint64 bz with
    | none => .error "index out of range"
    | some v => .ok (v, true)

/-- The method `Keeper.DeleteValsetUpdateBlockHeight`. -/
def DeleteValsetUpdateBlockHeight (store : Store) (valsetUpdateId : Nat) : Store :=
  store.delete (ValsetUpdateBlockHeightKey valsetUpdateId)

/-- The type `types.ValsetUpdateIdToHeight`. -/
structure ValsetUpdateIdToHeight where
  ValsetUpdateId : Nat
  Height : Nat
  deriving DecidableEq, Repr

/-- The loop of `GetAllValsetUpdateBlockHeights` over the entries the iterator
yielded: the ID is read from the key without its first byte, the height from
the value. -/
def collectValsetUpdateBlockHeights :
    List (Bytes × Bytes) → Except String (List ValsetUpdateIdToHeight)
  | [] => .ok []
  | (key, value) :: rest =>
    match Uint64 (key.drop 1) with
    | none => .error "index out of range"
    | some valsetUpdateId =>
      match Uint64 value with
      | none => .error "index out of range"
      | some height =>
        match collectValsetUpdateBlockHeights rest with
        | .error e => .error e
        | .ok l => .ok ({ ValsetUpdateId := valsetUpdateId, Height := height } :: l)

/-- The method `Keeper.GetAllValsetUpdateBlockHeights`. -/
def GetAllValsetUpdateBlockHeights (store : Store) :
    Except String (List ValsetUpdateIdToHeight) :=
  collectValsetUpdateBlockHeights (store.prefixIterator [ ValsetUpdateBlockHeightBytePrefix])

/-- A sequence of `SetValsetUpdateBlockHeight` calls, the first call first. -/
def setValsetUpdateBlockHeights (store : Store) (calls : List (Nat × Nat)) : Store :=
  calls.foldl (fun s c => SetValsetUpdateBlockHeight s c.1 c.2) store

/-- The height of the last call of a sequence of `SetValsetUpdateBlockHeight`
calls for the ID, if there is one. -/
def lastHeightSet (calls : List (Nat × Nat)) (valsetUpdateId : Nat) : Option Nat :=
  calls.foldl (fun acc c => if c.1 = valsetUpdateId then some c.2 else acc) none

/-- The entries of the store under the namespace of the valset update block
heights are entries `SetValsetUpdateBlockHeight` writes. -/
def heightEntriesOf (store : Store) : Prop :=
  ∀ e ∈ store.prefixIterator [ ValsetUpdateBlockHeightBytePrefix],
    ∃ id h, id < 2 ^ 64 ∧ h < 2 ^ 64 ∧ e = (ValsetUpdateBlockHeightKey id, PutUint64 h)

/-! ## types/msg.go -/

/-- The errors `types/msg.go` returns: a registered error of the module,
wrapped with a message. -/
inductive types.Error where
  | ErrInvalidConsumerChainID (msg : String)
  | ErrInvalidConsumerAdditionProposal (msg : String)
  | ErrInvalidConsumerRemovalProp (msg : String)
  deriving DecidableEq, Repr

/-- The UTF-8 encodings of the runes for which Go's `unicode.IsSpace` holds:
the six ASCII white-space characters, U+0085, U+00A0, U+1680, U+2000 to U+200A,
U+2028, U+2029, U+202F, U+205F and U+3000. -/
def spaceEncodings : List Bytes :=
  [[0x09], [0x0A], [0x0B], [0x0C], [0x0D], [0x20], [0xC2, 0x85], [0xC2, 0xA0],
   [0xE1, 0x9A, 0x80], [0xE2, 0x80, 0x80], [0xE2, 0x80, 0x81], [0xE2, 0x80, 0x82],
   [0xE2, 0x80, 0x83], [0xE2, 0x80, 0x84], [0xE2, 0x80, 0x85], [0xE2, 0x80, 0x86],
   [0xE2, 0x80, 0x87], [0xE2, 0x80, 0x88], [0xE2, 0x80, 0x89], [0xE2, 0x80, 0x8A],
   [0xE2, 0x80, 0xA8], [0xE2, 0x80, 0xA9], [0xE2, 0x80, 0xAF], [0xE2, 0x81, 0x9F],
   [0xE3, 0x80, 0x80]]

/-- The width of the white-space rune a string starts with, 0 when it starts
with none: `utf8.DecodeRuneInString` gives a white-space rune exactly when the
string starts with the encoding of one; any other start, an invalid byte
included, decodes to a rune that is no white space. -/
def leadingSpace (s : Bytes) : Nat :=
  match spaceEncodings.find? (fun e => e.isPrefixOf s) with
  | some e => e.length
  | none => 0

/-- The width of the white-space rune a string ends with, 0 when it ends with
none: `utf8.DecodeLastRuneInString` gives a white-space rune exactly when the
string ends with the encoding of one. -/
def trailingSpace (s : Bytes) : Nat :=
  match spaceEncodings.find? (fun e => e.isSuffixOf s) with
  | some e => e.length
  | none => 0

/-- The function `strings.TrimLeftFunc(s, unicode.IsSpace)`, with the number of
runes it may still remove. -/
def trimLeft : Nat → Bytes → Bytes
  | 0, s => s
  | n + 1, s => if leadingSpace s = 0 then s else trimLeft n (s.drop (leadingSpace s))

/-- The function `strings.TrimRightFunc(s, unicode.IsSpace)`, with the number
of runes it may still remove. -/
def trimRight : Nat → Bytes → Bytes
  | 0, s => s
  | n + 1, s =>
    if trailingSpace s = 0 then s else trimRight n (s.take (s.length - trailingSpace s))

/-- The function `strings.TrimSpace` of Go's standard library: the string
without its leading and trailing white space, as `unicode.IsSpace` defines
it. -/
def TrimSpace (s : Bytes) : Bytes :=
  trimRight s.length (trimLeft s.length s)

/-- The function `IsReservedChainId`. -/
def IsReservedChainId (chainId : Bytes) : Bool :=
  chainId = ascii "neutron-1" || chainId = ascii "stride-1"

/-- The function `ValidateChainId`; `len(trimmed)` is the length in bytes. -/
def ValidateChainId (field : String) (chainId : Bytes) : Option types.Error :=
  let trimmed := TrimSpace chainId
  if trimmed = [] then
    some (.ErrInvalidConsumerChainID (field ++ " cannot be blank"))
  else if trimmed.length > 128 then
    some (.ErrInvalidConsumerChainID (field ++ " exceeds max length 128"))
  else if IsReservedChainId trimmed then
    some (.ErrInvalidConsumerChainID "cannot use a reserved chain id")
  else none

/-- The zero value of `time.Time`, January 1 of the year 1, 00:00:00 UTC, in
nanoseconds since the Unix epoch. -/
def zeroTime : Int := -62135596800000000000

/-- The method `time.Time.IsZero`, for a time given in nanoseconds since the
Unix epoch. -/
def IsZero (t : Int) : Bool := t = zeroTime

/-- The method `clienttypes.Height.IsZero` of ibc-go. -/
def Height.IsZero (h : Height) : Bool := h.RevisionNumber = 0 && h.RevisionHeight = 0

/-- The type `MsgConsumerAddition`: the fields `ValidateBasic` reads; times in
nanoseconds since the Unix epoch, durations in nanoseconds. -/
structure MsgConsumerAddition where
  ChainId : Bytes
  InitialHeight : Height
  GenesisHash : Bytes
  BinaryHash : Bytes
  SpawnTime : Int
  ConsumerRedistributionFraction : Bytes
  BlocksPerDistributionTransmission : Int
  DistributionTransmissionChannel : Bytes
  HistoricalEntries : Int
  CcvTimeoutPeriod : Int
  TransferTimeoutPeriod : Int
  UnbondingPeriod : Int
  deriving DecidableEq, Repr

/-- The type `MsgConsumerRemoval`: the fields `ValidateBasic` reads. -/
structure MsgConsumerRemoval where
  ChainId : Bytes
  StopTime : Int
  deriving DecidableEq, Repr

/-- The validation functions of the package `x/ccv/types`, which is not among
the sources: each returns an error or nothing. -/
structure ccvtypes where
  ValidateStringFraction : Bytes → Option String
  ValidatePositiveInt64 : Int → Option String
  ValidateDistributionTransmissionChannel : Bytes → Option String
  ValidateDuration : Int → Option String

/-- The method `MsgConsumerAddition.ValidateBasic`. -/
def MsgConsumerAddition.ValidateBasic (v : ccvtypes) (msg : MsgConsumerAddition) :
    Option types.Error :=
  match ValidateChainId "ChainId" msg.ChainId with
  | some err => some err
  | none =>
    if msg.InitialHeight.IsZero then
      some (.ErrInvalidConsumerAdditionProposal "initial height cannot be zero")
    else if msg.GenesisHash.length = 0 then
      some (.ErrInvalidConsumerAdditionProposal "genesis hash cannot be empty")
    else if msg.BinaryHash.length = 0 then
      some (.ErrInvalidConsumerAdditionProposal "binary hash cannot be empty")
    else if IsZero msg.SpawnTime then
      some (.ErrInvalidConsumerAdditionProposal "spawn time cannot be zero")
    else
      match v.ValidateStringFraction msg.ConsumerRedistributionFraction with
      | some err =>
        some (.ErrInvalidConsumerAdditionProposal
          ("consumer redistribution fraction is invalid: " ++ err))
      | none =>
        if (v.ValidatePositiveInt64 msg.BlocksPerDistributionTransmission).isSome then
          some (.ErrInvalidConsumerAdditionProposal
            "blocks per distribution transmission cannot be < 1")
        else if (v.ValidateDistributionTransmissionChannel
            msg.DistributionTransmissionChannel).isSome then
          some (.ErrInvalidConsumerAdditionProposal "distribution transmission channel")
        else if (v.ValidatePositiveInt64 msg.HistoricalEntries).isSome then
          some (.ErrInvalidConsumerAdditionProposal "historical entries cannot be < 1")
        else if (v.ValidateDuration msg.CcvTimeoutPeriod).isSome then
          some (.ErrInvalidConsumerAdditionProposal "ccv timeout period cannot be zero")
        else if (v.ValidateDuration msg.TransferTimeoutPeriod).isSome then
          some (.ErrInvalidConsumerAdditionProposal "transfer timeout period cannot be zero")
        else if (v.ValidateDuration msg.UnbondingPeriod).isSome then
          some (.ErrInvalidConsumerAdditionProposal "unbonding period cannot be zero")
        else none

/-- The method `MsgConsumerRemoval.ValidateBasic`. -/
def MsgConsumerRemoval.ValidateBasic (msg : MsgConsumerRemoval) : Option types.Error :=
  match ValidateChainId "ChainId" msg.ChainId with
  | some err => some err
  | none =>
    if IsZero msg.StopTime then
      some (.ErrInvalidConsumerRemovalProp "spawn time cannot be zero")
    else none

/-- Validation functions of `x/ccv/types` that accept every value. -/
def acceptingTypes : ccvtypes :=
  { ValidateStringFraction := fun _ => none,
    ValidatePositiveInt64 := fun _ => none,
    ValidateDistributionTransmissionChannel := fun _ => none,
    ValidateDuration := fun _ => none }

/-- A message of consumer addition for the chain `consu` with every field
set. -/
def additionMsg : MsgConsumerAddition :=
  { ChainId := ascii "consu",
    InitialHeight := { RevisionNumber := 0, RevisionHeight := 1 },
    GenesisHash := ascii "gen_hash",
    BinaryHash := ascii "bin_hash",
    SpawnTime := 1000,
    ConsumerRedistributionFraction := ascii "0.75",
    BlocksPerDistributionTransmission := 10,
    DistributionTransmissionChannel := [],
    HistoricalEntries := 10000,
    CcvTimeoutPeriod := 100000000000,
    TransferTimeoutPeriod := 100000000000,
    UnbondingPeriod := 100000000000 }

/-- A state in which the client `07-tendermint-9` is registered for the chain
`consu`, which has no channel. -/
def otherClientState : State :=
  { emptyState with
    store := SetConsumerClientId [] (ascii "consu") (ascii "07-tendermint-9") }

/-! ## The remaining setters of keeper.go -/

/-- Modelled from the spec: the key namespaces `types.PortByteKey`,
`types.SlashLogBytePrefix` and `types.ProposedConsumerChainByteKey` of
`types/keys.go`; as for the other namespaces, only their being distinct is
used. -/
def PortByteKey : Nat := 0

/-- See `PortByteKey`. -/
def SlashLogBytePrefix : Nat := 26

/-- See `PortByteKey`. -/
def ProposedConsumerChainByteKey : Nat := 30

/-- Modelled from the spec: the key `types.PortKey()`. -/
def PortKey : Bytes := [ PortByteKey]

/-- Modelled from the spec: the key `types.SlashLogKey(providerAddr)`, the
namespace byte followed by the bytes of the address. -/
def SlashLogKey (providerAddr : Bytes) : Bytes := SlashLogBytePrefix :: providerAddr

/-- Modelled from the spec: the key `types.ProposedConsumerChainKey(proposalID)`,
the namespace byte followed by the big-endian proposal ID. -/
def ProposedConsumerChainKey (proposalID : Nat) : Bytes :=
  ProposedConsumerChainByteKey :: PutUint64 proposalID

/-- The method `Keeper.SetPort`. -/
def SetPort (store : Store) (portID : Bytes) : Store := store.set PortKey portID

/-- The method `Keeper.GetPort`; a missing entry reads as the empty string. -/
def GetPort (store : Store) : Bytes := (store.get PortKey).getD []

/-- The method `Keeper.SetProposedConsumerChain`. -/
def SetProposedConsumerChain (store : Store) (chainID : Bytes) (proposalID : Nat) : Store :=
  store.set (ProposedConsumerChainKey proposalID) chainID

/-- The method `Keeper.GetProposedConsumerChain`. -/
def GetProposedConsumerChain (store : Store) (proposalID : Nat) : Bytes × Bool :=
  match store.get (ProposedConsumerChainKey proposalID) with
  | some consumerChain => (consumerChain, true)
  | none => ([], false)

/-- The method `Keeper.DeleteProposedConsumerChainInStore`. -/
def DeleteProposedConsumerChainInStore (store : Store) (proposalID : Nat) : Store :=
  store.delete (ProposedConsumerChainKey proposalID)

/-- The method `Keeper.SetSlashLog`: the entry has the empty value. -/
def SetSlashLog (store : Store) (providerAddr : Bytes) : Store :=
  store.set (SlashLogKey providerAddr) []

/-- The method `Keeper.GetSlashLog`: whether the stored value is not `nil`. -/
def GetSlashLog (store : Store) (providerAddr : Bytes) : Bool :=
  (store.get (SlashLogKey providerAddr)).isSome

/-! ## The operations of the provider keeper on its store -/

/-- A call of a method of the provider keeper that writes to the module store
or calls a collaborating keeper: the methods of `keeper.go` and `proposal.go`,
and the methods those call that are not among the sources. -/
inductive KeeperOp where
  | SetPort (portID : Bytes)
  | SetChainToChannel (chainID channelID : Bytes)
  | DeleteChainToChannel (chainID : Bytes)
  | SetProposedConsumerChain (chainID : Bytes) (proposalID : Nat)
  | DeleteProposedConsumerChainInStore (proposalID : Nat)
  | SetChannelToChain (channelID chainID : Bytes)
  | DeleteChannelToChain (channelID : Bytes)
  | SetConsumerGenesis (chainID : Bytes) (gen : GenesisState)
  | DeleteConsumerGenesis (chainID : Bytes)
  | SetConsumerChain (channelID : Bytes)
  | IncrementValidatorSetUpdateId
  | SetValidatorSetUpdateId (valUpdateID : Nat)
  | SetValsetUpdateBlockHeight (valsetUpdateId blockHeight : Nat)
  | DeleteValsetUpdateBlockHeight (valsetUpdateId : Nat)
  | SetSlashAcks (chainID : Bytes) (acks : List Bytes)
  | ConsumeSlashAcks (chainID : Bytes)
  | EmptySlashAcks (chainID : Bytes)
  | DeleteSlashAcks (chainID : Bytes)
  | AppendSlashAck (chainID ack : Bytes)
  | SetInitChainHeight (chainID : Bytes) (height : Nat)
  | DeleteInitChainHeight (chainID : Bytes)
  | AppendPendingVSCPackets (chainID : Bytes) (newPackets : List ValidatorSetChangePacketData)
  | DeletePendingVSCPackets (chainID : Bytes)
  | SetConsumerClientId (chainID clientID : Bytes)
  | DeleteConsumerClientId (chainID : Bytes)
  | SetConsumerClient (chainID clientID : Bytes)
  | DeleteConsumerClient (chainID : Bytes)
  | SetLockUnbondingOnTimeout (chainID : Bytes)
  | DeleteLockUnbondingOnTimeout (chainID : Bytes)
  | SetUnbondingOp (unbondingOp : UnbondingOp)
  | DeleteUnbondingOp (id : Nat)
  | SetUnbondingOpIndex (chainID : Bytes) (vscID : Nat) (ids : List Nat)
  | DeleteUnbondingOpIndex (chainID : Bytes) (vscID : Nat)
  | SetSlashLog (providerAddr : Bytes)
  | CreateConsumerChainProposal (p : types.CreateConsumerChainProposal)
  | StopConsumerChainProposal (chainID : Bytes) (stopTime : Int)
  | StopConsumerChain (chainID : Bytes) (lockUbd closeChan : Bool)
  | CreateConsumerClient (chainID : Bytes) (initialHeight : Height) (lockUbdOnTimeout : Bool)
  | SetPendingClientInfo (clientInfo : types.CreateConsumerChainProposal)
  | IteratePendingClientInfo
  | SetPendingStopProposal (chainID : Bytes) (timestamp : Int)
  | DeletePendingStopProposal (chainID : Bytes) (timestamp : Int)
  | IteratePendingStopProposal
  | CloseChannel (channelID : Bytes)
  deriving DecidableEq, Repr

/-- The state with another store. -/
def State.withStore (st : State) (store : Store) : State := { st with store := store }

/-- The state a call of a keeper method leaves, when the call returns; a panic
is an error of `Except`. A returned Go error is dropped: the state is the one
the method leaves next to it. -/
def runOp (k : Keeper) (ctx : Context) (st : State) : KeeperOp → Except String State
  | .SetPort portID => .ok (st.withStore (SetPort st.store portID))
  | .SetChainToChannel chainID channelID =>
    .ok (st.withStore (SetChainToChannel st.store chainID channelID))
  | .DeleteChainToChannel chainID => .ok (st.withStore (DeleteChainToChannel st.store chainID))
  | .SetProposedConsumerChain chainID proposalID =>
    .ok (st.withStore (SetProposedConsumerChain st.store chainID proposalID))
  | .DeleteProposedConsumerChainInStore proposalID =>
    .ok (st.withStore (DeleteProposedConsumerChainInStore st.store proposalID))
  | .SetChannelToChain channelID chainID =>
    .ok (st.withStore (SetChannelToChain st.store channelID chainID))
  | .DeleteChannelToChain channelID => .ok (st.withStore (DeleteChannelToChain st.store channelID))
  | .SetConsumerGenesis chainID gen =>
    .ok (st.withStore (SetConsumerGenesis k st.store chainID gen).2)
  | .DeleteConsumerGenesis chainID => .ok (st.withStore (DeleteConsumerGenesis st.store chainID))
  | .SetConsumerChain channelID => .ok (SetConsumerChain k ctx st channelID).2
  | .IncrementValidatorSetUpdateId => (IncrementValidatorSetUpdateId st.store).map st.withStore
  | .SetValidatorSetUpdateId valUpdateID =>
    .ok (st.withStore (SetValidatorSetUpdateId st.store valUpdateID))
  | .SetValsetUpdateBlockHeight valsetUpdateId blockHeight =>
    .ok (st.withStore (SetValsetUpdateBlockHeight st.store valsetUpdateId blockHeight))
  | .DeleteValsetUpdateBlockHeight valsetUpdateId =>
    .ok (st.withStore (DeleteValsetUpdateBlockHeight st.store valsetUpdateId))
  | .SetSlashAcks chainID acks => (SetSlashAcks k st.store chainID acks).map st.withStore
  | .ConsumeSlashAcks chainID =>
    (ConsumeSlashAcks k st.store chainID).map (fun r => st.withStore r.2)
  | .EmptySlashAcks chainID =>
    (EmptySlashAcks k st.store chainID).map (fun r => st.withStore r.2)
  | .DeleteSlashAcks chainID => .ok (st.withStore (DeleteSlashAcks st.store chainID))
  | .AppendSlashAck chainID ack => (AppendSlashAck k st.store chainID ack).map st.withStore
  | .SetInitChainHeight chainID height =>
    .ok (st.withStore (SetInitChainHeight st.store chainID height))
  | .DeleteInitChainHeight chainID => .ok (st.withStore (DeleteInitChainHeight st.store chainID))
  | .AppendPendingVSCPackets chainID newPackets =>
    (AppendPendingVSCPackets k st.store chainID newPackets).map st.withStore
  | .DeletePendingVSCPackets chainID =>
    .ok (st.withStore (DeletePendingVSCPackets st.store chainID))
  | .SetConsumerClientId chainID clientID =>
    .ok (st.withStore (SetConsumerClientId st.store chainID clientID))
  | .DeleteConsumerClientId chainID =>
    .ok (st.withStore (DeleteConsumerClientId st.store chainID))
  | .SetConsumerClient chainID clientID =>
    .ok (st.withStore (SetConsumerClient st.store chainID clientID))
  | .DeleteConsumerClient chainID => .ok (st.withStore (DeleteConsumerClient st.store chainID))
  | .SetLockUnbondingOnTimeout chainID =>
    .ok (st.withStore (SetLockUnbondingOnTimeout st.store chainID))
  | .DeleteLockUnbondingOnTimeout chainID =>
    .ok (st.withStore (DeleteLockUnbondingOnTimeout st.store chainID))
  | .SetUnbondingOp unbondingOp => (SetUnbondingOp k st.store unbondingOp).map st.withStore
  | .DeleteUnbondingOp id => .ok (st.withStore (DeleteUnbondingOp st.store id))
  | .SetUnbondingOpIndex chainID vscID ids =>
    (SetUnbondingOpIndex k st.store chainID vscID ids).map st.withStore
  | .DeleteUnbondingOpIndex chainID vscID =>
    .ok (st.withStore (DeleteUnbondingOpIndex st.store chainID vscID))
  | .SetSlashLog providerAddr => .ok (st.withStore (SetSlashLog st.store providerAddr))
  | .CreateConsumerChainProposal p =>
    (CreateConsumerChainProposal k ctx st p).map Prod.snd
  | .StopConsumerChainProposal chainID stopTime =>
    (StopConsumerChainProposal k ctx st chainID stopTime).map Prod.snd
  | .StopConsumerChain chainID lockUbd closeChan =>
    (StopConsumerChain k st chainID lockUbd closeChan).map Prod.snd
  | .CreateConsumerClient chainID initialHeight lockUbdOnTimeout =>
    (CreateConsumerClient k ctx st chainID initialHeight lockUbdOnTimeout).map Prod.snd
  | .SetPendingClientInfo clientInfo =>
    .ok (st.withStore (SetPendingClientInfo k st.store clientInfo).2)
  | .IteratePendingClientInfo => IteratePendingClientInfo k ctx st
  | .SetPendingStopProposal chainID timestamp =>
    .ok (st.withStore (SetPendingStopProposal st.store chainID timestamp))
  | .DeletePendingStopProposal chainID timestamp =>
    .ok (st.withStore (DeletePendingStopProposal st.store chainID timestamp))
  | .IteratePendingStopProposal => IteratePendingStopProposal k ctx st
  | .CloseChannel channelID => .ok (CloseChannel k st channelID)

/-- The keys a call may write or delete, as far as the call itself tells: for
a call that names its key, that key; for a call whose keys depend on the store
or on a collaborating keeper, every key of the namespaces it writes to. -/
def opWrites : KeeperOp → Bytes → Bool
  | .SetPort _, key => key = PortKey
  | .SetChainToChannel chainID _, key => key = ChainToChannelKey chainID
  | .DeleteChainToChannel chainID, key => key = ChainToChannelKey chainID
  | .SetProposedConsumerChain _ proposalID, key => key = ProposedConsumerChainKey proposalID
  | .DeleteProposedConsumerChainInStore proposalID, key =>
    key = ProposedConsumerChainKey proposalID
  | .SetChannelToChain channelID _, key => key = ChannelToChainKey channelID
  | .DeleteChannelToChain channelID, key => key = ChannelToChainKey channelID
  | .SetConsumerGenesis chainID _, key => key = ConsumerGenesisKey chainID
  | .DeleteConsumerGenesis chainID, key => key = ConsumerGenesisKey chainID
  | .SetConsumerChain _, key =>
    key.head? = some ChainToChannelBytePrefix || key.head? = some ChannelToChainBytePrefix
      || key.head? = some InitChainHeightBytePrefix
  | .IncrementValidatorSetUpdateId, key => key = ValidatorSetUpdateIdKey
  | .SetValidatorSetUpdateId _, key => key = ValidatorSetUpdateIdKey
  | .SetValsetUpdateBlockHeight valsetUpdateId _, key =>
    key = ValsetUpdateBlockHeightKey valsetUpdateId
  | .DeleteValsetUpdateBlockHeight valsetUpdateId, key =>
    key = ValsetUpdateBlockHeightKey valsetUpdateId
  | .SetSlashAcks chainID _, key => key = SlashAcksKey chainID
  | .ConsumeSlashAcks chainID, key => key = SlashAcksKey chainID
  | .EmptySlashAcks chainID, key => key = SlashAcksKey chainID
  | .DeleteSlashAcks chainID, key => key = SlashAcksKey chainID
  | .AppendSlashAck chainID _, key => key = SlashAcksKey chainID
  | .SetInitChainHeight chainID _, key => key = InitChainHeightKey chainID
  | .DeleteInitChainHeight chainID, key => key = InitChainHeightKey chainID
  | .AppendPendingVSCPackets chainID _, key => key = PendingVSCsKey chainID
  | .DeletePendingVSCPackets chainID, key => key = PendingVSCsKey chainID
  | .SetConsumerClientId chainID _, key => key = ChainToClientKey chainID
  | .DeleteConsumerClientId chainID, key => key = ChainToClientKey chainID
  | .SetConsumerClient chainID _, key => key = ChainToClientKey chainID
  | .DeleteConsumerClient chainID, key => key = ChainToClientKey chainID
  | .SetLockUnbondingOnTimeout chainID, key => key = LockUnbondingOnTimeoutKey chainID
  | .DeleteLockUnbondingOnTimeout chainID, key => key = LockUnbondingOnTimeoutKey chainID
  | .SetUnbondingOp unbondingOp, key => key = UnbondingOpKey unbondingOp.Id
  | .DeleteUnbondingOp id, key => key = UnbondingOpKey id
  | .SetUnbondingOpIndex chainID vscID _, key => key = UnbondingOpIndexKey chainID vscID
  | .DeleteUnbondingOpIndex chainID vscID, key => key = UnbondingOpIndexKey chainID vscID
  | .SetSlashLog providerAddr, key => key = SlashLogKey providerAddr
  | .CreateConsumerChainProposal p, key =>
    key = ChainToClientKey p.ChainId || key = ConsumerGenesisKey p.ChainId
      || key = LockUnbondingOnTimeoutKey p.ChainId
      || key = PendingClientKey p.SpawnTime p.ChainId
  | .StopConsumerChainProposal chainID stopTime, key =>
    key = ChainToClientKey chainID || key = LockUnbondingOnTimeoutKey chainID
      || key = ChainToChannelKey chainID || key = InitChainHeightKey chainID
      || key = SlashAcksKey chainID || key.head? = none
      || key.head? = some ChannelToChainBytePrefix
      || key.head? = some UnbondingOpBytePrefix
      || key.head? = some UnbondingOpIndexBytePrefix
      || key = PendingStopProposalKey stopTime chainID
  | .StopConsumerChain chainID _ _, key =>
    key = ChainToClientKey chainID || key = LockUnbondingOnTimeoutKey chainID
      || key = ChainToChannelKey chainID || key = InitChainHeightKey chainID
      || key = SlashAcksKey chainID || key.head? = none
      || key.head? = some ChannelToChainBytePrefix
      || key.head? = some UnbondingOpBytePrefix
      || key.head? = some UnbondingOpIndexBytePrefix
  | .CreateConsumerClient chainID _ _, key =>
    key = ChainToClientKey chainID || key = ConsumerGenesisKey chainID
      || key = LockUnbondingOnTimeoutKey chainID
  | .SetPendingClientInfo clientInfo, key =>
    key = PendingClientKey clientInfo.SpawnTime clientInfo.ChainId
  | .IteratePendingClientInfo, key =>
    key.head? = some ChainToClientBytePrefix || key.head? = some ConsumerGenesisBytePrefix
      || key.head? = some LockUnbondingOnTimeoutBytePrefix
  | .SetPendingStopProposal chainID timestamp, key =>
    key = PendingStopProposalKey timestamp chainID
  | .DeletePendingStopProposal chainID timestamp, key =>
    key = PendingStopProposalKey timestamp chainID
  | .IteratePendingStopProposal, key =>
    key.head? = none
      || key.head? = some ChainToClientBytePrefix
      || key.head? = some LockUnbondingOnTimeoutBytePrefix
      || key.head? = some ChainToChannelBytePrefix
      || key.head? = some ChannelToChainBytePrefix
      || key.head? = some InitChainHeightBytePrefix
      || key.head? = some SlashAcksBytePrefix
      || key.head? = some UnbondingOpBytePrefix
      || key.head? = some UnbondingOpIndexBytePrefix
      || PendingStopProposalKeyPrefix.isPrefixOf key
  | .CloseChannel _, _ => false

/-- A sequence of calls, the first call first, each with the keeper (its
collaborating keepers as they are during the call) and the block it runs in;
a panic ends the sequence. -/
def runOps : List (Keeper × Context × KeeperOp) → State → Except String State
  | [], st => .ok st
  | (k, ctx, op) :: rest, st =>
    match runOp k ctx st op with
    | .error e => .error e
    | .ok st' => runOps rest st'

/-- A sequence of calls: the chain `consu` is stopped, the address `bob` gets
a slash-log entry, the pending removals are scanned in a late block, the slash
acks of `consu` are deleted and the port is set. -/
def slashLogSteps : List (Keeper × Context × KeeperOp) :=
  [(testKeeper, testCtx, .StopConsumerChain (ascii "consu") false true),
   (testKeeper, testCtx, .SetSlashLog (ascii "bob")),
   (testKeeper, lateCtx, .IteratePendingStopProposal),
   (testKeeper, testCtx, .DeleteSlashAcks (ascii "consu")),
   (testKeeper, testCtx, .SetPort ProviderPortID)]

/-- The state `slashLogSteps` leaves of `activeState` with a slash-log entry
for `alice`. -/
def slashLoggedState : State :=
  { stoppedState with
    store := (PortKey, ProviderPortID) :: stoppedState.store
      ++ [(SlashLogKey (ascii "alice"), []), (SlashLogKey (ascii "bob"), [])] }

/-- The calls that may set or delete the client binding of the chain
`chainID`: the setters and deleters of the binding, the creation of a client
and the removal of the chain, each for that chain, and the two scans, which
create clients and remove chains as the pending entries say. -/
def rebindsClient (chainID : Bytes) : KeeperOp → Bool
  | .SetConsumerClientId c _ => c = chainID
  | .DeleteConsumerClientId c => c = chainID
  | .SetConsumerClient c _ => c = chainID
  | .DeleteConsumerClient c => c = chainID
  | .CreateConsumerClient c _ _ => c = chainID
  | .CreateConsumerChainProposal p => p.ChainId = chainID
  | .StopConsumerChain c _ _ => c = chainID
  | .StopConsumerChainProposal c _ => c = chainID
  | .IteratePendingClientInfo => true
  | .IteratePendingStopProposal => true
  | _ => false

/-- A keeper whose client keeper gives the next client the ID
`07-tendermint-1`. -/
def secondClientKeeper : Keeper :=
  { testKeeper with CreateClient := fun _ _ => .ok (ascii "07-tendermint-1") }

/-- A state in which the client `07-tendermint-0` is registered for the chain
`consu`. -/
def registeredState : State :=
  { emptyState with
    store := SetConsumerClientId [] (ascii "consu") (ascii "07-tendermint-0") }

/-- A sequence of calls for other chains than `consu`, and the binding of a
channel to `consu`: a client ID is set for the chain `other`, a client is
created for it, the channel `channel-1` is bound to `consu`, the chain `other`
is stopped and the client binding of the chain `gone` is deleted. -/
def otherChainSteps : List (Keeper × Context × KeeperOp) :=
  [(testKeeper, testCtx, .SetConsumerClientId (ascii "other") (ascii "07-tendermint-5")),
   (secondClientKeeper, testCtx,
     .CreateConsumerClient (ascii "other") { RevisionNumber := 0, RevisionHeight := 1 } true),
   (channelKeeper, testCtx, .SetConsumerChain (ascii "channel-1")),
   (testKeeper, testCtx, .StopConsumerChain (ascii "other") false true),
   (testKeeper, testCtx, .DeleteConsumerClientId (ascii "gone"))]

/-- The state `otherChainSteps` leaves of `registeredState`: the client binding
of `consu`, its channel and init height, and the genesis stored for the chain
`other`. -/
def otherChainsState : State :=
  { store :=
      [(ChainToChannelKey (ascii "consu"), ascii "channel-1"),
       (ChannelToChainKey (ascii "channel-1"), ascii "consu"),
       (ChainToClientKey (ascii "consu"), ascii "07-tendermint-0"),
       (ConsumerGenesisKey (ascii "other"),
         Wire.genesis.put
           { Enabled := true, NewChain := true,
             ProviderClientState := some
               { testKeeper.TemplateClient with
                 ChainId := testCtx.ChainID,
                 LatestHeight := { RevisionNumber := 1, RevisionHeight := 10 },
                 TrustingPeriod := 907200000000000,
                 UnbondingPeriod := 1814400000000000 },
             ProviderConsensusState := some
               { Timestamp := 0, Root := [], NextValidatorsHash := [] },
             InitialValSet := [] }),
       (InitChainHeightKey (ascii "consu"), PutUint64 10)],
    calls := [.CreateClient
      (newClientState secondClientKeeper (ascii "other")
        { RevisionNumber := 0, RevisionHeight := 1 })
      (newConsensusState testCtx)],
    events := [.ChannelEstablished (ascii "consu") (ascii "07-tendermint-0")
      (ascii "channel-1") (ascii "connection-0")] }

/-- A keeper whose staking keeper lists the validators `val1`, with power 10,
and `val2`, with power 20, and knows both. -/
def stakingKeeper : Keeper :=
  { testKeeper with
    LastValidatorPowers := [(ascii "val1", 10), (ascii "val2", 20)]
    GetValidator := fun addr =>
      if addr = ascii "val1" then some { TmConsPublicKey := .ok (ascii "pk1") }
      else if addr = ascii "val2" then some { TmConsPublicKey := .ok (ascii "pk2") }
      else none }

/-- A keeper whose staking keeper lists a validator it does not know. -/
def missingValidatorKeeper : Keeper :=
  { stakingKeeper with
    LastValidatorPowers := [(ascii "val1", 10), (ascii "val3", 30), (ascii "val2", 20)] }

/-- A keeper whose client keeper has no self consensus state. -/
def noConsensusKeeper : Keeper :=
  { stakingKeeper with GetSelfConsensusState := fun _ => .error .ErrConsensusStateNotFound }

/-- The state after `SetPendingClientInfo` of `pastProposal` on the empty
store: one pending consumer addition, for the chain `consu`, with the spawn
time 50 seconds after the epoch. -/
def duePendingState : State :=
  { emptyState with store := (SetPendingClientInfo testKeeper [] pastProposal).2 }

/-! ## The proposed consumer chains -/

/-- The type `types.ProposedChain`. -/
structure ProposedChain where
  ChainID : Bytes
  ProposalID : Nat
  deriving DecidableEq, Repr

/-- The function `sdk.BigEndianToUint64`: 0 for the empty slice, otherwise
`binary.BigEndian.Uint64`, which panics on fewer than 8 bytes. -/
def BigEndianToUint64 (bz : Bytes) : Option Nat :=
  if bz = [] then some 0 else Uint64 bz

/-- Modelled from the spec: `types.ParseProposedConsumerChainKey(prefix, bz)`,
which reads the proposal ID off a key of `ProposedConsumerChainKey`: the first
byte has to be the namespace byte, the rest is the big-endian ID. Its error
and a panic both end in a panic of the caller. -/
def ParseProposedConsumerChainKey (namespaceByte : Nat) (bz : Bytes) : Except String Nat :=
  match bz with
  | [] => .error "slice bounds out of range"
  | b :: rest =>
    if b ≠ namespaceByte then .error "invalid prefix"
    else
      match BigEndianToUint64 rest with
      | none => .error "index out of range"
      | some proposalID => .ok proposalID

/-- The loop of `GetAllProposedConsumerChainIDs` over the entries the iterator
yielded. -/
def collectProposedChains : List (Bytes × Bytes) → Except String (List ProposedChain)
  | [] => .ok []
  | (key, value) :: rest =>
    match ParseProposedConsumerChainKey ProposedConsumerChainByteKey key with
    | .error e => .error ("proposed chains cannot be parsed: " ++ e)
    | .ok proposalID =>
      match collectProposedChains rest with
      | .error e => .error e
      | .ok l => .ok ({ ChainID := value, ProposalID := proposalID } :: l)

/-- The method `Keeper.GetAllProposedConsumerChainIDs`. -/
def GetAllProposedConsumerChainIDs (store : Store) : Except String (List ProposedChain) :=
  collectProposedChains (store.prefixIterator [ ProposedConsumerChainByteKey])

/-- A call of `SetProposedConsumerChain` or of
`DeleteProposedConsumerChainInStore`. -/
inductive ProposedCall where
  | set (chainID : Bytes) (proposalID : Nat)
  | delete (proposalID : Nat)
  deriving DecidableEq, Repr

/-- The proposal ID a call names. -/
def ProposedCall.proposalID : ProposedCall → Nat
  | .set _ p => p
  | .delete p => p

/-- The store after one call. -/
def ProposedCall.apply (store : Store) : ProposedCall → Store
  | .set chainID p => SetProposedConsumerChain store chainID p
  | .delete p => DeleteProposedConsumerChainInStore store p

/-- A sequence of calls, the first call first. -/
def applyProposedCalls (store : Store) (calls : List ProposedCall) : Store :=
  calls.foldl ProposedCall.apply store

/-- What one call makes of the chain ID stored for a proposal ID. -/
def ProposedCall.track (proposalID : Nat) (acc : Option Bytes) : ProposedCall → Option Bytes
  | .set chainID p => if p = proposalID then some chainID else acc
  | .delete p => if p = proposalID then none else acc

/-- The chain ID a sequence of calls leaves stored for a proposal ID: that of
the last `set` for the ID, when no `delete` for the ID comes after it. -/
def lastProposed (calls : List ProposedCall) (proposalID : Nat) : Option Bytes :=
  calls.foldl (ProposedCall.track proposalID) none

/-- The entries of the store under the namespace of the proposed chains have
keys of `ProposedConsumerChainKey`. -/
def proposedEntriesOf (store : Store) : Prop :=
  ∀ e ∈ store.prefixIterator [ ProposedConsumerChainByteKey],
    ∃ p, p < 2 ^ 64 ∧ e.1 = ProposedConsumerChainKey p

/-- The calls of `TestGetAllProposedConsumerChainIDs` and
`TestDeleteProposedConsumerChainInStore`, in one sequence: three chains are
proposed, the third with the empty chain ID, then the first is deleted, the
second is proposed again under another chain ID and the proposal 12 comes and
goes. -/
def proposedCalls : List ProposedCall :=
  [.set (ascii "1") 1, .set (ascii "2") 2, .set [] 3, .delete 1, .set (ascii "two") 2,
   .set [] 12, .delete 12]

/-! ## grpc_query.go -/

/-- The type `types.ConsumerValidator`: the fields the query reads. -/
structure ConsumerValidator where
  ProviderConsAddr : Bytes
  Power : Int
  ConsumerPublicKey : Bytes
  deriving DecidableEq, Repr

/-- The type `types.QueryConsumerValidatorsRequest`. -/
structure QueryConsumerValidatorsRequest where
  ChainId : Bytes
  deriving DecidableEq, Repr

/-- The type `types.QueryConsumerValidatorsValidator`. -/
structure QueryConsumerValidatorsValidator where
  ProviderAddress : Bytes
  ConsumerKey : Bytes
  Power : Int
  deriving DecidableEq, Repr

/-- The type `types.QueryConsumerValidatorsResponse`. -/
structure QueryConsumerValidatorsResponse where
  Validators : List QueryConsumerValidatorsValidator
  deriving DecidableEq, Repr

/-- The codes of `google.golang.org/grpc/codes` the queries use. -/
inductive codes where
  | InvalidArgument
  | NotFound
  deriving DecidableEq, Repr

/-- An error `status.Error(code, msg)`. -/
structure StatusError where
  code : codes
  msg : Bytes
  deriving DecidableEq, Repr

/-- Modelled from the spec: see `ValidatorSetUpdateIdByteKey`. -/
def ConsumerValidatorBytePrefix : Nat := 22

/-- Modelled from the spec: the part of the key of a consumer validator that
selects one chain, `types.ChainIdWithLenKey(ConsumerValidatorBytePrefix,
chainID)`: the namespace byte, the length of the chain ID and the chain ID. -/
def ConsumerValidatorChainKey (chainID : Bytes) : Bytes :=
  ConsumerValidatorBytePrefix :: (PutUint64 chainID.length ++ chainID)

/-- Modelled from the spec: the key of the consumer validator of a provider
consensus address on a chain. -/
def ConsumerValidatorKey (chainID providerAddr : Bytes) : Bytes :=
  ConsumerValidatorChainKey chainID ++ providerAddr

/-- Modelled from the spec: `Keeper.SetConsumerValidator`, which stores a
validator of the consumer validator set of a chain under its provider
consensus address; it panics when the validator does not marshal. -/
def SetConsumerValidator (cdc : Codec ConsumerValidator) (store : Store) (chainID : Bytes)
    (validator : ConsumerValidator) : Except String Store :=
  match cdc.marshal validator with
  | .error e => .error ("failed to marshal ConsumerValidator: " ++ e)
  | .ok bz => .ok (store.set (ConsumerValidatorKey chainID validator.ProviderConsAddr) bz)

/-- The loop of `GetConsumerValSet` over the entries the iterator yielded. -/
def decodeConsumerValidators (cdc : Codec ConsumerValidator) :
    List (Bytes × Bytes) → Except String (List ConsumerValidator)
  | [] => .ok []
  | (_, value) :: rest =>
    match cdc.unmarshal value with
    | .error e => .error ("failed to unmarshal ConsumerValidator: " ++ e)
    | .ok validator =>
      match decodeConsumerValidators cdc rest with
      | .error e => .error e
      | .ok validators => .ok (validator :: validators)

/-- Modelled from the spec: `Keeper.GetConsumerValSet`, the stored consumer
validator set of a chain: the validators stored under the keys of the chain,
in key order; it panics on stored bytes that do not unmarshal. -/
def GetConsumerValSet (cdc : Codec ConsumerValidator) (store : Store) (chainID : Bytes) :
    Except String (List ConsumerValidator) :=
  decodeConsumerValidators cdc (store.prefixIterator (ConsumerValidatorChainKey chainID))

/-- The validator of the response for a validator of the stored set;
`addrString` is `sdk.ConsAddress(addr).String()`, the bech32 form of the
address. -/
def queryValidator (addrString : Bytes → Bytes) (v : ConsumerValidator) :
    QueryConsumerValidatorsValidator :=
  { ProviderAddress := addrString v.ProviderConsAddr,
    ConsumerKey := v.ConsumerPublicKey,
    Power := v.Power }

/-- The method `Keeper.QueryConsumerValidators`: a panic, or the returned
response or error. It is given the store to read and returns no store. -/
def QueryConsumerValidators (cdc : Codec ConsumerValidator) (addrString : Bytes → Bytes)
    (store : Store) (req : Option QueryConsumerValidatorsRequest) :
    Except String (Except StatusError QueryConsumerValidatorsResponse) :=
  match req with
  | none => .ok (.error { code := .InvalidArgument, msg := ascii "empty request" })
  | some req =>
    let consumerChainID := req.ChainId
    if consumerChainID = [] then
      .ok (.error { code := .InvalidArgument, msg := ascii "empty chainId" })
    else
      match GetConsumerClientId store consumerChainID with
      | (_, false) =>
        .ok (.error { code := .InvalidArgument,
                      msg := ascii "no started consumer chain: " ++ consumerChainID })
      | (_, true) =>
        match GetConsumerValSet cdc store consumerChainID with
        | .error e => .error e
        | .ok vals => .ok (.ok { Validators := vals.map (queryValidator addrString) })

/-- The wire format of `ConsumerValidator`. -/
def Wire.consumerValidator : Wire ConsumerValidator :=
  Wire.iso (Wire.pair Wire.bytes (Wire.pair Wire.int Wire.bytes))
    (fun p => { ProviderConsAddr := p.1, Power := p.2.1, ConsumerPublicKey := p.2.2 })
    (fun v => (v.ProviderConsAddr, v.Power, v.ConsumerPublicKey))

/-- The two validators of `TestQueryConsumerValidators`. -/
def consumerValidator1 : ConsumerValidator :=
  { ProviderConsAddr := ascii "providerAddr1", Power := 1, ConsumerPublicKey := ascii "key1" }

/-- See `consumerValidator1`. -/
def consumerValidator2 : ConsumerValidator :=
  { ProviderConsAddr := ascii "providerAddr2", Power := 2, ConsumerPublicKey := ascii "key2" }

/-- The store of `TestQueryConsumerValidators`: the chain `chainID` has the
client `clientID` and the two validators, the second stored first. -/
def valSetStore : Store :=
  ((SetConsumerClientId [] (ascii "chainID") (ascii "clientID")).set
    (ConsumerValidatorKey (ascii "chainID") consumerValidator2.ProviderConsAddr)
    (Wire.consumerValidator.put consumerValidator2)).set
    (ConsumerValidatorKey (ascii "chainID") consumerValidator1.ProviderConsAddr)
    (Wire.consumerValidator.put consumerValidator1)

/-- A stand-in for the bech32 form of an address. -/
def testAddrString (addr : Bytes) : Bytes := ascii "cosmosvalcons1" ++ addr

/-! ## x/ccv/consumer/keeper/validators.go -/

/-- The type `types.CrossChainValidator` of the consumer: the address, the
power and the packed public key. -/
structure CrossChainValidator where
  Address : Bytes
  Power : Int
  Pubkey : Bytes
  deriving DecidableEq, Repr

/-- The type `stakingtypes.Validator` as `TrackHistoricalInfo` fills it: the
packed consensus key, whether the status is `Bonded`, and the tokens. -/
structure StakingValidator where
  ConsensusPubkey : Bytes
  Bonded : Bool
  Tokens : Int
  deriving DecidableEq, Repr

/-- The type `stakingtypes.HistoricalInfo`. -/
structure HistoricalInfo where
  Header : Context
  Valset : List StakingValidator
  deriving DecidableEq, Repr

/-- The consumer `Keeper`: its codecs and the functions of other packages it
calls, each as the function of its arguments. `GetChangePubKeyAddress` is
`utils.GetChangePubKeyAddress`, `FromTmProtoPublicKey` the function of
`cryptocodec`, `packAny` is `codectypes.NewAnyWithValue` on a public key,
`ConsPubKey` the method of `CrossChainValidator`, `SortValidators` the order
`stakingtypes.NewHistoricalInfo` puts the validators in; an error of
`GetChangePubKeyAddress` is a panic. -/
structure consumer.Keeper where
  cdc : Codec CrossChainValidator
  histCodec : Codec HistoricalInfo
  GetChangePubKeyAddress : ValidatorUpdate → Except String Bytes
  FromTmProtoPublicKey : Bytes → Except String Bytes
  packAny : Bytes → Except String Bytes
  ConsPubKey : CrossChainValidator → Except String Bytes
  SortValidators : List StakingValidator → List StakingValidator

/-- A call of a hook of the consumer keeper. -/
inductive consumer.Call where
  | AfterValidatorBonded (consAddr : Bytes)
  deriving DecidableEq, Repr

/-- What a method of the consumer keeper acts on: the module store and the
calls of hooks made so far, latest last. -/
structure consumer.State where
  store : Store
  calls : List consumer.Call
  deriving DecidableEq, Repr

/-- Modelled from the spec: the key namespaces `CrossChainValidatorBytePrefix`
and `HistoricalInfoBytePrefix` of the consumer's `types/keys.go`, which is not
among the sources; only their being distinct is used. -/
def CrossChainValidatorBytePrefix : Nat := 8

/-- See `CrossChainValidatorBytePrefix`. -/
def HistoricalInfoBytePrefix : Nat := 11

/-- Modelled from the spec: the key `types.CrossChainValidatorKey(addr)`, the
namespace byte followed by the address. -/
def CrossChainValidatorKey (addr : Bytes) : Bytes := CrossChainValidatorBytePrefix :: addr

/-- Modelled from the spec: the key `types.GetHistoricalInfoKey(height)`, the
namespace byte followed by the height as 8 big-endian bytes. -/
def GetHistoricalInfoKey (height : Int) : Bytes :=
  HistoricalInfoBytePrefix :: PutUint64 (toUint64 height)

/-- Modelled from the spec: `types.NewCCValidator(address, power, pubKey)`,
which packs the public key and builds the validator; the packing may fail. -/
def NewCCValidator (k : consumer.Keeper) (address : Bytes) (power : Int) (pubKey : Bytes) :
    Except String CrossChainValidator :=
  match k.packAny pubKey with
  | .error e => .error e
  | .ok pkAny => .ok { Address := address, Power := power, Pubkey := pkAny }

/-- Modelled from the spec: `Keeper.GetCCValidator` of the consumer: the
cross-chain validator stored for the address and whether there is one; it
panics on stored bytes that do not unmarshal. -/
def GetCCValidator (k : consumer.Keeper) (store : Store) (addr : Bytes) :
    Except String (CrossChainValidator × Bool) :=
  match store.get (CrossChainValidatorKey addr) with
  | none => .ok ({ Address := [], Power := 0, Pubkey := [] }, false)
  | some v =>
    match k.cdc.unmarshal v with
    | .error e => .error e
    | .ok validator => .ok (validator, true)

/-- Modelled from the spec: `Keeper.SetCCValidator`, which stores a
cross-chain validator under its address; it panics when the validator does
not marshal. -/
def SetCCValidator (k : consumer.Keeper) (store : Store) (v : CrossChainValidator) :
    Except String Store :=
  match k.cdc.marshal v with
  | .error e => .error e
  | .ok bz => .ok (store.set (CrossChainValidatorKey v.Address) bz)

/-- Modelled from the spec: `Keeper.DeleteCCValidator`. -/
def DeleteCCValidator (store : Store) (addr : Bytes) : Store :=
  store.delete (CrossChainValidatorKey addr)

/-- The loop of `GetAllCCValidator` over the entries the iterator yielded. -/
def decodeCCValidators (k : consumer.Keeper) :
    List (Bytes × Bytes) → Except String (List CrossChainValidator)
  | [] => .ok []
  | (_, value) :: rest =>
    match k.cdc.unmarshal value with
    | .error e => .error e
    | .ok val =>
      match decodeCCValidators k rest with
      | .error e => .error e
      | .ok validators => .ok (val :: validators)

/-- Modelled from the spec: `Keeper.GetAllCCValidator`, every stored
cross-chain validator, in key order; it panics on stored bytes that do not
unmarshal. -/
def GetAllCCValidator (k : consumer.Keeper) (store : Store) :
    Except String (List CrossChainValidator) :=
  decodeCCValidators k (store.prefixIterator [ CrossChainValidatorBytePrefix])

/-- Modelled from the spec: `Keeper.AfterValidatorBonded`, the hook; the call
is recorded. -/
def AfterValidatorBonded (st : consumer.State) (consAddr : Bytes) : consumer.State :=
  { st with calls := st.calls ++ [.AfterValidatorBonded consAddr] }

/-- The body of the loop of `ApplyCCValidatorChanges` for one change: a panic,
or the state it leaves. -/
def applyCCValidatorChange (k : consumer.Keeper) (st : consumer.State)
    (change : ValidatorUpdate) : Except String consumer.State :=
  match k.GetChangePubKeyAddress change with
  | .error e => .error e
  | .ok addr =>
    match GetCCValidator k st.store addr with
    | .error e => .error e
    | .ok (_, false) =>
      let consAddr := addr
      if change.Power < 1 then
        .error "new validator bonded with zero voting power"
      else
        match k.FromTmProtoPublicKey change.PubKey with
        | .error e => .error e
        | .ok pubkey =>
          match NewCCValidator k addr change.Power pubkey with
          | .error e => .error e
          | .ok ccVal =>
            match SetCCValidator k st.store ccVal with
            | .error e => .error e
            | .ok store' => .ok (AfterValidatorBonded { st with store := store' } consAddr)
    | .ok (val, true) =>
      if change.Power < 1 then
        .ok { st with store := DeleteCCValidator st.store addr }
      else
        match SetCCValidator k st.store { val with Power := change.Power } with
        | .error e => .error e
        | .ok store' => .ok { st with store := store' }

/-- The method `Keeper.ApplyCCValidatorChanges` of the consumer: a panic, or
the state the call leaves. -/
def ApplyCCValidatorChanges (k : consumer.Keeper) (st : consumer.State) :
    List ValidatorUpdate → Except String consumer.State
  | [] => .ok st
  | change :: changes =>
    match applyCCValidatorChange k st change with
    | .error e => .error e
    | .ok st' => ApplyCCValidatorChanges k st' changes

/-- The method `Keeper.GetHistoricalInfo` of the consumer;
`MustUnmarshalHistoricalInfo` panics on bytes that do not unmarshal. -/
def GetHistoricalInfo (k : consumer.Keeper) (store : Store) (height : Int) :
    Except String (Option HistoricalInfo) :=
  match store.get (GetHistoricalInfoKey height) with
  | none => .ok none
  | some value =>
    match k.histCodec.unmarshal value with
    | .error e => .error e
    | .ok hi => .ok (some hi)

/-- The method `Keeper.SetHistoricalInfo` of the consumer; `MustMarshal`
panics when the entry does not marshal. -/
def SetHistoricalInfo (k : consumer.Keeper) (store : Store) (height : Int)
    (hi : HistoricalInfo) : Except String Store :=
  match k.histCodec.marshal hi with
  | .error e => .error e
  | .ok value => .ok (store.set (GetHistoricalInfoKey height) value)

/-- The method `Keeper.DeleteHistoricalInfo` of the consumer. -/
def DeleteHistoricalInfo (store : Store) (height : Int) : Store :=
  store.delete (GetHistoricalInfoKey height)

/-- The pruning loop of `TrackHistoricalInfo`, `for i := start; i >= 0; i--`,
from the height `i`: an entry that is found is deleted and the loop goes on
below it, at the first height without an entry the loop ends. -/
def pruneHistoricalInfo (k : consumer.Keeper) : Nat → Store → Except String Store
  | 0, store =>
    match GetHistoricalInfo k store 0 with
    | .error e => .error e
    | .ok (some _) => .ok (DeleteHistoricalInfo store 0)
    | .ok none => .ok store
  | i + 1, store =>
    match GetHistoricalInfo k store ((i + 1 : Nat) : Int) with
    | .error e => .error e
    | .ok (some _) => pruneHistoricalInfo k i (DeleteHistoricalInfo store ((i + 1 : Nat) : Int))
    | .ok none => .ok store

/-- The loop of `TrackHistoricalInfo` over the cross-chain validators: one
bonded staking validator per cross-chain validator, with the tokens of its
power (`sdk.DefaultPowerReduction` is `10^6`); a key that does not unpack or
pack is the panic `invalid validator key`. -/
def lastValidators (k : consumer.Keeper) :
    List CrossChainValidator → Except String (List StakingValidator)
  | [] => .ok []
  | v :: rest =>
    match k.ConsPubKey v with
    | .error _ => .error "invalid validator key"
    | .ok pk =>
      match k.packAny pk with
      | .error _ => .error "invalid validator key"
      | .ok pkAny =>
        match lastValidators k rest with
        | .error e => .error e
        | .ok vals =>
          .ok ({ ConsensusPubkey := pkAny, Bonded := true, Tokens := v.Power * 1000000 } :: vals)

/-- The method `Keeper.TrackHistoricalInfo` of the consumer, with the constant
`types.HistoricalEntries`, which is not among the sources, as the parameter
`entryNum`: a panic, or the store the call leaves. The heights are `int64`
values; for a block height that is not negative the subtraction does not
overflow. -/
def TrackHistoricalInfo (k : consumer.Keeper) (entryNum : Nat) (ctx : Context) (store : Store) :
    Except String Store :=
  let start : Int := (ctx.BlockHeight : Int) - (entryNum : Int)
  let pruned := if start < 0 then .ok store else pruneHistoricalInfo k start.toNat store
  match pruned with
  | .error e => .error e
  | .ok store1 =>
    if entryNum = 0 then .ok store1
    else
      match GetAllCCValidator k store1 with
      | .error e => .error e
      | .ok ccVals =>
        match lastValidators k ccVals with
        | .error e => .error e
        | .ok lastVals =>
          let historicalEntry : HistoricalInfo :=
            { Header := ctx, Valset := k.SortValidators lastVals }
          SetHistoricalInfo k store1 (ctx.BlockHeight : Int) historicalEntry

/-- Every stored cross-chain validator unmarshals and is stored under its own
address, as `SetCCValidator` stores it. -/
def ccValidatorsUnderOwnAddress (k : consumer.Keeper) (store : Store) : Prop :=
  ∀ addr bz, store.get (CrossChainValidatorKey addr) = some bz →
    ∃ v, k.cdc.unmarshal bz = .ok v ∧ v.Address = addr

/-- The public key of the change converts and packs: `FromTmProtoPublicKey`
and `NewCCValidator` return no error for it. -/
def keyConverts (k : consumer.Keeper) (change : ValidatorUpdate) : Prop :=
  ∃ pk pkAny, k.FromTmProtoPublicKey change.PubKey = .ok pk ∧ k.packAny pk = .ok pkAny

/-- What one change of a list with distinct addresses makes of its address,
between the state before the call and the state after it: a stored validator
is deleted for a power below 1 and has its power replaced otherwise, without a
call of the hook; an address that was not stored has a validator with the
power of the change, and the hook was called once more for it. -/
def changeApplied (k : consumer.Keeper) (st st' : consumer.State) (change : ValidatorUpdate)
    (addr : Bytes) : Prop :=
  (∀ old, GetCCValidator k st.store addr = .ok (old, true) →
    st'.calls.count (.AfterValidatorBonded addr) = st.calls.count (.AfterValidatorBonded addr) ∧
    (change.Power < 1 → st'.store.get (CrossChainValidatorKey addr) = none) ∧
    (1 ≤ change.Power →
      GetCCValidator k st'.store addr = .ok ({ old with Power := change.Power }, true))) ∧
  (st.store.get (CrossChainValidatorKey addr) = none →
    1 ≤ change.Power ∧
    st'.calls.count (.AfterValidatorBonded addr)
      = st.calls.count (.AfterValidatorBonded addr) + 1 ∧
    ∃ v, GetCCValidator k st'.store addr = .ok (v, true) ∧ v.Address = addr ∧
      v.Power = change.Power)

/-- The wire format of `CrossChainValidator`. -/
def Wire.ccValidator : Wire CrossChainValidator :=
  Wire.iso (Wire.pair Wire.bytes (Wire.pair Wire.int Wire.bytes))
    (fun p => { Address := p.1, Power := p.2.1, Pubkey := p.2.2 })
    (fun v => (v.Address, v.Power, v.Pubkey))

/-- The wire format of `Context`. -/
def Wire.context : Wire Context :=
  Wire.iso (Wire.pair Wire.int (Wire.pair Wire.nat (Wire.pair Wire.bytes
      (Wire.pair Wire.nat Wire.bytes))))
    (fun p => { BlockTime := p.1, BlockHeight := p.2.1, ChainID := p.2.2.1,
                Revision := p.2.2.2.1, NextValidatorsHash := p.2.2.2.2 })
    (fun c => (c.BlockTime, c.BlockHeight, c.ChainID, c.Revision, c.NextValidatorsHash))

/-- The wire format of `StakingValidator`. -/
def Wire.stakingValidator : Wire StakingValidator :=
  Wire.iso (Wire.pair Wire.bytes (Wire.pair Wire.bool Wire.int))
    (fun p => { ConsensusPubkey := p.1, Bonded := p.2.1, Tokens := p.2.2 })
    (fun v => (v.ConsensusPubkey, v.Bonded, v.Tokens))

/-- The wire format of `HistoricalInfo`. -/
def Wire.historicalInfo : Wire HistoricalInfo :=
  Wire.iso (Wire.pair Wire.context (Wire.list Wire.stakingValidator))
    (fun p => { Header := p.1, Valset := p.2 })
    (fun h => (h.Header, h.Valset))

/-- A consumer keeper with the codecs of the wire formats; the address of a
public key is the key after `addr-`, the key `bad` does not convert, and the
validators of a historical entry are kept in their order. -/
def testConsumerKeeper : consumer.Keeper where
  cdc := Wire.codec Wire.ccValidator
  histCodec := Wire.codec Wire.historicalInfo
  GetChangePubKeyAddress := fun change => .ok (ascii "addr-" ++ change.PubKey)
  FromTmProtoPublicKey := fun pk => if pk = ascii "bad" then .error "invalid key" else .ok pk
  packAny := fun pk => .ok pk
  ConsPubKey := fun v => .ok v.Pubkey
  SortValidators := fun vals => vals

/-- A consumer state with two cross-chain validators: `addr-pk1` with power 5
and `addr-pk2` with power 7. -/
def ccState : consumer.State :=
  { store :=
      [(CrossChainValidatorKey (ascii "addr-pk1"),
          Wire.ccValidator.put
            { Address := ascii "addr-pk1", Power := 5, Pubkey := ascii "pk1" }),
       (CrossChainValidatorKey (ascii "addr-pk2"),
          Wire.ccValidator.put
            { Address := ascii "addr-pk2", Power := 7, Pubkey := ascii "pk2" })],
    calls := [] }

/-- Changes with distinct addresses: the power of `pk1` becomes 9, `pk2` is
removed, `pk3` is new with power 3. -/
def ccChanges : List ValidatorUpdate :=
  [{ PubKey := ascii "pk1", Power := 9 }, { PubKey := ascii "pk2", Power := 0 },
   { PubKey := ascii "pk3", Power := 3 }]

/-- The state `ApplyCCValidatorChanges` leaves of `ccState` for `ccChanges`. -/
def ccChangedState : consumer.State :=
  { store :=
      [(CrossChainValidatorKey (ascii "addr-pk1"),
          Wire.ccValidator.put
            { Address := ascii "addr-pk1", Power := 9, Pubkey := ascii "pk1" }),
       (CrossChainValidatorKey (ascii "addr-pk3"),
          Wire.ccValidator.put
            { Address := ascii "addr-pk3", Power := 3, Pubkey := ascii "pk3" })],
    calls := [.AfterValidatorBonded (ascii "addr-pk3")] }

/-- Changes that name addresses more than once: `pk3` is added and removed,
the power of `pk1` is set twice. -/
def ccRepeatedChanges : List ValidatorUpdate :=
  [{ PubKey := ascii "pk3", Power := 3 }, { PubKey := ascii "pk3", Power := 0 },
   { PubKey := ascii "pk1", Power := 2 }, { PubKey := ascii "pk1", Power := 4 }]

/-- The state `ApplyCCValidatorChanges` leaves of `ccState` for
`ccRepeatedChanges`. -/
def ccRepeatedState : consumer.State :=
  { store :=
      [(CrossChainValidatorKey (ascii "addr-pk1"),
          Wire.ccValidator.put
            { Address := ascii "addr-pk1", Power := 4, Pubkey := ascii "pk1" }),
       (CrossChainValidatorKey (ascii "addr-pk2"),
          Wire.ccValidator.put
            { Address := ascii "addr-pk2", Power := 7, Pubkey := ascii "pk2" })],
    calls := [.AfterValidatorBonded (ascii "addr-pk3")] }

/-- The entry of the historical info of the block at a height, without
validators. -/
def histEntry (height : Nat) : Bytes × Bytes :=
  (GetHistoricalInfoKey (height : Int),
    Wire.historicalInfo.put { Header := { testCtx with BlockHeight := height }, Valset := [] })

/-- A consumer store with the cross-chain validators of `ccState` and the
historical entries of the heights 5 to 9. -/
def histStore : Store :=
  ccState.store ++ [histEntry 5, histEntry 6, histEntry 7, histEntry 8, histEntry 9]

/-- The entry `TrackHistoricalInfo` writes in the block of `testCtx`, at the
height 10, for the cross-chain validators of `ccState`. -/
def histEntry10 : Bytes × Bytes :=
  (GetHistoricalInfoKey 10,
    Wire.historicalInfo.put
      { Header := testCtx,
        Valset := [{ ConsensusPubkey := ascii "pk1", Bonded := true, Tokens := 5000000 },
                   { ConsensusPubkey := ascii "pk2", Bonded := true, Tokens := 7000000 }] })

/-- The store `TrackHistoricalInfo` leaves of `histStore` at the height 10
with three historical entries: the entries of the heights 8, 9 and 10. -/
def histPrunedStore : Store :=
  ccState.store ++ [histEntry 8, histEntry 9, histEntry10]

/-! ## The calls that change the client binding of a chain -/

/-- Whether a call `CreateConsumerClient` for the chain `c` replaces the client
binding `cur` of the chain `chainID`: the call is for that chain and the client
keeper creates the client, with another ID than the one bound. -/
def createRebinds (k : Keeper) (ctx : Context) (cur : Bytes × Bool) (chainID c : Bytes)
    (initialHeight : Height) : Bool :=
  c = chainID &&
    match k.CreateClient (newClientState k c initialHeight) (newConsensusState ctx) with
    | .ok clientID => decide (cur ≠ (clientID, true))
    | .error _ => false

/-- Whether the loop of `IteratePendingClientInfo` over the entries replaces
the client binding `cur` of the chain `chainID`: one of the entries the loop
goes through, which are the entries it reads as due up to the first one it
does not, has a chain ID and an initial height for which `CreateConsumerClient`
replaces the binding. -/
def clientScanRebinds (k : Keeper) (ctx : Context) (cur : Bytes × Bool) (chainID : Bytes) :
    List (Bytes × Bytes) → Bool
  | [] => false
  | (suffixKey, value) :: rest =>
    match scannedTime suffixKey, scannedChainID suffixKey, k.cdc.unmarshal value with
    | some spawnTime, some c, .ok clientInfo =>
      decide (ctx.BlockTime > spawnTime) &&
        (createRebinds k ctx cur chainID c clientInfo.InitialHeight
          || clientScanRebinds k ctx cur chainID rest)
    | _, _, _ => false

/-- The chain IDs the loop of `IteratePendingStopProposal` over the entries
hands to `StopConsumerChain`: those of the entries it reads as due, up to the
first one it does not. -/
def stopScanChains (ctx : Context) : List (Bytes × Bytes) → List Bytes
  | [] => []
  | (suffixKey, _) :: rest =>
    match scannedTime suffixKey, scannedChainID suffixKey with
    | some stopTime, some c =>
      if ctx.BlockTime > stopTime then c :: stopScanChains ctx rest else []
    | _, _ => []

/-- Whether a call, in the state and the block it runs in, replaces or removes
the client binding of the chain `chainID`: a setter of the binding of the chain
with another ID than the one bound; a deleter of the binding of the chain; a
`CreateConsumerClient` for the chain for which the client keeper creates a
client with another ID, called directly, by a `CreateConsumerChainProposal`
whose spawn time is before the block time or by the scan of the pending
additions; and `StopConsumerChain` for the chain, called directly, by a
`StopConsumerChainProposal` whose stop time is before the block time or by the
scan of the pending removals. -/
def changesClient (k : Keeper) (ctx : Context) (st : State) (chainID : Bytes) :
    KeeperOp → Bool
  | .SetConsumerClientId c clientID =>
    c = chainID && decide (GetConsumerClientId st.store chainID ≠ (clientID, true))
  | .SetConsumerClient c clientID =>
    c = chainID && decide (GetConsumerClientId st.store chainID ≠ (clientID, true))
  | .CreateConsumerClient c initialHeight _ =>
    createRebinds k ctx (GetConsumerClientId st.store chainID) chainID c initialHeight
  | .CreateConsumerChainProposal p =>
    decide (ctx.BlockTime > p.SpawnTime) &&
      createRebinds k ctx (GetConsumerClientId st.store chainID) chainID p.ChainId
        p.InitialHeight
  | .StopConsumerChainProposal c stopTime => c = chainID && decide (ctx.BlockTime > stopTime)
  | .IteratePendingClientInfo =>
    clientScanRebinds k ctx (GetConsumerClientId st.store chainID) chainID
      (st.store.prefixIterator ( PendingClientKeyPrefix ++ [slash]))
  | .IteratePendingStopProposal =>
    (stopScanChains ctx
      (st.store.prefixIterator ( PendingStopProposalKeyPrefix ++ [slash]))).contains chainID
  | op => rebindsClient chainID op

/-- No call of the sequence replaces or removes the client binding of the
chain: each call is checked, with `changesClient`, in the state the calls
before it left. -/
def keepsClient (chainID : Bytes) : List (Keeper × Context × KeeperOp) → State → Bool
  | [], _ => true
  | (k, ctx, op) :: rest, st =>
    !changesClient k ctx st chainID op &&
      match runOp k ctx st op with
      | .ok st' => keepsClient chainID rest st'
      | .error _ => true

/-- A sequence of calls that name the chain `consu` and leave its client
binding: a proposal to add `consu` with a spawn time after the block time,
which is queued; the scan of the pending additions in that block; a proposal to
remove `consu` with a stop time after the block time, which is queued; the scan
of the pending removals; a `CreateConsumerClient` for `consu` for which the
client keeper refuses the client; `SetConsumerClientId` with the ID that is
bound; the scan of the pending additions in a block of September 2226, which
creates a client for the chain ID it reads off the key; and the calls of
`otherChainSteps`. -/
def keptSteps : List (Keeper × Context × KeeperOp) :=
  [(testKeeper, testCtx, .CreateConsumerChainProposal futureProposal),
   (testKeeper, testCtx, .IteratePendingClientInfo),
   (testKeeper, testCtx, .StopConsumerChainProposal (ascii "consu") 200000000000),
   (testKeeper, testCtx, .IteratePendingStopProposal),
   (failingClientKeeper, testCtx,
     .CreateConsumerClient (ascii "consu") { RevisionNumber := 0, RevisionHeight := 1 } false),
   (testKeeper, testCtx, .SetConsumerClientId (ascii "consu") (ascii "07-tendermint-0")),
   (secondClientKeeper, lateCtx, .IteratePendingClientInfo)] ++ otherChainSteps

/-- The state `keptSteps` leaves of `registeredState`. -/
def keptState : State :=
  match runOps keptSteps registeredState with
  | .ok st => st
  | .error _ => emptyState

/-! ## The walk of StopConsumerChain past a refused completion -/

/-- The stored bytes of the listed operations unmarshal: `GetUnbondingOp`
returns for each of them, with a record or without. -/
def opsDecode (k : Keeper) (store : Store) (ids : List Nat) : Prop :=
  ∀ id ∈ ids, ∃ r, GetUnbondingOp k store id = .ok r

/-- From the first state to the second, every stored operation that waits for
another chain than `chainID` is kept, with the wait-set it had or with that
wait-set without `chainID`, and no call of `UnbondingCanComplete` was made for
it. -/
def waitingOpsKept (k : Keeper) (chainID : Bytes) (st st' : State) : Prop :=
  ∀ id op, id < 2 ^ 64 → GetUnbondingOp k st.store id = .ok (op, true) →
    (removeStringFromSlice op.UnbondingConsumerChains chainID).1 ≠ [] →
    (GetUnbondingOp k st'.store id = .ok (op, true) ∨
      GetUnbondingOp k st'.store id = .ok (withoutChain op chainID, true)) ∧
    st'.calls.count (.UnbondingCanComplete id) = st.calls.count (.UnbondingCanComplete id)

/-- The walk of `StopConsumerChain(chainID, lockUbd = false, _)` gets through
the listed operations: they are listed once, each is stored under its ID, and
each one that waits for `chainID` only, so that the walk asks the staking keeper
to complete it, is accepted by the staking keeper. -/
def walkPasses (k : Keeper) (chainID : Bytes) (store : Store) (ids : List Nat) : Prop :=
  ids.Nodup ∧
  ∀ id ∈ ids, id < 2 ^ 64 ∧
    ∃ op, GetUnbondingOp k store id = .ok (op, true) ∧ op.Id = id ∧
      ((removeStringFromSlice op.UnbondingConsumerChains chainID).1 = [] →
        k.UnbondingCanComplete id = none)

/-- A keeper whose staking keeper accepts the completion of the operation 7
and refuses every other. -/
def pickyKeeper : Keeper :=
  { testKeeper with
    UnbondingCanComplete := fun id => if id = 7 then none else some (.external "refused") }

/-- A state in which the index of the chain `consu` lists the operation 7
under VSC ID 1 and the operations 9 and 4 under VSC ID 2; the operations 7 and
4 wait for `consu` only, the operation 9 also for the chain `other`. -/
def waitingBatchState : State :=
  { emptyState with
    store := [opEntry 4 [ascii "consu"], opEntry 7 [ascii "consu"],
              opEntry 9 [ascii "consu", ascii "other"],
              indexEntry (ascii "consu") 1 [7], indexEntry (ascii "consu") 2 [9, 4]] }

/-- The state `StopConsumerChain` leaves of `waitingBatchState` when the
staking keeper accepts the operation 7 only: the operation 7 is released, the
operation 9 shrunk, and the operation 4 and the index entry that lists 9 and 4
are as they were. -/
def waitingAbortedState : State :=
  { store := [opEntry 4 [ascii "consu"], opEntry 9 [ascii "other"],
              indexEntry (ascii "consu") 2 [9, 4]],
    calls := [.UnbondingCanComplete 7, .UnbondingCanComplete 4],
    events := [] }

/-- The state a second `StopConsumerChain`, with a staking keeper that accepts
every completion, leaves of `waitingAbortedState`. -/
def waitingRetriedState : State :=
  { store := [opEntry 9 [ascii "other"]],
    calls := [.UnbondingCanComplete 7, .UnbondingCanComplete 4, .UnbondingCanComplete 4],
    events := [] }

/-! ## Store lemmas -/

namespace Store

theorem get_set_same (s : Store) (k v : Bytes) : get (set s k v) k = some v := by
  induction s with
  | nil => simp [set, get]
  | cons e rest ih =>
    obtain ⟨k', v'⟩ := e
    by_cases h1 : k = k'
    · simp [set, get, h1]
    · by_cases h2 : k < k'
      · simp [set, get, h1, h2]
      · simp [set, get, h1, h2, ih]

theorem get_set_other (s : Store) (k v k2 : Bytes) (hne : k2 ≠ k) :
    get (set s k v) k2 = get s k2 := by
  induction s with
  | nil => simp [set, get, hne]
  | cons e rest ih =>
    obtain ⟨k', v'⟩ := e
    by_cases h1 : k = k'
    · subst h1
      simp [set, get, hne]
    · by_cases h2 : k < k'
      · simp [set, get, h1, h2, hne]
      · simp [set, get, h1, h2, ih]

theorem get_delete_same (s : Store) (k : Bytes) : get (delete s k) k = none := by
  induction s with
  | nil => simp [delete, get]
  | cons e rest ih =>
    obtain ⟨k', v'⟩ := e
    by_cases h1 : k' = k
    · simpa [delete, List.filter_cons, h1] using ih
    · have h1' : k ≠ k' := fun h => h1 h.symm
      simpa [delete, List.filter_cons, h1, get, h1'] using ih

theorem get_delete_other (s : Store) (k k2 : Bytes) (hne : k2 ≠ k) :
    get (delete s k) k2 = get s k2 := by
  induction s with
  | nil => simp [delete, get]
  | cons e rest ih =>
    obtain ⟨k', v'⟩ := e
    by_cases h1 : k' = k
    · subst h1
      simpa [delete, List.filter_cons, get, hne] using ih
    · by_cases h2 : k2 = k'
      · simp [delete, List.filter_cons, h1, get, h2]
      · simpa [delete, List.filter_cons, h1, get, h2] using ih

theorem keys_set (s : Store) (k v x : Bytes) (hx : x ∈ (set s k v).map Prod.fst) :
    x = k ∨ x ∈ s.map Prod.fst := by
  induction s with
  | nil => simp [set] at hx; exact Or.inl hx
  | cons e rest ih =>
    obtain ⟨k', v'⟩ := e
    by_cases h1 : k = k'
    · simp only [set, h1, if_true, List.map_cons, List.mem_cons] at hx ⊢
      rcases hx with h | h
      · exact Or.inl h
      · exact Or.inr (Or.inr h)
    · by_cases h2 : k < k'
      · simp only [set, h1, h2, if_true, if_false, List.map_cons, List.mem_cons] at hx ⊢
        tauto
      · simp only [set, h1, h2, if_false, List.map_cons, List.mem_cons] at hx ⊢
        rcases hx with h | h
        · exact Or.inr (Or.inl h)
        · rcases ih h with h' | h'
          · exact Or.inl h'
          · exact Or.inr (Or.inr h')

theorem WF_set (s : Store) (k v : Bytes) (h : WF s) : WF (set s k v) := by
  induction s with
  | nil => simp [set, WF]
  | cons e rest ih =>
    obtain ⟨k', v'⟩ := e
    have h' : (∀ x ∈ rest.map Prod.fst, k' < x) ∧ WF rest := by
      simpa [WF, List.pairwise_cons] using h
    by_cases h1 : k = k'
    · subst h1
      simpa [set, WF, List.pairwise_cons] using h
    · by_cases h2 : k < k'
      · simp only [set, h1, h2, if_true, if_false, WF, List.map_cons, List.pairwise_cons]
        refine ⟨?_, ?_⟩
        · intro x hx
          rcases List.mem_cons.1 hx with hx | hx
          · exact hx ▸ h2
          · exact lt_trans h2 (h'.1 x hx)
        · simpa [WF, List.pairwise_cons] using h
      · simp only [set, h1, h2, if_false, WF, List.map_cons, List.pairwise_cons]
        refine ⟨?_, ih h'.2⟩
        intro x hx
        rcases keys_set rest k v x hx with hx | hx
        · subst hx
          exact lt_of_le_of_ne (not_lt.1 h2) (fun h => h1 h.symm)
        · exact h'.1 x hx

theorem WF_delete (s : Store) (k : Bytes) (h : WF s) : WF (delete s k) := by
  unfold WF delete at *
  exact (List.Pairwise.sublist ((List.filter_sublist s).map Prod.fst) h)

theorem get_isSome_iff (s : Store) (k : Bytes) :
    (get s k).isSome = true ↔ k ∈ s.map Prod.fst := by
  induction s with
  | nil => simp [get]
  | cons e rest ih =>
    obtain ⟨k', v'⟩ := e
    by_cases h1 : k = k'
    · simp [get, h1]
    · simp [get, h1, ih]

theorem prefixIterator_sorted (s : Store) (p : Bytes) (h : WF s) :
    ((prefixIterator s p).map Prod.fst).Pairwise (· < ·) := by
  unfold WF prefixIterator at *
  exact (List.Pairwise.sublist ((List.filter_sublist s).map Prod.fst) h)

end Store

/-! ## Lemmas on the wire formats -/

namespace Wire

theorem nat_lawful : nat.Lawful := by
  intro a rest; rfl

theorem pair_lawful {α β : Type} {wa : Wire α} {wb : Wire β} (ha : wa.Lawful) (hb : wb.Lawful) :
    (pair wa wb).Lawful := by
  intro p rest
  simp [pair, List.append_assoc, ha p.1, hb p.2]

theorem getMany_putMany {α : Type} {w : Wire α} (h : w.Lawful) (l : List α) (rest : Bytes) :
    getMany w l.length (putMany w l ++ rest) = some (l, rest) := by
  induction l with
  | nil => rfl
  | cons a as ih => simp [getMany, putMany, List.append_assoc, h a, ih]

theorem list_lawful {α : Type} {w : Wire α} (h : w.Lawful) : (list w).Lawful := by
  intro l rest
  simp [list, getMany_putMany h]

theorem iso_lawful {α β : Type} {w : Wire α} (h : w.Lawful) (f : α → β) (g : β → α)
    (hfg : ∀ b, f (g b) = b) : (iso w f g).Lawful := by
  intro b rest
  simp [iso, h (g b), hfg]

theorem bool_lawful : bool.Lawful :=
  iso_lawful nat_lawful _ _ (by intro b; cases b <;> simp)

theorem int_lawful : int.Lawful :=
  iso_lawful (pair_lawful bool_lawful nat_lawful) _ _ (by
    intro i
    by_cases h : i < 0
    · simp [h]; omega
    · simp [h]; omega)

theorem option_lawful {α : Type} {w : Wire α} (h : w.Lawful) : (option w).Lawful :=
  iso_lawful (list_lawful h) _ _ (by intro o; cases o <;> rfl)

theorem bytes_lawful : bytes.Lawful := list_lawful nat_lawful

theorem height_lawful : height.Lawful :=
  iso_lawful (pair_lawful nat_lawful nat_lawful) _ _ (fun _ => rfl)

theorem proposal_lawful : proposal.Lawful :=
  iso_lawful (pair_lawful bytes_lawful (pair_lawful height_lawful
    (pair_lawful int_lawful bool_lawful))) _ _ (fun _ => rfl)

theorem unbondingOp_lawful : unbondingOp.Lawful :=
  iso_lawful (pair_lawful nat_lawful (list_lawful bytes_lawful)) _ _ (fun _ => rfl)

theorem tmClientState_lawful : tmClientState.Lawful :=
  iso_lawful (pair_lawful bytes_lawful (pair_lawful int_lawful (pair_lawful int_lawful
    (pair_lawful height_lawful bytes_lawful)))) _ _ (fun _ => rfl)

theorem consensusState_lawful : consensusState.Lawful :=
  iso_lawful (pair_lawful int_lawful (pair_lawful bytes_lawful bytes_lawful)) _ _ (fun _ => rfl)

theorem validatorUpdate_lawful : validatorUpdate.Lawful :=
  iso_lawful (pair_lawful bytes_lawful int_lawful) _ _ (fun _ => rfl)

theorem genesis_lawful : genesis.Lawful :=
  iso_lawful (pair_lawful bool_lawful (pair_lawful bool_lawful
    (pair_lawful (option_lawful tmClientState_lawful)
      (pair_lawful (option_lawful consensusState_lawful)
        (list_lawful validatorUpdate_lawful))))) _ _ (fun _ => rfl)

theorem packet_lawful : packet.Lawful :=
  iso_lawful (pair_lawful (list_lawful validatorUpdate_lawful)
    (pair_lawful nat_lawful (list_lawful bytes_lawful))) _ _ (fun _ => rfl)

theorem codec_roundTrip {α : Type} {w : Wire α} (h : w.Lawful) : (codec w).RoundTrip := by
  intro a bz hm
  simp only [codec, Except.ok.injEq] at hm
  subst hm
  have := h a []
  simp only [List.append_nil] at this
  simp [codec, this]

theorem codec_total {α : Type} (w : Wire α) : (codec w).Total := by
  intro a
  exact ⟨w.put a, rfl⟩

end Wire


/-! ## Fixed-width integers -/

theorem Uint64_PutUint64 (v : Nat) (h : v < 2 ^ 64) : Uint64 (PutUint64 v) = some v := by
  simp only [PutUint64, Uint64, Option.some.injEq]
  omega

/-! ## Store keys -/

theorem PendingVSCsKey_ne {c c' : Bytes} (h : c' ≠ c) : PendingVSCsKey c' ≠ PendingVSCsKey c := by
  simpa [PendingVSCsKey] using h

theorem ConsumerGenesisKey_ne {c c' : Bytes} (h : c' ≠ c) :
    ConsumerGenesisKey c' ≠ ConsumerGenesisKey c := by
  simpa [ConsumerGenesisKey] using h

/-! ## The channel of a consumer chain -/

/-- C1: when chain `C` already has the channel `ch1` bound, `SetConsumerChain`
for a channel `ch2` that resolves, through its single connection hop and a
tendermint client, to the same chain `C` returns the duplicate-channel error
and leaves the state as it was: the store (so the chain-to-channel,
channel-to-chain and init-height entries), the calls and the events; `C` is
still bound to `ch1`. -/
theorem SetConsumerChain_duplicate_channel (k : Keeper) (ctx : Context) (st : State)
    (C ch1 ch2 connectionID : Bytes) (channel : Channel) (conn : ConnectionEnd)
    (tm : TmClientState)
    (hbound : GetChainToChannel st.store C = (ch1, true))
    (hchan : k.GetChannel ProviderPortID ch2 = some channel)
    (hhops : channel.ConnectionHops = [connectionID])
    (hconn : k.GetConnection connectionID = some conn)
    (hclient : k.GetClientState conn.ClientId = some (.tendermint tm))
    (hchain : tm.ChainId = C) :
    SetConsumerChain k ctx st ch2 = (some (.ErrDuplicateChannel ch1 C), st) ∧
      GetChainToChannel (SetConsumerChain k ctx st ch2).2.store C = (ch1, true) ∧
      (∀ ch, GetChannelToChain (SetConsumerChain k ctx st ch2).2.store ch
        = GetChannelToChain st.store ch) ∧
      GetInitChainHeight (SetConsumerChain k ctx st ch2).2.store C
        = GetInitChainHeight st.store C := by
  have h : SetConsumerChain k ctx st ch2 = (some (.ErrDuplicateChannel ch1 C), st) := by
    simp [SetConsumerChain, hchan, hhops, getUnderlyingClient, hconn, hclient, hchain, hbound]
  simp [h, hbound]

/-! ## The validator set update ID -/

/-- C2, as amended: for every store in which the counter reads `v` with
`v < 2^64 - 1`, `IncrementValidatorSetUpdateId` succeeds and the counter then
reads `v + 1`, which is strictly greater than `v`. -/
theorem IncrementValidatorSetUpdateId_lt (store : Store) (v : Nat)
    (hget : GetValidatorSetUpdateId store = .ok v) (hv : v < 2 ^ 64 - 1) :
    ∃ store' v', IncrementValidatorSetUpdateId store = .ok store' ∧
      GetValidatorSetUpdateId store' = .ok v' ∧ v' = v + 1 ∧ v < v' := by
  refine ⟨SetValidatorSetUpdateId store (v + 1), v + 1, ?_, ?_, rfl, Nat.lt_succ_self v⟩
  · have hmod : (v + 1) % 2 ^ 64 = v + 1 := Nat.mod_eq_of_lt (by omega)
    simp only [IncrementValidatorSetUpdateId, hget, hmod]
  · have hlt : v + 1 < 2 ^ 64 := by omega
    simp [GetValidatorSetUpdateId, SetValidatorSetUpdateId, Store.get_set_same,
      Uint64_PutUint64 _ hlt]

/-- C2, the counter at its maximum: in the store that `SetValidatorSetUpdateId`
leaves for `2^64 - 1` the counter reads `2^64 - 1`, the increment succeeds and
the counter then reads `0`, which is not greater. -/
theorem IncrementValidatorSetUpdateId_wraps :
    GetValidatorSetUpdateId (SetValidatorSetUpdateId [] (2 ^ 64 - 1)) = .ok (2 ^ 64 - 1) ∧
    IncrementValidatorSetUpdateId (SetValidatorSetUpdateId [] (2 ^ 64 - 1))
      = .ok (SetValidatorSetUpdateId [] 0) ∧
    GetValidatorSetUpdateId (SetValidatorSetUpdateId [] 0) = .ok 0 ∧
    ¬ ((2 : Nat) ^ 64 - 1 < 0) := by
  decide

/-! ## Pending VSC packets -/

/-- C4: when the pending packets of a chain are `ps`, after
`AppendPendingVSCPackets` with the packets `qs` the pending packets of the
chain are `ps ++ qs`, and the pending packets of every other chain are what
they were. The codec of the packet list is assumed to marshal every list and
to unmarshal what it marshalled. -/
theorem AppendPendingVSCPackets_fifo (k : Keeper) (store : Store) (chainID : Bytes)
    (ps qs : List ValidatorSetChangePacketData)
    (hrt : k.packetsCodec.RoundTrip) (htot : k.packetsCodec.Total)
    (hps : GetPendingVSCPackets k store chainID = .ok ps) :
    ∃ store', AppendPendingVSCPackets k store chainID qs = .ok store' ∧
      GetPendingVSCPackets k store' chainID = .ok (ps ++ qs) ∧
      ∀ other, other ≠ chainID →
        GetPendingVSCPackets k store' other = GetPendingVSCPackets k store other := by
  obtain ⟨buf, hbuf⟩ := htot (ps ++ qs)
  refine ⟨store.set (PendingVSCsKey chainID) buf, ?_, ?_, ?_⟩
  · simp [AppendPendingVSCPackets, hps, hbuf]
  · simp [GetPendingVSCPackets, Store.get_set_same, hrt _ _ hbuf]
  · intro other hne
    simp [GetPendingVSCPackets, Store.get_set_other _ _ _ _ (PendingVSCsKey_ne hne)]

/-- C5: after `DeletePendingVSCPackets` the pending packets of the chain are the
empty list, and the pending packets of every other chain are what they were. -/
theorem DeletePendingVSCPackets_empty (k : Keeper) (store : Store) (chainID : Bytes) :
    GetPendingVSCPackets k (DeletePendingVSCPackets store chainID) chainID = .ok [] ∧
      ∀ other, other ≠ chainID →
        GetPendingVSCPackets k (DeletePendingVSCPackets store chainID) other
          = GetPendingVSCPackets k store other := by
  refine ⟨?_, ?_⟩
  · simp [GetPendingVSCPackets, DeletePendingVSCPackets, Store.get_delete_same]
  · intro other hne
    simp [GetPendingVSCPackets, DeletePendingVSCPackets,
      Store.get_delete_other _ _ _ (PendingVSCsKey_ne hne)]

/-! ## Slash acks -/

/-- C6: when the stored slash acks of a chain are `L`, `ConsumeSlashAcks`
returns `L`, in the stored order; in the store it leaves `GetSlashAcks` returns
the empty list and a second `ConsumeSlashAcks` returns no address and changes
nothing. -/
theorem ConsumeSlashAcks_drains (k : Keeper) (store : Store) (chainID : Bytes)
    (L : List Bytes) (hL : GetSlashAcks k store chainID = .ok L) :
    ∃ store', ConsumeSlashAcks k store chainID = .ok (L, store') ∧
      GetSlashAcks k store' chainID = .ok [] ∧
      ConsumeSlashAcks k store' chainID = .ok ([], store') := by
  by_cases hlen : L.length < 1
  · have hnil : L = [] := List.length_eq_zero.1 (by omega)
    subst hnil
    exact ⟨store, by simp [ConsumeSlashAcks, hL], hL, by simp [ConsumeSlashAcks, hL]⟩
  · have hget : GetSlashAcks k (store.delete (SlashAcksKey chainID)) chainID = .ok [] := by
      simp [GetSlashAcks, Store.get_delete_same]
    exact ⟨store.delete (SlashAcksKey chainID), by simp [ConsumeSlashAcks, hL, hlen], hget,
      by simp [ConsumeSlashAcks, hget]⟩

/-! ## The consumer genesis -/

/-- C10: when `gen` marshals, `SetConsumerGenesis` returns no error and
`GetConsumerGenesis` then returns `gen` and `true`; in a store without an entry
for the chain, as the empty store is, and after `DeleteConsumerGenesis`,
`GetConsumerGenesis` returns the zero genesis and `false`. The genesis codec is
assumed to unmarshal what it marshalled. -/
theorem GetConsumerGenesis_SetConsumerGenesis (k : Keeper) (store : Store) (chainID : Bytes)
    (gen : GenesisState) (bz : Bytes)
    (hrt : k.genesisCodec.RoundTrip) (hm : k.genesisCodec.marshal gen = .ok bz) :
    (SetConsumerGenesis k store chainID gen).1 = none ∧
      GetConsumerGenesis k (SetConsumerGenesis k store chainID gen).2 chainID = .ok (gen, true) ∧
      (store.get (ConsumerGenesisKey chainID) = none →
        GetConsumerGenesis k store chainID = .ok (zeroGenesis, false)) ∧
      GetConsumerGenesis k [] chainID = .ok (zeroGenesis, false) ∧
      GetConsumerGenesis k (DeleteConsumerGenesis store chainID) chainID
        = .ok (zeroGenesis, false) := by
  refine ⟨?_, ?_, ?_, ?_, ?_⟩
  · simp [SetConsumerGenesis, hm]
  · simp [SetConsumerGenesis, hm, GetConsumerGenesis, Store.get_set_same, hrt _ _ hm]
  · intro h
    simp [GetConsumerGenesis, h]
  · simp [GetConsumerGenesis, Store.get]
  · simp [GetConsumerGenesis, DeleteConsumerGenesis, Store.get_delete_same]

/-! ## Instances of the theorems on concrete inputs -/

/-- The packet codec of `testKeeper` is lawful. -/
theorem testKeeper_packetsCodec :
    testKeeper.packetsCodec.RoundTrip ∧ testKeeper.packetsCodec.Total :=
  ⟨Wire.codec_roundTrip (Wire.list_lawful Wire.packet_lawful), Wire.codec_total _⟩

/-- The genesis codec of `testKeeper` is lawful. -/
theorem testKeeper_genesisCodec : testKeeper.genesisCodec.RoundTrip :=
  Wire.codec_roundTrip Wire.genesis_lawful

/-- C1 on a concrete input: the chain `consu` has `channel-0`, and `channel-1`
resolves to `consu`. -/
theorem SetConsumerChain_duplicate_channel_witness :
    (GetChainToChannel boundState.store (ascii "consu") = (ascii "channel-0", true) ∧
      channelKeeper.GetChannel ProviderPortID (ascii "channel-1")
        = some { closed := false, ConnectionHops := [ascii "connection-0"] } ∧
      channelKeeper.GetConnection (ascii "connection-0")
        = some { ClientId := ascii "07-tendermint-0" } ∧
      channelKeeper.GetClientState (ascii "07-tendermint-0") = some (.tendermint consuClient)) ∧
    (SetConsumerChain channelKeeper testCtx boundState (ascii "channel-1")
        = (some (.ErrDuplicateChannel (ascii "channel-0") (ascii "consu")), boundState) ∧
      GetChainToChannel
        (SetConsumerChain channelKeeper testCtx boundState (ascii "channel-1")).2.store
        (ascii "consu") = (ascii "channel-0", true) ∧
      (∀ ch, GetChannelToChain
          (SetConsumerChain channelKeeper testCtx boundState (ascii "channel-1")).2.store ch
        = GetChannelToChain boundState.store ch) ∧
      GetInitChainHeight
          (SetConsumerChain channelKeeper testCtx boundState (ascii "channel-1")).2.store
          (ascii "consu")
        = GetInitChainHeight boundState.store (ascii "consu")) :=
  ⟨⟨by decide, by decide, by decide, by decide⟩,
    SetConsumerChain_duplicate_channel channelKeeper testCtx boundState (ascii "consu")
      (ascii "channel-0") (ascii "channel-1") (ascii "connection-0")
      { closed := false, ConnectionHops := [ascii "connection-0"] }
      { ClientId := ascii "07-tendermint-0" } consuClient
      (by decide) (by decide) rfl (by decide) (by decide) rfl⟩

/-- C2, as amended, on a concrete input: the counter at 41. -/
theorem IncrementValidatorSetUpdateId_lt_witness :
    (GetValidatorSetUpdateId (SetValidatorSetUpdateId [] 41) = .ok 41 ∧ 41 < 2 ^ 64 - 1) ∧
    ∃ store' v', IncrementValidatorSetUpdateId (SetValidatorSetUpdateId [] 41) = .ok store' ∧
      GetValidatorSetUpdateId store' = .ok v' ∧ v' = 41 + 1 ∧ 41 < v' :=
  ⟨⟨by decide, by decide⟩,
    IncrementValidatorSetUpdateId_lt (SetValidatorSetUpdateId [] 41) 41 (by decide) (by decide)⟩

/-- C4 on a concrete input: `packet1` is pending for `consu`, `packet2` is
appended. -/
theorem AppendPendingVSCPackets_fifo_witness :
    (testKeeper.packetsCodec.RoundTrip ∧ testKeeper.packetsCodec.Total ∧
      GetPendingVSCPackets testKeeper packetStore (ascii "consu") = .ok [packet1]) ∧
    ∃ store', AppendPendingVSCPackets testKeeper packetStore (ascii "consu") [packet2]
        = .ok store' ∧
      GetPendingVSCPackets testKeeper store' (ascii "consu") = .ok ([packet1] ++ [packet2]) ∧
      ∀ other, other ≠ ascii "consu" →
        GetPendingVSCPackets testKeeper store' other
          = GetPendingVSCPackets testKeeper packetStore other :=
  ⟨⟨testKeeper_packetsCodec.1, testKeeper_packetsCodec.2, by decide⟩,
    AppendPendingVSCPackets_fifo testKeeper packetStore (ascii "consu") [packet1] [packet2]
      testKeeper_packetsCodec.1 testKeeper_packetsCodec.2 (by decide)⟩

/-- C6 on a concrete input: the slash acks `alice`, `bob` of `consu`. -/
theorem ConsumeSlashAcks_drains_witness :
    GetSlashAcks testKeeper acksStore (ascii "consu") = .ok [ascii "alice", ascii "bob"] ∧
    ∃ store', ConsumeSlashAcks testKeeper acksStore (ascii "consu")
        = .ok ([ascii "alice", ascii "bob"], store') ∧
      GetSlashAcks testKeeper store' (ascii "consu") = .ok [] ∧
      ConsumeSlashAcks testKeeper store' (ascii "consu") = .ok ([], store') :=
  ⟨by decide,
    ConsumeSlashAcks_drains testKeeper acksStore (ascii "consu") [ascii "alice", ascii "bob"]
      (by decide)⟩

/-- C10 on a concrete input: `testGenesis` for `consu` on the empty store. -/
theorem GetConsumerGenesis_SetConsumerGenesis_witness :
    (testKeeper.genesisCodec.RoundTrip ∧
      testKeeper.genesisCodec.marshal testGenesis = .ok (Wire.genesis.put testGenesis)) ∧
    ((SetConsumerGenesis testKeeper [] (ascii "consu") testGenesis).1 = none ∧
      GetConsumerGenesis testKeeper
        (SetConsumerGenesis testKeeper [] (ascii "consu") testGenesis).2 (ascii "consu")
        = .ok (testGenesis, true) ∧
      (Store.get [] (ConsumerGenesisKey (ascii "consu")) = none →
        GetConsumerGenesis testKeeper [] (ascii "consu") = .ok (zeroGenesis, false)) ∧
      GetConsumerGenesis testKeeper [] (ascii "consu") = .ok (zeroGenesis, false) ∧
      GetConsumerGenesis testKeeper (DeleteConsumerGenesis [] (ascii "consu")) (ascii "consu")
        = .ok (zeroGenesis, false)) :=
  ⟨⟨testKeeper_genesisCodec, rfl⟩,
    GetConsumerGenesis_SetConsumerGenesis testKeeper [] (ascii "consu") testGenesis
      (Wire.genesis.put testGenesis) testKeeper_genesisCodec rfl⟩

/-! ## Registered consumer chains -/

theorem cons_lt_cons_same (a : Nat) (l₁ l₂ : Bytes) : a :: l₁ < a :: l₂ ↔ l₁ < l₂ :=
  List.Lex.cons_iff

theorem isPrefixOf_singleton (a : Nat) (key : Bytes) :
    List.isPrefixOf [a] key = true ↔ ∃ c, key = a :: c := by
  cases key with
  | nil => simp [List.isPrefixOf]
  | cons b rest =>
    simp only [List.isPrefixOf, List.cons.injEq, Bool.and_eq_true, beq_iff_eq]
    constructor
    · rintro ⟨h, _⟩
      exact ⟨rest, h.symm, rfl⟩
    · rintro ⟨c, h, _⟩
      exact ⟨h.symm, trivial⟩

theorem WF_setConsumerClientIds (store : Store) (calls : List (Bytes × Bytes))
    (h : store.WF) : (setConsumerClientIds store calls).WF := by
  induction calls generalizing store with
  | nil => exact h
  | cons c rest ih =>
    exact ih _ (Store.WF_set store _ _ h)

theorem mem_GetAllRegisteredConsumerChainIDs (store : Store) (c : Bytes) :
    c ∈ GetAllRegisteredConsumerChainIDs store ↔ (GetConsumerClientId store c).2 = true := by
  have hget : (GetConsumerClientId store c).2 = true ↔
      (store.get (ChainToClientKey c)).isSome = true := by
    unfold GetConsumerClientId
    cases store.get (ChainToClientKey c) <;> simp
  rw [hget, Store.get_isSome_iff]
  simp only [GetAllRegisteredConsumerChainIDs, Store.prefixIterator, List.mem_map,
    List.mem_filter, isPrefixOf_singleton, ChainToClientKey]
  constructor
  · rintro ⟨e, ⟨he, c', hc'⟩, hdrop⟩
    refine ⟨e, he, ?_⟩
    rw [hc'] at hdrop ⊢
    simpa using hdrop
  · rintro ⟨e, he, hk⟩
    exact ⟨e, ⟨he, c, hk⟩, by rw [hk]; rfl⟩

theorem GetAllRegisteredConsumerChainIDs_sorted (store : Store) (h : store.WF) :
    (GetAllRegisteredConsumerChainIDs store).Pairwise (· < ·) := by
  have hs := Store.prefixIterator_sorted store [ ChainToClientBytePrefix] h
  have hall : ∀ e ∈ store.prefixIterator [ ChainToClientBytePrefix],
      ∃ c, e.1 = ChainToClientBytePrefix :: c := by
    intro e he
    have := (List.mem_filter.1 he).2
    exact (isPrefixOf_singleton _ _).1 this
  unfold GetAllRegisteredConsumerChainIDs
  generalize store.prefixIterator [ ChainToClientBytePrefix] = l at hs hall
  induction l with
  | nil => simp
  | cons e rest ih =>
    simp only [List.map_cons, List.pairwise_cons, List.mem_map, forall_exists_index, and_imp,
      forall_apply_eq_imp_iff₂] at hs ⊢
    refine ⟨?_, ih hs.2 (fun e' he' => hall e' (List.mem_cons_of_mem _ he'))⟩
    intro e' he'
    obtain ⟨c, hc⟩ := hall e (List.mem_cons_self _ _)
    obtain ⟨c', hc'⟩ := hall e' (List.mem_cons_of_mem _ he')
    have hlt := hs.1 e' he'
    rw [hc, hc'] at hlt ⊢
    exact (cons_lt_cons_same _ _ _).1 hlt

/-- C9: after any sequence of `SetConsumerClientId` calls on a store,
`GetAllRegisteredConsumerChainIDs` returns the chain IDs in strictly ascending
lexicographic order, so each at most once, and a chain ID is returned exactly
when the chain has a client binding. -/
theorem GetAllRegisteredConsumerChainIDs_ascending (store : Store)
    (calls : List (Bytes × Bytes)) (h : store.WF) :
    (GetAllRegisteredConsumerChainIDs (setConsumerClientIds store calls)).Pairwise (· < ·) ∧
      (GetAllRegisteredConsumerChainIDs (setConsumerClientIds store calls)).Nodup ∧
      ∀ c, c ∈ GetAllRegisteredConsumerChainIDs (setConsumerClientIds store calls) ↔
        (GetConsumerClientId (setConsumerClientIds store calls) c).2 = true := by
  have hs := GetAllRegisteredConsumerChainIDs_sorted _ (WF_setConsumerClientIds store calls h)
  exact ⟨hs, hs.imp (fun hab => ne_of_lt hab), mem_GetAllRegisteredConsumerChainIDs _⟩

/-- C9 on a concrete input: the four calls of
`TestGetAllRegisteredConsumerChainIDs` on the empty store. -/
theorem GetAllRegisteredConsumerChainIDs_ascending_witness :
    Store.WF [] ∧
    ((GetAllRegisteredConsumerChainIDs (setConsumerClientIds []
        [(ascii "chain-2", ascii "client-4"), (ascii "chain-1", ascii "client-3"),
         (ascii "chain-4", ascii "client-2"), (ascii "chain-3", ascii "client-1")])).Pairwise
        (· < ·) ∧
      (GetAllRegisteredConsumerChainIDs (setConsumerClientIds []
        [(ascii "chain-2", ascii "client-4"), (ascii "chain-1", ascii "client-3"),
         (ascii "chain-4", ascii "client-2"), (ascii "chain-3", ascii "client-1")])).Nodup ∧
      ∀ c, c ∈ GetAllRegisteredConsumerChainIDs (setConsumerClientIds []
        [(ascii "chain-2", ascii "client-4"), (ascii "chain-1", ascii "client-3"),
         (ascii "chain-4", ascii "client-2"), (ascii "chain-3", ascii "client-1")]) ↔
        (GetConsumerClientId (setConsumerClientIds []
        [(ascii "chain-2", ascii "client-4"), (ascii "chain-1", ascii "client-3"),
         (ascii "chain-4", ascii "client-2"), (ascii "chain-3", ascii "client-1")]) c).2
          = true) :=
  ⟨by decide, GetAllRegisteredConsumerChainIDs_ascending [] _ (by decide)⟩

/-- The scenario of `TestGetAllRegisteredConsumerChainIDs`. -/
theorem GetAllRegisteredConsumerChainIDs_test :
    GetAllRegisteredConsumerChainIDs (setConsumerClientIds []
        [(ascii "chain-2", ascii "client-4"), (ascii "chain-1", ascii "client-3"),
         (ascii "chain-4", ascii "client-2"), (ascii "chain-3", ascii "client-1")])
    = [ascii "chain-1", ascii "chain-2", ascii "chain-3", ascii "chain-4"] := by decide

/-! ## Consumer additions -/

theorem PendingClientKey_head (t : Int) (c : Bytes) :
    ∃ rest, PendingClientKey t c = 112 :: rest := ⟨_, rfl⟩

theorem PendingStopProposalKey_head (t : Int) (c : Bytes) :
    ∃ rest, PendingStopProposalKey t c = 112 :: rest := ⟨_, rfl⟩

/-- The keys `CreateConsumerClient` writes: the client binding, the genesis and
the unbonding-lock flag of the chain. Every other key keeps its value. -/
theorem CreateConsumerClient_get_other (k : Keeper) (ctx : Context) (st : State)
    (chainID : Bytes) (initialHeight : Height) (lock : Bool) (err : Option Error) (st' : State)
    (hres : CreateConsumerClient k ctx st chainID initialHeight lock = .ok (err, st'))
    (key : Bytes) (h1 : key ≠ ChainToClientKey chainID) (h2 : key ≠ ConsumerGenesisKey chainID)
    (h3 : key ≠ LockUnbondingOnTimeoutKey chainID) :
    st'.store.get key = st.store.get key := by
  unfold CreateConsumerClient at hres
  simp only at hres
  split at hres
  · injection hres with hres
    injection hres with _ hst
    subst hst
    rfl
  · split at hres
    · cases hres
    · injection hres with hres
      injection hres with _ hst
      subst hst
      simp [SetConsumerClient, SetConsumerClientId, Store.get_set_other _ _ _ _ h1]
    · injection hres with hres
      injection hres with _ hst
      subst hst
      have hgen : ∀ (s : Store) (g : GenesisState),
          (SetConsumerGenesis k s chainID g).2.get key = s.get key := by
        intro s g
        unfold SetConsumerGenesis
        split
        · rfl
        · simp [Store.get_set_other _ _ _ _ h2]
      cases lock
      · simp [hgen, SetConsumerClient, SetConsumerClientId, Store.get_set_other _ _ _ _ h1]
      · simp [hgen, SetLockUnbondingOnTimeout, SetConsumerClient, SetConsumerClientId,
          Store.get_set_other _ _ _ _ h1, Store.get_set_other _ _ _ _ h3]

/-- When the client keeper creates the client, `CreateConsumerClient` binds the
chain to the new client ID, whatever it returns. -/
theorem CreateConsumerClient_binds (k : Keeper) (ctx : Context) (st : State)
    (chainID : Bytes) (initialHeight : Height) (lock : Bool) (err : Option Error) (st' : State)
    (clientID : Bytes)
    (hcreate : k.CreateClient (newClientState k chainID initialHeight) (newConsensusState ctx)
      = .ok clientID)
    (hres : CreateConsumerClient k ctx st chainID initialHeight lock = .ok (err, st')) :
    GetConsumerClientId st'.store chainID = (clientID, true) := by
  unfold CreateConsumerClient at hres
  simp only [hcreate] at hres
  have hkey2 : ChainToClientKey chainID ≠ ConsumerGenesisKey chainID := by
    simp [ChainToClientKey, ConsumerGenesisKey, ChainToClientBytePrefix,
      ConsumerGenesisBytePrefix]
  have hkey3 : ChainToClientKey chainID ≠ LockUnbondingOnTimeoutKey chainID := by
    simp [ChainToClientKey, LockUnbondingOnTimeoutKey, ChainToClientBytePrefix,
      LockUnbondingOnTimeoutBytePrefix]
  split at hres
  · cases hres
  · injection hres with hres
    injection hres with _ hst
    subst hst
    simp [GetConsumerClientId, SetConsumerClient, SetConsumerClientId, Store.get_set_same]
  · injection hres with hres
    injection hres with _ hst
    subst hst
    have hgen : ∀ (s : Store) (g : GenesisState),
        (SetConsumerGenesis k s chainID g).2.get (ChainToClientKey chainID)
          = s.get (ChainToClientKey chainID) := by
      intro s g
      unfold SetConsumerGenesis
      split
      · rfl
      · simp [Store.get_set_other _ _ _ _ hkey2]
    cases lock
    · simp [GetConsumerClientId, hgen, SetConsumerClient, SetConsumerClientId,
        Store.get_set_same]
    · simp [GetConsumerClientId, hgen, SetLockUnbondingOnTimeout, SetConsumerClient,
        SetConsumerClientId, Store.get_set_same, Store.get_set_other _ _ _ _ hkey3]

/-- `CreateConsumerClient` returns unless `MakeConsumerGenesis` panics. -/
theorem CreateConsumerClient_returns (k : Keeper) (ctx : Context) (st : State)
    (chainID : Bytes) (initialHeight : Height) (lock : Bool)
    (r : GenesisState × Option Error) (hgen : MakeConsumerGenesis k ctx = .ok r) :
    ∃ err st', CreateConsumerClient k ctx st chainID initialHeight lock = .ok (err, st') := by
  unfold CreateConsumerClient
  simp only [hgen]
  split
  · exact ⟨_, _, rfl⟩
  · obtain ⟨g, e⟩ := r
    cases e
    · exact ⟨_, _, rfl⟩
    · exact ⟨_, _, rfl⟩

/-- C7, as amended: a proposal whose spawn time is before the block time is
handed to `CreateConsumerClient` in the same call; the call returns (genesis
generation not panicking), leaves every pending-client entry as it was and,
when the client keeper creates the client, leaves the chain bound to the new
client ID. A proposal whose spawn time is not before the block time is only
stored, marshalled, under its `(spawnTime, chainID)` pending key: no call is
made to the client keeper and every client binding is as it was. -/
theorem CreateConsumerChainProposal_dispatch (k : Keeper) (ctx : Context) (st : State)
    (p : types.CreateConsumerChainProposal) (r : GenesisState × Option Error) (bz : Bytes)
    (hgen : MakeConsumerGenesis k ctx = .ok r) (hm : k.cdc.marshal p = .ok bz) :
    (ctx.BlockTime > p.SpawnTime →
      ∃ err st', CreateConsumerChainProposal k ctx st p = .ok (err, st') ∧
        (∀ t c, st'.store.get (PendingClientKey t c) = st.store.get (PendingClientKey t c)) ∧
        (∀ clientID,
          k.CreateClient (newClientState k p.ChainId p.InitialHeight) (newConsensusState ctx)
            = .ok clientID →
          GetConsumerClientId st'.store p.ChainId = (clientID, true))) ∧
    (¬ ctx.BlockTime > p.SpawnTime →
      CreateConsumerChainProposal k ctx st p
        = .ok (none, { st with store := st.store.set (PendingClientKey p.SpawnTime p.ChainId) bz }) ∧
      (st.store.set (PendingClientKey p.SpawnTime p.ChainId) bz).get
        (PendingClientKey p.SpawnTime p.ChainId) = some bz ∧
      ∀ c, GetConsumerClientId (st.store.set (PendingClientKey p.SpawnTime p.ChainId) bz) c
        = GetConsumerClientId st.store c) := by
  refine ⟨?_, ?_⟩
  · intro hpast
    obtain ⟨err, st', hres⟩ :=
      CreateConsumerClient_returns k ctx st p.ChainId p.InitialHeight p.LockUnbondingOnTimeout
        r hgen
    refine ⟨err, st', by simp [CreateConsumerChainProposal, hpast, hres], ?_, ?_⟩
    · intro t c
      obtain ⟨rest, hkey⟩ := PendingClientKey_head t c
      refine CreateConsumerClient_get_other k ctx st _ _ _ err st' hres _ ?_ ?_ ?_ <;>
        simp [hkey, ChainToClientKey, ConsumerGenesisKey, LockUnbondingOnTimeoutKey,
          ChainToClientBytePrefix, ConsumerGenesisBytePrefix, LockUnbondingOnTimeoutBytePrefix]
    · intro clientID hcreate
      exact CreateConsumerClient_binds k ctx st _ _ _ err st' clientID hcreate hres
  · intro hfuture
    refine ⟨by simp [CreateConsumerChainProposal, hfuture, SetPendingClientInfo, hm],
      Store.get_set_same _ _ _, ?_⟩
    intro c
    obtain ⟨rest, hkey⟩ := PendingClientKey_head p.SpawnTime p.ChainId
    have hne : ChainToClientKey c ≠ PendingClientKey p.SpawnTime p.ChainId := by
      simp [hkey, ChainToClientKey, ChainToClientBytePrefix]
    simp [GetConsumerClientId, Store.get_set_other _ _ _ _ hne]

/-- C7, a client keeper that refuses: the spawn time of the proposal is before
the block time, the call returns the error of the client keeper, and afterwards
the chain `consu` has no client binding; the store is still empty. -/
theorem CreateConsumerChainProposal_refused :
    testCtx.BlockTime > pastProposal.SpawnTime ∧
    CreateConsumerChainProposal failingClientKeeper testCtx emptyState pastProposal
      = .ok (some (.external "invalid client state"),
          { store := [],
            calls := [.CreateClient (newClientState failingClientKeeper (ascii "consu")
              pastProposal.InitialHeight) (newConsensusState testCtx)],
            events := [] }) ∧
    GetConsumerClientId [] (ascii "consu") = ([], false) := by
  decide

/-- C7, as amended, on concrete inputs: a proposal with a spawn time before the
block time and one with a spawn time after it. -/
theorem CreateConsumerChainProposal_dispatch_witness :
    (MakeConsumerGenesis testKeeper testCtx
        = .ok ({ Enabled := true, NewChain := true,
                 ProviderClientState := some
                   { testKeeper.TemplateClient with
                     ChainId := ascii "provider-1",
                     LatestHeight := { RevisionNumber := 1, RevisionHeight := 10 },
                     TrustingPeriod := 907200000000000, UnbondingPeriod := 1814400000000000 },
                 ProviderConsensusState := some
                   { Timestamp := 0, Root := [], NextValidatorsHash := [] },
                 InitialValSet := [] }, none) ∧
      testKeeper.cdc.marshal pastProposal = .ok (Wire.proposal.put pastProposal) ∧
      testKeeper.cdc.marshal futureProposal = .ok (Wire.proposal.put futureProposal) ∧
      testCtx.BlockTime > pastProposal.SpawnTime ∧
      ¬ testCtx.BlockTime > futureProposal.SpawnTime) ∧
    (∃ err st', CreateConsumerChainProposal testKeeper testCtx emptyState pastProposal
        = .ok (err, st') ∧
      (∀ t c, st'.store.get (PendingClientKey t c)
        = emptyState.store.get (PendingClientKey t c)) ∧
      (∀ clientID,
        testKeeper.CreateClient
            (newClientState testKeeper pastProposal.ChainId pastProposal.InitialHeight)
            (newConsensusState testCtx) = .ok clientID →
        GetConsumerClientId st'.store pastProposal.ChainId = (clientID, true))) ∧
    (CreateConsumerChainProposal testKeeper testCtx emptyState futureProposal
        = .ok (none, { emptyState with
            store := emptyState.store.set
              (PendingClientKey futureProposal.SpawnTime futureProposal.ChainId)
              (Wire.proposal.put futureProposal) }) ∧
      (emptyState.store.set (PendingClientKey futureProposal.SpawnTime futureProposal.ChainId)
          (Wire.proposal.put futureProposal)).get
        (PendingClientKey futureProposal.SpawnTime futureProposal.ChainId)
        = some (Wire.proposal.put futureProposal) ∧
      ∀ c, GetConsumerClientId
          (emptyState.store.set
            (PendingClientKey futureProposal.SpawnTime futureProposal.ChainId)
            (Wire.proposal.put futureProposal)) c
        = GetConsumerClientId emptyState.store c) :=
  ⟨⟨by decide, rfl, rfl, by decide, by decide⟩,
    (CreateConsumerChainProposal_dispatch testKeeper testCtx emptyState pastProposal _ _
      rfl rfl).1 (by decide),
    (CreateConsumerChainProposal_dispatch testKeeper testCtx emptyState futureProposal _ _
      rfl rfl).2 (by decide)⟩

/-! ## The scans over the pending proposals -/

theorem Split_append_sep (sep : Nat) (p rest : Bytes) (hp : sep ∉ p) :
    Split sep (p ++ sep :: rest) = p :: Split sep rest := by
  induction p with
  | nil => simp [Split]
  | cons b p ih =>
    have hb : b ≠ sep := fun h => hp (h ▸ List.mem_cons_self _ _)
    have hp' : sep ∉ p := fun h => hp (List.mem_cons_of_mem _ h)
    simp [Split, hb, ih hp']

/-- What `strings.Split(key, "/")[0]` is for the key of an entry the iterator
over a namespace yields: the namespace, whatever follows it in the key. -/
theorem Split_namespace (ns key : Bytes) (hns : slash ∉ ns)
    (hkey : (ns ++ [slash]).isPrefixOf key = true) :
    (Split slash key).getD 0 [] = ns := by
  obtain ⟨t, ht⟩ := List.isPrefixOf_iff_prefix.1 hkey
  subst ht
  simp [Split_append_sep slash ns t hns]

/-- The time `IteratePendingClientInfo` decodes from the key of an entry: the
first 8 bytes of the namespace `pendingclient`, the same for every entry of
every store. -/
theorem pendingClient_decoded_time (store : Store) (e : Bytes × Bytes)
    (he : e ∈ store.prefixIterator ( PendingClientKeyPrefix ++ [slash])) :
    Uint64 ((Split slash e.1).getD 0 []) = some 8099000882440333155 := by
  have hpre := (List.mem_filter.1 he).2
  rw [Split_namespace PendingClientKeyPrefix e.1 (by decide) hpre]
  decide

/-- The time `IteratePendingStopProposal` decodes from the key of an entry: the
first 8 bytes of the namespace `pendingstopproposal`. -/
theorem pendingStop_decoded_time (store : Store) (e : Bytes × Bytes)
    (he : e ∈ store.prefixIterator ( PendingStopProposalKeyPrefix ++ [slash])) :
    Uint64 ((Split slash e.1).getD 0 []) = some 8099000882440333171 := by
  have hpre := (List.mem_filter.1 he).2
  rw [Split_namespace PendingStopProposalKeyPrefix e.1 (by decide) hpre]
  decide

/-- C3, a pending addition that is not yet due: the store holds one pending
addition, stored by `SetPendingClientInfo` for the chain `consu` with a spawn
time after the block time. `IteratePendingClientInfo` takes the key namespace
for the time and the 8 time bytes for the chain ID, and calls
`CreateConsumerClient`: the client keeper is asked for a client and a chain
named by the time bytes gets a client binding. -/
theorem IteratePendingClientInfo_not_due :
    lateCtx.BlockTime < laterProposal.SpawnTime ∧
    pendingState.store
      = [(PendingClientKey laterProposal.SpawnTime (ascii "consu"),
          Wire.proposal.put laterProposal)] ∧
    (IteratePendingClientInfo testKeeper lateCtx pendingState).map (fun st => st.calls)
      = .ok [.CreateClient
          (newClientState testKeeper (PutUint64 8200000000000000000)
            laterProposal.InitialHeight)
          (newConsensusState lateCtx)] ∧
    (IteratePendingClientInfo testKeeper lateCtx pendingState).map
        (fun st => GetConsumerClientId st.store (PutUint64 8200000000000000000))
      = .ok (ascii "07-tendermint-0", true) := by
  decide

/-! ## Unbonding operations -/

theorem PutUint64_injective (a b : Nat) (ha : a < 2 ^ 64) (hb : b < 2 ^ 64)
    (h : PutUint64 a = PutUint64 b) : a = b := by
  have h' := congrArg Uint64 h
  rw [Uint64_PutUint64 a ha, Uint64_PutUint64 b hb] at h'
  exact Option.some.inj h'

theorem UnbondingOpKey_ne (a b : Nat) (ha : a < 2 ^ 64) (hb : b < 2 ^ 64) (h : a ≠ b) :
    UnbondingOpKey a ≠ UnbondingOpKey b := by
  intro hk
  apply h
  apply PutUint64_injective a b ha hb
  simpa [UnbondingOpKey] using hk

theorem isPrefixOf_head_ne (a b : Nat) (p k : Bytes) (h : a ≠ b) :
    (a :: p).isPrefixOf (b :: k) = false := by
  simp [List.isPrefixOf, h]

namespace Store

theorem prefixIterator_delete (s : Store) (k p : Bytes) (h : p.isPrefixOf k = false) :
    prefixIterator (delete s k) p = prefixIterator s p := by
  unfold prefixIterator delete
  rw [List.filter_filter]
  apply List.filter_congr
  intro e _
  by_cases he : e.1 = k
  · simp [he, h]
  · simp [he]

theorem prefixIterator_set (s : Store) (k v p : Bytes) (h : p.isPrefixOf k = false) :
    prefixIterator (set s k v) p = prefixIterator s p := by
  induction s with
  | nil => simp [set, prefixIterator, h]
  | cons e rest ih =>
    obtain ⟨k', v'⟩ := e
    unfold prefixIterator at ih ⊢
    by_cases h1 : k = k'
    · subst h1
      simp [set, List.filter_cons, h]
    · by_cases h2 : k < k'
      · simp [set, h1, h2, List.filter_cons, h]
      · simp only [set, h1, h2, if_false, List.filter_cons, ih]

end Store

theorem sameUnbonding_refl (s : Store) : sameUnbonding s s := ⟨fun _ => rfl, fun _ => rfl⟩

theorem sameUnbonding_trans {s₁ s₂ s₃ : Store} (h₁ : sameUnbonding s₁ s₂)
    (h₂ : sameUnbonding s₂ s₃) : sameUnbonding s₁ s₃ :=
  ⟨fun id => (h₂.1 id).trans (h₁.1 id), fun c => (h₂.2 c).trans (h₁.2 c)⟩

/-- Deleting a key outside the two unbonding namespaces leaves the unbonding
operations and their index as they were. -/
theorem sameUnbonding_delete (s : Store) (b : Nat) (rest : Bytes)
    (h11 : b ≠ UnbondingOpBytePrefix) (h12 : b ≠ UnbondingOpIndexBytePrefix) :
    sameUnbonding s (s.delete (b :: rest)) := by
  refine ⟨fun id => ?_, fun c => ?_⟩
  · apply Store.get_delete_other
    simp only [UnbondingOpKey, ne_eq, List.cons.injEq, not_and]
    intro h
    exact absurd h.symm h11
  · apply Store.prefixIterator_delete
    exact isPrefixOf_head_ne _ _ _ _ (fun h => h12 h.symm)

theorem stopCleanup_sameUnbonding (k : Keeper) (st : State) (chainID : Bytes)
    (closeChan : Bool) : sameUnbonding st.store (stopCleanup k st chainID closeChan).store := by
  have d : ∀ (s : Store) (b : Nat) (rest : Bytes), b ≠ UnbondingOpBytePrefix →
      b ≠ UnbondingOpIndexBytePrefix → sameUnbonding s (s.delete (b :: rest)) :=
    sameUnbonding_delete
  have h1 := d st.store ChainToClientBytePrefix chainID (by decide) (by decide)
  have h2 := d (st.store.delete ( ChainToClientBytePrefix :: chainID))
    LockUnbondingOnTimeoutBytePrefix chainID (by decide) (by decide)
  have h12 := sameUnbonding_trans h1 h2
  unfold stopCleanup
  simp only [DeleteConsumerClient, DeleteConsumerClientId, DeleteLockUnbondingOnTimeout,
    ChainToClientKey, LockUnbondingOnTimeoutKey, DeleteInitChainHeight, InitChainHeightKey]
  split
  · rename_i channelID _
    have hstore : ∀ s : State, (chanCloseInit k s channelID).2.store = s.store := fun _ => rfl
    have hclose : ∀ s : State, (CloseChannel k s channelID).store = s.store := by
      intro s
      unfold CloseChannel
      split
      · split
        · rfl
        · rfl
      · rfl
    have hsa : ∀ s : State,
        (if closeChan = true then CloseChannel k s channelID else s).store = s.store := by
      intro s
      cases closeChan
      · rfl
      · simp [hclose]
    simp only [hstore, hsa, DeleteChainToChannel, DeleteChannelToChain, ChainToChannelKey,
      ChannelToChainKey]
    exact sameUnbonding_trans (sameUnbonding_trans (sameUnbonding_trans h12
      (d _ ChainToChannelBytePrefix chainID (by decide) (by decide)))
      (d _ ChannelToChainBytePrefix channelID (by decide) (by decide)))
      (d _ InitChainHeightBytePrefix chainID (by decide) (by decide))
  · exact sameUnbonding_trans h12 (d _ InitChainHeightBytePrefix chainID (by decide) (by decide))

theorem chanCloseInit_count (k : Keeper) (s : State) (channelID : Bytes) (id : Nat) :
    (chanCloseInit k s channelID).2.calls.count (.UnbondingCanComplete id)
      = s.calls.count (.UnbondingCanComplete id) := by
  simp [chanCloseInit, List.count_append]

theorem CloseChannel_count (k : Keeper) (s : State) (channelID : Bytes) (id : Nat) :
    (CloseChannel k s channelID).calls.count (.UnbondingCanComplete id)
      = s.calls.count (.UnbondingCanComplete id) := by
  unfold CloseChannel
  split
  · split
    · rfl
    · exact chanCloseInit_count k s channelID id
  · rfl

/-- The first part of `StopConsumerChain` makes no call to the staking keeper. -/
theorem stopCleanup_count (k : Keeper) (st : State) (chainID : Bytes) (closeChan : Bool)
    (id : Nat) :
    (stopCleanup k st chainID closeChan).calls.count (.UnbondingCanComplete id)
      = st.calls.count (.UnbondingCanComplete id) := by
  unfold stopCleanup
  simp only
  split
  · cases closeChan
    · simp [chanCloseInit_count]
    · simp [chanCloseInit_count, CloseChannel_count]
  · rfl

theorem GetUnbondingOp_congr (k : Keeper) (s s' : Store) (id : Nat)
    (h : s'.get (UnbondingOpKey id) = s.get (UnbondingOpKey id)) :
    GetUnbondingOp k s' id = GetUnbondingOp k s id := by
  unfold GetUnbondingOp
  rw [h]

theorem count_append_other (calls : List Call) (id j : Nat) (h : j ≠ id) :
    (calls ++ [Call.UnbondingCanComplete id]).count (.UnbondingCanComplete j)
      = calls.count (.UnbondingCanComplete j) := by
  have hne : Call.UnbondingCanComplete id ≠ Call.UnbondingCanComplete j := by
    intro hc
    injection hc with hc
    exact h hc.symm
  simp [List.count_append, List.count_singleton, hne]

theorem count_append_same (calls : List Call) (id : Nat) :
    (calls ++ [Call.UnbondingCanComplete id]).count (.UnbondingCanComplete id)
      = calls.count (.UnbondingCanComplete id) + 1 := by
  simp [List.count_append, List.count_singleton]

/-- The loop of the callback over the operations of one VSC ID, when every
listed operation is stored under its ID, is listed once, and is accepted by the
staking keeper: the loop runs to its end without error; it leaves the index and
the operations that are not listed as they were, and each listed operation whose
wait-set becomes empty is completed once and its record deleted. -/
theorem releaseUnbondingOps_spec (k : Keeper) (chainID : Bytes)
    (htot : k.unbondingOpCodec.Total) :
    ∀ (ids : List Nat) (st : State),
      ids.Nodup →
      (∀ id ∈ ids, id < 2 ^ 64 ∧
        ∃ op, GetUnbondingOp k st.store id = .ok (op, true) ∧ op.Id = id) →
      (∀ id ∈ ids, k.UnbondingCanComplete id = none) →
      ∃ st', releaseUnbondingOps k chainID ids (none, st) = .ok (true, (none, st')) ∧
        (∀ c, st'.store.prefixIterator (UnbondingOpIndexChainKey c)
          = st.store.prefixIterator (UnbondingOpIndexChainKey c)) ∧
        (∀ id, id < 2 ^ 64 → id ∉ ids →
          st'.store.get (UnbondingOpKey id) = st.store.get (UnbondingOpKey id)) ∧
        (∀ id, id ∉ ids → st'.calls.count (.UnbondingCanComplete id)
          = st.calls.count (.UnbondingCanComplete id)) ∧
        (∀ id ∈ ids, ∀ op, GetUnbondingOp k st.store id = .ok (op, true) →
          (removeStringFromSlice op.UnbondingConsumerChains chainID).1 = [] →
          st'.store.get (UnbondingOpKey id) = none ∧
          st'.calls.count (.UnbondingCanComplete id)
            = st.calls.count (.UnbondingCanComplete id) + 1) := by
  intro ids
  induction ids with
  | nil =>
    intro st _ _ _
    exact ⟨st, rfl, fun _ => rfl, fun _ _ _ => rfl, fun _ _ => rfl,
      fun id hid => absurd hid (List.not_mem_nil id)⟩
  | cons id rest ih =>
    intro st hnd hfound hacc
    have hnotin : id ∉ rest := (List.nodup_cons.1 hnd).1
    have hnd' : rest.Nodup := (List.nodup_cons.1 hnd).2
    obtain ⟨hlt, op, hget, hid⟩ := hfound id (List.mem_cons_self _ _)
    have hacc' : ∀ j ∈ rest, k.UnbondingCanComplete j = none :=
      fun j hj => hacc j (List.mem_cons_of_mem _ hj)
    have hkey : ∀ j ∈ rest, UnbondingOpKey j ≠ UnbondingOpKey id := by
      intro j hj
      exact UnbondingOpKey_ne j id (hfound j (List.mem_cons_of_mem _ hj)).1 hlt
        (fun h => hnotin (h ▸ hj))
    by_cases hlen : (removeStringFromSlice op.UnbondingConsumerChains chainID).1.length = 0
    · -- the wait-set is empty: the operation is completed and deleted
      obtain ⟨st', hrun, h1, h2, h3, h4⟩ := ih
        { store := st.store.delete (UnbondingOpKey id),
          calls := st.calls ++ [.UnbondingCanComplete id], events := st.events }
        hnd'
        (fun j hj => by
          obtain ⟨hj1, opj, hj2, hj3⟩ := hfound j (List.mem_cons_of_mem _ hj)
          refine ⟨hj1, opj, ?_, hj3⟩
          rw [GetUnbondingOp_congr k st.store _ j
            (Store.get_delete_other _ _ _ (hkey j hj))]
          exact hj2)
        hacc'
      refine ⟨st', ?_, ?_, ?_, ?_, ?_⟩
      · rw [releaseUnbondingOps]
        simp only [hget, hlen, if_true, hid, hacc id (List.mem_cons_self _ _),
          DeleteUnbondingOp]
        exact hrun
      · intro c
        rw [h1 c]
        exact Store.prefixIterator_delete _ _ _ (isPrefixOf_head_ne _ _ _ _ (by decide))
      · intro j hj hjn
        rw [h2 j hj (fun h => hjn (List.mem_cons_of_mem _ h))]
        exact Store.get_delete_other _ _ _
          (UnbondingOpKey_ne j id hj hlt (fun h => hjn (h ▸ List.mem_cons_self _ _)))
      · intro j hjn
        rw [h3 j (fun h => hjn (List.mem_cons_of_mem _ h))]
        exact count_append_other _ _ _ (fun h => hjn (h ▸ List.mem_cons_self _ _))
      · intro j hj opj hgetj hempty
        rcases List.mem_cons.1 hj with hj | hj
        · subst hj
          refine ⟨?_, ?_⟩
          · rw [h2 j hlt hnotin]
            exact Store.get_delete_same _ _
          · rw [h3 j hnotin]
            exact count_append_same _ _
        · have hgetj' : GetUnbondingOp k (st.store.delete (UnbondingOpKey id)) j
              = .ok (opj, true) := by
            rw [GetUnbondingOp_congr k st.store _ j
              (Store.get_delete_other _ _ _ (hkey j hj))]
            exact hgetj
          obtain ⟨hg, hc⟩ := h4 j hj opj hgetj' hempty
          refine ⟨hg, ?_⟩
          rw [hc]
          simp only [Nat.add_right_cancel_iff]
          exact count_append_other _ _ _ (fun h => hnotin (h ▸ hj))
    · -- the wait-set is not empty: the shrunk operation is stored
      obtain ⟨bz, hbz⟩ := htot { op with UnbondingConsumerChains :=
        (removeStringFromSlice op.UnbondingConsumerChains chainID).1 }
      obtain ⟨st', hrun, h1, h2, h3, h4⟩ := ih
        { st with store := st.store.set (UnbondingOpKey id) bz }
        hnd'
        (fun j hj => by
          obtain ⟨hj1, opj, hj2, hj3⟩ := hfound j (List.mem_cons_of_mem _ hj)
          refine ⟨hj1, opj, ?_, hj3⟩
          rw [GetUnbondingOp_congr k st.store _ j
            (Store.get_set_other _ _ _ _ (hkey j hj))]
          exact hj2)
        hacc'
      refine ⟨st', ?_, ?_, ?_, ?_, ?_⟩
      · have hbz' := hbz
        simp only [hid] at hbz'
        rw [releaseUnbondingOps]
        simp only [hget, hlen, if_false, SetUnbondingOp, hbz', hid]
        exact hrun
      · intro c
        rw [h1 c]
        exact Store.prefixIterator_set _ _ _ _ (isPrefixOf_head_ne _ _ _ _ (by decide))
      · intro j hj hjn
        rw [h2 j hj (fun h => hjn (List.mem_cons_of_mem _ h))]
        exact Store.get_set_other _ _ _ _
          (UnbondingOpKey_ne j id hj hlt (fun h => hjn (h ▸ List.mem_cons_self _ _)))
      · intro j hjn
        exact h3 j (fun h => hjn (List.mem_cons_of_mem _ h))
      · intro j hj opj hgetj hempty
        rcases List.mem_cons.1 hj with hj | hj
        · subst hj
          rw [hget] at hgetj
          injection hgetj with hgetj
          injection hgetj with hop _
          subst hop
          rw [hempty] at hlen
          exact absurd rfl hlen
        · have hgetj' : GetUnbondingOp k (st.store.set (UnbondingOpKey id) bz) j
              = .ok (opj, true) := by
            rw [GetUnbondingOp_congr k st.store _ j
              (Store.get_set_other _ _ _ _ (hkey j hj))]
            exact hgetj
          exact h4 j hj opj hgetj' hempty

/-- The first part of `StopConsumerChain` writes only under the namespaces of
the client binding, the unbonding-lock flag, the two channel bindings and the
init height: a key under another namespace keeps its value. -/
theorem stopCleanup_get_other (k : Keeper) (st : State) (chainID : Bytes) (closeChan : Bool)
    (b : Nat) (rest : Bytes) (h5 : b ≠ ChainToChannelBytePrefix)
    (h6 : b ≠ ChannelToChainBytePrefix) (h7 : b ≠ ChainToClientBytePrefix)
    (h16 : b ≠ InitChainHeightBytePrefix) (h18 : b ≠ LockUnbondingOnTimeoutBytePrefix) :
    (stopCleanup k st chainID closeChan).store.get (b :: rest) = st.store.get (b :: rest) := by
  have d : ∀ (s : Store) (b' : Nat) (rest' : Bytes), b ≠ b' →
      (s.delete (b' :: rest')).get (b :: rest) = s.get (b :: rest) := by
    intro s b' rest' hne
    apply Store.get_delete_other
    simp only [ne_eq, List.cons.injEq, not_and]
    intro h
    exact absurd h hne
  unfold stopCleanup
  simp only [DeleteConsumerClient, DeleteConsumerClientId, DeleteLockUnbondingOnTimeout,
    ChainToClientKey, LockUnbondingOnTimeoutKey, DeleteInitChainHeight, InitChainHeightKey]
  split
  · rename_i channelID _
    have hstore : ∀ s : State, (chanCloseInit k s channelID).2.store = s.store := fun _ => rfl
    have hclose : ∀ s : State, (CloseChannel k s channelID).store = s.store := by
      intro s
      unfold CloseChannel
      split
      · split
        · rfl
        · rfl
      · rfl
    have hsa : ∀ s : State,
        (if closeChan = true then CloseChannel k s channelID else s).store = s.store := by
      intro s
      cases closeChan
      · rfl
      · simp [hclose]
    simp only [hstore, hsa, DeleteChainToChannel, DeleteChannelToChain, ChainToChannelKey,
      ChannelToChainKey]
    rw [d _ _ _ h16, d _ _ _ h6, d _ _ _ h5, d _ _ _ h18, d _ _ _ h7]
  · simp only []
    rw [d _ _ _ h16, d _ _ _ h18, d _ _ _ h7]

theorem iterateIndexEntries_eq_walkIndex {σ : Type} (k : Keeper) (chainID : Bytes)
    (cb : σ → Nat → List Nat → Except String (Bool × σ)) :
    ∀ (entries : List (Bytes × Bytes)) (idx : List (Nat × List Nat)) (acc : σ),
      decodeIndexEntries k chainID entries = .ok idx →
      iterateIndexEntries k chainID cb entries acc = walkIndex cb idx acc := by
  intro entries
  induction entries with
  | nil =>
    intro idx acc h
    simp only [decodeIndexEntries, Except.ok.injEq] at h
    subst h
    rfl
  | cons e rest ih =>
    intro idx acc h
    obtain ⟨key, value⟩ := e
    unfold decodeIndexEntries at h
    unfold iterateIndexEntries
    split at h
    · cases h
    · rename_i vscID hvsc
      split at h
      · cases h
      · rename_i ids hids
        split at h
        · cases h
        · rename_i idx' hidx'
          injection h with h
          subst h
          simp only [hvsc, hids, walkIndex]
          split
          · rfl
          · exact ih idx' _ hidx'
          · rfl

/-- The walk of `StopConsumerChain` over a decoded index, when every listed
operation is stored under its ID, is listed once, and is accepted by the
staking keeper: the walk runs to its end without error; each listed operation
whose wait-set becomes empty is completed once and its record deleted. -/
theorem walkIndex_stopCallback_spec (k : Keeper) (chainID : Bytes)
    (htot : k.unbondingOpCodec.Total) :
    ∀ (idx : List (Nat × List Nat)) (st : State),
      (indexedIds idx).Nodup →
      (∀ id ∈ indexedIds idx, id < 2 ^ 64 ∧
        ∃ op, GetUnbondingOp k st.store id = .ok (op, true) ∧ op.Id = id) →
      (∀ id ∈ indexedIds idx, k.UnbondingCanComplete id = none) →
      ∃ st', walkIndex (stopCallback k chainID) idx (none, st) = .ok (none, st') ∧
        (∀ id, id < 2 ^ 64 → id ∉ indexedIds idx →
          st'.store.get (UnbondingOpKey id) = st.store.get (UnbondingOpKey id)) ∧
        (∀ id, id ∉ indexedIds idx → st'.calls.count (.UnbondingCanComplete id)
          = st.calls.count (.UnbondingCanComplete id)) ∧
        (∀ id ∈ indexedIds idx, ∀ op, GetUnbondingOp k st.store id = .ok (op, true) →
          (removeStringFromSlice op.UnbondingConsumerChains chainID).1 = [] →
          st'.store.get (UnbondingOpKey id) = none ∧
          st'.calls.count (.UnbondingCanComplete id)
            = st.calls.count (.UnbondingCanComplete id) + 1) := by
  intro idx
  induction idx with
  | nil =>
    intro st _ _ _
    exact ⟨st, rfl, fun _ _ _ => rfl, fun _ _ => rfl,
      fun id hid => absurd hid (List.not_mem_nil id)⟩
  | cons e rest ih =>
    intro st hnd hfound hacc
    obtain ⟨vscID, ids⟩ := e
    have hall : indexedIds ((vscID, ids) :: rest) = ids ++ indexedIds rest := by
      simp [indexedIds]
    rw [hall] at hnd hfound hacc
    obtain ⟨hnd1, hnd2, hdisj⟩ := List.nodup_append.1 hnd
    obtain ⟨st1, hrun1, _, a2, a3, a4⟩ := releaseUnbondingOps_spec k chainID htot ids st hnd1
      (fun id hid => hfound id (List.mem_append_left _ hid))
      (fun id hid => hacc id (List.mem_append_left _ hid))
    have hdel : ∀ id, (DeleteUnbondingOpIndex st1.store chainID vscID).get (UnbondingOpKey id)
        = st1.store.get (UnbondingOpKey id) := by
      intro id
      apply Store.get_delete_other
      simp [UnbondingOpKey, UnbondingOpIndexKey, UnbondingOpIndexChainKey,
        UnbondingOpBytePrefix, UnbondingOpIndexBytePrefix]
    have hnotin : ∀ j ∈ indexedIds rest, j ∉ ids := fun j hj hj' => hdisj hj' hj
    obtain ⟨st', hrun, b1, b2, b3⟩ := ih
      { st1 with store := DeleteUnbondingOpIndex st1.store chainID vscID } hnd2
      (fun j hj => by
        obtain ⟨hj1, opj, hj2, hj3⟩ := hfound j (List.mem_append_right _ hj)
        refine ⟨hj1, opj, ?_, hj3⟩
        rw [GetUnbondingOp_congr k st.store _ j
          ((hdel j).trans (a2 j hj1 (hnotin j hj)))]
        exact hj2)
      (fun id hid => hacc id (List.mem_append_right _ hid))
    refine ⟨st', ?_, ?_, ?_, ?_⟩
    · simp only [walkIndex, stopCallback, hrun1]
      exact hrun
    · intro j hj hjn
      rw [hall] at hjn
      rw [b1 j hj (fun h => hjn (List.mem_append_right _ h)), hdel j,
        a2 j hj (fun h => hjn (List.mem_append_left _ h))]
    · intro j hjn
      rw [hall] at hjn
      rw [b2 j (fun h => hjn (List.mem_append_right _ h))]
      exact a3 j (fun h => hjn (List.mem_append_left _ h))
    · intro j hj opj hgetj hempty
      rw [hall] at hj
      have hj1 : j < 2 ^ 64 := (hfound j hj).1
      rcases List.mem_append.1 hj with hj | hj
      · obtain ⟨hg, hc⟩ := a4 j hj opj hgetj hempty
        have hjr : j ∉ indexedIds rest := fun h => hdisj hj h
        refine ⟨?_, ?_⟩
        · rw [b1 j hj1 hjr, hdel j]
          exact hg
        · rw [b2 j hjr]
          exact hc
      · have hji : j ∉ ids := hnotin j hj
        have hgetj' : GetUnbondingOp k (DeleteUnbondingOpIndex st1.store chainID vscID) j
            = .ok (opj, true) := by
          rw [GetUnbondingOp_congr k st.store _ j ((hdel j).trans (a2 j hj1 hji))]
          exact hgetj
        obtain ⟨hg, hc⟩ := b3 j hj opj hgetj' hempty
        refine ⟨hg, ?_⟩
        rw [hc]
        simp only [Nat.add_right_cancel_iff]
        exact a3 j hji

theorem EmptySlashAcks_sameUnbonding (k : Keeper) (store : Store) (chainID : Bytes)
    (L : List Bytes) (hL : GetSlashAcks k store chainID = .ok L) :
    ∃ store', EmptySlashAcks k store chainID = .ok (L, store') ∧ sameUnbonding store store' := by
  unfold EmptySlashAcks ConsumeSlashAcks
  simp only [hL]
  by_cases hlen : L.length < 1
  · exact ⟨store, by simp [hlen], sameUnbonding_refl store⟩
  · exact ⟨store.delete (SlashAcksKey chainID), by simp [hlen],
      sameUnbonding_delete store SlashAcksBytePrefix chainID (by decide) (by decide)⟩

/-- C8, as amended: when every operation the unbonding-op index of chain `C`
lists is stored under its own ID and is listed once, and the staking keeper
accepts the completions, `StopConsumerChain(C, lockUbd = false, closeChan)`
returns no error, and for every listed operation whose wait-set is exactly
`[C]` it calls `UnbondingCanComplete` exactly once and deletes the record, so
that `GetUnbondingOp` then finds nothing. (The slash acks of the chain are
assumed to unmarshal and the codec of the operations to marshal every
operation; the call panics otherwise.) -/
theorem StopConsumerChain_completes_unbonding (k : Keeper) (st : State) (C : Bytes)
    (closeChan : Bool) (idx : List (Nat × List Nat)) (L : List Bytes)
    (htot : k.unbondingOpCodec.Total)
    (hacks : GetSlashAcks k st.store C = .ok L)
    (hidx : GetAllUnbondingOpIndexes k st.store C = .ok idx)
    (hnd : (indexedIds idx).Nodup)
    (hfound : ∀ id ∈ indexedIds idx, id < 2 ^ 64 ∧
      ∃ op, GetUnbondingOp k st.store id = .ok (op, true) ∧ op.Id = id)
    (hacc : ∀ id ∈ indexedIds idx, k.UnbondingCanComplete id = none) :
    ∃ st', StopConsumerChain k st C false closeChan = .ok (none, st') ∧
      ∀ id ∈ indexedIds idx, ∀ op, GetUnbondingOp k st.store id = .ok (op, true) →
        op.UnbondingConsumerChains = [C] →
        (GetUnbondingOp k st'.store id).map Prod.snd = .ok false ∧
        st'.calls.count (.UnbondingCanComplete id)
          = st.calls.count (.UnbondingCanComplete id) + 1 := by
  have hsame4 := stopCleanup_sameUnbonding k st C closeChan
  have hacks4 : GetSlashAcks k (stopCleanup k st C closeChan).store C = .ok L := by
    unfold GetSlashAcks at hacks ⊢
    unfold SlashAcksKey at hacks ⊢
    rw [stopCleanup_get_other k st C closeChan SlashAcksBytePrefix C (by decide) (by decide)
      (by decide) (by decide) (by decide)]
    exact hacks
  obtain ⟨store5, hempty, hsame5⟩ := EmptySlashAcks_sameUnbonding k _ C L hacks4
  have hsame := sameUnbonding_trans hsame4 hsame5
  have hdecode : decodeIndexEntries k C (store5.prefixIterator (UnbondingOpIndexChainKey C))
      = .ok idx := by
    rw [hsame.2 C]
    exact hidx
  obtain ⟨st', hrun, _, _, h3⟩ := walkIndex_stopCallback_spec k C htot idx
    { stopCleanup k st C closeChan with store := store5 } hnd
    (fun id hid => by
      obtain ⟨h1, op, h2, h3⟩ := hfound id hid
      refine ⟨h1, op, ?_, h3⟩
      rw [GetUnbondingOp_congr k st.store _ id (hsame.1 id)]
      exact h2)
    hacc
  refine ⟨st', ?_, ?_⟩
  · simp only [StopConsumerChain, hempty, Bool.false_eq_true, if_false,
      IterateOverUnbondingOpIndex]
    rw [iterateIndexEntries_eq_walkIndex k C _ _ idx _ hdecode]
    exact hrun
  · intro id hid op hget hchains
    have hget5 : GetUnbondingOp k store5 id = .ok (op, true) := by
      rw [GetUnbondingOp_congr k st.store _ id (hsame.1 id)]
      exact hget
    have hempty' : (removeStringFromSlice op.UnbondingConsumerChains C).1 = [] := by
      simp [removeStringFromSlice, hchains]
    obtain ⟨hg, hc⟩ := h3 id hid op hget5 hempty'
    refine ⟨?_, ?_⟩
    · simp [GetUnbondingOp, hg, Except.map]
    · rw [hc]
      simp only [Nat.add_right_cancel_iff]
      exact stopCleanup_count k st C closeChan id

/-- C8, an index that lists a missing operation first: the index of `consu`
lists the operation 7, whose wait-set is exactly `[consu]`, and the staking
keeper accepts every completion, but the operation 8 listed before it has no
record. `StopConsumerChain` returns the not-found error for 8, calls
`UnbondingCanComplete` for no operation and leaves the record of 7 in place. -/
theorem StopConsumerChain_dangling_index :
    danglingState.store.WF ∧
    GetAllUnbondingOpIndexes testKeeper danglingState.store (ascii "consu")
      = .ok [(1, [8, 7])] ∧
    GetUnbondingOp testKeeper danglingState.store 7
      = .ok ({ Id := 7, UnbondingConsumerChains := [ascii "consu"] }, true) ∧
    testKeeper.UnbondingCanComplete 7 = none ∧
    StopConsumerChain testKeeper danglingState (ascii "consu") false true
      = .ok (some (.ErrUnbondingOpNotFound 8), danglingState) ∧
    danglingState.calls = [] := by
  decide

/-- The codec of the unbonding operations of `testKeeper` marshals every
operation. -/
theorem testKeeper_unbondingOpCodec : testKeeper.unbondingOpCodec.Total :=
  Wire.codec_total _

/-- Every operation the index of `consu` lists in `unbondingState` is stored
under its ID. -/
theorem unbondingState_found :
    ∀ id ∈ indexedIds [(1, [7, 9]), (2, [4])], id < 2 ^ 64 ∧
      ∃ op, GetUnbondingOp testKeeper unbondingState.store id = .ok (op, true) ∧ op.Id = id := by
  intro id hid
  have h : id = 7 ∨ id = 9 ∨ id = 4 := by simpa [indexedIds] using hid
  rcases h with h | h | h <;> subst h
  · exact ⟨by decide, { Id := 7, UnbondingConsumerChains := [ascii "consu"] }, by decide, rfl⟩
  · exact ⟨by decide, { Id := 9, UnbondingConsumerChains := [ascii "consu", ascii "other"] },
      by decide, rfl⟩
  · exact ⟨by decide, { Id := 4, UnbondingConsumerChains := [ascii "consu"] }, by decide, rfl⟩

/-- C8, as amended, on a concrete input: the state `unbondingState`, whose
index lists the operations 7, 9 and 4. -/
theorem StopConsumerChain_completes_unbonding_witness :
    (testKeeper.unbondingOpCodec.Total ∧
      unbondingState.store.WF ∧
      GetSlashAcks testKeeper unbondingState.store (ascii "consu") = .ok [] ∧
      GetAllUnbondingOpIndexes testKeeper unbondingState.store (ascii "consu")
        = .ok [(1, [7, 9]), (2, [4])] ∧
      (indexedIds [(1, [7, 9]), (2, [4])]).Nodup ∧
      (∀ id ∈ indexedIds [(1, [7, 9]), (2, [4])], id < 2 ^ 64 ∧
        ∃ op, GetUnbondingOp testKeeper unbondingState.store id = .ok (op, true) ∧
          op.Id = id) ∧
      (∀ id ∈ indexedIds [(1, [7, 9]), (2, [4])], testKeeper.UnbondingCanComplete id = none)) ∧
    ∃ st', StopConsumerChain testKeeper unbondingState (ascii "consu") false true
        = .ok (none, st') ∧
      ∀ id ∈ indexedIds [(1, [7, 9]), (2, [4])], ∀ op,
        GetUnbondingOp testKeeper unbondingState.store id = .ok (op, true) →
        op.UnbondingConsumerChains = [ascii "consu"] →
        (GetUnbondingOp testKeeper st'.store id).map Prod.snd = .ok false ∧
        st'.calls.count (.UnbondingCanComplete id)
          = unbondingState.calls.count (.UnbondingCanComplete id) + 1 :=
  ⟨⟨testKeeper_unbondingOpCodec, by decide, by decide, by decide, by decide,
      unbondingState_found, fun _ _ => rfl⟩,
    StopConsumerChain_completes_unbonding testKeeper unbondingState (ascii "consu") true
      [(1, [7, 9]), (2, [4])] [] testKeeper_unbondingOpCodec (by decide) (by decide)
      (by decide) unbondingState_found (fun _ _ => rfl)⟩

/-- The scenario of C8 run on `unbondingState`: the operations 7 and 4 are
completed, in the order of the index, and their records deleted; the operation
9 stays, waiting for the chain `other`; the channel is closed and unbound and
the index of the chain is empty. -/
theorem StopConsumerChain_test :
    StopConsumerChain testKeeper unbondingState (ascii "consu") false true
      = .ok (none,
          { store := [opEntry 9 [ascii "other"]],
            calls := [.ChanCloseInit ProviderPortID (ascii "channel-0"),
                      .UnbondingCanComplete 7, .UnbondingCanComplete 4],
            events := [] }) := by
  decide

theorem Split_ne_nil (sep : Nat) (s : Bytes) : Split sep s ≠ [] := by
  induction s with
  | nil => simp [Split]
  | cons b rest ih =>
    unfold Split
    split
    · simp
    · split
      · simp
      · simp

/-- Up to the block time `8099000882440333155` (August 2226), which is the time
that the namespace `pendingclient` decodes to, `IteratePendingClientInfo`
creates no client, whatever is pending: it returns at the first entry with the
state as it was, or panics on a value that does not unmarshal. -/
theorem IteratePendingClientInfo_before_constant (k : Keeper) (ctx : Context) (st : State)
    (h : ctx.BlockTime ≤ 8099000882440333155) :
    IteratePendingClientInfo k ctx st = .ok st ∨
      ∃ e, IteratePendingClientInfo k ctx st = .error e := by
  unfold IteratePendingClientInfo
  have hdec := pendingClient_decoded_time st.store
  generalize st.store.prefixIterator ( PendingClientKeyPrefix ++ [slash]) = entries at hdec
  cases entries with
  | nil => exact Or.inl rfl
  | cons e rest =>
    obtain ⟨key, value⟩ := e
    have hd := hdec (key, value) (List.mem_cons_self _ _)
    simp only at hd
    unfold iteratePendingClients
    simp only [hd]
    cases hu : k.cdc.unmarshal value with
    | error e => exact Or.inr ⟨e, rfl⟩
    | ok clientInfo =>
      have hnot : ¬ ctx.BlockTime > toInt64 8099000882440333155 := by
        have : toInt64 8099000882440333155 = 8099000882440333155 := by decide
        rw [this]
        omega
      simp [hnot]

/-- Up to the block time `8099000882440333171`, the time the namespace
`pendingstopproposal` decodes to, `IteratePendingStopProposal` stops no chain,
whatever is pending: it returns at the first entry with the state as it was. -/
theorem IteratePendingStopProposal_before_constant (k : Keeper) (ctx : Context) (st : State)
    (h : ctx.BlockTime ≤ 8099000882440333171) :
    IteratePendingStopProposal k ctx st = .ok st := by
  unfold IteratePendingStopProposal
  have hdec := pendingStop_decoded_time st.store
  have hpre : ∀ e ∈ st.store.prefixIterator ( PendingStopProposalKeyPrefix ++ [slash]),
      ( PendingStopProposalKeyPrefix ++ [slash]).isPrefixOf e.1 = true :=
    fun e he => (List.mem_filter.1 he).2
  generalize st.store.prefixIterator ( PendingStopProposalKeyPrefix ++ [slash]) = entries
    at hdec hpre
  cases entries with
  | nil => rfl
  | cons e rest =>
    obtain ⟨key, value⟩ := e
    have hd := hdec (key, value) (List.mem_cons_self _ _)
    obtain ⟨t, ht⟩ := List.isPrefixOf_iff_prefix.1 (hpre (key, value) (List.mem_cons_self _ _))
    simp only at hd ht
    have hsplit : (Split slash key).get? 1 = (Split slash t).head? := by
      rw [← ht, List.append_assoc, List.singleton_append,
        Split_append_sep slash PendingStopProposalKeyPrefix t (by decide)]
      cases Split slash t <;> rfl
    have hsome : ∃ c, (Split slash key).get? 1 = some c := by
      rw [hsplit]
      cases hs : Split slash t with
      | nil => exact absurd hs (Split_ne_nil slash t)
      | cons c _ => exact ⟨c, rfl⟩
    obtain ⟨c, hc⟩ := hsome
    unfold iteratePendingStops
    simp only [hd, hc]
    have hnot : ¬ ctx.BlockTime > toInt64 8099000882440333171 := by
      have : toInt64 8099000882440333171 = 8099000882440333171 := by decide
      rw [this]
      omega
    simp only [hnot, if_false]

/-! ## The handshake checks -/

/-- C11: `VerifyConsumerChain` returns no error exactly when there is one
connection hop, the connection exists, its client exists and is a tendermint
client, of some chain `X`, the client ID registered for `X` is the client ID of
the connection, and no channel is bound to `X`; a hop count other than one
gives the too-many-hops error. The method only reads the store: it has no
store to return. -/
theorem VerifyConsumerChain_none_iff (k : Keeper) (store : Store) (channelID : Bytes)
    (connectionHops : List Bytes) :
    (VerifyConsumerChain k store channelID connectionHops = none ↔
      ∃ connectionID conn tm,
        connectionHops = [connectionID] ∧
        k.GetConnection connectionID = some conn ∧
        k.GetClientState conn.ClientId = some (.tendermint tm) ∧
        GetConsumerClientId store tm.ChainId = (conn.ClientId, true) ∧
        (GetChainToChannel store tm.ChainId).2 = false) ∧
    (connectionHops.length ≠ 1 →
      VerifyConsumerChain k store channelID connectionHops = some .ErrTooManyConnectionHops) ∧
    (VerifyConsumerChain k store channelID connectionHops ≠ none →
      ∃ err, VerifyConsumerChain k store channelID connectionHops = some err) := by
  refine ⟨?_, ?_, ?_⟩
  · constructor
    · intro h
      unfold VerifyConsumerChain at h
      split at h
      · rename_i connectionID
        unfold getUnderlyingClient at h
        cases hconn : k.GetConnection connectionID with
        | none => simp [hconn] at h
        | some conn =>
          cases hcl : k.GetClientState conn.ClientId with
          | none => simp [hconn, hcl] at h
          | some cs =>
            cases cs with
            | other t => simp [hconn, hcl] at h
            | tendermint tm =>
              simp only [hconn, hcl] at h
              cases hreg : GetConsumerClientId store tm.ChainId with
              | mk ccvClientId found =>
                cases found with
                | false => simp [hreg] at h
                | true =>
                  simp only [hreg] at h
                  by_cases hne : ccvClientId ≠ conn.ClientId
                  · simp [hne] at h
                  · have heq : ccvClientId = conn.ClientId := not_not.1 hne
                    simp only [hne, if_false] at h
                    cases hch : GetChainToChannel store tm.ChainId with
                    | mk prev bound =>
                      cases bound with
                      | true => simp [hch] at h
                      | false =>
                        exact ⟨connectionID, conn, tm, rfl, hconn, hcl, by rw [hreg, heq], by rw [hch]⟩
      · cases h
    · rintro ⟨connectionID, conn, tm, hhops, hconn, hcl, hreg, hfree⟩
      subst hhops
      have hch : GetChainToChannel store tm.ChainId
          = ((GetChainToChannel store tm.ChainId).1, false) := by
        rw [← hfree]
      unfold VerifyConsumerChain
      simp only [getUnderlyingClient, hconn, hcl, hreg, ne_eq, not_true_eq_false, if_false]
      rw [hch]
  · intro hlen
    unfold VerifyConsumerChain
    split
    · simp at hlen
    · rfl
  · intro h
    cases hv : VerifyConsumerChain k store channelID connectionHops with
    | none => exact absurd hv h
    | some err => exact ⟨err, rfl⟩

/-- C11 on concrete inputs: one hop over the connection of the registered
client of `consu`, which has no channel, and two hops. -/
theorem VerifyConsumerChain_none_iff_witness :
    VerifyConsumerChain channelKeeper
        (SetConsumerClientId [] (ascii "consu") (ascii "07-tendermint-0"))
        (ascii "channel-1") [ascii "connection-0"] = none ∧
    ([ascii "connection-0", ascii "connection-1"].length ≠ 1 ∧
      VerifyConsumerChain channelKeeper [] (ascii "channel-1")
          [ascii "connection-0", ascii "connection-1"]
        = some .ErrTooManyConnectionHops) :=
  ⟨(VerifyConsumerChain_none_iff channelKeeper
        (SetConsumerClientId [] (ascii "consu") (ascii "07-tendermint-0"))
        (ascii "channel-1") [ascii "connection-0"]).1.2
      ⟨ascii "connection-0", { ClientId := ascii "07-tendermint-0" }, consuClient, rfl,
        by decide, by decide, by decide, by decide⟩,
    by decide,
    (VerifyConsumerChain_none_iff channelKeeper [] (ascii "channel-1")
      [ascii "connection-0", ascii "connection-1"]).2.1 (by decide)⟩

/-- What `SetConsumerChain` writes when it returns no error: the three entries
of the chain and the channel, every other key of the store keeping its value,
one event and no call. -/
theorem SetConsumerChain_success (k : Keeper) (ctx : Context) (st : State)
    (X channelID connectionID : Bytes) (channel : Channel) (conn : ConnectionEnd)
    (tm : TmClientState)
    (hchan : k.GetChannel ProviderPortID channelID = some channel)
    (hhops : channel.ConnectionHops = [connectionID])
    (hconn : k.GetConnection connectionID = some conn)
    (hclient : k.GetClientState conn.ClientId = some (.tendermint tm))
    (hchain : tm.ChainId = X)
    (hnone : (SetConsumerChain k ctx st channelID).1 = none) :
    SetConsumerChain k ctx st channelID
      = (none, { st with
          store := ((st.store.set (ChainToChannelKey X) channelID).set
            (ChannelToChainKey channelID) X).set (InitChainHeightKey X)
              (PutUint64 ctx.BlockHeight),
          events := st.events
            ++ [.ChannelEstablished X conn.ClientId channelID connectionID] }) := by
  unfold SetConsumerChain at hnone ⊢
  simp only [hchan, hhops, getUnderlyingClient, hconn, hclient, hchain] at hnone ⊢
  cases hch : GetChainToChannel st.store X with
  | mk prev bound =>
    cases bound with
    | true => simp [hch] at hnone
    | false => simp [SetChainToChannel, SetChannelToChain, SetInitChainHeight]

/-- C12: when `SetConsumerChain` returns no error for a channel that resolves
to the chain `X`, afterwards `X` is bound to the channel, the channel to `X`,
the init height of `X` is the block height, and every other key of the store,
so every entry of another chain or channel, has the value it had. -/
theorem SetConsumerChain_binds (k : Keeper) (ctx : Context) (st : State)
    (X channelID connectionID : Bytes) (channel : Channel) (conn : ConnectionEnd)
    (tm : TmClientState)
    (hchan : k.GetChannel ProviderPortID channelID = some channel)
    (hhops : channel.ConnectionHops = [connectionID])
    (hconn : k.GetConnection connectionID = some conn)
    (hclient : k.GetClientState conn.ClientId = some (.tendermint tm))
    (hchain : tm.ChainId = X)
    (hheight : ctx.BlockHeight < 2 ^ 64)
    (hnone : (SetConsumerChain k ctx st channelID).1 = none) :
    GetChainToChannel (SetConsumerChain k ctx st channelID).2.store X = (channelID, true) ∧
    GetChannelToChain (SetConsumerChain k ctx st channelID).2.store channelID = (X, true) ∧
    GetInitChainHeight (SetConsumerChain k ctx st channelID).2.store X
      = .ok (ctx.BlockHeight, true) ∧
    (∀ key, key ≠ ChainToChannelKey X → key ≠ ChannelToChainKey channelID →
      key ≠ InitChainHeightKey X →
      (SetConsumerChain k ctx st channelID).2.store.get key = st.store.get key) ∧
    (∀ other, other ≠ X →
      GetChainToChannel (SetConsumerChain k ctx st channelID).2.store other
        = GetChainToChannel st.store other ∧
      GetInitChainHeight (SetConsumerChain k ctx st channelID).2.store other
        = GetInitChainHeight st.store other) ∧
    (∀ other, other ≠ channelID →
      GetChannelToChain (SetConsumerChain k ctx st channelID).2.store other
        = GetChannelToChain st.store other) := by
  rw [SetConsumerChain_success k ctx st X channelID connectionID channel conn tm hchan hhops
    hconn hclient hchain hnone]
  have h56 : ∀ a b : Bytes, ChainToChannelKey a ≠ ChannelToChainKey b := by
    intro a b; simp [ChainToChannelKey, ChannelToChainKey, ChainToChannelBytePrefix,
      ChannelToChainBytePrefix]
  have h516 : ∀ a b : Bytes, ChainToChannelKey a ≠ InitChainHeightKey b := by
    intro a b; simp [ChainToChannelKey, InitChainHeightKey, ChainToChannelBytePrefix,
      InitChainHeightBytePrefix]
  have h616 : ∀ a b : Bytes, ChannelToChainKey a ≠ InitChainHeightKey b := by
    intro a b; simp [ChannelToChainKey, InitChainHeightKey, ChannelToChainBytePrefix,
      InitChainHeightBytePrefix]
  have hother : ∀ key, key ≠ ChainToChannelKey X → key ≠ ChannelToChainKey channelID →
      key ≠ InitChainHeightKey X →
      (((st.store.set (ChainToChannelKey X) channelID).set
        (ChannelToChainKey channelID) X).set (InitChainHeightKey X)
          (PutUint64 ctx.BlockHeight)).get key = st.store.get key := by
    intro key h1 h2 h3
    rw [Store.get_set_other _ _ _ _ h3, Store.get_set_other _ _ _ _ h2,
      Store.get_set_other _ _ _ _ h1]
  refine ⟨?_, ?_, ?_, hother, ?_, ?_⟩
  · simp only [GetChainToChannel]
    rw [Store.get_set_other _ _ _ _ (h516 _ _), Store.get_set_other _ _ _ _ (h56 _ _),
      Store.get_set_same]
  · simp only [GetChannelToChain]
    rw [Store.get_set_other _ _ _ _ (h616 _ _), Store.get_set_same]
  · simp only [GetInitChainHeight]
    rw [Store.get_set_same]
    simp only [Uint64_PutUint64 _ hheight]
  · intro other hne
    have hk1 : ChainToChannelKey other ≠ ChainToChannelKey X := by
      simpa [ChainToChannelKey] using hne
    have hk2 : InitChainHeightKey other ≠ InitChainHeightKey X := by
      simpa [InitChainHeightKey] using hne
    refine ⟨?_, ?_⟩
    · simp only [GetChainToChannel]
      rw [hother _ hk1 (h56 _ _) (h516 _ _)]
    · simp only [GetInitChainHeight]
      rw [hother _ (fun h => h516 _ _ h.symm) (fun h => h616 _ _ h.symm) hk2]
  · intro other hne
    have hk : ChannelToChainKey other ≠ ChannelToChainKey channelID := by
      simpa [ChannelToChainKey] using hne
    simp only [GetChannelToChain]
    rw [hother _ (fun h => h56 _ _ h.symm) hk (h616 _ _)]

/-- C12 on a concrete input: `channel-1`, which resolves to the chain `consu`,
on the empty store at height 10. -/
theorem SetConsumerChain_binds_witness :
    (channelKeeper.GetChannel ProviderPortID (ascii "channel-1")
        = some { closed := false, ConnectionHops := [ascii "connection-0"] } ∧
      channelKeeper.GetConnection (ascii "connection-0")
        = some { ClientId := ascii "07-tendermint-0" } ∧
      channelKeeper.GetClientState (ascii "07-tendermint-0") = some (.tendermint consuClient) ∧
      testCtx.BlockHeight < 2 ^ 64 ∧
      (SetConsumerChain channelKeeper testCtx emptyState (ascii "channel-1")).1 = none) ∧
    (GetChainToChannel
        (SetConsumerChain channelKeeper testCtx emptyState (ascii "channel-1")).2.store
        (ascii "consu") = (ascii "channel-1", true) ∧
      GetChannelToChain
        (SetConsumerChain channelKeeper testCtx emptyState (ascii "channel-1")).2.store
        (ascii "channel-1") = (ascii "consu", true) ∧
      GetInitChainHeight
        (SetConsumerChain channelKeeper testCtx emptyState (ascii "channel-1")).2.store
        (ascii "consu") = .ok (testCtx.BlockHeight, true) ∧
      (∀ key, key ≠ ChainToChannelKey (ascii "consu") →
        key ≠ ChannelToChainKey (ascii "channel-1") →
        key ≠ InitChainHeightKey (ascii "consu") →
        (SetConsumerChain channelKeeper testCtx emptyState (ascii "channel-1")).2.store.get key
          = emptyState.store.get key) ∧
      (∀ other, other ≠ ascii "consu" →
        GetChainToChannel
            (SetConsumerChain channelKeeper testCtx emptyState (ascii "channel-1")).2.store other
          = GetChainToChannel emptyState.store other ∧
        GetInitChainHeight
            (SetConsumerChain channelKeeper testCtx emptyState (ascii "channel-1")).2.store other
          = GetInitChainHeight emptyState.store other) ∧
      (∀ other, other ≠ ascii "channel-1" →
        GetChannelToChain
            (SetConsumerChain channelKeeper testCtx emptyState (ascii "channel-1")).2.store other
          = GetChannelToChain emptyState.store other)) :=
  ⟨⟨by decide, by decide, by decide, by decide, by decide⟩,
    SetConsumerChain_binds channelKeeper testCtx emptyState (ascii "consu")
      (ascii "channel-1") (ascii "connection-0")
      { closed := false, ConnectionHops := [ascii "connection-0"] }
      { ClientId := ascii "07-tendermint-0" } consuClient
      (by decide) rfl (by decide) (by decide) rfl (by decide) (by decide)⟩

/-! ## What `StopConsumerChain` leaves of a chain -/

theorem unbondingOnly_refl (st : State) : unbondingOnly st st :=
  ⟨fun _ _ _ _ => rfl, rfl, [], by simp, by simp⟩

theorem unbondingOnly_trans {s₁ s₂ s₃ : State} (h₁ : unbondingOnly s₁ s₂)
    (h₂ : unbondingOnly s₂ s₃) : unbondingOnly s₁ s₃ := by
  obtain ⟨a1, a2, c1, a3, a4⟩ := h₁
  obtain ⟨b1, b2, c2, b3, b4⟩ := h₂
  refine ⟨fun b rest h11 h12 => (b1 b rest h11 h12).trans (a1 b rest h11 h12), b2.trans a2,
    c1 ++ c2, by rw [b3, a3, List.append_assoc], ?_⟩
  intro c hc
  rcases List.mem_append.1 hc with hc | hc
  · exact a4 c hc
  · exact b4 c hc

theorem SetUnbondingOp_ok (k : Keeper) (store : Store) (op : UnbondingOp) (store' : Store)
    (h : SetUnbondingOp k store op = .ok store') :
    ∃ bz, k.unbondingOpCodec.marshal op = .ok bz ∧
      store' = store.set (UnbondingOpKey op.Id) bz := by
  unfold SetUnbondingOp at h
  split at h
  · cases h
  · rename_i bz hbz
    injection h with h
    exact ⟨bz, hbz, h.symm⟩

/-- The loop over the operations of one VSC ID, however it ends, writes only
records of unbonding operations and calls only `UnbondingCanComplete`. -/
theorem releaseUnbondingOps_unbondingOnly (k : Keeper) (chainID : Bytes) :
    ∀ (ids : List Nat) (acc : Option Error × State) (r : Bool × (Option Error × State)),
      releaseUnbondingOps k chainID ids acc = .ok r → unbondingOnly acc.2 r.2.2 := by
  intro ids
  induction ids with
  | nil =>
    intro acc r h
    simp only [releaseUnbondingOps, Except.ok.injEq] at h
    subst h
    exact unbondingOnly_refl _
  | cons id rest ih =>
    intro acc r h
    obtain ⟨err, st⟩ := acc
    rw [releaseUnbondingOps] at h
    split at h
    · cases h
    · injection h with h
      subst h
      exact unbondingOnly_refl _
    · rename_i unbondingOp _
      simp only at h
      split at h
      · split at h
        · injection h with h
          subst h
          exact ⟨fun _ _ _ _ => rfl, rfl, [.UnbondingCanComplete unbondingOp.Id], rfl,
            by simp⟩
        · refine unbondingOnly_trans ?_ (ih _ _ h)
          refine ⟨fun b rest' h11 _ => ?_, rfl, [.UnbondingCanComplete unbondingOp.Id], rfl,
            by simp⟩
          apply Store.get_delete_other
          simp only [UnbondingOpKey, ne_eq, List.cons.injEq, not_and]
          intro hb
          exact absurd hb h11
      · split at h
        · cases h
        · rename_i store' hset
          obtain ⟨bz, _, hstore⟩ := SetUnbondingOp_ok k _ _ _ hset
          subst hstore
          refine unbondingOnly_trans ?_ (ih _ _ h)
          refine ⟨fun b rest' h11 _ => ?_, rfl, [], by simp, by simp⟩
          apply Store.get_set_other
          simp only [UnbondingOpKey, ne_eq, List.cons.injEq, not_and]
          intro hb
          exact absurd hb h11

/-- The walk of `StopConsumerChain` over a decoded index, however it ends,
writes only under the two unbonding namespaces and calls only
`UnbondingCanComplete`. -/
theorem walkIndex_unbondingOnly (k : Keeper) (chainID : Bytes) :
    ∀ (idx : List (Nat × List Nat)) (acc r : Option Error × State),
      walkIndex (stopCallback k chainID) idx acc = .ok r → unbondingOnly acc.2 r.2 := by
  intro idx
  induction idx with
  | nil =>
    intro acc r h
    simp only [walkIndex, Except.ok.injEq] at h
    subst h
    exact unbondingOnly_refl _
  | cons e rest ih =>
    intro acc r h
    obtain ⟨vscID, ids⟩ := e
    rw [walkIndex] at h
    unfold stopCallback at h
    cases hrel : releaseUnbondingOps k chainID ids acc with
    | error e => simp [hrel] at h
    | ok res =>
      have hframe := releaseUnbondingOps_unbondingOnly k chainID ids acc res hrel
      obtain ⟨flag, err, st1⟩ := res
      cases flag with
      | false =>
        simp only [hrel, Except.ok.injEq] at h
        subst h
        exact hframe
      | true =>
        simp only [hrel] at h
        refine unbondingOnly_trans hframe (unbondingOnly_trans ?_ (ih _ _ h))
        refine ⟨fun b rest' _ h12 => ?_, rfl, [], by simp, by simp⟩
        apply Store.get_delete_other
        simp only [UnbondingOpIndexKey, UnbondingOpIndexChainKey, List.cons_append, ne_eq,
          List.cons.injEq, not_and]
        intro hb
        exact absurd hb h12

theorem stopCallback_unbondingOnly (k : Keeper) (chainID : Bytes)
    (acc : Option Error × State) (vscID : Nat) (ids : List Nat)
    (r : Bool × (Option Error × State))
    (h : stopCallback k chainID acc vscID ids = .ok r) : unbondingOnly acc.2 r.2.2 := by
  unfold stopCallback at h
  cases hrel : releaseUnbondingOps k chainID ids acc with
  | error e => simp [hrel] at h
  | ok res =>
    have hframe := releaseUnbondingOps_unbondingOnly k chainID ids acc res hrel
    obtain ⟨flag, err, st1⟩ := res
    cases flag with
    | false =>
      simp only [hrel, Except.ok.injEq] at h
      subst h
      exact hframe
    | true =>
      simp only [hrel, Except.ok.injEq] at h
      subst h
      refine unbondingOnly_trans hframe ?_
      refine ⟨fun b rest' _ h12 => ?_, rfl, [], by simp, by simp⟩
      apply Store.get_delete_other
      simp only [UnbondingOpIndexKey, UnbondingOpIndexChainKey, List.cons_append, ne_eq,
        List.cons.injEq, not_and]
      intro hb
      exact absurd hb h12

/-- The walk of `StopConsumerChain` over the index entries, however it ends,
writes only under the two unbonding namespaces and calls only
`UnbondingCanComplete`. -/
theorem iterateIndexEntries_unbondingOnly (k : Keeper) (chainID : Bytes) :
    ∀ (entries : List (Bytes × Bytes)) (acc r : Option Error × State),
      iterateIndexEntries k chainID (stopCallback k chainID) entries acc = .ok r →
      unbondingOnly acc.2 r.2 := by
  intro entries
  induction entries with
  | nil =>
    intro acc r h
    simp only [iterateIndexEntries, Except.ok.injEq] at h
    subst h
    exact unbondingOnly_refl _
  | cons e rest ih =>
    intro acc r h
    obtain ⟨key, value⟩ := e
    rw [iterateIndexEntries] at h
    split at h
    · cases h
    · split at h
      · cases h
      · rename_i vscID _ _ ids _
        cases hcb : stopCallback k chainID acc vscID ids with
        | error e => simp [hcb] at h
        | ok res =>
          have hframe := stopCallback_unbondingOnly k chainID acc vscID ids res hcb
          obtain ⟨flag, acc'⟩ := res
          cases flag with
          | false =>
            simp only [hcb, Except.ok.injEq] at h
            subst h
            exact hframe
          | true =>
            simp only [hcb] at h
            exact unbondingOnly_trans hframe (ih _ _ h)

namespace Store

theorem get_delete (s : Store) (k k2 : Bytes) :
    get (delete s k) k2 = if k2 = k then none else get s k2 := by
  by_cases h : k2 = k
  · subst h
    simp [get_delete_same]
  · simp [h, get_delete_other _ _ _ h]

end Store

/-- The store `stopCleanup` leaves: the store it was given without the client
binding, the unbonding-lock flag, the two channel bindings and the init height
of the chain. -/
theorem stopCleanup_store (k : Keeper) (st : State) (chainID : Bytes) (closeChan : Bool) :
    (stopCleanup k st chainID closeChan).store =
      match GetChainToChannel st.store chainID with
      | (channelID, true) =>
        ((((st.store.delete (ChainToClientKey chainID)).delete
          (LockUnbondingOnTimeoutKey chainID)).delete (ChainToChannelKey chainID)).delete
            (ChannelToChainKey channelID)).delete (InitChainHeightKey chainID)
      | (_, false) =>
        ((st.store.delete (ChainToClientKey chainID)).delete
          (LockUnbondingOnTimeoutKey chainID)).delete (InitChainHeightKey chainID) := by
  have hsame : GetChainToChannel ((st.store.delete (ChainToClientKey chainID)).delete
      (LockUnbondingOnTimeoutKey chainID)) chainID = GetChainToChannel st.store chainID := by
    simp [GetChainToChannel, Store.get_delete, ChainToChannelKey, ChainToClientKey,
      LockUnbondingOnTimeoutKey, ChainToChannelBytePrefix, ChainToClientBytePrefix,
      LockUnbondingOnTimeoutBytePrefix]
  unfold stopCleanup
  simp only [DeleteConsumerClient, DeleteConsumerClientId, DeleteLockUnbondingOnTimeout,
    DeleteInitChainHeight, hsame]
  cases hch : GetChainToChannel st.store chainID with
  | mk channelID bound =>
    cases bound with
    | false => rfl
    | true =>
      simp only [DeleteChainToChannel, DeleteChannelToChain]
      have hstore : ∀ s : State, (chanCloseInit k s channelID).2.store = s.store := fun _ => rfl
      have hclose : ∀ s : State, (CloseChannel k s channelID).store = s.store := by
        intro s
        unfold CloseChannel
        split
        · split
          · rfl
          · rfl
        · rfl
      cases closeChan
      · simp [hstore]
      · simp [hstore, hclose]

theorem EmptySlashAcks_ok (k : Keeper) (store : Store) (chainID : Bytes) (L : List Bytes)
    (store' : Store) (h : EmptySlashAcks k store chainID = .ok (L, store')) :
    store' = store ∨ store' = store.delete (SlashAcksKey chainID) := by
  unfold EmptySlashAcks ConsumeSlashAcks at h
  split at h
  · cases h
  · split at h
    · injection h with h
      injection h with _ h
      exact Or.inl h.symm
    · injection h with h
      injection h with _ h
      exact Or.inr h.symm

/-- `StopConsumerChain`, whenever it returns: the cleanup, then the draining of
the slash acks, then writes under the two unbonding namespaces only. -/
theorem StopConsumerChain_ok (k : Keeper) (st : State) (chainID : Bytes)
    (lockUbd closeChan : Bool) (err : Option Error) (st' : State)
    (h : StopConsumerChain k st chainID lockUbd closeChan = .ok (err, st')) :
    ∃ L store5, EmptySlashAcks k (stopCleanup k st chainID closeChan).store chainID
        = .ok (L, store5) ∧
      unbondingOnly { stopCleanup k st chainID closeChan with store := store5 } st' := by
  unfold StopConsumerChain at h
  simp only at h
  cases hempty : EmptySlashAcks k (stopCleanup k st chainID closeChan).store chainID with
  | error e => simp [hempty] at h
  | ok res =>
    obtain ⟨L, store5⟩ := res
    refine ⟨L, store5, rfl, ?_⟩
    simp only [hempty] at h
    cases lockUbd with
    | true =>
      simp only [if_true, Except.ok.injEq, Prod.mk.injEq] at h
      rw [← h.2]
      exact unbondingOnly_refl _
    | false =>
      simp only [Bool.false_eq_true, if_false, IterateOverUnbondingOpIndex] at h
      exact iterateIndexEntries_unbondingOnly k chainID _ _ _ h

/-- The keys `StopConsumerChain` may write, whenever it returns: whatever the
key, the value after the call is the value before it or nothing, and a key
outside the namespaces of the client binding, the unbonding-lock flag, the
channel bindings, the init height, the slash acks and the unbonding operations
keeps its value. -/
theorem StopConsumerChain_get_other (k : Keeper) (st : State) (chainID : Bytes)
    (lockUbd closeChan : Bool) (err : Option Error) (st' : State)
    (h : StopConsumerChain k st chainID lockUbd closeChan = .ok (err, st'))
    (b : Nat) (rest : Bytes) (h5 : b ≠ ChainToChannelBytePrefix)
    (h6 : b ≠ ChannelToChainBytePrefix) (h7 : b ≠ ChainToClientBytePrefix)
    (h11 : b ≠ UnbondingOpBytePrefix) (h12 : b ≠ UnbondingOpIndexBytePrefix)
    (h15 : b ≠ SlashAcksBytePrefix) (h16 : b ≠ InitChainHeightBytePrefix)
    (h18 : b ≠ LockUnbondingOnTimeoutBytePrefix) :
    st'.store.get (b :: rest) = st.store.get (b :: rest) := by
  obtain ⟨L, store5, hempty, hframe⟩ := StopConsumerChain_ok k st chainID lockUbd closeChan
    err st' h
  rw [hframe.1 b rest h11 h12]
  have h4 := stopCleanup_get_other k st chainID closeChan b rest h5 h6 h7 h16 h18
  rcases EmptySlashAcks_ok k _ chainID L store5 hempty with hs | hs
  · simp only [hs]
    exact h4
  · simp only [hs]
    rw [Store.get_delete_other _ _ _ (by
      simp only [SlashAcksKey, ne_eq, List.cons.injEq, not_and]
      intro hb
      exact absurd hb h15)]
    exact h4

/-- C13: after `StopConsumerChain` returns, with any flags and whether or not
with an error, the chain has no client binding, no unbonding-lock flag, no
init height and no channel, and the channel that was bound to it, if one was,
is bound to no chain. -/
theorem StopConsumerChain_unbinds (k : Keeper) (st : State) (chainID : Bytes)
    (lockUbd closeChan : Bool) (err : Option Error) (st' : State)
    (h : StopConsumerChain k st chainID lockUbd closeChan = .ok (err, st')) :
    GetConsumerClientId st'.store chainID = ([], false) ∧
    GetLockUnbondingOnTimeout st'.store chainID = false ∧
    GetInitChainHeight st'.store chainID = .ok (0, false) ∧
    GetChainToChannel st'.store chainID = ([], false) ∧
    ∀ ch, GetChainToChannel st.store chainID = (ch, true) →
      GetChannelToChain st'.store ch = ([], false) := by
  obtain ⟨L, store5, hempty, hframe⟩ := StopConsumerChain_ok k st chainID lockUbd closeChan
    err st' h
  have hget : ∀ b rest, b ≠ UnbondingOpBytePrefix → b ≠ UnbondingOpIndexBytePrefix →
      (stopCleanup k st chainID closeChan).store.get (b :: rest) = none →
      st'.store.get (b :: rest) = none := by
    intro b rest h11 h12 hnone
    rw [hframe.1 b rest h11 h12]
    rcases EmptySlashAcks_ok k _ chainID L store5 hempty with hs | hs
    · simp only [hs]
      exact hnone
    · simp only [hs, Store.get_delete, hnone, ite_self]
  have hclean := stopCleanup_store k st chainID closeChan
  have h7 : st'.store.get (ChainToClientKey chainID) = none := by
    apply hget _ _ (by decide) (by decide)
    rw [hclean]
    split <;>
      simp [Store.get_delete, ChainToClientKey, LockUnbondingOnTimeoutKey, ChainToChannelKey,
        ChannelToChainKey, InitChainHeightKey, ChainToClientBytePrefix,
        LockUnbondingOnTimeoutBytePrefix, ChainToChannelBytePrefix, ChannelToChainBytePrefix,
        InitChainHeightBytePrefix]
  have h18 : st'.store.get (LockUnbondingOnTimeoutKey chainID) = none := by
    apply hget _ _ (by decide) (by decide)
    rw [hclean]
    split <;>
      simp [Store.get_delete, ChainToClientKey, LockUnbondingOnTimeoutKey, ChainToChannelKey,
        ChannelToChainKey, InitChainHeightKey, ChainToClientBytePrefix,
        LockUnbondingOnTimeoutBytePrefix, ChainToChannelBytePrefix, ChannelToChainBytePrefix,
        InitChainHeightBytePrefix]
  have h16 : st'.store.get (InitChainHeightKey chainID) = none := by
    apply hget _ _ (by decide) (by decide)
    rw [hclean]
    split <;>
      simp [Store.get_delete, ChainToClientKey, LockUnbondingOnTimeoutKey, ChainToChannelKey,
        ChannelToChainKey, InitChainHeightKey, ChainToClientBytePrefix,
        LockUnbondingOnTimeoutBytePrefix, ChainToChannelBytePrefix, ChannelToChainBytePrefix,
        InitChainHeightBytePrefix]
  have h5 : st'.store.get (ChainToChannelKey chainID) = none := by
    apply hget _ _ (by decide) (by decide)
    rw [hclean]
    split
    · simp [Store.get_delete, ChainToClientKey, LockUnbondingOnTimeoutKey, ChainToChannelKey,
        ChannelToChainKey, InitChainHeightKey, ChainToClientBytePrefix,
        LockUnbondingOnTimeoutBytePrefix, ChainToChannelBytePrefix, ChannelToChainBytePrefix,
        InitChainHeightBytePrefix]
    · rename_i x hfalse
      have hn : st.store.get (ChainToChannelKey chainID) = none := by
        unfold GetChainToChannel at hfalse
        cases hg : st.store.get (ChainToChannelKey chainID) with
        | none => rfl
        | some v => simp [hg] at hfalse
      simp only [Store.get_delete]
      split_ifs <;> first | rfl | exact hn
  refine ⟨by simp [GetConsumerClientId, h7], by simp [GetLockUnbondingOnTimeout, h18],
    by simp [GetInitChainHeight, h16], by simp [GetChainToChannel, h5], ?_⟩
  intro ch hch
  have h6 : st'.store.get (ChannelToChainKey ch) = none := by
    apply hget _ _ (by decide) (by decide)
    rw [hclean, hch]
    simp [Store.get_delete, ChainToClientKey, LockUnbondingOnTimeoutKey, ChainToChannelKey,
      ChannelToChainKey, InitChainHeightKey, ChainToClientBytePrefix,
      LockUnbondingOnTimeoutBytePrefix, ChainToChannelBytePrefix, ChannelToChainBytePrefix,
      InitChainHeightBytePrefix]
  simp [GetChannelToChain, h6]

/-- C13 on a concrete input: the active chain `consu` of `activeState`. -/
theorem StopConsumerChain_unbinds_witness :
    StopConsumerChain testKeeper activeState (ascii "consu") false true
      = .ok (none, stoppedState) ∧
    (GetConsumerClientId stoppedState.store (ascii "consu") = ([], false) ∧
      GetLockUnbondingOnTimeout stoppedState.store (ascii "consu") = false ∧
      GetInitChainHeight stoppedState.store (ascii "consu") = .ok (0, false) ∧
      GetChainToChannel stoppedState.store (ascii "consu") = ([], false) ∧
      ∀ ch, GetChainToChannel activeState.store (ascii "consu") = (ch, true) →
        GetChannelToChain stoppedState.store ch = ([], false)) :=
  ⟨by decide,
    StopConsumerChain_unbinds testKeeper activeState (ascii "consu") false true none
      stoppedState (by decide)⟩

/-- `StopConsumerChain`, whenever it returns, leaves the pending VSC packets and
the stored genesis of every chain as they were. -/
theorem StopConsumerChain_keeps_packets (k : Keeper) (st : State) (chainID : Bytes)
    (lockUbd closeChan : Bool) (err : Option Error) (st' : State)
    (h : StopConsumerChain k st chainID lockUbd closeChan = .ok (err, st')) (c : Bytes) :
    GetPendingVSCPackets k st'.store c = GetPendingVSCPackets k st.store c ∧
    GetConsumerGenesis k st'.store c = GetConsumerGenesis k st.store c := by
  have h17 := StopConsumerChain_get_other k st chainID lockUbd closeChan err st' h
    PendingVSCsBytePrefix c (by decide) (by decide) (by decide) (by decide) (by decide)
    (by decide) (by decide) (by decide)
  have h14 := StopConsumerChain_get_other k st chainID lockUbd closeChan err st' h
    ConsumerGenesisBytePrefix c (by decide) (by decide) (by decide) (by decide) (by decide)
    (by decide) (by decide) (by decide)
  constructor
  · unfold GetPendingVSCPackets PendingVSCsKey
    rw [h17]
  · unfold GetConsumerGenesis ConsumerGenesisKey
    rw [h14]

/-- C14, an active chain with a pending packet and a stored genesis:
`StopConsumerChain` returns no error for the chain `consu` of `activeState`,
and afterwards `GetPendingVSCPackets` still returns the packet that was queued
and `GetConsumerGenesis` still finds the genesis of the chain. -/
theorem StopConsumerChain_leaves_packets :
    GetPendingVSCPackets testKeeper activeState.store (ascii "consu") = .ok [packet1] ∧
    StopConsumerChain testKeeper activeState (ascii "consu") false true
      = .ok (none, stoppedState) ∧
    GetPendingVSCPackets testKeeper stoppedState.store (ascii "consu") = .ok [packet1] ∧
    GetConsumerGenesis testKeeper stoppedState.store (ascii "consu")
      = .ok (testGenesis, true) := by
  decide

/-! ## The walk of StopConsumerChain, read back from its result -/

/-- The loop over the operations of one VSC ID, started without error, returns
`true` exactly when it leaves no error. -/
theorem releaseUnbondingOps_flag (k : Keeper) (chainID : Bytes) :
    ∀ (ids : List Nat) (st : State) (r : Bool × (Option Error × State)),
      releaseUnbondingOps k chainID ids (none, st) = .ok r →
      (r.1 = true ↔ r.2.1 = none) := by
  intro ids
  induction ids with
  | nil =>
    intro st r h
    simp only [releaseUnbondingOps, Except.ok.injEq] at h
    subst h
    simp
  | cons id rest ih =>
    intro st r h
    unfold releaseUnbondingOps at h
    split at h
    · cases h
    · injection h with h
      subst h
      simp
    · simp only at h
      split at h
      · split at h
        · injection h with h
          subst h
          simp
        · exact ih _ r h
      · split at h
        · cases h
        · exact ih _ r h

/-- One step of the loop over the operations of one VSC ID that goes on: the
operation is found; either its wait-set becomes empty, the staking keeper
accepts the completion and the record is deleted, or the shrunk operation is
stored. -/
theorem releaseUnbondingOps_cons (k : Keeper) (chainID : Bytes) (id : Nat) (rest : List Nat)
    (st : State) (acc' : Option Error × State)
    (h : releaseUnbondingOps k chainID (id :: rest) (none, st) = .ok (true, acc')) :
    ∃ op st1, GetUnbondingOp k st.store id = .ok (op, true) ∧
      releaseUnbondingOps k chainID rest (none, st1) = .ok (true, acc') ∧
      (((removeStringFromSlice op.UnbondingConsumerChains chainID).1 = [] ∧
          k.UnbondingCanComplete op.Id = none ∧
          st1 = { store := st.store.delete (UnbondingOpKey op.Id),
                  calls := st.calls ++ [.UnbondingCanComplete op.Id],
                  events := st.events }) ∨
       ((removeStringFromSlice op.UnbondingConsumerChains chainID).1 ≠ [] ∧
          ∃ bz, k.unbondingOpCodec.marshal (withoutChain op chainID) = .ok bz ∧
            st1 = { st with store := st.store.set (UnbondingOpKey op.Id) bz })) := by
  unfold releaseUnbondingOps at h
  split at h
  · cases h
  · injection h with h
    injection h with h _
    cases h
  · rename_i op hget
    simp only at h
    split at h
    · rename_i hlen
      split at h
      · injection h with h
        injection h with h _
        cases h
      · rename_i hacc
        exact ⟨op, _, hget, h, Or.inl ⟨List.length_eq_zero.1 hlen, hacc, rfl⟩⟩
    · rename_i hlen
      split at h
      · cases h
      · rename_i store' hset
        obtain ⟨bz, hbz, hstore⟩ := SetUnbondingOp_ok k st.store _ store' hset
        subst hstore
        exact ⟨op, _, hget, h,
          Or.inr ⟨fun hnil => hlen (by rw [hnil]; rfl), bz, hbz, rfl⟩⟩

/-- A loop that went on to its end goes on into a further list of operations. -/
theorem releaseUnbondingOps_append (k : Keeper) (chainID : Bytes) :
    ∀ (l1 l2 : List Nat) (st : State) (acc1 : Option Error × State),
      releaseUnbondingOps k chainID l1 (none, st) = .ok (true, acc1) →
      releaseUnbondingOps k chainID (l1 ++ l2) (none, st)
        = releaseUnbondingOps k chainID l2 acc1 := by
  intro l1
  induction l1 with
  | nil =>
    intro l2 st acc1 h
    simp only [releaseUnbondingOps, Except.ok.injEq, Prod.mk.injEq, true_and] at h
    subst h
    rfl
  | cons id rest ih =>
    intro l2 st acc1 h
    obtain ⟨op, st1, hget, hrest, hcase⟩ := releaseUnbondingOps_cons k chainID id rest st acc1 h
    rw [List.cons_append, releaseUnbondingOps]
    rcases hcase with ⟨hnil, hacc, hst1⟩ | ⟨hne, bz, hbz, hst1⟩
    · subst hst1
      simp only [hget, hnil, List.length_nil, if_true, hacc, DeleteUnbondingOp]
      exact ih l2 _ acc1 hrest
    · subst hst1
      have hlen : ¬ (removeStringFromSlice op.UnbondingConsumerChains chainID).1.length = 0 :=
        fun h0 => hne (List.length_eq_zero.1 h0)
      have hbz' : k.unbondingOpCodec.marshal
          { op with UnbondingConsumerChains :=
              (removeStringFromSlice op.UnbondingConsumerChains chainID).1 } = .ok bz := hbz
      simp only [hget, hlen, if_false, SetUnbondingOp, hbz']
      exact ih l2 _ acc1 hrest

/-- The callback of `StopConsumerChain`, started without error, that returns
`true`: the loop over the operations went on to its end without error and the
index entry is deleted. -/
theorem stopCallback_true (k : Keeper) (chainID : Bytes) (st : State) (vscID : Nat)
    (ids : List Nat) (acc' : Option Error × State)
    (h : stopCallback k chainID (none, st) vscID ids = .ok (true, acc')) :
    ∃ st1, releaseUnbondingOps k chainID ids (none, st) = .ok (true, (none, st1)) ∧
      acc' = (none, { st1 with store := DeleteUnbondingOpIndex st1.store chainID vscID }) := by
  unfold stopCallback at h
  split at h
  · cases h
  · injection h with h
    injection h with h _
    cases h
  · rename_i err st1 hrun
    have herr : err = none := (releaseUnbondingOps_flag k chainID ids st _ hrun).1 rfl
    subst herr
    injection h with h
    injection h with _ h
    exact ⟨st1, hrun, h.symm⟩

/-- The callback of `StopConsumerChain`, started without error, that returns
`false` leaves an error. -/
theorem stopCallback_false (k : Keeper) (chainID : Bytes) (st : State) (vscID : Nat)
    (ids : List Nat) (acc' : Option Error × State)
    (h : stopCallback k chainID (none, st) vscID ids = .ok (false, acc')) :
    acc'.1 ≠ none := by
  unfold stopCallback at h
  split at h
  · cases h
  · rename_i acc1 hrun
    injection h with h
    injection h with _ h
    subst h
    intro hnone
    have := (releaseUnbondingOps_flag k chainID ids st _ hrun).2 hnone
    cases this
  · injection h with h
    injection h with h _
    cases h

/-- A walk of `StopConsumerChain` that leaves no error went through the
operations of its first entry without error, deleted the entry and went on. -/
theorem walkIndex_cons_none (k : Keeper) (chainID : Bytes) (vscID : Nat) (ids : List Nat)
    (rest : List (Nat × List Nat)) (st st' : State)
    (h : walkIndex (stopCallback k chainID) ((vscID, ids) :: rest) (none, st)
      = .ok (none, st')) :
    ∃ st1, releaseUnbondingOps k chainID ids (none, st) = .ok (true, (none, st1)) ∧
      walkIndex (stopCallback k chainID) rest
        (none, { st1 with store := DeleteUnbondingOpIndex st1.store chainID vscID })
        = .ok (none, st') := by
  unfold walkIndex at h
  split at h
  · cases h
  · rename_i acc' hcb
    obtain ⟨st1, hrun, hacc⟩ := stopCallback_true k chainID st vscID ids acc' hcb
    subst hacc
    exact ⟨st1, hrun, h⟩
  · rename_i acc' hcb
    have hne := stopCallback_false k chainID st vscID ids acc' hcb
    injection h with h
    subst h
    exact absurd rfl hne

/-- A walk that went to its end without error goes on into further entries. -/
theorem walkIndex_stopCallback_append (k : Keeper) (chainID : Bytes) :
    ∀ (i1 i2 : List (Nat × List Nat)) (st st1 : State),
      walkIndex (stopCallback k chainID) i1 (none, st) = .ok (none, st1) →
      walkIndex (stopCallback k chainID) (i1 ++ i2) (none, st)
        = walkIndex (stopCallback k chainID) i2 (none, st1) := by
  intro i1
  induction i1 with
  | nil =>
    intro i2 st st1 h
    simp only [walkIndex, Except.ok.injEq, Prod.mk.injEq, true_and] at h
    subst h
    rfl
  | cons e rest ih =>
    intro i2 st st1 h
    obtain ⟨vscID, ids⟩ := e
    obtain ⟨sta, hrun, hrest⟩ := walkIndex_cons_none k chainID vscID ids rest st st1 h
    rw [List.cons_append, walkIndex]
    simp only [stopCallback, hrun]
    exact ih i2 _ st1 hrest

/-- A walk of `StopConsumerChain` over the entries of the iterator that leaves
no error decoded every entry. -/
theorem iterateIndexEntries_decoded (k : Keeper) (chainID : Bytes) :
    ∀ (entries : List (Bytes × Bytes)) (st st' : State),
      iterateIndexEntries k chainID (stopCallback k chainID) entries (none, st)
        = .ok (none, st') →
      ∃ idx, decodeIndexEntries k chainID entries = .ok idx := by
  intro entries
  induction entries with
  | nil =>
    intro st st' _
    exact ⟨[], rfl⟩
  | cons e rest ih =>
    intro st st' h
    obtain ⟨key, value⟩ := e
    unfold iterateIndexEntries at h
    unfold decodeIndexEntries
    split at h
    · cases h
    · rename_i vscID hvsc
      split at h
      · cases h
      · rename_i ids hids
        split at h
        · cases h
        · rename_i acc' hcb
          obtain ⟨st1, _, hacc⟩ := stopCallback_true k chainID st vscID ids acc' hcb
          subst hacc
          obtain ⟨idx, hidx⟩ := ih _ st' h
          exact ⟨(vscID, ids) :: idx, by simp only [hvsc, hids, hidx]⟩
        · rename_i acc' hcb
          have hne := stopCallback_false k chainID st vscID ids acc' hcb
          injection h with h
          subst h
          exact absurd rfl hne
theorem removeStringFromSlice_idem (slice : List Bytes) (x : Bytes) :
    (removeStringFromSlice (removeStringFromSlice slice x).1 x).1
      = (removeStringFromSlice slice x).1 := by
  simp [removeStringFromSlice, List.filter_filter]

theorem withoutChain_idem (op : UnbondingOp) (chainID : Bytes) :
    withoutChain (withoutChain op chainID) chainID = withoutChain op chainID := by
  simp only [withoutChain, removeStringFromSlice_idem]

theorem GetUnbondingOp_delete_other (k : Keeper) (s : Store) (h id : Nat) (hh : h < 2 ^ 64)
    (hid : id < 2 ^ 64) (hne : id ≠ h) :
    GetUnbondingOp k (s.delete (UnbondingOpKey h)) id = GetUnbondingOp k s id :=
  GetUnbondingOp_congr k s _ id
    (Store.get_delete_other _ _ _ (UnbondingOpKey_ne id h hid hh hne))

theorem GetUnbondingOp_set_other (k : Keeper) (s : Store) (bz : Bytes) (h id : Nat)
    (hh : h < 2 ^ 64) (hid : id < 2 ^ 64) (hne : id ≠ h) :
    GetUnbondingOp k (s.set (UnbondingOpKey h) bz) id = GetUnbondingOp k s id :=
  GetUnbondingOp_congr k s _ id
    (Store.get_set_other _ _ _ _ (UnbondingOpKey_ne id h hid hh hne))

theorem GetUnbondingOp_set_same (k : Keeper) (s : Store) (bz : Bytes) (h : Nat)
    (op : UnbondingOp) (hrt : k.unbondingOpCodec.RoundTrip)
    (hbz : k.unbondingOpCodec.marshal op = .ok bz) :
    GetUnbondingOp k (s.set (UnbondingOpKey h) bz) h = .ok (op, true) := by
  unfold GetUnbondingOp
  rw [Store.get_set_same]
  simp only [hrt op bz hbz]

/-- The loop over the operations of one VSC ID, when it goes on to its end: an
operation that still waits for another chain is not completed; its record is
the shrunk operation if the loop met it, and is unchanged otherwise. -/
theorem releaseUnbondingOps_shrinks (k : Keeper) (chainID : Bytes)
    (hrt : k.unbondingOpCodec.RoundTrip) :
    ∀ (ids : List Nat) (st st' : State),
      (∀ id ∈ ids, id < 2 ^ 64) →
      opsUnderOwnId k st.store →
      releaseUnbondingOps k chainID ids (none, st) = .ok (true, (none, st')) →
      opsUnderOwnId k st'.store ∧
      ∀ id op, id < 2 ^ 64 → GetUnbondingOp k st.store id = .ok (op, true) →
        (removeStringFromSlice op.UnbondingConsumerChains chainID).1 ≠ [] →
        GetUnbondingOp k st'.store id
          = .ok (if id ∈ ids then withoutChain op chainID else op, true) ∧
        st'.calls.count (.UnbondingCanComplete id)
          = st.calls.count (.UnbondingCanComplete id) := by
  intro ids
  induction ids with
  | nil =>
    intro st st' _ hown h
    simp only [releaseUnbondingOps, Except.ok.injEq, Prod.mk.injEq, true_and] at h
    subst h
    exact ⟨hown, fun id op _ hget _ => ⟨by simpa using hget, rfl⟩⟩
  | cons h rest ih =>
    intro st st' hlt hown hrun
    have hh : h < 2 ^ 64 := hlt h (List.mem_cons_self _ _)
    have hlt' : ∀ id ∈ rest, id < 2 ^ 64 := fun id hid => hlt id (List.mem_cons_of_mem _ hid)
    obtain ⟨oph, st1, hget, hrest, hcase⟩ :=
      releaseUnbondingOps_cons k chainID h rest st _ hrun
    have hId : oph.Id = h := hown h oph hh hget
    rcases hcase with ⟨hnil, _, hst1⟩ | ⟨hne, bz, hbz, hst1⟩
    · -- the operation was completed and its record deleted
      rw [hId] at hst1
      subst hst1
      have hown1 : opsUnderOwnId k (st.store.delete (UnbondingOpKey h)) := by
        intro id op hid hg
        by_cases hidh : id = h
        · subst hidh
          simp [GetUnbondingOp, Store.get_delete_same] at hg
        · rw [GetUnbondingOp_delete_other k _ h id hh hid hidh] at hg
          exact hown id op hid hg
      obtain ⟨hown', hshr⟩ := ih _ st' hlt' hown1 hrest
      refine ⟨hown', ?_⟩
      intro id op hid hg hmulti
      have hidh : id ≠ h := by
        intro heq
        subst heq
        rw [hget] at hg
        injection hg with hg
        injection hg with hop _
        subst hop
        exact hmulti hnil
      obtain ⟨a, b⟩ := hshr id op hid
        (by rw [GetUnbondingOp_delete_other k _ h id hh hid hidh]; exact hg) hmulti
      refine ⟨?_, ?_⟩
      · rw [a]
        simp [List.mem_cons, hidh]
      · rw [b]
        exact count_append_other _ _ _ hidh
    · -- the shrunk operation was stored
      rw [hId] at hst1
      subst hst1
      have hself : GetUnbondingOp k (st.store.set (UnbondingOpKey h) bz) h
          = .ok (withoutChain oph chainID, true) :=
        GetUnbondingOp_set_same k _ bz h _ hrt hbz
      have hown1 : opsUnderOwnId k (st.store.set (UnbondingOpKey h) bz) := by
        intro id op hid hg
        by_cases hidh : id = h
        · subst hidh
          rw [hself] at hg
          injection hg with hg
          injection hg with hop _
          subst hop
          exact hId
        · rw [GetUnbondingOp_set_other k _ bz h id hh hid hidh] at hg
          exact hown id op hid hg
      obtain ⟨hown', hshr⟩ := ih _ st' hlt' hown1 hrest
      refine ⟨hown', ?_⟩
      intro id op hid hg hmulti
      by_cases hidh : id = h
      · subst hidh
        rw [hget] at hg
        injection hg with hg
        injection hg with hop _
        subst hop
        obtain ⟨a, b⟩ := hshr id (withoutChain oph chainID) hid hself
          (by simp only [withoutChain, removeStringFromSlice_idem]; exact hmulti)
        refine ⟨?_, b⟩
        rw [a, withoutChain_idem]
        simp
      · obtain ⟨a, b⟩ := hshr id op hid
          (by rw [GetUnbondingOp_set_other k _ bz h id hh hid hidh]; exact hg) hmulti
        refine ⟨?_, b⟩
        rw [a]
        simp [List.mem_cons, hidh]

theorem indexedIds_cons (vscID : Nat) (ids : List Nat) (rest : List (Nat × List Nat)) :
    indexedIds ((vscID, ids) :: rest) = ids ++ indexedIds rest := by
  simp [indexedIds]

theorem GetUnbondingOp_DeleteUnbondingOpIndex (k : Keeper) (s : Store) (chainID : Bytes)
    (vscID id : Nat) :
    GetUnbondingOp k (DeleteUnbondingOpIndex s chainID vscID) id = GetUnbondingOp k s id := by
  apply GetUnbondingOp_congr
  apply Store.get_delete_other
  simp [UnbondingOpKey, UnbondingOpIndexKey, UnbondingOpIndexChainKey,
    UnbondingOpBytePrefix, UnbondingOpIndexBytePrefix]

/-- The walk of `StopConsumerChain`, when it goes to its end without error: an
operation that still waits for another chain is not completed; its record is
the shrunk operation if the index lists it, and is unchanged otherwise. -/
theorem walkIndex_stopCallback_shrinks (k : Keeper) (chainID : Bytes)
    (hrt : k.unbondingOpCodec.RoundTrip) :
    ∀ (idx : List (Nat × List Nat)) (st st' : State),
      (∀ id ∈ indexedIds idx, id < 2 ^ 64) →
      opsUnderOwnId k st.store →
      walkIndex (stopCallback k chainID) idx (none, st) = .ok (none, st') →
      opsUnderOwnId k st'.store ∧
      ∀ id op, id < 2 ^ 64 → GetUnbondingOp k st.store id = .ok (op, true) →
        (removeStringFromSlice op.UnbondingConsumerChains chainID).1 ≠ [] →
        GetUnbondingOp k st'.store id
          = .ok (if id ∈ indexedIds idx then withoutChain op chainID else op, true) ∧
        st'.calls.count (.UnbondingCanComplete id)
          = st.calls.count (.UnbondingCanComplete id) := by
  intro idx
  induction idx with
  | nil =>
    intro st st' _ hown h
    simp only [walkIndex, Except.ok.injEq, Prod.mk.injEq, true_and] at h
    subst h
    exact ⟨hown, fun id op _ hget _ => ⟨by simpa [indexedIds] using hget, rfl⟩⟩
  | cons e rest ih =>
    intro st st' hlt hown hrun
    obtain ⟨vscID, ids⟩ := e
    rw [indexedIds_cons] at hlt
    obtain ⟨st1, hrun1, hrest⟩ := walkIndex_cons_none k chainID vscID ids rest st st' hrun
    obtain ⟨hown1, hshr1⟩ := releaseUnbondingOps_shrinks k chainID hrt ids st st1
      (fun id hid => hlt id (List.mem_append_left _ hid)) hown hrun1
    have hown1' : opsUnderOwnId k (DeleteUnbondingOpIndex st1.store chainID vscID) := by
      intro id op hid hg
      rw [GetUnbondingOp_DeleteUnbondingOpIndex] at hg
      exact hown1 id op hid hg
    obtain ⟨hown', hshr⟩ := ih _ st'
      (fun id hid => hlt id (List.mem_append_right _ hid)) hown1' hrest
    refine ⟨hown', ?_⟩
    intro id op hid hg hmulti
    obtain ⟨a1, b1⟩ := hshr1 id op hid hg hmulti
    have hmulti1 : (removeStringFromSlice
        (if id ∈ ids then withoutChain op chainID else op).UnbondingConsumerChains chainID).1
          ≠ [] := by
      by_cases hin : id ∈ ids
      · simp only [hin, if_true, withoutChain, removeStringFromSlice_idem]
        exact hmulti
      · simp only [hin, if_false]
        exact hmulti
    obtain ⟨a, b⟩ := hshr id _ hid
      (by rw [GetUnbondingOp_DeleteUnbondingOpIndex]; exact a1) hmulti1
    refine ⟨?_, b.trans b1⟩
    rw [a, indexedIds_cons]
    by_cases hin : id ∈ ids <;> by_cases hin2 : id ∈ indexedIds rest <;>
      simp [hin, hin2, withoutChain_idem]

namespace Store

theorem prefixIterator_delete_filter (s : Store) (k p : Bytes) :
    prefixIterator (delete s k) p = (prefixIterator s p).filter (fun e => e.1 ≠ k) := by
  unfold prefixIterator delete
  rw [List.filter_filter, List.filter_filter]
  apply List.filter_congr
  intro e _
  exact Bool.and_comm _ _

end Store

/-- The loop over the operations of one VSC ID, whenever it returns, leaves the
entries outside the namespace of the unbonding operations as they were. -/
theorem releaseUnbondingOps_index (k : Keeper) (chainID : Bytes) :
    ∀ (ids : List Nat) (acc : Option Error × State) (r : Bool × (Option Error × State)),
      releaseUnbondingOps k chainID ids acc = .ok r →
      ∀ (b : Nat) (p : Bytes), b ≠ UnbondingOpBytePrefix →
        r.2.2.store.prefixIterator (b :: p) = acc.2.store.prefixIterator (b :: p) := by
  intro ids
  induction ids with
  | nil =>
    intro acc r h b p _
    simp only [releaseUnbondingOps, Except.ok.injEq] at h
    subst h
    rfl
  | cons id rest ih =>
    intro acc r h b p hb
    obtain ⟨err, st⟩ := acc
    unfold releaseUnbondingOps at h
    split at h
    · cases h
    · injection h with h
      subst h
      rfl
    · simp only at h
      split at h
      · split at h
        · injection h with h
          subst h
          rfl
        · rw [ih _ r h b p hb]
          exact Store.prefixIterator_delete _ _ _ (isPrefixOf_head_ne _ _ _ _ hb)
      · split at h
        · cases h
        · rename_i store' hset
          obtain ⟨bz, _, hstore⟩ := SetUnbondingOp_ok k st.store _ store' hset
          subst hstore
          rw [ih _ r h b p hb]
          exact Store.prefixIterator_set _ _ _ _ (isPrefixOf_head_ne _ _ _ _ hb)

/-- The walk of `StopConsumerChain`, when it goes to its end without error,
leaves of the index the entries it did not delete: those whose key is not the
key `UnbondingOpIndexKey` of a VSC ID it went through. -/
theorem walkIndex_stopCallback_index (k : Keeper) (chainID : Bytes) :
    ∀ (idx : List (Nat × List Nat)) (st st' : State),
      walkIndex (stopCallback k chainID) idx (none, st) = .ok (none, st') →
      ∀ c, st'.store.prefixIterator (UnbondingOpIndexChainKey c)
        = (st.store.prefixIterator (UnbondingOpIndexChainKey c)).filter
            (fun e => decide (e.1 ∉ idx.map (fun x => UnbondingOpIndexKey chainID x.1))) := by
  intro idx
  induction idx with
  | nil =>
    intro st st' h c
    simp only [walkIndex, Except.ok.injEq, Prod.mk.injEq, true_and] at h
    subst h
    simp
  | cons e rest ih =>
    intro st st' hrun c
    obtain ⟨vscID, ids⟩ := e
    obtain ⟨st1, hrun1, hrest⟩ := walkIndex_cons_none k chainID vscID ids rest st st' hrun
    have h1 := releaseUnbondingOps_index k chainID ids _ _ hrun1 UnbondingOpIndexBytePrefix
      (PutUint64 c.length ++ c) (by decide)
    rw [ih _ st' hrest c]
    simp only [DeleteUnbondingOpIndex, Store.prefixIterator_delete_filter, List.filter_filter]
    have h1' : st1.store.prefixIterator (UnbondingOpIndexChainKey c)
        = st.store.prefixIterator (UnbondingOpIndexChainKey c) := h1
    rw [h1']
    apply List.filter_congr
    intro e _
    by_cases he : e.1 = UnbondingOpIndexKey chainID vscID <;> simp [he]

/-- The keys of decoded index entries that are keys of `UnbondingOpIndexKey`
are the keys of the VSC IDs they decode to. -/
theorem decodeIndexEntries_keys (k : Keeper) (chainID : Bytes) :
    ∀ (entries : List (Bytes × Bytes)) (idx : List (Nat × List Nat)),
      decodeIndexEntries k chainID entries = .ok idx →
      (∀ e ∈ entries, ∃ v, v < 2 ^ 64 ∧ e.1 = UnbondingOpIndexKey chainID v) →
      idx.map (fun x => UnbondingOpIndexKey chainID x.1) = entries.map Prod.fst := by
  intro entries
  induction entries with
  | nil =>
    intro idx h _
    simp only [decodeIndexEntries, Except.ok.injEq] at h
    subst h
    rfl
  | cons e rest ih =>
    intro idx h hkeys
    obtain ⟨key, value⟩ := e
    obtain ⟨v, hv, hkey⟩ := hkeys (key, value) (List.mem_cons_self _ _)
    simp only at hkey
    subst hkey
    unfold decodeIndexEntries at h
    have hdrop : Uint64 ((UnbondingOpIndexKey chainID v).drop
        (UnbondingOpIndexChainKey chainID).length) = some v := by
      unfold UnbondingOpIndexKey
      rw [List.drop_left]
      exact Uint64_PutUint64 v hv
    simp only [hdrop] at h
    split at h
    · cases h
    · split at h
      · cases h
      · rename_i idx' hidx'
        injection h with h
        subst h
        simp only [List.map_cons, List.cons.injEq, true_and]
        exact ih idx' hidx' (fun e he => hkeys e (List.mem_cons_of_mem _ he))

/-- A walk of `StopConsumerChain` over the index of the chain that leaves no
error leaves no index entry of the chain. -/
theorem IterateOverUnbondingOpIndex_clears (k : Keeper) (chainID : Bytes) (st st' : State)
    (hkeys : indexKeysOf st.store chainID)
    (h : IterateOverUnbondingOpIndex k st.store chainID (stopCallback k chainID) (none, st)
      = .ok (none, st')) :
    st'.store.prefixIterator (UnbondingOpIndexChainKey chainID) = [] := by
  unfold IterateOverUnbondingOpIndex at h
  obtain ⟨idx, hidx⟩ := iterateIndexEntries_decoded k chainID _ st st' h
  rw [iterateIndexEntries_eq_walkIndex k chainID _ _ idx _ hidx] at h
  rw [walkIndex_stopCallback_index k chainID idx st st' h chainID,
    decodeIndexEntries_keys k chainID _ idx hidx hkeys]
  rw [List.filter_eq_nil_iff]
  intro e he
  simp only [decide_not, Bool.not_eq_true', decide_eq_false_iff_not, not_not]
  exact List.mem_map_of_mem _ he

/-- `StopConsumerChain(C, lockUbd = false, _)`, whenever it returns: the walk
over the index starts from a state whose unbonding operations, index and calls
of `UnbondingCanComplete` are those of the state of the call. -/
theorem StopConsumerChain_walk (k : Keeper) (st : State) (chainID : Bytes) (closeChan : Bool)
    (r : Option Error × State)
    (h : StopConsumerChain k st chainID false closeChan = .ok r) :
    ∃ st5, sameUnbonding st.store st5.store ∧
      (∀ id, st5.calls.count (.UnbondingCanComplete id)
        = st.calls.count (.UnbondingCanComplete id)) ∧
      IterateOverUnbondingOpIndex k st5.store chainID (stopCallback k chainID) (none, st5)
        = .ok r := by
  unfold StopConsumerChain at h
  simp only at h
  cases hempty : EmptySlashAcks k (stopCleanup k st chainID closeChan).store chainID with
  | error e => simp [hempty] at h
  | ok res =>
    obtain ⟨L, store5⟩ := res
    simp only [hempty, Bool.false_eq_true, if_false] at h
    refine ⟨{ stopCleanup k st chainID closeChan with store := store5 }, ?_,
      fun id => stopCleanup_count k st chainID closeChan id, h⟩
    apply sameUnbonding_trans (stopCleanup_sameUnbonding k st chainID closeChan)
    rcases EmptySlashAcks_ok k _ chainID L store5 hempty with hs | hs
    · rw [hs]
      exact sameUnbonding_refl _
    · rw [hs]
      exact sameUnbonding_delete _ SlashAcksBytePrefix chainID (by decide) (by decide)
theorem opsUnderOwnId_nil (k : Keeper) : opsUnderOwnId k [] := by
  intro id op _ h
  simp [GetUnbondingOp, Store.get] at h

theorem opsUnderOwnId_cons_other (k : Keeper) (b : Nat) (key v : Bytes) (rest : Store)
    (hb : b ≠ UnbondingOpBytePrefix) (h : opsUnderOwnId k rest) :
    opsUnderOwnId k ((b :: key, v) :: rest) := by
  intro id op hid hg
  apply h id op hid
  rw [← hg]
  apply GetUnbondingOp_congr
  have hne : UnbondingOpKey id ≠ b :: key := by
    simp only [UnbondingOpKey, ne_eq, List.cons.injEq, not_and]
    intro hb'
    exact absurd hb'.symm hb
  simp [Store.get, hne]

theorem opsUnderOwnId_cons_op (k : Keeper) (j : Nat) (v : Bytes) (opj : UnbondingOp)
    (rest : Store) (hj : j < 2 ^ 64) (hv : k.unbondingOpCodec.unmarshal v = .ok opj)
    (hop : opj.Id = j) (h : opsUnderOwnId k rest) :
    opsUnderOwnId k ((UnbondingOpKey j, v) :: rest) := by
  intro id op hid hg
  by_cases hidj : id = j
  · subst hidj
    simp only [GetUnbondingOp, Store.get, if_true, hv, Except.ok.injEq, Prod.mk.injEq,
      and_true] at hg
    rw [← hg]
    exact hop
  · apply h id op hid
    rw [← hg]
    apply GetUnbondingOp_congr
    simp [Store.get, UnbondingOpKey_ne id j hid hj hidj]

/-- Every operation of `unbondingState` is stored under its own ID. -/
theorem unbondingState_opsUnderOwnId : opsUnderOwnId testKeeper unbondingState.store :=
  opsUnderOwnId_cons_other _ ChainToChannelBytePrefix _ _ _ (by decide)
    (opsUnderOwnId_cons_other _ ChannelToChainBytePrefix _ _ _ (by decide)
      (opsUnderOwnId_cons_op _ 4 _ { Id := 4, UnbondingConsumerChains := [ascii "consu"] } _
        (by decide) (by decide) rfl
        (opsUnderOwnId_cons_op _ 7 _ { Id := 7, UnbondingConsumerChains := [ascii "consu"] } _
          (by decide) (by decide) rfl
          (opsUnderOwnId_cons_op _ 9 _
            { Id := 9, UnbondingConsumerChains := [ascii "consu", ascii "other"] } _
            (by decide) (by decide) rfl
            (opsUnderOwnId_cons_other _ UnbondingOpIndexBytePrefix _ _ _ (by decide)
              (opsUnderOwnId_cons_other _ UnbondingOpIndexBytePrefix _ _ _ (by decide)
                (opsUnderOwnId_nil _)))))))

/-- The index entries of the chain `consu` in `unbondingState` have keys of
`UnbondingOpIndexKey`. -/
theorem unbondingState_indexKeysOf : indexKeysOf unbondingState.store (ascii "consu") := by
  intro e he
  have hiter : unbondingState.store.prefixIterator (UnbondingOpIndexChainKey (ascii "consu"))
      = [indexEntry (ascii "consu") 1 [7, 9], indexEntry (ascii "consu") 2 [4]] := by
    decide
  rw [hiter] at he
  simp only [List.mem_cons, List.mem_singleton, List.not_mem_nil, or_false] at he
  rcases he with he | he
  · exact ⟨1, by decide, by rw [he]; rfl⟩
  · exact ⟨2, by decide, by rw [he]; rfl⟩

theorem testKeeper_unbondingOpRoundTrip : testKeeper.unbondingOpCodec.RoundTrip :=
  Wire.codec_roundTrip Wire.unbondingOp_lawful

/-- C15, an operation the index lists after a missing one: the index of `consu`
lists the operation 9, which waits for `consu` and for `other`, after the
operation 8, which has no record. `StopConsumerChain` returns the not-found
error for 8 and leaves the state as it was: the operation 9 is persisted with
`consu` still in its wait-set. -/
theorem StopConsumerChain_blocked_waitset :
    GetAllUnbondingOpIndexes testKeeper blockedState.store (ascii "consu")
      = .ok [(1, [8, 9])] ∧
    GetUnbondingOp testKeeper blockedState.store 9
      = .ok ({ Id := 9, UnbondingConsumerChains := [ascii "consu", ascii "other"] }, true) ∧
    StopConsumerChain testKeeper blockedState (ascii "consu") false true
      = .ok (some (.ErrUnbondingOpNotFound 8), blockedState) := by
  decide

/-! ## A second StopConsumerChain -/

namespace Store

theorem delete_eq_self (s : Store) (k : Bytes) (h : get s k = none) : delete s k = s := by
  induction s with
  | nil => rfl
  | cons e rest ih =>
    obtain ⟨k', v'⟩ := e
    simp only [get] at h
    split at h
    · cases h
    · rename_i hne
      have ih' := ih h
      unfold delete at ih' ⊢
      have hk' : decide ((k', v').1 ≠ k) = true := by
        simp only [ne_eq, decide_not, Bool.not_eq_true', decide_eq_false_iff_not]
        exact fun hc => hne hc.symm
      rw [List.filter_cons, if_pos hk', ih']

end Store

/-- After `StopConsumerChain` returns, the keys of the client binding, of the
unbonding-lock flag, of the init height and of the channel of the chain are
absent from the store. -/
theorem StopConsumerChain_deleted (k : Keeper) (st : State) (chainID : Bytes)
    (lockUbd closeChan : Bool) (err : Option Error) (st' : State)
    (h : StopConsumerChain k st chainID lockUbd closeChan = .ok (err, st')) :
    st'.store.get (ChainToClientKey chainID) = none ∧
    st'.store.get (LockUnbondingOnTimeoutKey chainID) = none ∧
    st'.store.get (InitChainHeightKey chainID) = none ∧
    st'.store.get (ChainToChannelKey chainID) = none := by
  obtain ⟨L, store5, hempty, hframe⟩ := StopConsumerChain_ok k st chainID lockUbd closeChan
    err st' h
  have hget : ∀ b rest, b ≠ UnbondingOpBytePrefix → b ≠ UnbondingOpIndexBytePrefix →
      (stopCleanup k st chainID closeChan).store.get (b :: rest) = none →
      st'.store.get (b :: rest) = none := by
    intro b rest h11 h12 hnone
    rw [hframe.1 b rest h11 h12]
    rcases EmptySlashAcks_ok k _ chainID L store5 hempty with hs | hs
    · simp only [hs]
      exact hnone
    · simp only [hs, Store.get_delete, hnone, ite_self]
  have hclean := stopCleanup_store k st chainID closeChan
  refine ⟨?_, ?_, ?_, ?_⟩
  · apply hget _ _ (by decide) (by decide)
    rw [hclean]
    split <;>
      simp [Store.get_delete, ChainToClientKey, LockUnbondingOnTimeoutKey, ChainToChannelKey,
        ChannelToChainKey, InitChainHeightKey, ChainToClientBytePrefix,
        LockUnbondingOnTimeoutBytePrefix, ChainToChannelBytePrefix, ChannelToChainBytePrefix,
        InitChainHeightBytePrefix]
  · apply hget _ _ (by decide) (by decide)
    rw [hclean]
    split <;>
      simp [Store.get_delete, ChainToClientKey, LockUnbondingOnTimeoutKey, ChainToChannelKey,
        ChannelToChainKey, InitChainHeightKey, ChainToClientBytePrefix,
        LockUnbondingOnTimeoutBytePrefix, ChainToChannelBytePrefix, ChannelToChainBytePrefix,
        InitChainHeightBytePrefix]
  · apply hget _ _ (by decide) (by decide)
    rw [hclean]
    split <;>
      simp [Store.get_delete, ChainToClientKey, LockUnbondingOnTimeoutKey, ChainToChannelKey,
        ChannelToChainKey, InitChainHeightKey, ChainToClientBytePrefix,
        LockUnbondingOnTimeoutBytePrefix, ChainToChannelBytePrefix, ChannelToChainBytePrefix,
        InitChainHeightBytePrefix]
  · apply hget _ _ (by decide) (by decide)
    rw [hclean]
    split
    · simp [Store.get_delete, ChainToClientKey, LockUnbondingOnTimeoutKey, ChainToChannelKey,
        ChannelToChainKey, InitChainHeightKey, ChainToClientBytePrefix,
        LockUnbondingOnTimeoutBytePrefix, ChainToChannelBytePrefix, ChannelToChainBytePrefix,
        InitChainHeightBytePrefix]
    · rename_i x hfalse
      have hn : st.store.get (ChainToChannelKey chainID) = none := by
        unfold GetChainToChannel at hfalse
        cases hg : st.store.get (ChainToChannelKey chainID) with
        | none => rfl
        | some v => simp [hg] at hfalse
      simp only [Store.get_delete]
      split_ifs <;> first | rfl | exact hn

/-- The first part of `StopConsumerChain` on a chain that has no client
binding, no unbonding-lock flag, no channel and no init height changes
nothing and calls nothing. -/
theorem stopCleanup_absent (k : Keeper) (st : State) (chainID : Bytes) (closeChan : Bool)
    (h7 : st.store.get (ChainToClientKey chainID) = none)
    (h18 : st.store.get (LockUnbondingOnTimeoutKey chainID) = none)
    (h16 : st.store.get (InitChainHeightKey chainID) = none)
    (h5 : st.store.get (ChainToChannelKey chainID) = none) :
    stopCleanup k st chainID closeChan = st := by
  unfold stopCleanup
  simp only [DeleteConsumerClient, DeleteConsumerClientId, DeleteLockUnbondingOnTimeout,
    DeleteInitChainHeight, Store.delete_eq_self _ _ h7, Store.delete_eq_self _ _ h18,
    GetChainToChannel, h5, Store.delete_eq_self _ _ h16]

/-- After the slash acks of a chain are drained, none is left. -/
theorem EmptySlashAcks_drained (k : Keeper) (store : Store) (chainID : Bytes) (L : List Bytes)
    (store' : Store) (h : EmptySlashAcks k store chainID = .ok (L, store')) :
    GetSlashAcks k store' chainID = .ok [] := by
  unfold EmptySlashAcks ConsumeSlashAcks at h
  split at h
  · cases h
  · rename_i acks hacks
    split at h
    · rename_i hlen
      injection h with h
      injection h with _ h
      subst h
      rw [hacks]
      have : acks = [] := List.length_eq_zero.1 (by omega)
      rw [this]
    · injection h with h
      injection h with _ h
      subst h
      simp [GetSlashAcks, Store.get_delete_same]

/-- C18: when `StopConsumerChain(C, lockUbd, closeChan)` returns no error, a
second call with the same arguments on the state it left returns no error and
leaves that state as it is: the same store, and no further call of
`UnbondingCanComplete` or of the channel keeper. (For `lockUbd = false` the
index entries of the chain are stored under keys of `UnbondingOpIndexKey`, as
the keeper writes them.) -/
theorem StopConsumerChain_idempotent (k : Keeper) (st : State) (C : Bytes)
    (lockUbd closeChan : Bool) (st' : State)
    (hkeys : lockUbd = false → indexKeysOf st.store C)
    (h : StopConsumerChain k st C lockUbd closeChan = .ok (none, st')) :
    StopConsumerChain k st' C lockUbd closeChan = .ok (none, st') := by
  obtain ⟨h7, h18, h16, h5⟩ := StopConsumerChain_deleted k st C lockUbd closeChan none st' h
  have hclean : stopCleanup k st' C closeChan = st' :=
    stopCleanup_absent k st' C closeChan h7 h18 h16 h5
  have hacks : GetSlashAcks k st'.store C = .ok [] := by
    obtain ⟨L, store5, hempty, hframe⟩ := StopConsumerChain_ok k st C lockUbd closeChan
      none st' h
    have hdr := EmptySlashAcks_drained k _ C L store5 hempty
    unfold GetSlashAcks at hdr ⊢
    unfold SlashAcksKey at hdr ⊢
    rw [hframe.1 SlashAcksBytePrefix C (by decide) (by decide)]
    exact hdr
  have hempty : EmptySlashAcks k st'.store C = .ok ([], st'.store) := by
    simp [EmptySlashAcks, ConsumeSlashAcks, hacks]
  unfold StopConsumerChain
  simp only [hclean, hempty]
  cases lockUbd with
  | true => rfl
  | false =>
    simp only [Bool.false_eq_true, if_false]
    obtain ⟨st5, hsame, _, hwalk⟩ := StopConsumerChain_walk k st C closeChan _ h
    have hkeys5 : indexKeysOf st5.store C := by
      intro e he
      rw [hsame.2 C] at he
      exact hkeys rfl e he
    have hidx := IterateOverUnbondingOpIndex_clears k C st5 st' hkeys5 hwalk
    simp only [IterateOverUnbondingOpIndex, hidx, iterateIndexEntries]

/-- C18 on a concrete input: the state `unbondingState` and the state
`releasedState` that the first call leaves. -/
theorem StopConsumerChain_idempotent_witness :
    StopConsumerChain testKeeper unbondingState (ascii "consu") false true
      = .ok (none, releasedState) ∧
    StopConsumerChain testKeeper releasedState (ascii "consu") false true
      = .ok (none, releasedState) :=
  ⟨by decide,
    StopConsumerChain_idempotent testKeeper unbondingState (ascii "consu") false true
      releasedState (fun _ => unbondingState_indexKeysOf) (by decide)⟩

/-! ## A completion the staking keeper refuses -/

/-- `StopConsumerChain(C, lockUbd = false, _)` up to the walk: when the slash
acks of the chain unmarshal and the index of the chain decodes, the call is the
walk over the decoded index, started without error from a state whose unbonding
operations, index and calls of `UnbondingCanComplete` are those of the state of
the call. -/
theorem StopConsumerChain_start (k : Keeper) (st : State) (C : Bytes) (closeChan : Bool)
    (idx : List (Nat × List Nat)) (L : List Bytes)
    (hacks : GetSlashAcks k st.store C = .ok L)
    (hidx : GetAllUnbondingOpIndexes k st.store C = .ok idx) :
    ∃ st5, sameUnbonding st.store st5.store ∧
      (∀ id, st5.calls.count (.UnbondingCanComplete id)
        = st.calls.count (.UnbondingCanComplete id)) ∧
      StopConsumerChain k st C false closeChan
        = walkIndex (stopCallback k C) idx (none, st5) := by
  have hacks4 : GetSlashAcks k (stopCleanup k st C closeChan).store C = .ok L := by
    unfold GetSlashAcks at hacks ⊢
    unfold SlashAcksKey at hacks ⊢
    rw [stopCleanup_get_other k st C closeChan SlashAcksBytePrefix C (by decide) (by decide)
      (by decide) (by decide) (by decide)]
    exact hacks
  obtain ⟨store5, hempty, hsame5⟩ := EmptySlashAcks_sameUnbonding k _ C L hacks4
  have hsame := sameUnbonding_trans (stopCleanup_sameUnbonding k st C closeChan) hsame5
  have hdecode : decodeIndexEntries k C (store5.prefixIterator (UnbondingOpIndexChainKey C))
      = .ok idx := by
    rw [hsame.2 C]
    exact hidx
  refine ⟨{ stopCleanup k st C closeChan with store := store5 }, hsame,
    fun id => stopCleanup_count k st C closeChan id, ?_⟩
  simp only [StopConsumerChain, hempty, Bool.false_eq_true, if_false,
    IterateOverUnbondingOpIndex]
  exact iterateIndexEntries_eq_walkIndex k C _ _ idx _ hdecode

/-- The call of `StopConsumerChain` in which the staking keeper refuses the
completion of the operation `f`, the operations the index lists before `f`
being stored under their IDs, listed once and accepted: the call returns the
error of the staking keeper with the state as it was when `f` was refused. -/
theorem StopConsumerChain_abort_spec (k : Keeper) (st : State) (C : Bytes) (closeChan : Bool)
    (idxPre idxPost : List (Nat × List Nat)) (v : Nat) (idsPre idsPost : List Nat) (f : Nat)
    (opf : UnbondingOp) (e : Error) (L : List Bytes)
    (htot : k.unbondingOpCodec.Total)
    (hacks : GetSlashAcks k st.store C = .ok L)
    (hidx : GetAllUnbondingOpIndexes k st.store C
      = .ok (idxPre ++ (v, idsPre ++ f :: idsPost) :: idxPost))
    (hnd : (indexedIds idxPre ++ idsPre ++ [f]).Nodup)
    (hfound : ∀ id ∈ indexedIds idxPre ++ idsPre ++ [f], id < 2 ^ 64 ∧
      ∃ op, GetUnbondingOp k st.store id = .ok (op, true) ∧ op.Id = id)
    (hacc : ∀ id ∈ indexedIds idxPre ++ idsPre, k.UnbondingCanComplete id = none)
    (hf : GetUnbondingOp k st.store f = .ok (opf, true))
    (hfempty : (removeStringFromSlice opf.UnbondingConsumerChains C).1 = [])
    (hrej : k.UnbondingCanComplete f = some e) :
    ∃ st', StopConsumerChain k st C false closeChan = .ok (some e, st') ∧
      GetUnbondingOp k st'.store f = .ok (opf, true) ∧
      (∃ calls, st'.calls = calls ++ [.UnbondingCanComplete f]) ∧
      st'.calls.count (.UnbondingCanComplete f)
        = st.calls.count (.UnbondingCanComplete f) + 1 ∧
      (∀ id ∈ indexedIds idxPre ++ idsPre, ∀ op,
        GetUnbondingOp k st.store id = .ok (op, true) →
        (removeStringFromSlice op.UnbondingConsumerChains C).1 = [] →
        st'.store.get (UnbondingOpKey id) = none ∧
        st'.calls.count (.UnbondingCanComplete id)
          = st.calls.count (.UnbondingCanComplete id) + 1) ∧
      (∀ id, id < 2 ^ 64 → id ∉ indexedIds idxPre ++ idsPre →
        st'.store.get (UnbondingOpKey id) = st.store.get (UnbondingOpKey id)) ∧
      (∀ id, id ∉ indexedIds idxPre ++ idsPre ++ [f] →
        st'.calls.count (.UnbondingCanComplete id)
          = st.calls.count (.UnbondingCanComplete id)) ∧
      (∀ c, st'.store.prefixIterator (UnbondingOpIndexChainKey c)
        = (st.store.prefixIterator (UnbondingOpIndexChainKey c)).filter
            (fun x => decide (x.1 ∉ idxPre.map (fun y => UnbondingOpIndexKey C y.1)))) := by
  obtain ⟨st5, hsame, hcount5, hstart⟩ := StopConsumerChain_start k st C closeChan _ L hacks hidx
  obtain ⟨hndAB, _, hdisjf⟩ := List.nodup_append.1 hnd
  obtain ⟨hndA, hndB, hdisjAB⟩ := List.nodup_append.1 hndAB
  have hfAB : f ∉ indexedIds idxPre ++ idsPre := fun h => hdisjf h (List.mem_singleton_self f)
  have hfA : f ∉ indexedIds idxPre := fun h => hfAB (List.mem_append_left _ h)
  have hfB : f ∉ idsPre := fun h => hfAB (List.mem_append_right _ h)
  have hflt : f < 2 ^ 64 :=
    (hfound f (List.mem_append_right _ (List.mem_singleton_self f))).1
  have hIdf : opf.Id = f := by
    obtain ⟨_, op, hg, hid⟩ := hfound f (List.mem_append_right _ (List.mem_singleton_self f))
    rw [hf] at hg
    injection hg with hg
    injection hg with hop _
    rw [hop]
    exact hid
  have hget5 : ∀ id, GetUnbondingOp k st5.store id = GetUnbondingOp k st.store id :=
    fun id => GetUnbondingOp_congr k st.store _ id (hsame.1 id)
  -- the entries before the one that lists `f`
  obtain ⟨stA, hrunA, a1, a2, a3⟩ := walkIndex_stopCallback_spec k C htot idxPre st5 hndA
    (fun id hid => by
      obtain ⟨h1, op, h2, h3⟩ :=
        hfound id (List.mem_append_left _ (List.mem_append_left _ hid))
      exact ⟨h1, op, by rw [hget5]; exact h2, h3⟩)
    (fun id hid => hacc id (List.mem_append_left _ hid))
  have hidxA := walkIndex_stopCallback_index k C idxPre st5 stA hrunA
  -- the operations the entry lists before `f`
  obtain ⟨stB, hrunB, b0, b1, b2, b3⟩ := releaseUnbondingOps_spec k C htot idsPre stA hndB
    (fun id hid => by
      obtain ⟨h1, op, h2, h3⟩ :=
        hfound id (List.mem_append_left _ (List.mem_append_right _ hid))
      refine ⟨h1, op, ?_, h3⟩
      rw [GetUnbondingOp_congr k st5.store _ id (a1 id h1 (fun h => hdisjAB h hid)), hget5]
      exact h2)
    (fun id hid => hacc id (List.mem_append_right _ hid))
  have hfB' : GetUnbondingOp k stB.store f = .ok (opf, true) := by
    rw [GetUnbondingOp_congr k stA.store _ f (b1 f hflt hfB),
      GetUnbondingOp_congr k st5.store _ f (a1 f hflt hfA), hget5]
    exact hf
  have hrel : releaseUnbondingOps k C (idsPre ++ f :: idsPost) (none, stA)
      = .ok (false, (some e,
          { stB with calls := stB.calls ++ [.UnbondingCanComplete f] })) := by
    rw [releaseUnbondingOps_append k C idsPre _ stA _ hrunB, releaseUnbondingOps]
    simp only [hfB', hfempty, List.length_nil, if_true, hIdf, hrej]
  have hrun : walkIndex (stopCallback k C)
      (idxPre ++ (v, idsPre ++ f :: idsPost) :: idxPost) (none, st5)
      = .ok (some e, { stB with calls := stB.calls ++ [.UnbondingCanComplete f] }) := by
    rw [walkIndex_stopCallback_append k C idxPre _ st5 stA hrunA, walkIndex]
    simp only [stopCallback, hrel]
  refine ⟨_, hstart.trans hrun, hfB', ⟨stB.calls, rfl⟩, ?_, ?_, ?_, ?_, ?_⟩
  · show (stB.calls ++ [Call.UnbondingCanComplete f]).count _ = _
    rw [count_append_same, b2 f hfB, a2 f hfA, hcount5 f]
  · intro id hid op hget hempty
    have hlt : id < 2 ^ 64 := (hfound id (List.mem_append_left _ hid)).1
    have hidf : id ≠ f := fun h => hfAB (h ▸ hid)
    show stB.store.get _ = none ∧ (stB.calls ++ [Call.UnbondingCanComplete f]).count _ = _
    rw [count_append_other _ _ _ hidf]
    rcases List.mem_append.1 hid with hA | hB
    · obtain ⟨hg, hc⟩ := a3 id hA op (by rw [hget5]; exact hget) hempty
      have hnB : id ∉ idsPre := fun h => hdisjAB hA h
      exact ⟨(b1 id hlt hnB).trans hg, by rw [b2 id hnB, hc, hcount5 id]⟩
    · have hnA : id ∉ indexedIds idxPre := fun h => hdisjAB h hB
      obtain ⟨hg, hc⟩ := b3 id hB op
        (by rw [GetUnbondingOp_congr k st5.store _ id (a1 id hlt hnA), hget5]; exact hget)
        hempty
      exact ⟨hg, by rw [hc, a2 id hnA, hcount5 id]⟩
  · intro id hlt hid
    show stB.store.get _ = _
    rw [b1 id hlt (fun h => hid (List.mem_append_right _ h)),
      a1 id hlt (fun h => hid (List.mem_append_left _ h)), hsame.1 id]
  · intro id hid
    have hidf : id ≠ f := fun h => hid (List.mem_append_right _ (h ▸ List.mem_singleton_self f))
    have hnAB : id ∉ indexedIds idxPre ++ idsPre := fun h => hid (List.mem_append_left _ h)
    show (stB.calls ++ [Call.UnbondingCanComplete f]).count _ = _
    rw [count_append_other _ _ _ hidf, b2 id (fun h => hnAB (List.mem_append_right _ h)),
      a2 id (fun h => hnAB (List.mem_append_left _ h)), hcount5 id]
  · intro c
    show stB.store.prefixIterator _ = _
    rw [b0 c, hidxA c, hsame.2 c]

/-- C16: the staking keeper refuses the completion of an operation `f` during
`StopConsumerChain(C, lockUbd = false, _)`. The index of `C` lists `f` in the
entry of the VSC ID `v`, after the operations `idsPre` of that entry and the
entries `idxPre`; the operations listed before `f` are stored under their IDs,
listed once and accepted by the staking keeper, so that the walk reaches `f`,
whose wait-set is emptied. Then `StopConsumerChain` returns the error `e` of the
staking keeper; the record of `f` is left as it was; the refused call is the
last call of the run; each operation released before `f` has no record and was
completed once; no other operation has its record changed or
`UnbondingCanComplete` called; and the index loses the entries before that of
`v` and no other. -/
theorem StopConsumerChain_fail_fast (k : Keeper) (st : State) (C : Bytes) (closeChan : Bool)
    (idxPre idxPost : List (Nat × List Nat)) (v : Nat) (idsPre idsPost : List Nat) (f : Nat)
    (opf : UnbondingOp) (e : Error) (L : List Bytes)
    (htot : k.unbondingOpCodec.Total)
    (hacks : GetSlashAcks k st.store C = .ok L)
    (hidx : GetAllUnbondingOpIndexes k st.store C
      = .ok (idxPre ++ (v, idsPre ++ f :: idsPost) :: idxPost))
    (hnd : (indexedIds idxPre ++ idsPre ++ [f]).Nodup)
    (hfound : ∀ id ∈ indexedIds idxPre ++ idsPre ++ [f], id < 2 ^ 64 ∧
      ∃ op, GetUnbondingOp k st.store id = .ok (op, true) ∧ op.Id = id)
    (hacc : ∀ id ∈ indexedIds idxPre ++ idsPre, k.UnbondingCanComplete id = none)
    (hf : GetUnbondingOp k st.store f = .ok (opf, true))
    (hfempty : (removeStringFromSlice opf.UnbondingConsumerChains C).1 = [])
    (hrej : k.UnbondingCanComplete f = some e) :
    ∃ st', StopConsumerChain k st C false closeChan = .ok (some e, st') ∧
      GetUnbondingOp k st'.store f = .ok (opf, true) ∧
      (∃ calls, st'.calls = calls ++ [.UnbondingCanComplete f]) ∧
      st'.calls.count (.UnbondingCanComplete f)
        = st.calls.count (.UnbondingCanComplete f) + 1 ∧
      (∀ id ∈ indexedIds idxPre ++ idsPre, ∀ op,
        GetUnbondingOp k st.store id = .ok (op, true) →
        (removeStringFromSlice op.UnbondingConsumerChains C).1 = [] →
        st'.store.get (UnbondingOpKey id) = none ∧
        st'.calls.count (.UnbondingCanComplete id)
          = st.calls.count (.UnbondingCanComplete id) + 1) ∧
      (∀ id, id < 2 ^ 64 → id ∉ indexedIds idxPre ++ idsPre →
        st'.store.get (UnbondingOpKey id) = st.store.get (UnbondingOpKey id)) ∧
      (∀ id, id ∉ indexedIds idxPre ++ idsPre ++ [f] →
        st'.calls.count (.UnbondingCanComplete id)
          = st.calls.count (.UnbondingCanComplete id)) ∧
      (∀ c, st'.store.prefixIterator (UnbondingOpIndexChainKey c)
        = (st.store.prefixIterator (UnbondingOpIndexChainKey c)).filter
            (fun x => decide (x.1 ∉ idxPre.map (fun y => UnbondingOpIndexKey C y.1)))) :=
  StopConsumerChain_abort_spec k st C closeChan idxPre idxPost v idsPre idsPost f opf e L
    htot hacks hidx hnd hfound hacc hf hfempty hrej

theorem refusingKeeper_unbondingOpCodec : refusingKeeper.unbondingOpCodec.Total :=
  Wire.codec_total _

/-- C16 on a concrete input: the state `unbondingState` and a staking keeper
that refuses the operation 4, which the index lists last. -/
theorem StopConsumerChain_fail_fast_witness :
    (refusingKeeper.UnbondingCanComplete 4 = some (.external "refused") ∧
      GetAllUnbondingOpIndexes refusingKeeper unbondingState.store (ascii "consu")
        = .ok ([(1, [7, 9])] ++ (2, [] ++ 4 :: []) :: []) ∧
      StopConsumerChain refusingKeeper unbondingState (ascii "consu") false true
        = .ok (some (.external "refused"), abortedState)) ∧
    ∃ st', StopConsumerChain refusingKeeper unbondingState (ascii "consu") false true
        = .ok (some (.external "refused"), st') ∧
      GetUnbondingOp refusingKeeper st'.store 4
        = .ok ({ Id := 4, UnbondingConsumerChains := [ascii "consu"] }, true) ∧
      (∃ calls, st'.calls = calls ++ [.UnbondingCanComplete 4]) ∧
      st'.calls.count (.UnbondingCanComplete 4)
        = unbondingState.calls.count (.UnbondingCanComplete 4) + 1 ∧
      (∀ id ∈ indexedIds [(1, [7, 9])] ++ [], ∀ op,
        GetUnbondingOp refusingKeeper unbondingState.store id = .ok (op, true) →
        (removeStringFromSlice op.UnbondingConsumerChains (ascii "consu")).1 = [] →
        st'.store.get (UnbondingOpKey id) = none ∧
        st'.calls.count (.UnbondingCanComplete id)
          = unbondingState.calls.count (.UnbondingCanComplete id) + 1) ∧
      (∀ id, id < 2 ^ 64 → id ∉ indexedIds [(1, [7, 9])] ++ [] →
        st'.store.get (UnbondingOpKey id) = unbondingState.store.get (UnbondingOpKey id)) ∧
      (∀ id, id ∉ indexedIds [(1, [7, 9])] ++ [] ++ [4] →
        st'.calls.count (.UnbondingCanComplete id)
          = unbondingState.calls.count (.UnbondingCanComplete id)) ∧
      (∀ c, st'.store.prefixIterator (UnbondingOpIndexChainKey c)
        = (unbondingState.store.prefixIterator (UnbondingOpIndexChainKey c)).filter
            (fun x => decide (x.1 ∉ [(1, [7, 9])].map
              (fun y => UnbondingOpIndexKey (ascii "consu") y.1)))) :=
  ⟨⟨by decide, by decide, by decide⟩,
    StopConsumerChain_fail_fast refusingKeeper unbondingState (ascii "consu") true
      [(1, [7, 9])] [] 2 [] [] 4 { Id := 4, UnbondingConsumerChains := [ascii "consu"] }
      (.external "refused") [] refusingKeeper_unbondingOpCodec (by decide) (by decide)
      (by decide) (fun id hid => unbondingState_found id hid)
      (fun id hid => by
        have h : id = 7 ∨ id = 9 := by simpa [indexedIds] using hid
        rcases h with h | h <;> subst h <;> decide)
      (by decide) (by decide) (by decide)⟩

/-! ## StopConsumerChain again, after a refused completion -/

theorem indexedIds_append (a b : List (Nat × List Nat)) :
    indexedIds (a ++ b) = indexedIds a ++ indexedIds b := by
  simp [indexedIds]

/-- The entries that decode to an index in two parts are entries in two parts,
which decode to the one and to the other. -/
theorem decodeIndexEntries_append (k : Keeper) (chainID : Bytes) :
    ∀ (i1 i2 : List (Nat × List Nat)) (entries : List (Bytes × Bytes)),
      decodeIndexEntries k chainID entries = .ok (i1 ++ i2) →
      ∃ e1 e2, entries = e1 ++ e2 ∧ decodeIndexEntries k chainID e1 = .ok i1 ∧
        decodeIndexEntries k chainID e2 = .ok i2 := by
  intro i1
  induction i1 with
  | nil =>
    intro i2 entries h
    exact ⟨[], entries, rfl, rfl, h⟩
  | cons x i1' ih =>
    intro i2 entries h
    cases entries with
    | nil => simp [decodeIndexEntries] at h
    | cons en rest =>
      obtain ⟨key, value⟩ := en
      unfold decodeIndexEntries at h
      split at h
      · cases h
      · rename_i vscID hvsc
        split at h
        · cases h
        · rename_i ids hids
          split at h
          · cases h
          · rename_i idx' hidx'
            injection h with h
            rw [List.cons_append] at h
            injection h with hx hrest
            subst hx
            subst hrest
            obtain ⟨e1, e2, hsplit, h1, h2⟩ := ih i2 rest hidx'
            refine ⟨(key, value) :: e1, e2, by rw [hsplit]; rfl, ?_, h2⟩
            unfold decodeIndexEntries
            simp only [hvsc, hids, h1]

/-- Of entries with distinct keys, in two parts, those whose key is not a key
of the first part are the second part. -/
theorem filter_not_mem_keys (e1 e2 : List (Bytes × Bytes))
    (hnd : ((e1 ++ e2).map Prod.fst).Nodup) :
    (e1 ++ e2).filter (fun x => decide (x.1 ∉ e1.map Prod.fst)) = e2 := by
  rw [List.map_append] at hnd
  obtain ⟨_, _, hdisj⟩ := List.nodup_append.1 hnd
  rw [List.filter_append]
  have h1 : e1.filter (fun x => decide (x.1 ∉ e1.map Prod.fst)) = [] := by
    rw [List.filter_eq_nil_iff]
    intro x hx
    simp only [decide_not, Bool.not_eq_true', decide_eq_false_iff_not, not_not]
    exact List.mem_map_of_mem _ hx
  have h2 : e2.filter (fun x => decide (x.1 ∉ e1.map Prod.fst)) = e2 := by
    rw [List.filter_eq_self]
    intro x hx
    simp only [decide_not, Bool.not_eq_true', decide_eq_false_iff_not]
    exact fun hin => hdisj hin (List.mem_map_of_mem _ hx)
  rw [h1, h2, List.nil_append]

/-- `StopConsumerChain(C, lockUbd = false, _)` when every operation the index
of `C` lists is stored under its ID, is listed once and is accepted by the
staking keeper: the call returns no error; each listed operation whose wait-set
becomes empty is completed once and its record deleted; an operation that is
not listed keeps its record and is not completed. -/
theorem StopConsumerChain_releases (k : Keeper) (st : State) (C : Bytes) (closeChan : Bool)
    (idx : List (Nat × List Nat)) (L : List Bytes)
    (htot : k.unbondingOpCodec.Total)
    (hacks : GetSlashAcks k st.store C = .ok L)
    (hidx : GetAllUnbondingOpIndexes k st.store C = .ok idx)
    (hnd : (indexedIds idx).Nodup)
    (hfound : ∀ id ∈ indexedIds idx, id < 2 ^ 64 ∧
      ∃ op, GetUnbondingOp k st.store id = .ok (op, true) ∧ op.Id = id)
    (hacc : ∀ id ∈ indexedIds idx, k.UnbondingCanComplete id = none) :
    ∃ st', StopConsumerChain k st C false closeChan = .ok (none, st') ∧
      (∀ id, id < 2 ^ 64 → id ∉ indexedIds idx →
        st'.store.get (UnbondingOpKey id) = st.store.get (UnbondingOpKey id)) ∧
      (∀ id, id ∉ indexedIds idx → st'.calls.count (.UnbondingCanComplete id)
        = st.calls.count (.UnbondingCanComplete id)) ∧
      (∀ id ∈ indexedIds idx, ∀ op, GetUnbondingOp k st.store id = .ok (op, true) →
        (removeStringFromSlice op.UnbondingConsumerChains C).1 = [] →
        st'.store.get (UnbondingOpKey id) = none ∧
        st'.calls.count (.UnbondingCanComplete id)
          = st.calls.count (.UnbondingCanComplete id) + 1) := by
  obtain ⟨st5, hsame, hcount5, hstart⟩ := StopConsumerChain_start k st C closeChan _ L hacks hidx
  have hget5 : ∀ id, GetUnbondingOp k st5.store id = GetUnbondingOp k st.store id :=
    fun id => GetUnbondingOp_congr k st.store _ id (hsame.1 id)
  obtain ⟨st', hrun, a1, a2, a3⟩ := walkIndex_stopCallback_spec k C htot idx st5 hnd
    (fun id hid => by
      obtain ⟨h1, op, h2, h3⟩ := hfound id hid
      exact ⟨h1, op, by rw [hget5]; exact h2, h3⟩)
    hacc
  refine ⟨st', hstart.trans hrun, ?_, ?_, ?_⟩
  · intro id hlt hid
    rw [a1 id hlt hid, hsame.1 id]
  · intro id hid
    rw [a2 id hid, hcount5 id]
  · intro id hid op hget hempty
    obtain ⟨hg, hc⟩ := a3 id hid op (by rw [hget5]; exact hget) hempty
    exact ⟨hg, by rw [hc, hcount5 id]⟩

/-- The decoding of the index reads the codec of the index only. -/
theorem decodeIndexEntries_congr (k k2 : Keeper) (chainID : Bytes)
    (h : k2.indexCodec = k.indexCodec) :
    ∀ entries, decodeIndexEntries k2 chainID entries = decodeIndexEntries k chainID entries := by
  intro entries
  induction entries with
  | nil => rfl
  | cons en rest ih =>
    obtain ⟨key, value⟩ := en
    simp only [decodeIndexEntries, h, ih]

/-- C17, an operation released in the index entry of the refused one: the
index of `consu` lists the operations 7 and 4 under one VSC ID and the staking
keeper refuses 4. The first call releases 7 and returns the error of the
staking keeper, and the index entry stays. The second call, with a staking
keeper that accepts every completion, returns the not-found error for 7, calls
nothing and leaves the operation 4 unreleased. -/
theorem StopConsumerChain_retry_fails :
    StopConsumerChain refusingKeeper sameBatchState (ascii "consu") false true
      = .ok (some (.external "refused"), halfReleasedState) ∧
    (∀ id, testKeeper.UnbondingCanComplete id = none) ∧
    StopConsumerChain testKeeper halfReleasedState (ascii "consu") false true
      = .ok (some (.ErrUnbondingOpNotFound 7), halfReleasedState) ∧
    GetUnbondingOp testKeeper halfReleasedState.store 4
      = .ok ({ Id := 4, UnbondingConsumerChains := [ascii "consu"] }, true) :=
  ⟨by decide, fun _ => rfl, by decide, by decide⟩

/-! ## The end-of-block scans -/

theorem CreateConsumerClient_calls (k : Keeper) (ctx : Context) (st : State)
    (chainID : Bytes) (initialHeight : Height) (lock : Bool) (err : Option Error) (st' : State)
    (hres : CreateConsumerClient k ctx st chainID initialHeight lock = .ok (err, st')) :
    st'.calls = st.calls ++
      [.CreateClient (newClientState k chainID initialHeight) (newConsensusState ctx)] := by
  unfold CreateConsumerClient at hres
  simp only at hres
  split at hres
  · injection hres with hres
    injection hres with _ hst
    subst hst
    rfl
  · split at hres
    · cases hres
    · injection hres with hres
      injection hres with _ hst
      subst hst
      rfl
    · injection hres with hres
      injection hres with _ hst
      subst hst
      rfl

/-- The loop of `IteratePendingClientInfo` keeps the calls that were made. -/
theorem iteratePendingClients_calls (k : Keeper) (ctx : Context) :
    ∀ (entries : List (Bytes × Bytes)) (st st' : State),
      iteratePendingClients k ctx entries st = .ok st' →
      ∀ c ∈ st.calls, c ∈ st'.calls := by
  intro entries
  induction entries with
  | nil =>
    intro st st' h c hc
    simp only [iteratePendingClients, Except.ok.injEq] at h
    subst h
    exact hc
  | cons e rest ih =>
    intro st st' h c hc
    obtain ⟨key, value⟩ := e
    unfold iteratePendingClients at h
    simp only at h
    split at h
    · cases h
    · split at h
      · cases h
      · split at h
        · split at h
          · cases h
          · split at h
            · cases h
            · rename_i err st1 hcreate
              apply ih st1 st' h c
              rw [CreateConsumerClient_calls k ctx st _ _ _ err st1 hcreate]
              exact List.mem_append_left _ hc
        · injection h with h
          subst h
          exact hc

/-- The loop of `IteratePendingClientInfo` over entries it reads as due: it
goes through them and on into the entries that follow. -/
theorem iteratePendingClients_due (k : Keeper) (ctx : Context)
    (r : GenesisState × Option Error) (hgen : MakeConsumerGenesis k ctx = .ok r) :
    ∀ (pre : List (Bytes × Bytes)) (st : State),
      (∀ e ∈ pre, ∃ t c i, scannedTime e.1 = some t ∧ t < ctx.BlockTime ∧
        scannedChainID e.1 = some c ∧ k.cdc.unmarshal e.2 = .ok i) →
      ∃ stPre, ∀ rest, iteratePendingClients k ctx (pre ++ rest) st
        = iteratePendingClients k ctx rest stPre := by
  intro pre
  induction pre with
  | nil =>
    intro st _
    exact ⟨st, fun _ => rfl⟩
  | cons e pre ih =>
    intro st hpre
    obtain ⟨key, value⟩ := e
    obtain ⟨t, c, i, ht, hlt, hc, hi⟩ := hpre (key, value) (List.mem_cons_self _ _)
    obtain ⟨n, hn, hnt⟩ := Option.map_eq_some'.1 ht
    obtain ⟨err, st1, hcreate⟩ := CreateConsumerClient_returns k ctx st c i.InitialHeight
      i.LockUnbondingOnTimeout r hgen
    obtain ⟨stPre, hrest⟩ := ih st1 (fun e he => hpre e (List.mem_cons_of_mem _ he))
    refine ⟨stPre, fun rest => ?_⟩
    have hc' : (Split slash key).get? 1 = some c := hc
    have hgt : ctx.BlockTime > toInt64 n := by rw [hnt]; exact hlt
    rw [List.cons_append, iteratePendingClients]
    simp only [hn, hi, hgt, if_true, hc', hcreate]
    exact hrest rest

/-- The scan `IteratePendingClientInfo` in terms of what it reads off the key
of each pending entry, a spawn time and a chain ID. For an entry whose spawn
time, so read, is strictly before the block time, all the entries before it in
key order being read as due too, the scan calls `CreateConsumerClient` with the
chain ID so read and the initial height and the lock flag of the entry, in the
state the entries before it left, and goes on with the entries after it. For
an entry whose spawn time, so read, is the block time or later, the scan ends
at the entry. (`MakeConsumerGenesis` does not panic.) How the time and the
chain ID read off the key relate to the stored proposal is not part of this
statement: see `pendingClient_decoded_time`. -/
theorem IteratePendingClientInfo_due (k : Keeper) (ctx : Context) (st : State)
    (pre post : List (Bytes × Bytes)) (key value : Bytes) (t : Int) (chainID : Bytes)
    (info : types.CreateConsumerChainProposal) (r : GenesisState × Option Error)
    (hgen : MakeConsumerGenesis k ctx = .ok r)
    (hentries : st.store.prefixIterator ( PendingClientKeyPrefix ++ [slash])
      = pre ++ (key, value) :: post)
    (hpre : ∀ e ∈ pre, ∃ t' c i, scannedTime e.1 = some t' ∧ t' < ctx.BlockTime ∧
      scannedChainID e.1 = some c ∧ k.cdc.unmarshal e.2 = .ok i)
    (htime : scannedTime key = some t)
    (hchain : scannedChainID key = some chainID)
    (hinfo : k.cdc.unmarshal value = .ok info) :
    ∃ stPre, iteratePendingClients k ctx pre st = .ok stPre ∧
      (t < ctx.BlockTime →
        ∃ err st1,
          CreateConsumerClient k ctx stPre chainID info.InitialHeight
            info.LockUnbondingOnTimeout = .ok (err, st1) ∧
          IteratePendingClientInfo k ctx st = iteratePendingClients k ctx post st1 ∧
          ∀ st', IteratePendingClientInfo k ctx st = .ok st' →
            Call.CreateClient (newClientState k chainID info.InitialHeight)
              (newConsensusState ctx) ∈ st'.calls) ∧
      (ctx.BlockTime ≤ t → IteratePendingClientInfo k ctx st = .ok stPre) := by
  obtain ⟨stPre, hrest⟩ := iteratePendingClients_due k ctx r hgen pre st hpre
  obtain ⟨n, hn, hnt⟩ := Option.map_eq_some'.1 htime
  have hc' : (Split slash key).get? 1 = some chainID := hchain
  refine ⟨stPre, ?_, ?_, ?_⟩
  · have := hrest []
    rw [List.append_nil] at this
    rw [this]
    rfl
  · intro hlt
    obtain ⟨err, st1, hcreate⟩ := CreateConsumerClient_returns k ctx stPre chainID
      info.InitialHeight info.LockUnbondingOnTimeout r hgen
    have hgt : ctx.BlockTime > toInt64 n := by rw [hnt]; exact hlt
    have hrun : IteratePendingClientInfo k ctx st = iteratePendingClients k ctx post st1 := by
      unfold IteratePendingClientInfo
      rw [hentries, hrest, iteratePendingClients]
      simp only [hn, hinfo, hgt, if_true, hc', hcreate]
    refine ⟨err, st1, hcreate, hrun, ?_⟩
    intro st' hst'
    rw [hrun] at hst'
    apply iteratePendingClients_calls k ctx post st1 st' hst'
    rw [CreateConsumerClient_calls k ctx stPre _ _ _ err st1 hcreate]
    exact List.mem_append_right _ (List.mem_singleton_self _)
  · intro hge
    have hngt : ¬ ctx.BlockTime > toInt64 n := by rw [hnt]; exact not_lt.2 hge
    unfold IteratePendingClientInfo
    rw [hentries, hrest, iteratePendingClients]
    simp only [hn, hinfo, hngt, if_false]

/-- The statement `IteratePendingClientInfo_due` on a concrete input: one
pending addition, stored by `SetPendingClientInfo` with the spawn time
`8099000882440333155`, which is also the spawn time the scan reads off its key,
and a block one nanosecond later. The scan asks the client keeper for a client;
the chain ID it reads off the key is `pendingc`. -/
theorem IteratePendingClientInfo_due_witness :
    (boundaryProposal.SpawnTime < afterBoundaryCtx.BlockTime ∧
      boundaryState.store
        = [(PendingClientKey boundaryProposal.SpawnTime (ascii "consu"),
            Wire.proposal.put boundaryProposal)]) ∧
    ∃ stPre, iteratePendingClients testKeeper afterBoundaryCtx [] boundaryState = .ok stPre ∧
      (8099000882440333155 < afterBoundaryCtx.BlockTime →
        ∃ err st1,
          CreateConsumerClient testKeeper afterBoundaryCtx stPre (ascii "pendingc")
            boundaryProposal.InitialHeight boundaryProposal.LockUnbondingOnTimeout
              = .ok (err, st1) ∧
          IteratePendingClientInfo testKeeper afterBoundaryCtx boundaryState
            = iteratePendingClients testKeeper afterBoundaryCtx [] st1 ∧
          ∀ st', IteratePendingClientInfo testKeeper afterBoundaryCtx boundaryState = .ok st' →
            Call.CreateClient
              (newClientState testKeeper (ascii "pendingc") boundaryProposal.InitialHeight)
              (newConsensusState afterBoundaryCtx) ∈ st'.calls) ∧
      (afterBoundaryCtx.BlockTime ≤ 8099000882440333155 →
        IteratePendingClientInfo testKeeper afterBoundaryCtx boundaryState = .ok stPre) :=
  ⟨⟨by decide, by decide⟩,
    IteratePendingClientInfo_due testKeeper afterBoundaryCtx boundaryState [] []
      (PendingClientKey boundaryProposal.SpawnTime (ascii "consu"))
      (Wire.proposal.put boundaryProposal) 8099000882440333155 (ascii "pendingc")
      boundaryProposal _ rfl (by decide) (fun _ he => absurd he (List.not_mem_nil _))
      (by decide) (by decide) (by decide)⟩

/-- The comparison of the scan is strict. The store holds one pending addition,
stored by `SetPendingClientInfo` for the chain `consu` with the spawn time
`8099000882440333155`, which is also the spawn time the scan reads off its key,
and the block time is that time. The scan `IteratePendingClientInfo` leaves the
state as it is: it asks the client keeper for no client and no chain gets a
client binding. -/
theorem IteratePendingClientInfo_boundary :
    boundaryProposal.SpawnTime = boundaryCtx.BlockTime ∧
    boundaryState.store
      = [(PendingClientKey boundaryProposal.SpawnTime (ascii "consu"),
          Wire.proposal.put boundaryProposal)] ∧
    scannedTime (PendingClientKey boundaryProposal.SpawnTime (ascii "consu"))
      = some boundaryCtx.BlockTime ∧
    IteratePendingClientInfo testKeeper boundaryCtx boundaryState = .ok boundaryState ∧
    boundaryState.calls = [] ∧
    GetAllRegisteredConsumerChainIDs boundaryState.store = [] := by
  decide

/-- C19 fails for the scan as it is, on a pending addition that is due: the
store holds one pending addition, stored by `SetPendingClientInfo` for the
chain `consu` with the spawn time 50 seconds after the epoch, and the block
time is 100 seconds after the epoch, so the entry is due and no entry comes
before it. `IteratePendingClientInfo` leaves the state as it is: it asks the
client keeper for no client and `consu` gets no client binding. The scan reads
the spawn time off the key with its namespace, and so reads the time
`8099000882440333155` (August 2226), which is after the block time.
`CreateConsumerChainProposal` in the same block, which compares the spawn time
of the proposal itself, creates the client. -/
theorem IteratePendingClientInfo_due_skipped :
    pastProposal.SpawnTime < testCtx.BlockTime ∧
    duePendingState.store.prefixIterator ( PendingClientKeyPrefix ++ [slash])
      = [(PendingClientKey pastProposal.SpawnTime pastProposal.ChainId,
          Wire.proposal.put pastProposal)] ∧
    IteratePendingClientInfo testKeeper testCtx duePendingState = .ok duePendingState ∧
    duePendingState.calls = [] ∧
    GetConsumerClientId duePendingState.store (ascii "consu") = ([], false) ∧
    scannedTime (PendingClientKey pastProposal.SpawnTime pastProposal.ChainId)
      = some 8099000882440333155 ∧
    (CreateConsumerChainProposal testKeeper testCtx emptyState pastProposal).map
        (fun r => (r.1, GetConsumerClientId r.2.store (ascii "consu"), r.2.calls.length))
      = .ok (none, (ascii "07-tendermint-0", true), 1) := by
  decide

/-- C20, a pending stop proposal that is due: the chain `consu` is active and a
stop proposal for it, stored by `SetPendingStopProposal`, is pending with the
stop time 50 seconds after the epoch; it is the only pending stop proposal; the
block time is 100 seconds after the epoch. `IteratePendingStopProposal` leaves
the state as it is: `GetPendingStopProposal` is still true, no channel is
closed and the chain still has its client binding. -/
theorem IteratePendingStopProposal_due_kept :
    50000000000 < testCtx.BlockTime ∧
    stopPendingState.store.prefixIterator ( PendingStopProposalKeyPrefix ++ [slash])
      = [(PendingStopProposalKey 50000000000 (ascii "consu"), [])] ∧
    IteratePendingStopProposal testKeeper testCtx stopPendingState = .ok stopPendingState ∧
    GetPendingStopProposal stopPendingState.store (ascii "consu") 50000000000 = true ∧
    GetConsumerClientId stopPendingState.store (ascii "consu")
      = (ascii "07-tendermint-0", true) ∧
    stopPendingState.calls = [] := by
  decide

/-! ## The client of a consumer chain -/

/-- C21: the client state `CreateConsumerClient` passes to the client keeper
is the template client with the chain ID and the initial height of the call,
the unbonding time `U` of the staking keeper as unbonding period and `U / 2`,
the quotient of Go's integer division, as trusting period, so that for `U ≥ 0`
`2 * TrustingPeriod ≤ U ≤ 2 * TrustingPeriod + 1`; every call that returns has
asked the client keeper for a client with that state; when the call returns no
error, `GetConsumerClientId` of the chain is the client ID the client keeper
returned. -/
theorem CreateConsumerClient_clientState (k : Keeper) (ctx : Context) (st : State)
    (chainID : Bytes) (initialHeight : Height) (lock : Bool) :
    (∀ err st', CreateConsumerClient k ctx st chainID initialHeight lock = .ok (err, st') →
      st'.calls = st.calls ++
        [.CreateClient
          { k.TemplateClient with
            ChainId := chainID, LatestHeight := initialHeight,
            TrustingPeriod := Int.tdiv k.UnbondingTime 2,
            UnbondingPeriod := k.UnbondingTime }
          (newConsensusState ctx)]) ∧
    ((newClientState k chainID initialHeight).ChainId = chainID ∧
      (newClientState k chainID initialHeight).LatestHeight = initialHeight ∧
      (newClientState k chainID initialHeight).UnbondingPeriod = k.UnbondingTime ∧
      (newClientState k chainID initialHeight).Rest = k.TemplateClient.Rest) ∧
    (0 ≤ k.UnbondingTime →
      (newClientState k chainID initialHeight).TrustingPeriod = k.UnbondingTime / 2 ∧
      2 * (newClientState k chainID initialHeight).TrustingPeriod ≤ k.UnbondingTime ∧
      k.UnbondingTime ≤ 2 * (newClientState k chainID initialHeight).TrustingPeriod + 1) ∧
    (∀ st', CreateConsumerClient k ctx st chainID initialHeight lock = .ok (none, st') →
      ∃ clientID,
        k.CreateClient (newClientState k chainID initialHeight) (newConsensusState ctx)
          = .ok clientID ∧
        GetConsumerClientId st'.store chainID = (clientID, true)) := by
  refine ⟨?_, ⟨rfl, rfl, rfl, rfl⟩, ?_, ?_⟩
  · intro err st' h
    exact CreateConsumerClient_calls k ctx st chainID initialHeight lock err st' h
  · intro hU
    have hdiv : Int.tdiv k.UnbondingTime 2 = k.UnbondingTime / 2 :=
      Int.tdiv_eq_ediv hU (by decide)
    have hT : (newClientState k chainID initialHeight).TrustingPeriod = k.UnbondingTime / 2 :=
      hdiv
    rw [hT]
    refine ⟨rfl, ?_, ?_⟩ <;> omega
  · intro st' h
    cases hc : k.CreateClient (newClientState k chainID initialHeight) (newConsensusState ctx) with
    | error e =>
      unfold CreateConsumerClient at h
      simp [hc] at h
    | ok clientID =>
      exact ⟨clientID, rfl,
        CreateConsumerClient_binds k ctx st chainID initialHeight lock none st' clientID hc h⟩

/-- C21 on a concrete input: the chain `consu` on the empty store; the
unbonding time of `testKeeper` is three weeks. -/
theorem CreateConsumerClient_clientState_witness :
    (0 ≤ testKeeper.UnbondingTime ∧
      CreateConsumerClient testKeeper testCtx emptyState (ascii "consu")
          pastProposal.InitialHeight false
        = .ok (none,
            { store := [(ChainToClientKey (ascii "consu"), ascii "07-tendermint-0"),
                        (ConsumerGenesisKey (ascii "consu"),
                          Wire.genesis.put
                            { Enabled := true, NewChain := true,
                              ProviderClientState := some
                                { testKeeper.TemplateClient with
                                  ChainId := testCtx.ChainID,
                                  LatestHeight := { RevisionNumber := 1, RevisionHeight := 10 },
                                  TrustingPeriod := 907200000000000,
                                  UnbondingPeriod := 1814400000000000 },
                              ProviderConsensusState := some
                                { Timestamp := 0, Root := [], NextValidatorsHash := [] },
                              InitialValSet := [] })],
              calls := [.CreateClient
                { testKeeper.TemplateClient with
                  ChainId := ascii "consu", LatestHeight := pastProposal.InitialHeight,
                  TrustingPeriod := 907200000000000, UnbondingPeriod := 1814400000000000 }
                (newConsensusState testCtx)],
              events := [] })) ∧
    ((newClientState testKeeper (ascii "consu") pastProposal.InitialHeight).TrustingPeriod
        = testKeeper.UnbondingTime / 2 ∧
      2 * (newClientState testKeeper (ascii "consu") pastProposal.InitialHeight).TrustingPeriod
        ≤ testKeeper.UnbondingTime ∧
      testKeeper.UnbondingTime
        ≤ 2 * (newClientState testKeeper (ascii "consu")
            pastProposal.InitialHeight).TrustingPeriod + 1) :=
  ⟨⟨by decide, by decide⟩,
    (CreateConsumerClient_clientState testKeeper testCtx emptyState (ascii "consu")
      pastProposal.InitialHeight false).2.2.1 (by decide)⟩

/-- C22: when the client keeper refuses the client with the error `e`,
`CreateConsumerClient` returns `e`, and the only thing it leaves is the call to
the client keeper: the store and the events are as they were, so the chain has
the client binding, the genesis and the unbonding-lock flag it had before, if
any. -/
theorem CreateConsumerClient_error (k : Keeper) (ctx : Context) (st : State)
    (chainID : Bytes) (initialHeight : Height) (lock : Bool) (e : Error)
    (h : k.CreateClient (newClientState k chainID initialHeight) (newConsensusState ctx)
      = .error e) :
    ∃ st', CreateConsumerClient k ctx st chainID initialHeight lock = .ok (some e, st') ∧
      st'.store = st.store ∧ st'.events = st.events ∧
      GetConsumerClientId st'.store chainID = GetConsumerClientId st.store chainID ∧
      GetConsumerGenesis k st'.store chainID = GetConsumerGenesis k st.store chainID ∧
      GetLockUnbondingOnTimeout st'.store chainID
        = GetLockUnbondingOnTimeout st.store chainID := by
  refine ⟨{ st with calls := st.calls ++
    [.CreateClient (newClientState k chainID initialHeight) (newConsensusState ctx)] },
    ?_, rfl, rfl, rfl, rfl, rfl⟩
  unfold CreateConsumerClient
  simp only [h]

/-- C22 on a concrete input: a client keeper that refuses every client, and the
chain `consu` on the empty store. -/
theorem CreateConsumerClient_error_witness :
    failingClientKeeper.CreateClient
        (newClientState failingClientKeeper (ascii "consu") pastProposal.InitialHeight)
        (newConsensusState testCtx)
      = .error (.external "invalid client state") ∧
    ∃ st', CreateConsumerClient failingClientKeeper testCtx emptyState (ascii "consu")
        pastProposal.InitialHeight true = .ok (some (.external "invalid client state"), st') ∧
      st'.store = emptyState.store ∧ st'.events = emptyState.events ∧
      GetConsumerClientId st'.store (ascii "consu")
        = GetConsumerClientId emptyState.store (ascii "consu") ∧
      GetConsumerGenesis failingClientKeeper st'.store (ascii "consu")
        = GetConsumerGenesis failingClientKeeper emptyState.store (ascii "consu") ∧
      GetLockUnbondingOnTimeout st'.store (ascii "consu")
        = GetLockUnbondingOnTimeout emptyState.store (ascii "consu") :=
  ⟨rfl,
    CreateConsumerClient_error failingClientKeeper testCtx emptyState (ascii "consu")
      pastProposal.InitialHeight true (.external "invalid client state") rfl⟩

/-! ## Stored bytes that do not unmarshal -/

/-- C25: each of `GetConsumerGenesis`, `GetSlashAcks` and `GetPendingVSCPackets`
panics when the bytes stored under the key of the chain do not unmarshal, and
returns the not-found result, or the empty list, when nothing is stored under
the key. A panic is no returned value. -/
theorem getters_corrupt_or_absent (k : Keeper) (store : Store) (chainID : Bytes) :
    ((∀ bz e, store.get (ConsumerGenesisKey chainID) = some bz →
        k.genesisCodec.unmarshal bz = .error e →
        GetConsumerGenesis k store chainID
          = .error ("consumer genesis could not be unmarshaled: " ++ e)) ∧
      (store.get (ConsumerGenesisKey chainID) = none →
        GetConsumerGenesis k store chainID = .ok (zeroGenesis, false))) ∧
    ((∀ bz e, store.get (SlashAcksKey chainID) = some bz →
        k.slashAcksCodec.unmarshal bz = .error e →
        GetSlashAcks k store chainID = .error ("failed to unmarshal SlashAcks: " ++ e)) ∧
      (store.get (SlashAcksKey chainID) = none → GetSlashAcks k store chainID = .ok [])) ∧
    ((∀ bz e, store.get (PendingVSCsKey chainID) = some bz →
        k.packetsCodec.unmarshal bz = .error e →
        GetPendingVSCPackets k store chainID
          = .error ("cannot unmarshal pending validator set changes: " ++ e)) ∧
      (store.get (PendingVSCsKey chainID) = none →
        GetPendingVSCPackets k store chainID = .ok [])) := by
  refine ⟨⟨?_, ?_⟩, ⟨?_, ?_⟩, ⟨?_, ?_⟩⟩
  · intro bz e hget hbz
    simp only [GetConsumerGenesis, hget, hbz]
  · intro hget
    simp only [GetConsumerGenesis, hget]
  · intro bz e hget hbz
    simp only [GetSlashAcks, hget, hbz]
  · intro hget
    simp only [GetSlashAcks, hget]
  · intro bz e hget hbz
    simp only [GetPendingVSCPackets, hget, hbz]
  · intro hget
    simp only [GetPendingVSCPackets, hget]

/-- C25 on concrete inputs: the store `corruptStore`, whose entries of the
chain `consu` do not unmarshal, and the empty store. -/
theorem getters_corrupt_or_absent_witness :
    (GetConsumerGenesis testKeeper corruptStore (ascii "consu")
        = .error ("consumer genesis could not be unmarshaled: " ++ "unexpected EOF") ∧
      GetSlashAcks testKeeper corruptStore (ascii "consu")
        = .error ("failed to unmarshal SlashAcks: " ++ "unexpected EOF") ∧
      GetPendingVSCPackets testKeeper corruptStore (ascii "consu")
        = .error ("cannot unmarshal pending validator set changes: " ++ "unexpected EOF")) ∧
    (GetConsumerGenesis testKeeper [] (ascii "consu") = .ok (zeroGenesis, false) ∧
      GetSlashAcks testKeeper [] (ascii "consu") = .ok [] ∧
      GetPendingVSCPackets testKeeper [] (ascii "consu") = .ok []) :=
  ⟨⟨(getters_corrupt_or_absent testKeeper corruptStore (ascii "consu")).1.1 [1]
        "unexpected EOF" (by decide) (by decide),
      (getters_corrupt_or_absent testKeeper corruptStore (ascii "consu")).2.1.1 [5]
        "unexpected EOF" (by decide) (by decide),
      (getters_corrupt_or_absent testKeeper corruptStore (ascii "consu")).2.2.1 [2, 0]
        "unexpected EOF" (by decide) (by decide)⟩,
    ⟨(getters_corrupt_or_absent testKeeper [] (ascii "consu")).1.2 rfl,
      (getters_corrupt_or_absent testKeeper [] (ascii "consu")).2.1.2 rfl,
      (getters_corrupt_or_absent testKeeper [] (ascii "consu")).2.2.2 rfl⟩⟩

/-! ## Appending a slash ack -/

theorem SlashAcksKey_ne {a b : Bytes} (h : a ≠ b) : SlashAcksKey a ≠ SlashAcksKey b := by
  simpa [SlashAcksKey] using h

/-- C30: when the stored slash acks of a chain are `L`, the empty list when
nothing is stored, after `AppendSlashAck` of the address `a` the slash acks of
the chain are `L ++ [a]`, one more than before, and the slash acks of every
other chain are what they were. The codec of the slash acks is assumed to
marshal every list and to unmarshal what it marshalled. -/
theorem AppendSlashAck_appends (k : Keeper) (store : Store) (chainID a : Bytes)
    (L : List Bytes) (hrt : k.slashAcksCodec.RoundTrip) (htot : k.slashAcksCodec.Total)
    (hL : GetSlashAcks k store chainID = .ok L) :
    (store.get (SlashAcksKey chainID) = none → L = []) ∧
    ∃ store', AppendSlashAck k store chainID a = .ok store' ∧
      GetSlashAcks k store' chainID = .ok (L ++ [a]) ∧
      (L ++ [a]).length = L.length + 1 ∧
      ∀ other, other ≠ chainID →
        GetSlashAcks k store' other = GetSlashAcks k store other := by
  constructor
  · intro hnone
    simp only [GetSlashAcks, hnone, Except.ok.injEq] at hL
    exact hL.symm
  · obtain ⟨bz, hbz⟩ := htot (L ++ [a])
    refine ⟨store.set (SlashAcksKey chainID) bz, ?_, ?_, ?_, ?_⟩
    · simp [AppendSlashAck, hL, SetSlashAcks, hbz]
    · simp [GetSlashAcks, Store.get_set_same, hrt _ _ hbz]
    · simp
    · intro other hne
      simp [GetSlashAcks, Store.get_set_other _ _ _ _ (SlashAcksKey_ne hne)]

theorem testKeeper_slashAcksCodec :
    testKeeper.slashAcksCodec.RoundTrip ∧ testKeeper.slashAcksCodec.Total :=
  ⟨Wire.codec_roundTrip (Wire.list_lawful Wire.bytes_lawful), Wire.codec_total _⟩

/-- C30 on concrete inputs: `charlie` is appended to the slash acks `alice`,
`bob` of `consu`, and `alice` to those of the chain `c2`, which has none. -/
theorem AppendSlashAck_appends_witness :
    (GetSlashAcks testKeeper acksStore (ascii "consu") = .ok [ascii "alice", ascii "bob"] ∧
      GetSlashAcks testKeeper acksStore (ascii "c2") = .ok []) ∧
    (∃ store', AppendSlashAck testKeeper acksStore (ascii "consu") (ascii "charlie")
        = .ok store' ∧
      GetSlashAcks testKeeper store' (ascii "consu")
        = .ok ([ascii "alice", ascii "bob"] ++ [ascii "charlie"]) ∧
      ([ascii "alice", ascii "bob"] ++ [ascii "charlie"]).length
        = [ascii "alice", ascii "bob"].length + 1 ∧
      ∀ other, other ≠ ascii "consu" →
        GetSlashAcks testKeeper store' other = GetSlashAcks testKeeper acksStore other) ∧
    (∃ store', AppendSlashAck testKeeper acksStore (ascii "c2") (ascii "alice") = .ok store' ∧
      GetSlashAcks testKeeper store' (ascii "c2") = .ok ([] ++ [ascii "alice"]) ∧
      (([] : List Bytes) ++ [ascii "alice"]).length = ([] : List Bytes).length + 1 ∧
      ∀ other, other ≠ ascii "c2" →
        GetSlashAcks testKeeper store' other = GetSlashAcks testKeeper acksStore other) :=
  ⟨⟨by decide, by decide⟩,
    (AppendSlashAck_appends testKeeper acksStore (ascii "consu") (ascii "charlie")
      [ascii "alice", ascii "bob"] testKeeper_slashAcksCodec.1 testKeeper_slashAcksCodec.2
      (by decide)).2,
    (AppendSlashAck_appends testKeeper acksStore (ascii "c2") (ascii "alice") []
      testKeeper_slashAcksCodec.1 testKeeper_slashAcksCodec.2 (by decide)).2⟩

/-! ## The block heights of the valset updates -/

/-- The big-endian encoding keeps the order: of two 64-bit numbers the smaller
has the bytes that come first. -/
theorem PutUint64_lt (a b : Nat) (hab : a < b) (hb : b < 2 ^ 64) :
    PutUint64 a < PutUint64 b := by
  unfold PutUint64
  by_cases h0 : a / 2 ^ 56 % 256 = b / 2 ^ 56 % 256
  · rw [h0]
    apply List.Lex.cons
    by_cases h1 : a / 2 ^ 48 % 256 = b / 2 ^ 48 % 256
    · rw [h1]
      apply List.Lex.cons
      by_cases h2 : a / 2 ^ 40 % 256 = b / 2 ^ 40 % 256
      · rw [h2]
        apply List.Lex.cons
        by_cases h3 : a / 2 ^ 32 % 256 = b / 2 ^ 32 % 256
        · rw [h3]
          apply List.Lex.cons
          by_cases h4 : a / 2 ^ 24 % 256 = b / 2 ^ 24 % 256
          · rw [h4]
            apply List.Lex.cons
            by_cases h5 : a / 2 ^ 16 % 256 = b / 2 ^ 16 % 256
            · rw [h5]
              apply List.Lex.cons
              by_cases h6 : a / 2 ^ 8 % 256 = b / 2 ^ 8 % 256
              · rw [h6]
                apply List.Lex.cons
                exact List.Lex.rel (by omega)
              · exact List.Lex.rel (by omega)
            · exact List.Lex.rel (by omega)
          · exact List.Lex.rel (by omega)
        · exact List.Lex.rel (by omega)
      · exact List.Lex.rel (by omega)
    · exact List.Lex.rel (by omega)
  · exact List.Lex.rel (by omega)

/-- The order of the big-endian encodings is the order of the numbers. -/
theorem PutUint64_lt_iff (a b : Nat) (ha : a < 2 ^ 64) (hb : b < 2 ^ 64) :
    PutUint64 a < PutUint64 b ↔ a < b := by
  constructor
  · intro h
    by_contra hn
    rcases Nat.lt_or_ge b a with hlt | hge
    · exact lt_asymm h (PutUint64_lt b a hlt ha)
    · have : a = b := by omega
      rw [this] at h
      exact lt_irrefl _ h
  · intro h
    exact PutUint64_lt a b h hb
namespace Store

theorem mem_set (s : Store) (k v : Bytes) (e : Bytes × Bytes) (he : e ∈ set s k v) :
    e = (k, v) ∨ e ∈ s := by
  induction s with
  | nil =>
    simp only [set, List.mem_singleton] at he
    exact Or.inl he
  | cons e' rest ih =>
    obtain ⟨k', v'⟩ := e'
    by_cases h1 : k = k'
    · simp only [set, h1, if_true, List.mem_cons] at he ⊢
      rcases he with h | h
      · exact Or.inl h
      · exact Or.inr (Or.inr h)
    · by_cases h2 : k < k'
      · simp only [set, h1, h2, if_true, if_false, List.mem_cons] at he ⊢
        tauto
      · simp only [set, h1, h2, if_false, List.mem_cons] at he ⊢
        rcases he with h | h
        · exact Or.inr (Or.inl h)
        · rcases ih h with h' | h'
          · exact Or.inl h'
          · exact Or.inr (Or.inr h')

theorem get_eq_some_iff (s : Store) (k v : Bytes) (h : WF s) :
    get s k = some v ↔ (k, v) ∈ s := by
  induction s with
  | nil => simp [get]
  | cons e rest ih =>
    obtain ⟨k', v'⟩ := e
    have hrest : WF rest := by
      unfold WF at h ⊢
      exact (List.pairwise_cons.1 h).2
    have hhead : ∀ x ∈ rest.map Prod.fst, k' < x := by
      unfold WF at h
      exact (List.pairwise_cons.1 h).1
    by_cases hk : k = k'
    · subst hk
      simp only [get, if_true, Option.some.injEq, List.mem_cons, Prod.mk.injEq, true_and]
      constructor
      · intro hv
        exact Or.inl hv.symm
      · rintro (hv | hmem)
        · exact hv.symm
        · exact absurd (hhead k (List.mem_map_of_mem Prod.fst hmem)) (lt_irrefl _)
    · simp only [get, hk, if_false, List.mem_cons, Prod.mk.injEq, false_and, false_or]
      exact ih hrest

end Store

theorem ValsetUpdateBlockHeightKey_ne (a b : Nat) (ha : a < 2 ^ 64) (hb : b < 2 ^ 64)
    (h : a ≠ b) : ValsetUpdateBlockHeightKey a ≠ ValsetUpdateBlockHeightKey b := by
  intro hk
  apply h
  apply PutUint64_injective a b ha hb
  simpa [ValsetUpdateBlockHeightKey] using hk

theorem heightEntriesOf_set (store : Store) (id h : Nat) (hid : id < 2 ^ 64)
    (hh : h < 2 ^ 64) (hs : heightEntriesOf store) :
    heightEntriesOf (SetValsetUpdateBlockHeight store id h) := by
  intro e he
  have hmem := (List.mem_filter.1 he).1
  have hpre := (List.mem_filter.1 he).2
  rcases Store.mem_set _ _ _ _ hmem with h1 | h1
  · exact ⟨id, h, hid, hh, h1⟩
  · exact hs e (List.mem_filter.2 ⟨h1, hpre⟩)

theorem setValsetUpdateBlockHeights_inv (calls : List (Nat × Nat))
    (hcalls : ∀ c ∈ calls, c.1 < 2 ^ 64 ∧ c.2 < 2 ^ 64) :
    ∀ store : Store, store.WF → heightEntriesOf store →
      (setValsetUpdateBlockHeights store calls).WF ∧
      heightEntriesOf (setValsetUpdateBlockHeights store calls) := by
  induction calls with
  | nil =>
    intro store hwf hs
    exact ⟨hwf, hs⟩
  | cons c rest ih =>
    intro store hwf hs
    obtain ⟨h1, h2⟩ := hcalls c (List.mem_cons_self _ _)
    exact ih (fun c' hc' => hcalls c' (List.mem_cons_of_mem _ hc')) _
      (Store.WF_set _ _ _ hwf) (heightEntriesOf_set store c.1 c.2 h1 h2 hs)

/-- The loop of `GetAllValsetUpdateBlockHeights` over entries that
`SetValsetUpdateBlockHeight` wrote: it returns the pair of each entry, and when
the keys ascend the IDs ascend. -/
theorem collectValsetUpdateBlockHeights_spec :
    ∀ entries : List (Bytes × Bytes),
      (∀ e ∈ entries, ∃ id h, id < 2 ^ 64 ∧ h < 2 ^ 64 ∧
        e = (ValsetUpdateBlockHeightKey id, PutUint64 h)) →
      ∃ L, collectValsetUpdateBlockHeights entries = .ok L ∧
        L.length = entries.length ∧
        (∀ id h, ({ ValsetUpdateId := id, Height := h } : ValsetUpdateIdToHeight) ∈ L ↔
          id < 2 ^ 64 ∧ h < 2 ^ 64 ∧
            (ValsetUpdateBlockHeightKey id, PutUint64 h) ∈ entries) ∧
        ((entries.map Prod.fst).Pairwise (· < ·) →
          (L.map (fun x => x.ValsetUpdateId)).Pairwise (· < ·)) := by
  intro entries
  induction entries with
  | nil =>
    intro _
    exact ⟨[], rfl, rfl, by simp, fun _ => List.Pairwise.nil⟩
  | cons e rest ih =>
    intro hall
    obtain ⟨id0, h0, hid0, hh0, he⟩ := hall e (List.mem_cons_self _ _)
    obtain ⟨L, hL, hlen, hmem, hsorted⟩ := ih (fun e' he' => hall e' (List.mem_cons_of_mem _ he'))
    subst he
    have hkey : Uint64 ((ValsetUpdateBlockHeightKey id0).drop 1) = some id0 := by
      simp only [ValsetUpdateBlockHeightKey, List.drop_succ_cons, List.drop_zero]
      exact Uint64_PutUint64 id0 hid0
    refine ⟨{ ValsetUpdateId := id0, Height := h0 } :: L, ?_, ?_, ?_, ?_⟩
    · simp only [collectValsetUpdateBlockHeights, hkey, Uint64_PutUint64 h0 hh0, hL]
    · simp [hlen]
    · intro id h
      simp only [List.mem_cons, ValsetUpdateIdToHeight.mk.injEq, Prod.mk.injEq, hmem]
      constructor
      · rintro (⟨h1, h2⟩ | ⟨h1, h2, h3⟩)
        · subst h1
          subst h2
          exact ⟨hid0, hh0, Or.inl ⟨rfl, rfl⟩⟩
        · exact ⟨h1, h2, Or.inr h3⟩
      · rintro ⟨h1, h2, (⟨h3, h4⟩ | h3)⟩
        · left
          constructor
          · by_contra hne
            exact ValsetUpdateBlockHeightKey_ne id id0 h1 hid0 hne h3
          · exact PutUint64_injective h h0 h2 hh0 h4
        · exact Or.inr ⟨h1, h2, h3⟩
    · intro hp
      simp only [List.map_cons, List.pairwise_cons] at hp ⊢
      refine ⟨?_, hsorted hp.2⟩
      intro x hx
      obtain ⟨y, hy, hyx⟩ := List.mem_map.1 hx
      obtain ⟨yid, yh⟩ := y
      simp only at hyx
      subst hyx
      obtain ⟨h1, _, h3⟩ := (hmem yid yh).1 hy
      have hlt := hp.1 _ (List.mem_map_of_mem Prod.fst h3)
      simp only [ValsetUpdateBlockHeightKey] at hlt
      exact (PutUint64_lt_iff id0 yid hid0 h1).1 ((cons_lt_cons_same _ _ _).1 hlt)

/-- In a store whose entries under the namespace are entries
`SetValsetUpdateBlockHeight` wrote, `GetAllValsetUpdateBlockHeights` returns the
pairs in strictly ascending order of the ID, and it returns a pair exactly when
`GetValsetUpdateBlockHeight` finds the height for the ID. -/
theorem GetAllValsetUpdateBlockHeights_spec (store : Store) (hwf : store.WF)
    (hs : heightEntriesOf store) :
    ∃ L, GetAllValsetUpdateBlockHeights store = .ok L ∧
      (L.map (fun x => x.ValsetUpdateId)).Pairwise (· < ·) ∧
      ∀ id h, ({ ValsetUpdateId := id, Height := h } : ValsetUpdateIdToHeight) ∈ L ↔
        id < 2 ^ 64 ∧ h < 2 ^ 64 ∧
          store.get (ValsetUpdateBlockHeightKey id) = some (PutUint64 h) := by
  obtain ⟨L, hL, _, hmem, hsorted⟩ := collectValsetUpdateBlockHeights_spec _ hs
  refine ⟨L, hL, hsorted (Store.prefixIterator_sorted store _ hwf), ?_⟩
  intro id h
  rw [hmem id h, Store.get_eq_some_iff store _ _ hwf]
  simp only [Store.prefixIterator, List.mem_filter, and_congr_right_iff]
  intro _ _
  constructor
  · exact fun hx => hx.1
  · intro hx
    exact ⟨hx, by simp [ValsetUpdateBlockHeightKey, List.isPrefixOf]⟩

/-- After a sequence of `SetValsetUpdateBlockHeight` calls the value stored for
an ID is the height of the last call for it, or what was stored before when
there was no call for it. -/
theorem setValsetUpdateBlockHeights_get (id : Nat) (hid : id < 2 ^ 64) :
    ∀ (calls : List (Nat × Nat)) (store : Store) (acc : Option Nat),
      (∀ c ∈ calls, c.1 < 2 ^ 64 ∧ c.2 < 2 ^ 64) →
      store.get (ValsetUpdateBlockHeightKey id) = acc.map PutUint64 →
      (setValsetUpdateBlockHeights store calls).get (ValsetUpdateBlockHeightKey id)
        = (calls.foldl (fun acc c => if c.1 = id then some c.2 else acc) acc).map
            PutUint64 := by
  intro calls
  induction calls with
  | nil =>
    intro store acc _ h
    exact h
  | cons c rest ih =>
    intro store acc hcalls h
    obtain ⟨h1, _⟩ := hcalls c (List.mem_cons_self _ _)
    simp only [setValsetUpdateBlockHeights, List.foldl_cons]
    apply ih _ _ (fun c' hc' => hcalls c' (List.mem_cons_of_mem _ hc'))
    by_cases hc : c.1 = id
    · simp only [hc, if_true, Option.map_some', SetValsetUpdateBlockHeight]
      exact Store.get_set_same _ _ _
    · simp only [hc, if_false, SetValsetUpdateBlockHeight]
      rw [Store.get_set_other _ _ _ _
        (ValsetUpdateBlockHeightKey_ne id c.1 hid h1 (fun h' => hc h'.symm))]
      exact h

theorem lastHeightSet_lt (calls : List (Nat × Nat))
    (hcalls : ∀ c ∈ calls, c.1 < 2 ^ 64 ∧ c.2 < 2 ^ 64) (id h : Nat) :
    ∀ acc : Option Nat, (∀ x, acc = some x → id < 2 ^ 64 ∧ x < 2 ^ 64) →
      calls.foldl (fun acc c => if c.1 = id then some c.2 else acc) acc = some h →
      id < 2 ^ 64 ∧ h < 2 ^ 64 := by
  induction calls with
  | nil =>
    intro acc hacc h'
    exact hacc h h'
  | cons c rest ih =>
    intro acc hacc h'
    simp only [List.foldl_cons] at h'
    apply ih (fun c' hc' => hcalls c' (List.mem_cons_of_mem _ hc')) _ _ h'
    intro x hx
    obtain ⟨h1, h2⟩ := hcalls c (List.mem_cons_self _ _)
    by_cases hc : c.1 = id
    · simp only [hc, if_true, Option.some.injEq] at hx
      exact ⟨hc ▸ h1, hx ▸ h2⟩
    · simp only [hc, if_false] at hx
      exact hacc x hx
theorem lastHeightSet_isSome (id : Nat) :
    ∀ (calls : List (Nat × Nat)) (acc : Option Nat),
      (calls.foldl (fun acc c => if c.1 = id then some c.2 else acc) acc).isSome = true ↔
        acc.isSome = true ∨ id ∈ calls.map Prod.fst := by
  intro calls
  induction calls with
  | nil =>
    intro acc
    simp
  | cons c rest ih =>
    intro acc
    simp only [List.foldl_cons, ih, List.map_cons, List.mem_cons]
    by_cases hc : c.1 = id
    · simp [hc]
    · have hc' : ¬ id = c.1 := fun h => hc h.symm
      simp [hc, hc']

/-- C29: after any sequence of `SetValsetUpdateBlockHeight` calls, in any
order, on a store that holds no valset update block height,
`GetAllValsetUpdateBlockHeights` returns the pairs in strictly ascending order
of the ID, one pair for each ID that was set and for no other, with the height
of the last call for the ID. The order of the keys is the order of the IDs,
for all 64-bit IDs. (The IDs and heights are 64-bit numbers.) -/
theorem GetAllValsetUpdateBlockHeights_ascending (store : Store) (calls : List (Nat × Nat))
    (hwf : store.WF)
    (hempty : store.prefixIterator [ ValsetUpdateBlockHeightBytePrefix] = [])
    (hcalls : ∀ c ∈ calls, c.1 < 2 ^ 64 ∧ c.2 < 2 ^ 64) :
    (∃ L, GetAllValsetUpdateBlockHeights (setValsetUpdateBlockHeights store calls) = .ok L ∧
      (L.map (fun x => x.ValsetUpdateId)).Pairwise (· < ·) ∧
      (L.map (fun x => x.ValsetUpdateId)).Nodup ∧
      (∀ id h, ({ ValsetUpdateId := id, Height := h } : ValsetUpdateIdToHeight) ∈ L ↔
        lastHeightSet calls id = some h) ∧
      (∀ id, id ∈ L.map (fun x => x.ValsetUpdateId) ↔ id ∈ calls.map Prod.fst)) ∧
    (∀ a b, a < 2 ^ 64 → b < 2 ^ 64 →
      (ValsetUpdateBlockHeightKey a < ValsetUpdateBlockHeightKey b ↔ a < b)) := by
  have hs0 : heightEntriesOf store := by
    intro e he
    rw [hempty] at he
    exact absurd he (List.not_mem_nil _)
  have hnone : ∀ id, store.get (ValsetUpdateBlockHeightKey id) = none := by
    intro id
    cases hg : store.get (ValsetUpdateBlockHeightKey id) with
    | none => rfl
    | some v =>
      have hmem := (Store.get_eq_some_iff store _ _ hwf).1 hg
      have : (ValsetUpdateBlockHeightKey id, v)
          ∈ store.prefixIterator [ ValsetUpdateBlockHeightBytePrefix] :=
        List.mem_filter.2 ⟨hmem, by simp [ValsetUpdateBlockHeightKey, List.isPrefixOf]⟩
      rw [hempty] at this
      exact absurd this (List.not_mem_nil _)
  obtain ⟨hwf', hs'⟩ := setValsetUpdateBlockHeights_inv calls hcalls store hwf hs0
  obtain ⟨L, hL, hsorted, hmem⟩ := GetAllValsetUpdateBlockHeights_spec _ hwf' hs'
  have hlast : ∀ id h, ({ ValsetUpdateId := id, Height := h } : ValsetUpdateIdToHeight) ∈ L ↔
      lastHeightSet calls id = some h := by
    intro id h
    rw [hmem id h]
    constructor
    · rintro ⟨hid, hh, hget⟩
      rw [setValsetUpdateBlockHeights_get id hid calls store none hcalls (hnone id)] at hget
      obtain ⟨h', hh', heq⟩ := Option.map_eq_some'.1 hget
      have hlt := lastHeightSet_lt calls hcalls id h' none (fun x hx => by cases hx) hh'
      rw [PutUint64_injective h' h hlt.2 hh heq] at hh'
      exact hh'
    · intro hl
      have hlt := lastHeightSet_lt calls hcalls id h none (fun x hx => by cases hx) hl
      refine ⟨hlt.1, hlt.2, ?_⟩
      rw [setValsetUpdateBlockHeights_get id hlt.1 calls store none hcalls (hnone id)]
      have hl' : calls.foldl (fun acc c => if c.1 = id then some c.2 else acc) none = some h :=
        hl
      rw [hl']
      rfl
  refine ⟨⟨L, hL, hsorted, hsorted.imp (fun hab => ne_of_lt hab), hlast, ?_⟩, ?_⟩
  · intro id
    have hsome := lastHeightSet_isSome id calls none
    simp only [Option.isSome_none, Bool.false_eq_true, false_or] at hsome
    rw [← hsome]
    constructor
    · intro hin
      obtain ⟨x, hx, hxid⟩ := List.mem_map.1 hin
      obtain ⟨xid, xh⟩ := x
      simp only at hxid
      subst hxid
      have := (hlast xid xh).1 hx
      unfold lastHeightSet at this
      rw [this]
      rfl
    · intro hin
      obtain ⟨h, hh⟩ := Option.isSome_iff_exists.1 hin
      exact List.mem_map.2 ⟨{ ValsetUpdateId := id, Height := h }, (hlast id h).2 hh, rfl⟩
  · intro a b ha hb
    simp only [ValsetUpdateBlockHeightKey]
    rw [cons_lt_cons_same]
    exact PutUint64_lt_iff a b ha hb

/-- C29 on a concrete input: the calls of `TestGetAllValsetUpdateBlockHeights`,
then a second call for the ID 2, and calls for the IDs 255, 256 and
`2 ^ 64 - 1`. -/
theorem GetAllValsetUpdateBlockHeights_ascending_witness :
    GetAllValsetUpdateBlockHeights (setValsetUpdateBlockHeights []
        [(2, 22), (1, 11), (4, 11), (3, 33), (2, 23), (18446744073709551615, 7), (256, 5),
         (255, 6)])
      = .ok [{ ValsetUpdateId := 1, Height := 11 }, { ValsetUpdateId := 2, Height := 23 },
             { ValsetUpdateId := 3, Height := 33 }, { ValsetUpdateId := 4, Height := 11 },
             { ValsetUpdateId := 255, Height := 6 }, { ValsetUpdateId := 256, Height := 5 },
             { ValsetUpdateId := 18446744073709551615, Height := 7 }] ∧
    ((∃ L, GetAllValsetUpdateBlockHeights (setValsetUpdateBlockHeights []
          [(2, 22), (1, 11), (4, 11), (3, 33), (2, 23), (18446744073709551615, 7), (256, 5),
           (255, 6)]) = .ok L ∧
        (L.map (fun x => x.ValsetUpdateId)).Pairwise (· < ·) ∧
        (L.map (fun x => x.ValsetUpdateId)).Nodup ∧
        (∀ id h, ({ ValsetUpdateId := id, Height := h } : ValsetUpdateIdToHeight) ∈ L ↔
          lastHeightSet
            [(2, 22), (1, 11), (4, 11), (3, 33), (2, 23), (18446744073709551615, 7), (256, 5),
             (255, 6)] id = some h) ∧
        (∀ id, id ∈ L.map (fun x => x.ValsetUpdateId) ↔
          id ∈ ([(2, 22), (1, 11), (4, 11), (3, 33), (2, 23), (18446744073709551615, 7),
                 (256, 5), (255, 6)] : List (Nat × Nat)).map Prod.fst)) ∧
      (∀ a b, a < 2 ^ 64 → b < 2 ^ 64 →
        (ValsetUpdateBlockHeightKey a < ValsetUpdateBlockHeightKey b ↔ a < b))) :=
  ⟨by decide,
    GetAllValsetUpdateBlockHeights_ascending [] _ (by decide) (by decide) (by decide)⟩

/-! ## The validation of messages -/

/-- C26: with `t` the chain ID without its leading and trailing white space,
`ValidateChainId` returns nil exactly when `t` is not empty, is at most 128
bytes long and is neither `neutron-1` nor `stride-1`, whatever the field name;
otherwise it returns an `ErrInvalidConsumerChainID` error. In particular a
chain ID that is a reserved name surrounded by white space is rejected, with
the error of the reserved names. -/
theorem ValidateChainId_nil_iff (field : String) (id : Bytes) :
    (ValidateChainId field id = none ↔
      TrimSpace id ≠ [] ∧ (TrimSpace id).length ≤ 128 ∧
        TrimSpace id ≠ ascii "neutron-1" ∧ TrimSpace id ≠ ascii "stride-1") ∧
    (ValidateChainId field id ≠ none →
      ∃ msg, ValidateChainId field id = some (.ErrInvalidConsumerChainID msg)) ∧
    (TrimSpace id = ascii "neutron-1" ∨ TrimSpace id = ascii "stride-1" →
      ValidateChainId field id
        = some (.ErrInvalidConsumerChainID "cannot use a reserved chain id")) := by
  have hres : IsReservedChainId (TrimSpace id) = true ↔
      (TrimSpace id = ascii "neutron-1" ∨ TrimSpace id = ascii "stride-1") := by
    simp [IsReservedChainId]
  refine ⟨?_, ?_, ?_⟩
  · unfold ValidateChainId
    simp only
    by_cases h1 : TrimSpace id = []
    · rw [if_pos h1]
      constructor
      · intro h
        cases h
      · intro h
        exact absurd h1 h.1
    · rw [if_neg h1]
      by_cases h2 : (TrimSpace id).length > 128
      · rw [if_pos h2]
        constructor
        · intro h
          cases h
        · intro h
          omega
      · rw [if_neg h2]
        by_cases h3 : IsReservedChainId (TrimSpace id) = true
        · rw [if_pos h3]
          constructor
          · intro h
            cases h
          · rintro ⟨_, _, h4, h5⟩
            rcases hres.1 h3 with h | h
            · exact absurd h h4
            · exact absurd h h5
        · rw [if_neg h3]
          constructor
          · intro _
            exact ⟨h1, by omega, fun h => h3 (hres.2 (Or.inl h)),
              fun h => h3 (hres.2 (Or.inr h))⟩
          · intro _
            rfl
  · intro hne
    unfold ValidateChainId at hne ⊢
    simp only at hne ⊢
    by_cases h1 : TrimSpace id = []
    · rw [if_pos h1]
      exact ⟨_, rfl⟩
    · rw [if_neg h1] at hne ⊢
      by_cases h2 : (TrimSpace id).length > 128
      · rw [if_pos h2]
        exact ⟨_, rfl⟩
      · rw [if_neg h2] at hne ⊢
        by_cases h3 : IsReservedChainId (TrimSpace id) = true
        · rw [if_pos h3]
          exact ⟨_, rfl⟩
        · rw [if_neg h3] at hne
          exact absurd rfl hne
  · intro h
    have h3 := hres.2 h
    have h1 : TrimSpace id ≠ [] := by
      rcases h with h | h <;> rw [h] <;> decide
    have h2 : ¬ (TrimSpace id).length > 128 := by
      rcases h with h | h <;> rw [h] <;> decide
    unfold ValidateChainId
    simp only
    rw [if_neg h1, if_neg h2, if_pos h3]

set_option maxRecDepth 20000 in
/-- A chain ID of 129 bytes is rejected. -/
theorem longChainId_rejected : ValidateChainId "ChainId" (List.replicate 129 97) ≠ none := by
  decide

/-- C26 on concrete inputs: a chain ID in white space, a reserved name in
ASCII white space and one in white space that is not ASCII (U+00A0 before it,
U+2028 after it), a blank chain ID, and one of 129 bytes. -/
theorem ValidateChainId_nil_iff_witness :
    (TrimSpace (ascii "  consu \n") = ascii "consu" ∧
      ValidateChainId "ChainId" (ascii "  consu \n") = none) ∧
    (TrimSpace (ascii "\t neutron-1 \r\n") = ascii "neutron-1" ∧
      ValidateChainId "ChainId" (ascii "\t neutron-1 \r\n")
        = some (.ErrInvalidConsumerChainID "cannot use a reserved chain id")) ∧
    (TrimSpace ([0xC2, 0xA0] ++ ascii "stride-1" ++ [0xE2, 0x80, 0xA8]) = ascii "stride-1" ∧
      ValidateChainId "ChainId" ([0xC2, 0xA0] ++ ascii "stride-1" ++ [0xE2, 0x80, 0xA8])
        = some (.ErrInvalidConsumerChainID "cannot use a reserved chain id")) ∧
    (∃ msg, ValidateChainId "ChainId" (ascii " \t ")
      = some (.ErrInvalidConsumerChainID msg)) ∧
    (∃ msg, ValidateChainId "ChainId" (List.replicate 129 97)
      = some (.ErrInvalidConsumerChainID msg)) :=
  ⟨⟨by decide,
      (ValidateChainId_nil_iff "ChainId" (ascii "  consu \n")).1.2
        ⟨by decide, by decide, by decide, by decide⟩⟩,
    ⟨by decide,
      (ValidateChainId_nil_iff "ChainId" (ascii "\t neutron-1 \r\n")).2.2
        (Or.inl (by decide))⟩,
    ⟨by decide,
      (ValidateChainId_nil_iff "ChainId"
        ([0xC2, 0xA0] ++ ascii "stride-1" ++ [0xE2, 0x80, 0xA8])).2.2 (Or.inr (by decide))⟩,
    (ValidateChainId_nil_iff "ChainId" (ascii " \t ")).2.1 (by decide),
    (ValidateChainId_nil_iff "ChainId" (List.replicate 129 97)).2.1 longChainId_rejected⟩

/-- C27: `MsgConsumerAddition.ValidateBasic` returns an error for a message
whose chain ID `ValidateChainId` rejects (a blank one, a reserved one), whose
initial height is zero, whose genesis hash or binary hash is empty, or whose
spawn time is zero, whatever the validation functions of `x/ccv/types` say;
`MsgConsumerRemoval.ValidateBasic` returns nil exactly when `ValidateChainId`
accepts the chain ID and the stop time is not zero. Both are functions of the
message alone. -/
theorem ValidateBasic_rejects (v : ccvtypes) (msg : MsgConsumerAddition)
    (rem : MsgConsumerRemoval) :
    ((TrimSpace msg.ChainId = [] ∨ IsReservedChainId (TrimSpace msg.ChainId) = true ∨
        ValidateChainId "ChainId" msg.ChainId ≠ none ∨
        msg.InitialHeight = { RevisionNumber := 0, RevisionHeight := 0 } ∨
        msg.GenesisHash = [] ∨ msg.BinaryHash = [] ∨ msg.SpawnTime = zeroTime) →
      ∃ err, MsgConsumerAddition.ValidateBasic v msg = some err) ∧
    (MsgConsumerRemoval.ValidateBasic rem = none ↔
      ValidateChainId "ChainId" rem.ChainId = none ∧ rem.StopTime ≠ zeroTime) := by
  constructor
  · intro h
    have hchain : (TrimSpace msg.ChainId = [] ∨
        IsReservedChainId (TrimSpace msg.ChainId) = true ∨
        ValidateChainId "ChainId" msg.ChainId ≠ none) →
        ValidateChainId "ChainId" msg.ChainId ≠ none := by
      rintro (h1 | h1 | h1)
      · simp [ValidateChainId, h1]
      · unfold ValidateChainId
        simp only [h1, if_true]
        split
        · simp
        · split <;> simp
      · exact h1
    cases hv : ValidateChainId "ChainId" msg.ChainId with
    | some err =>
      exact ⟨err, by simp [MsgConsumerAddition.ValidateBasic, hv]⟩
    | none =>
      have hrest : msg.InitialHeight = { RevisionNumber := 0, RevisionHeight := 0 } ∨
          msg.GenesisHash = [] ∨ msg.BinaryHash = [] ∨ msg.SpawnTime = zeroTime := by
        rcases h with h1 | h1 | h1 | h1
        · exact absurd hv (hchain (Or.inl h1))
        · exact absurd hv (hchain (Or.inr (Or.inl h1)))
        · exact absurd hv h1
        · exact h1
      unfold MsgConsumerAddition.ValidateBasic
      simp only [hv]
      by_cases c1 : msg.InitialHeight.IsZero = true
      · rw [if_pos c1]
        exact ⟨_, rfl⟩
      · rw [if_neg c1]
        by_cases c2 : msg.GenesisHash.length = 0
        · rw [if_pos c2]
          exact ⟨_, rfl⟩
        · rw [if_neg c2]
          by_cases c3 : msg.BinaryHash.length = 0
          · rw [if_pos c3]
            exact ⟨_, rfl⟩
          · rw [if_neg c3]
            by_cases c4 : IsZero msg.SpawnTime = true
            · rw [if_pos c4]
              exact ⟨_, rfl⟩
            · exfalso
              rcases hrest with h1 | h1 | h1 | h1
              · apply c1
                rw [h1]
                rfl
              · apply c2
                rw [h1]
                rfl
              · apply c3
                rw [h1]
                rfl
              · apply c4
                simp [IsZero, h1]
  · unfold MsgConsumerRemoval.ValidateBasic
    cases hv : ValidateChainId "ChainId" rem.ChainId with
    | some err => simp
    | none =>
      by_cases hz : rem.StopTime = zeroTime
      · simp [IsZero, hz]
      · simp [IsZero, hz]

/-- C27 on concrete messages: the message `additionMsg` passes; with the
reserved chain ID `stride-1` between spaces, a zero initial height, an empty
genesis hash, an empty binary hash or the zero spawn time it is rejected; and a
removal of `consu` at time 1000 passes, while one at the zero time does not. -/
theorem ValidateBasic_rejects_witness :
    MsgConsumerAddition.ValidateBasic acceptingTypes additionMsg = none ∧
    (∃ err, MsgConsumerAddition.ValidateBasic acceptingTypes
      { additionMsg with ChainId := ascii " stride-1 " } = some err) ∧
    (∃ err, MsgConsumerAddition.ValidateBasic acceptingTypes
      { additionMsg with InitialHeight := { RevisionNumber := 0, RevisionHeight := 0 } }
        = some err) ∧
    (∃ err, MsgConsumerAddition.ValidateBasic acceptingTypes
      { additionMsg with GenesisHash := [] } = some err) ∧
    (∃ err, MsgConsumerAddition.ValidateBasic acceptingTypes
      { additionMsg with BinaryHash := [] } = some err) ∧
    (∃ err, MsgConsumerAddition.ValidateBasic acceptingTypes
      { additionMsg with SpawnTime := zeroTime } = some err) ∧
    MsgConsumerRemoval.ValidateBasic { ChainId := ascii "consu", StopTime := 1000 } = none ∧
    MsgConsumerRemoval.ValidateBasic { ChainId := ascii "consu", StopTime := zeroTime }
      ≠ none :=
  ⟨by decide,
    (ValidateBasic_rejects acceptingTypes { additionMsg with ChainId := ascii " stride-1 " }
      { ChainId := [], StopTime := 0 }).1 (Or.inr (Or.inl (by decide))),
    (ValidateBasic_rejects acceptingTypes
      { additionMsg with InitialHeight := { RevisionNumber := 0, RevisionHeight := 0 } }
      { ChainId := [], StopTime := 0 }).1 (Or.inr (Or.inr (Or.inr (Or.inl rfl)))),
    (ValidateBasic_rejects acceptingTypes { additionMsg with GenesisHash := [] }
      { ChainId := [], StopTime := 0 }).1 (Or.inr (Or.inr (Or.inr (Or.inr (Or.inl rfl))))),
    (ValidateBasic_rejects acceptingTypes { additionMsg with BinaryHash := [] }
      { ChainId := [], StopTime := 0 }).1
        (Or.inr (Or.inr (Or.inr (Or.inr (Or.inr (Or.inl rfl)))))),
    (ValidateBasic_rejects acceptingTypes { additionMsg with SpawnTime := zeroTime }
      { ChainId := [], StopTime := 0 }).1
        (Or.inr (Or.inr (Or.inr (Or.inr (Or.inr (Or.inr rfl)))))),
    (ValidateBasic_rejects acceptingTypes additionMsg
      { ChainId := ascii "consu", StopTime := 1000 }).2.2 ⟨by decide, by decide⟩,
    fun h => ((ValidateBasic_rejects acceptingTypes additionMsg
      { ChainId := ascii "consu", StopTime := zeroTime }).2.1 h).2 rfl⟩

/-! ## The errors of the handshake checks -/

/-- C24, as the code has it: the three conditions are reported by returned
error values, and the call returns. `VerifyConsumerChain` returns the
too-many-hops error for a hop count other than one, the invalid-client error
when the client of the connection is not the registered client of the chain,
and the duplicate-channel error when the chain has a channel.
`SetConsumerChain` returns the too-many-hops and the duplicate-channel error,
and whenever it returns an error it leaves the state as it was; it does not
compare the client of the connection with the registered client. -/
theorem handshake_errors_returned (k : Keeper) (ctx : Context) (st : State)
    (channelID connectionID : Bytes) (conn : ConnectionEnd) (tm : TmClientState)
    (hconn : k.GetConnection connectionID = some conn)
    (hclient : k.GetClientState conn.ClientId = some (.tendermint tm)) :
    (∀ hops : List Bytes, hops.length ≠ 1 →
      VerifyConsumerChain k st.store channelID hops = some .ErrTooManyConnectionHops) ∧
    (∀ id, GetConsumerClientId st.store tm.ChainId = (id, true) → id ≠ conn.ClientId →
      VerifyConsumerChain k st.store channelID [connectionID]
        = some (.ErrInvalidConsumerClient id conn.ClientId)) ∧
    (∀ prev, GetConsumerClientId st.store tm.ChainId = (conn.ClientId, true) →
      GetChainToChannel st.store tm.ChainId = (prev, true) →
      VerifyConsumerChain k st.store channelID [connectionID]
        = some (.ErrDuplicateChannel prev tm.ChainId)) ∧
    (∀ channel, k.GetChannel ProviderPortID channelID = some channel →
      channel.ConnectionHops.length ≠ 1 →
      SetConsumerChain k ctx st channelID = (some .ErrTooManyConnectionHops, st)) ∧
    (∀ channel prev, k.GetChannel ProviderPortID channelID = some channel →
      channel.ConnectionHops = [connectionID] →
      GetChainToChannel st.store tm.ChainId = (prev, true) →
      SetConsumerChain k ctx st channelID
        = (some (.ErrDuplicateChannel prev tm.ChainId), st)) ∧
    (∀ channel, k.GetChannel ProviderPortID channelID = some channel →
      channel.ConnectionHops = [connectionID] →
      (GetChainToChannel st.store tm.ChainId).2 = false →
      (SetConsumerChain k ctx st channelID).1 = none) ∧
    ((SetConsumerChain k ctx st channelID).1 ≠ none →
      (SetConsumerChain k ctx st channelID).2 = st) := by
  refine ⟨?_, ?_, ?_, ?_, ?_, ?_, ?_⟩
  · intro hops hlen
    unfold VerifyConsumerChain
    split
    · simp at hlen
    · rfl
  · intro id hreg hne
    simp only [VerifyConsumerChain, getUnderlyingClient, hconn, hclient, hreg]
    rw [if_pos hne]
  · intro prev hreg hch
    simp only [VerifyConsumerChain, getUnderlyingClient, hconn, hclient, hreg, hch]
    simp
  · intro channel hchan hlen
    unfold SetConsumerChain
    simp only [hchan]
    split
    · rename_i h
      rw [h] at hlen
      simp at hlen
    · rfl
  · intro channel prev hchan hhops hch
    simp only [SetConsumerChain, hchan, hhops, getUnderlyingClient, hconn, hclient, hch]
  · intro channel hchan hhops hch
    cases hc : GetChainToChannel st.store tm.ChainId with
    | mk prev bound =>
      rw [hc] at hch
      simp only at hch
      subst hch
      simp only [SetConsumerChain, hchan, hhops, getUnderlyingClient, hconn, hclient, hc]
  · intro hne
    unfold SetConsumerChain at hne ⊢
    cases h1 : k.GetChannel ProviderPortID channelID with
    | none => rfl
    | some channel =>
      simp only [h1] at hne ⊢
      split
      · rename_i c h2
        simp only [h2] at hne
        cases h3 : getUnderlyingClient k c with
        | error err => rfl
        | ok r =>
          obtain ⟨clientID, tmClient⟩ := r
          simp only [h3] at hne ⊢
          cases h4 : GetChainToChannel st.store tmClient.ChainId with
          | mk prev bound =>
            cases bound with
            | true => rfl
            | false =>
              simp only [h4] at hne
              exact absurd rfl hne
      · rfl

/-- C24 on concrete inputs: with the client `07-tendermint-9` registered for
`consu`, whose connection runs over `07-tendermint-0`, `VerifyConsumerChain`
returns the invalid-client error and `SetConsumerChain` returns no error; with
the channel `channel-0` bound, `SetConsumerChain` returns the
duplicate-channel error and the state. -/
theorem handshake_errors_returned_witness :
    VerifyConsumerChain channelKeeper otherClientState.store (ascii "channel-1")
        [ascii "connection-0"]
      = some (.ErrInvalidConsumerClient (ascii "07-tendermint-9") (ascii "07-tendermint-0")) ∧
    (SetConsumerChain channelKeeper testCtx otherClientState (ascii "channel-1")).1 = none ∧
    SetConsumerChain channelKeeper testCtx boundState (ascii "channel-1")
      = (some (.ErrDuplicateChannel (ascii "channel-0") (ascii "consu")), boundState) :=
  ⟨(handshake_errors_returned channelKeeper testCtx otherClientState (ascii "channel-1")
      (ascii "connection-0") { ClientId := ascii "07-tendermint-0" } consuClient
      (by decide) (by decide)).2.1 (ascii "07-tendermint-9") (by decide) (by decide),
    (handshake_errors_returned channelKeeper testCtx otherClientState (ascii "channel-1")
      (ascii "connection-0") { ClientId := ascii "07-tendermint-0" } consuClient
      (by decide) (by decide)).2.2.2.2.2.1
        { closed := false, ConnectionHops := [ascii "connection-0"] }
        (by decide) rfl (by decide),
    (handshake_errors_returned channelKeeper testCtx boundState (ascii "channel-1")
      (ascii "connection-0") { ClientId := ascii "07-tendermint-0" } consuClient
      (by decide) (by decide)).2.2.2.2.1
        { closed := false, ConnectionHops := [ascii "connection-0"] } (ascii "channel-0")
        (by decide) rfl (by decide)⟩

/-- C24 does not hold as stated: two connection hops, a connection over a
client other than the registered one and a second channel for a chain each
make `VerifyConsumerChain` return an error value, and the too-many-hops and
duplicate-channel conditions make `SetConsumerChain` return an error value
next to the unchanged state; the calls return to their caller. -/
theorem handshake_error_is_a_value :
    VerifyConsumerChain channelKeeper [] (ascii "channel-1")
        [ascii "connection-0", ascii "connection-1"]
      = some .ErrTooManyConnectionHops ∧
    VerifyConsumerChain channelKeeper otherClientState.store (ascii "channel-1")
        [ascii "connection-0"]
      = some (.ErrInvalidConsumerClient (ascii "07-tendermint-9") (ascii "07-tendermint-0")) ∧
    VerifyConsumerChain channelKeeper
        (SetConsumerClientId boundState.store (ascii "consu") (ascii "07-tendermint-0"))
        (ascii "channel-1") [ascii "connection-0"]
      = some (.ErrDuplicateChannel (ascii "channel-0") (ascii "consu")) ∧
    SetConsumerChain channelKeeper testCtx boundState (ascii "channel-1")
      = (some (.ErrDuplicateChannel (ascii "channel-0") (ascii "consu")), boundState) ∧
    SetConsumerChain
        { channelKeeper with
          GetChannel := fun _ _ =>
            some { closed := false,
                   ConnectionHops := [ascii "connection-0", ascii "connection-1"] } }
        testCtx emptyState (ascii "channel-1")
      = (some .ErrTooManyConnectionHops, emptyState) := by
  decide

/-! ## The keys a keeper call leaves -/

theorem CloseChannel_store (k : Keeper) (st : State) (channelID : Bytes) :
    (CloseChannel k st channelID).store = st.store := by
  unfold CloseChannel
  split
  · split
    · rfl
    · rfl
  · rfl

/-- `SetConsumerChain` writes under the chain-to-channel, channel-to-chain and
init-height namespaces only. -/
theorem SetConsumerChain_get_key (k : Keeper) (ctx : Context) (st : State)
    (channelID key : Bytes) (h5 : key.head? ≠ some ChainToChannelBytePrefix)
    (h6 : key.head? ≠ some ChannelToChainBytePrefix)
    (h16 : key.head? ≠ some InitChainHeightBytePrefix) :
    (SetConsumerChain k ctx st channelID).2.store.get key = st.store.get key := by
  have hset : ∀ (s : Store) (b : Nat) (rest v : Bytes), key.head? ≠ some b →
      (s.set (b :: rest) v).get key = s.get key := by
    intro s b rest v hb
    apply Store.get_set_other
    intro hk
    rw [hk] at hb
    exact hb rfl
  unfold SetConsumerChain
  split
  · rfl
  · split
    · split
      · rfl
      · simp only
        split
        · rfl
        · simp only [SetInitChainHeight, SetChannelToChain, SetChainToChannel,
            InitChainHeightKey, ChannelToChainKey, ChainToChannelKey]
          rw [hset _ _ _ _ h16, hset _ _ _ _ h6, hset _ _ _ _ h5]
    · rfl

/-- `StopConsumerChain`, when it returns, leaves every key other than the
entries of the chain it deletes and the keys of the channel-to-chain and
unbonding namespaces. -/
theorem StopConsumerChain_get_key (k : Keeper) (st : State) (chainID : Bytes)
    (lockUbd closeChan : Bool) (err : Option Error) (st' : State)
    (h : StopConsumerChain k st chainID lockUbd closeChan = .ok (err, st'))
    (key : Bytes) (hw : opWrites (.StopConsumerChain chainID lockUbd closeChan) key = false) :
    st'.store.get key = st.store.get key := by
  simp only [opWrites, Bool.or_eq_false_iff, decide_eq_false_iff_not] at hw
  obtain ⟨⟨⟨⟨⟨⟨⟨⟨h7, h18⟩, h5⟩, h16⟩, h15⟩, hnil⟩, h6⟩, h11⟩, h12⟩ := hw
  cases key with
  | nil => exact absurd rfl hnil
  | cons b rest =>
    simp only [List.head?_cons, Option.some.injEq] at h6 h11 h12
    obtain ⟨L, store5, hempty, hframe⟩ := StopConsumerChain_ok k st chainID lockUbd closeChan
      err st' h
    rw [hframe.1 b rest h11 h12]
    have hch : ∀ channelID, b :: rest ≠ ChannelToChainKey channelID := by
      intro channelID hk
      simp only [ChannelToChainKey, List.cons.injEq] at hk
      exact h6 hk.1
    have hclean : (stopCleanup k st chainID closeChan).store.get (b :: rest)
        = st.store.get (b :: rest) := by
      rw [stopCleanup_store]
      split
      · simp only [Store.get_delete, h7, h18, h5, h16, hch, if_false]
      · simp only [Store.get_delete, h7, h18, h16, if_false]
    rcases EmptySlashAcks_ok k _ chainID L store5 hempty with hs | hs
    · simp only [hs]
      exact hclean
    · simp only [hs, Store.get_delete, h15, if_false]
      exact hclean

/-- The scan of the pending clients writes under the namespaces of
`CreateConsumerClient` only. -/
theorem iteratePendingClients_get_key (k : Keeper) (ctx : Context) (key : Bytes)
    (h7 : key.head? ≠ some ChainToClientBytePrefix)
    (h14 : key.head? ≠ some ConsumerGenesisBytePrefix)
    (h18 : key.head? ≠ some LockUnbondingOnTimeoutBytePrefix) :
    ∀ (entries : List (Bytes × Bytes)) (st st' : State),
      iteratePendingClients k ctx entries st = .ok st' →
      st'.store.get key = st.store.get key := by
  have hne : ∀ (b : Nat) (rest : Bytes), key.head? ≠ some b → key ≠ b :: rest := by
    intro b rest hb hk
    rw [hk] at hb
    exact hb rfl
  intro entries
  induction entries with
  | nil =>
    intro st st' h
    simp only [iteratePendingClients, Except.ok.injEq] at h
    rw [h]
  | cons e rest ih =>
    intro st st' h
    obtain ⟨suffixKey, value⟩ := e
    simp only [iteratePendingClients] at h
    split at h
    · cases h
    · split at h
      · cases h
      · split at h
        · split at h
          · cases h
          · split at h
            · cases h
            · rename_i hcreate
              rw [ih _ _ h]
              exact CreateConsumerClient_get_other k ctx st _ _ _ _ _ hcreate key
                (hne _ _ h7) (hne _ _ h14) (hne _ _ h18)
        · simp only [Except.ok.injEq] at h
          rw [h]

/-- The scan of the pending removals writes what `StopConsumerChain` writes,
and deletes pending-removal entries. -/
theorem iteratePendingStops_get_key (k : Keeper) (ctx : Context) (key : Bytes)
    (hw : opWrites .IteratePendingStopProposal key = false) :
    ∀ (entries : List (Bytes × Bytes)) (st st' : State),
      iteratePendingStops k ctx entries st = .ok st' →
      st'.store.get key = st.store.get key := by
  have hstop : ∀ chainID, opWrites (.StopConsumerChain chainID false true) key = false := by
    intro chainID
    simp only [opWrites, Bool.or_eq_false_iff, decide_eq_false_iff_not] at hw ⊢
    obtain ⟨⟨⟨⟨⟨⟨⟨⟨⟨hnil, h7⟩, h18⟩, h5⟩, h6⟩, h16⟩, h15⟩, h11⟩, h12⟩, _⟩ := hw
    have hne : ∀ (b : Nat) (rest : Bytes), key.head? ≠ some b → key ≠ b :: rest := by
      intro b rest hb hk
      rw [hk] at hb
      exact hb rfl
    exact ⟨⟨⟨⟨⟨⟨⟨⟨hne _ _ h7, hne _ _ h18⟩, hne _ _ h5⟩, hne _ _ h16⟩, hne _ _ h15⟩, hnil⟩,
      h6⟩, h11⟩, h12⟩
  have hpend : ∀ chainID stopTime, key ≠ PendingStopProposalKey stopTime chainID := by
    intro chainID stopTime hk
    simp only [opWrites, Bool.or_eq_false_iff] at hw
    have hp := hw.2
    rw [hk] at hp
    simp only [PendingStopProposalKey, List.append_assoc] at hp
    rw [List.isPrefixOf_iff_prefix.2 (List.prefix_append _ _)] at hp
    cases hp
  intro entries
  induction entries with
  | nil =>
    intro st st' h
    simp only [iteratePendingStops, Except.ok.injEq] at h
    rw [h]
  | cons e rest ih =>
    intro st st' h
    obtain ⟨suffixKey, value⟩ := e
    simp only [iteratePendingStops] at h
    split at h
    · cases h
    · split at h
      · cases h
      · split at h
        · split at h
          · cases h
          · rename_i hstopped
            rw [ih _ _ h]
            simp only [DeletePendingStopProposal]
            rw [Store.get_delete_other _ _ _ (hpend _ _)]
            exact StopConsumerChain_get_key k st _ false true _ _ hstopped key (hstop _)
        · simp only [Except.ok.injEq] at h
          rw [h]

theorem Except_map_ok {ε α β : Type} (f : α → β) (x : Except ε α) (y : β)
    (h : Except.map f x = .ok y) : ∃ a, x = .ok a ∧ f a = y := by
  cases x with
  | error e => cases h
  | ok a =>
    simp only [Except.map, Except.ok.injEq] at h
    exact ⟨a, rfl, h⟩

/-- A call of the keeper leaves the value of every key outside the keys it may
write. -/
theorem runOp_get (k : Keeper) (ctx : Context) (st st' : State) (op : KeeperOp) (key : Bytes)
    (h : runOp k ctx st op = .ok st') (hw : opWrites op key = false) :
    st'.store.get key = st.store.get key := by
  have hne : ∀ (b : Nat) (rest : Bytes), key.head? ≠ some b → key ≠ b :: rest := by
    intro b rest hb hk
    rw [hk] at hb
    exact hb rfl
  cases op
  case StopConsumerChain chainID lockUbd closeChan =>
    simp only [runOp] at h
    obtain ⟨r, hr, hst⟩ := Except_map_ok _ _ _ h
    obtain ⟨err, st2⟩ := r
    simp only at hst
    subst hst
    exact StopConsumerChain_get_key k st chainID lockUbd closeChan err _ hr key hw
  case StopConsumerChainProposal chainID stopTime =>
    simp only [runOp] at h
    obtain ⟨r, hr, hst⟩ := Except_map_ok _ _ _ h
    obtain ⟨err, st2⟩ := r
    simp only at hst
    subst hst
    unfold StopConsumerChainProposal at hr
    split at hr
    · apply StopConsumerChain_get_key k st chainID false true err _ hr key
      simp only [opWrites, Bool.or_eq_false_iff] at hw ⊢
      exact hw.1
    · simp only [Except.ok.injEq, Prod.mk.injEq] at hr
      rw [← hr.2]
      simp only [opWrites, Bool.or_eq_false_iff, decide_eq_false_iff_not] at hw
      exact Store.get_set_other _ _ _ _ hw.2
  all_goals simp only [runOp, opWrites, Bool.or_eq_false_iff, decide_eq_false_iff_not] at h hw
  case SetConsumerGenesis chainID gen =>
    simp only [Except.ok.injEq] at h
    subst h
    simp only [State.withStore, SetConsumerGenesis]
    split
    · rfl
    · exact Store.get_set_other _ _ _ _ hw
  case SetConsumerChain channelID =>
    simp only [Except.ok.injEq] at h
    subst h
    exact SetConsumerChain_get_key k ctx st channelID key hw.1.1 hw.1.2 hw.2
  case IncrementValidatorSetUpdateId =>
    obtain ⟨s, hs, hst⟩ := Except_map_ok _ _ _ h
    subst hst
    unfold IncrementValidatorSetUpdateId at hs
    split at hs
    · cases hs
    · simp only [Except.ok.injEq] at hs
      subst hs
      exact Store.get_set_other _ _ _ _ hw
  case SetSlashAcks chainID acks =>
    obtain ⟨s, hs, hst⟩ := Except_map_ok _ _ _ h
    subst hst
    unfold SetSlashAcks at hs
    split at hs
    · cases hs
    · simp only [Except.ok.injEq] at hs
      subst hs
      exact Store.get_set_other _ _ _ _ hw
  case ConsumeSlashAcks chainID =>
    obtain ⟨r, hr, hst⟩ := Except_map_ok _ _ _ h
    obtain ⟨L, s⟩ := r
    subst hst
    rcases EmptySlashAcks_ok k _ chainID L s hr with hs | hs
    · simp only [State.withStore, hs]
    · simp only [State.withStore, hs]
      exact Store.get_delete_other _ _ _ hw
  case EmptySlashAcks chainID =>
    obtain ⟨r, hr, hst⟩ := Except_map_ok _ _ _ h
    obtain ⟨L, s⟩ := r
    subst hst
    rcases EmptySlashAcks_ok k _ chainID L s hr with hs | hs
    · simp only [State.withStore, hs]
    · simp only [State.withStore, hs]
      exact Store.get_delete_other _ _ _ hw
  case AppendSlashAck chainID ack =>
    obtain ⟨s, hs, hst⟩ := Except_map_ok _ _ _ h
    subst hst
    unfold AppendSlashAck at hs
    split at hs
    · cases hs
    · unfold SetSlashAcks at hs
      split at hs
      · cases hs
      · simp only [Except.ok.injEq] at hs
        subst hs
        exact Store.get_set_other _ _ _ _ hw
  case AppendPendingVSCPackets chainID newPackets =>
    obtain ⟨s, hs, hst⟩ := Except_map_ok _ _ _ h
    subst hst
    unfold AppendPendingVSCPackets at hs
    split at hs
    · cases hs
    · split at hs
      · cases hs
      · simp only [Except.ok.injEq] at hs
        subst hs
        exact Store.get_set_other _ _ _ _ hw
  case SetUnbondingOp unbondingOp =>
    obtain ⟨s, hs, hst⟩ := Except_map_ok _ _ _ h
    subst hst
    unfold SetUnbondingOp at hs
    split at hs
    · cases hs
    · simp only [Except.ok.injEq] at hs
      subst hs
      exact Store.get_set_other _ _ _ _ hw
  case SetUnbondingOpIndex chainID vscID ids =>
    obtain ⟨s, hs, hst⟩ := Except_map_ok _ _ _ h
    subst hst
    unfold SetUnbondingOpIndex at hs
    split at hs
    · cases hs
    · simp only [Except.ok.injEq] at hs
      subst hs
      exact Store.get_set_other _ _ _ _ hw
  case CreateConsumerChainProposal p =>
    obtain ⟨r, hr, hst⟩ := Except_map_ok _ _ _ h
    obtain ⟨err, st2⟩ := r
    simp only at hst
    subst hst
    unfold CreateConsumerChainProposal at hr
    split at hr
    · exact CreateConsumerClient_get_other k ctx st _ _ _ err _ hr key hw.1.1.1 hw.1.1.2 hw.1.2
    · simp only [Except.ok.injEq, Prod.mk.injEq] at hr
      rw [← hr.2]
      simp only [SetPendingClientInfo]
      split
      · rfl
      · exact Store.get_set_other _ _ _ _ hw.2
  case CreateConsumerClient chainID initialHeight lock =>
    obtain ⟨r, hr, hst⟩ := Except_map_ok _ _ _ h
    obtain ⟨err, st2⟩ := r
    simp only at hst
    subst hst
    exact CreateConsumerClient_get_other k ctx st _ _ _ err _ hr key hw.1.1 hw.1.2 hw.2
  case SetPendingClientInfo clientInfo =>
    simp only [Except.ok.injEq] at h
    subst h
    simp only [State.withStore, SetPendingClientInfo]
    split
    · rfl
    · exact Store.get_set_other _ _ _ _ hw
  case IteratePendingClientInfo =>
    exact iteratePendingClients_get_key k ctx key hw.1.1 hw.1.2 hw.2 _ st st' h
  case IteratePendingStopProposal =>
    apply iteratePendingStops_get_key k ctx key ?_ _ st st' h
    simp only [opWrites, Bool.or_eq_false_iff, decide_eq_false_iff_not]
    exact hw
  case CloseChannel channelID =>
    simp only [Except.ok.injEq] at h
    subst h
    rw [CloseChannel_store]
  all_goals
    simp only [Except.ok.injEq] at h
    subst h
    first
      | exact Store.get_set_other _ _ _ _ hw
      | exact Store.get_delete_other _ _ _ hw

/-- A sequence of calls leaves the value of a key that none of the calls may
write. -/
theorem runOps_get (key : Bytes) :
    ∀ (steps : List (Keeper × Context × KeeperOp)) (st st' : State),
      runOps steps st = .ok st' → (∀ s ∈ steps, opWrites s.2.2 key = false) →
      st'.store.get key = st.store.get key := by
  intro steps
  induction steps with
  | nil =>
    intro st st' h _
    simp only [runOps, Except.ok.injEq] at h
    rw [h]
  | cons s rest ih =>
    intro st st' h hw
    obtain ⟨k, ctx, op⟩ := s
    simp only [runOps] at h
    split at h
    · cases h
    · rename_i st1 hop
      rw [ih st1 st' h (fun s hs => hw s (List.mem_cons_of_mem _ hs))]
      exact runOp_get k ctx st st1 op key hop (hw (k, ctx, op) (List.mem_cons_self _ _))

/-- The only call that may write the slash-log key of an address is
`SetSlashLog` for that address. -/
theorem opWrites_SlashLogKey (op : KeeperOp) (a : Bytes) :
    opWrites op (SlashLogKey a) = decide (op = .SetSlashLog a) := by
  have hc : ∀ t c, ¬ (26 :: a = PendingClientKey t c) := by
    intro t c h
    obtain ⟨rest, hr⟩ := PendingClientKey_head t c
    rw [hr] at h
    simp at h
  have hs : ∀ t c, ¬ (26 :: a = PendingStopProposalKey t c) := by
    intro t c h
    obtain ⟨rest, hr⟩ := PendingStopProposalKey_head t c
    rw [hr] at h
    simp at h
  have hp : PendingStopProposalKeyPrefix.isPrefixOf (26 :: a) = false := rfl
  cases op <;>
    simp [opWrites, hc, hs, hp, eq_comm, SlashLogKey, SlashLogBytePrefix, PortKey, PortByteKey,
      ChainToChannelKey, ChainToChannelBytePrefix, ProposedConsumerChainKey,
      ProposedConsumerChainByteKey, ChannelToChainKey, ChannelToChainBytePrefix,
      ConsumerGenesisKey, ConsumerGenesisBytePrefix, InitChainHeightBytePrefix,
      ValidatorSetUpdateIdKey, ValidatorSetUpdateIdByteKey, ValsetUpdateBlockHeightKey,
      ValsetUpdateBlockHeightBytePrefix, SlashAcksKey, SlashAcksBytePrefix, InitChainHeightKey,
      PendingVSCsKey, PendingVSCsBytePrefix, ChainToClientKey, ChainToClientBytePrefix,
      LockUnbondingOnTimeoutKey, LockUnbondingOnTimeoutBytePrefix, UnbondingOpKey,
      UnbondingOpBytePrefix, UnbondingOpIndexKey, UnbondingOpIndexChainKey,
      UnbondingOpIndexBytePrefix]

/-- A call of the keeper that returns leaves a slash-log entry in place. -/
theorem runOp_GetSlashLog (k : Keeper) (ctx : Context) (st st' : State) (op : KeeperOp)
    (a : Bytes) (h : runOp k ctx st op = .ok st') (ha : GetSlashLog st.store a = true) :
    GetSlashLog st'.store a = true := by
  by_cases hop : op = .SetSlashLog a
  · subst hop
    simp only [runOp, Except.ok.injEq] at h
    subst h
    simp [GetSlashLog, State.withStore, SetSlashLog, Store.get_set_same]
  · unfold GetSlashLog at ha ⊢
    rw [runOp_get k ctx st st' op _ h (by rw [opWrites_SlashLogKey]; simp [hop])]
    exact ha

/-- A sequence of calls that returns leaves a slash-log entry in place. -/
theorem runOps_GetSlashLog (a : Bytes) :
    ∀ (steps : List (Keeper × Context × KeeperOp)) (st st' : State),
      runOps steps st = .ok st' → GetSlashLog st.store a = true →
      GetSlashLog st'.store a = true := by
  intro steps
  induction steps with
  | nil =>
    intro st st' h ha
    simp only [runOps, Except.ok.injEq] at h
    rw [← h]
    exact ha
  | cons s rest ih =>
    intro st st' h ha
    obtain ⟨k, ctx, op⟩ := s
    simp only [runOps] at h
    split at h
    · cases h
    · rename_i st1 hop
      exact ih st1 st' h (runOp_GetSlashLog k ctx st st1 op a hop ha)

/-- After a sequence of calls that returns, every address for which the
sequence called `SetSlashLog` has a slash-log entry. -/
theorem runOps_SetSlashLog (b : Bytes) :
    ∀ (steps : List (Keeper × Context × KeeperOp)) (st st' : State),
      runOps steps st = .ok st' → (∃ s ∈ steps, s.2.2 = .SetSlashLog b) →
      GetSlashLog st'.store b = true := by
  intro steps
  induction steps with
  | nil =>
    intro st st' _ hb
    obtain ⟨s, hs, _⟩ := hb
    cases hs
  | cons s rest ih =>
    intro st st' h hb
    obtain ⟨k, ctx, op⟩ := s
    simp only [runOps] at h
    split at h
    · cases h
    · rename_i st1 hop
      by_cases hset : op = .SetSlashLog b
      · subst hset
        apply runOps_GetSlashLog b rest st1 st' h
        simp only [runOp, Except.ok.injEq] at hop
        subst hop
        simp [GetSlashLog, State.withStore, SetSlashLog, Store.get_set_same]
      · apply ih st1 st' h
        obtain ⟨s, hs, hsb⟩ := hb
        rcases List.mem_cons.1 hs with h1 | h1
        · subst h1
          exact absurd hsb hset
        · exact ⟨s, h1, hsb⟩

/-- C28: after `SetSlashLog(a)`, `GetSlashLog(a)` is true, and it is true after
every further sequence of calls of the keeper that returns, whatever the
calls, `StopConsumerChain` and the two scans included: no call deletes or
overwrites a key of the slash-log namespace other than `SetSlashLog`, which
sets one. An address `b` that had no entry and for which the sequence does not
call `SetSlashLog` has none afterwards, and an address for which it does has
one. -/
theorem SlashLog_set_only (steps : List (Keeper × Context × KeeperOp)) (st st' : State)
    (a : Bytes)
    (hrun : runOps steps (st.withStore (SetSlashLog st.store a)) = .ok st') :
    GetSlashLog (SetSlashLog st.store a) a = true ∧
    GetSlashLog st'.store a = true ∧
    (∀ b, GetSlashLog st.store b = false → b ≠ a →
      (∀ s ∈ steps, s.2.2 ≠ .SetSlashLog b) → GetSlashLog st'.store b = false) ∧
    (∀ b, (∃ s ∈ steps, s.2.2 = .SetSlashLog b) → GetSlashLog st'.store b = true) ∧
    (∀ b, GetSlashLog st'.store b = true →
      GetSlashLog st.store b = true ∨ b = a ∨ ∃ s ∈ steps, s.2.2 = .SetSlashLog b) := by
  have hset : GetSlashLog (SetSlashLog st.store a) a = true := by
    simp [GetSlashLog, SetSlashLog, Store.get_set_same]
  have hkeep : ∀ b, GetSlashLog st.store b = false → b ≠ a →
      (∀ s ∈ steps, s.2.2 ≠ .SetSlashLog b) → GetSlashLog st'.store b = false := by
    intro b hb hne hsteps
    unfold GetSlashLog at hb ⊢
    rw [runOps_get (SlashLogKey b) steps _ st' hrun (by
      intro s hs
      rw [opWrites_SlashLogKey]
      simp [hsteps s hs])]
    simp only [State.withStore, SetSlashLog]
    rw [Store.get_set_other _ _ _ _ (by
      simp only [SlashLogKey, ne_eq, List.cons.injEq, true_and]
      exact hne)]
    exact hb
  refine ⟨hset, runOps_GetSlashLog a steps _ st' hrun hset, hkeep, ?_, ?_⟩
  · intro b hb
    exact runOps_SetSlashLog b steps _ st' hrun hb
  · intro b hb
    by_cases h1 : GetSlashLog st.store b = true
    · exact Or.inl h1
    · by_cases h2 : b = a
      · exact Or.inr (Or.inl h2)
      · by_cases h3 : ∃ s ∈ steps, s.2.2 = .SetSlashLog b
        · exact Or.inr (Or.inr h3)
        · exfalso
          have h1f : GetSlashLog st.store b = false := by
            simpa using h1
          have := hkeep b h1f h2 (by
            intro s hs hsb
            exact h3 ⟨s, hs, hsb⟩)
          rw [this] at hb
          cases hb

/-- C28 on a concrete run: `alice` gets a slash-log entry in `activeState`,
then the chain `consu` is stopped, `bob` gets an entry and three more calls
follow; `alice` and `bob` have an entry at the end, `carol` has none. -/
theorem SlashLog_set_only_witness :
    runOps slashLogSteps
        (activeState.withStore (SetSlashLog activeState.store (ascii "alice")))
      = .ok slashLoggedState ∧
    GetSlashLog slashLoggedState.store (ascii "alice") = true ∧
    GetSlashLog slashLoggedState.store (ascii "bob") = true ∧
    GetSlashLog slashLoggedState.store (ascii "carol") = false :=
  ⟨by decide,
    (SlashLog_set_only slashLogSteps activeState slashLoggedState (ascii "alice")
      (by decide)).2.1,
    (SlashLog_set_only slashLogSteps activeState slashLoggedState (ascii "alice")
      (by decide)).2.2.2.1 (ascii "bob")
        ⟨(testKeeper, testCtx, .SetSlashLog (ascii "bob")),
          List.mem_cons_of_mem _ (List.mem_cons_self _ _), rfl⟩,
    (SlashLog_set_only slashLogSteps activeState slashLoggedState (ascii "alice")
      (by decide)).2.2.1 (ascii "carol") (by decide) (by decide) (by decide)⟩

/-! ## The client binding of a chain over a sequence of calls -/

/-- The calls that may write the client-binding key of a chain are the calls
`rebindsClient` lists. -/
theorem opWrites_ChainToClientKey (op : KeeperOp) (C : Bytes) :
    opWrites op (ChainToClientKey C) = rebindsClient C op := by
  have hc : ∀ t c, ¬ (7 :: C = PendingClientKey t c) := by
    intro t c h
    obtain ⟨rest, hr⟩ := PendingClientKey_head t c
    rw [hr] at h
    simp at h
  have hs : ∀ t c, ¬ (7 :: C = PendingStopProposalKey t c) := by
    intro t c h
    obtain ⟨rest, hr⟩ := PendingStopProposalKey_head t c
    rw [hr] at h
    simp at h
  cases op <;>
    simp [opWrites, rebindsClient, hc, hs, eq_comm, SlashLogKey, SlashLogBytePrefix, PortKey,
      PortByteKey, ChainToChannelKey, ChainToChannelBytePrefix, ProposedConsumerChainKey,
      ProposedConsumerChainByteKey, ChannelToChainKey, ChannelToChainBytePrefix,
      ConsumerGenesisKey, ConsumerGenesisBytePrefix, InitChainHeightBytePrefix,
      ValidatorSetUpdateIdKey, ValidatorSetUpdateIdByteKey, ValsetUpdateBlockHeightKey,
      ValsetUpdateBlockHeightBytePrefix, SlashAcksKey, SlashAcksBytePrefix, InitChainHeightKey,
      PendingVSCsKey, PendingVSCsBytePrefix, ChainToClientKey, ChainToClientBytePrefix,
      LockUnbondingOnTimeoutKey, LockUnbondingOnTimeoutBytePrefix, UnbondingOpKey,
      UnbondingOpBytePrefix, UnbondingOpIndexKey, UnbondingOpIndexChainKey,
      UnbondingOpIndexBytePrefix]

/-- A `CreateConsumerClient` that does not replace the client binding of the
chain `C`, in the sense of `createRebinds`, leaves `GetConsumerClientId(C)`. -/
theorem createRebinds_keeps (k : Keeper) (ctx : Context) (st : State) (C c : Bytes)
    (initialHeight : Height) (lock : Bool) (err : Option Error) (st' : State)
    (hres : CreateConsumerClient k ctx st c initialHeight lock = .ok (err, st'))
    (hw : createRebinds k ctx (GetConsumerClientId st.store C) C c initialHeight = false) :
    GetConsumerClientId st'.store C = GetConsumerClientId st.store C := by
  by_cases hc : c = C
  · subst hc
    cases hcc : k.CreateClient (newClientState k c initialHeight) (newConsensusState ctx) with
    | error e =>
      unfold CreateConsumerClient at hres
      simp only [hcc, Except.ok.injEq, Prod.mk.injEq] at hres
      rw [← hres.2]
    | ok clientID =>
      simp only [createRebinds, hcc, decide_True, Bool.true_and, decide_not,
        Bool.not_eq_false', decide_eq_true_eq] at hw
      rw [hw]
      exact CreateConsumerClient_binds k ctx st c initialHeight lock err st' clientID hcc hres
  · have hget := CreateConsumerClient_get_other k ctx st c initialHeight lock err st' hres
      (ChainToClientKey C)
      (by
        simp only [ChainToClientKey, ne_eq, List.cons.injEq, true_and]
        exact fun h => hc h.symm)
      (by simp [ChainToClientKey, ConsumerGenesisKey, ChainToClientBytePrefix,
        ConsumerGenesisBytePrefix])
      (by simp [ChainToClientKey, LockUnbondingOnTimeoutKey, ChainToClientBytePrefix,
        LockUnbondingOnTimeoutBytePrefix])
    unfold GetConsumerClientId
    rw [hget]

/-- The loop of `IteratePendingClientInfo`, when it returns and none of the
entries it goes through replaces the client binding of the chain `C`, leaves
`GetConsumerClientId(C)`. -/
theorem iteratePendingClients_keeps (k : Keeper) (ctx : Context) (C : Bytes) :
    ∀ (entries : List (Bytes × Bytes)) (st st' : State),
      iteratePendingClients k ctx entries st = .ok st' →
      clientScanRebinds k ctx (GetConsumerClientId st.store C) C entries = false →
      GetConsumerClientId st'.store C = GetConsumerClientId st.store C := by
  intro entries
  induction entries with
  | nil =>
    intro st st' h _
    simp only [iteratePendingClients, Except.ok.injEq] at h
    rw [h]
  | cons e rest ih =>
    intro st st' h hw
    obtain ⟨suffixKey, value⟩ := e
    cases hU : Uint64 ((Split slash suffixKey).getD 0 []) with
    | none =>
      simp only [iteratePendingClients, hU] at h
      cases h
    | some timeNano =>
      cases hV : k.cdc.unmarshal value with
      | error e =>
        simp only [iteratePendingClients, hU, hV] at h
        cases h
      | ok clientInfo =>
        by_cases hdue : ctx.BlockTime > toInt64 timeNano
        · cases hC : (Split slash suffixKey).get? 1 with
          | none =>
            simp only [iteratePendingClients, hU, hV, hdue, if_true, hC] at h
            cases h
          | some c =>
            cases hcreate : CreateConsumerClient k ctx st c clientInfo.InitialHeight
                clientInfo.LockUnbondingOnTimeout with
            | error e =>
              simp only [iteratePendingClients, hU, hV, hdue, if_true, hC, hcreate] at h
              cases h
            | ok r =>
              obtain ⟨err, st1⟩ := r
              simp only [iteratePendingClients, hU, hV, hdue, if_true, hC, hcreate] at h
              simp only [clientScanRebinds, scannedTime, scannedChainID, hU, Option.map_some',
                hC, hV, hdue, decide_True, Bool.true_and, Bool.or_eq_false_iff] at hw
              have h1 := createRebinds_keeps k ctx st C c clientInfo.InitialHeight
                clientInfo.LockUnbondingOnTimeout err st1 hcreate hw.1
              rw [ih st1 st' h (by rw [h1]; exact hw.2), h1]
        · simp only [iteratePendingClients, hU, hV, hdue, if_false, Except.ok.injEq] at h
          rw [h]

/-- The loop of `IteratePendingStopProposal`, when it returns and hands the
chain `C` to `StopConsumerChain` for none of its entries, leaves the client
binding of `C`. -/
theorem iteratePendingStops_keeps (k : Keeper) (ctx : Context) (C : Bytes) :
    ∀ (entries : List (Bytes × Bytes)) (st st' : State),
      iteratePendingStops k ctx entries st = .ok st' →
      (stopScanChains ctx entries).contains C = false →
      st'.store.get (ChainToClientKey C) = st.store.get (ChainToClientKey C) := by
  have hpend : ∀ chainID stopTime, ChainToClientKey C ≠ PendingStopProposalKey stopTime chainID := by
    intro chainID stopTime h
    obtain ⟨rest, hr⟩ := PendingStopProposalKey_head stopTime chainID
    rw [hr] at h
    simp [ChainToClientKey, ChainToClientBytePrefix] at h
  intro entries
  induction entries with
  | nil =>
    intro st st' h _
    simp only [iteratePendingStops, Except.ok.injEq] at h
    rw [h]
  | cons e rest ih =>
    intro st st' h hw
    obtain ⟨suffixKey, value⟩ := e
    cases hU : Uint64 ((Split slash suffixKey).getD 0 []) with
    | none =>
      simp only [iteratePendingStops, hU] at h
      cases h
    | some timeNano =>
      cases hC : (Split slash suffixKey).get? 1 with
      | none =>
        simp only [iteratePendingStops, hU, hC] at h
        cases h
      | some c =>
        by_cases hdue : ctx.BlockTime > toInt64 timeNano
        · cases hstop : StopConsumerChain k st c false true with
          | error e =>
            simp only [iteratePendingStops, hU, hC, hdue, if_true, hstop] at h
            cases h
          | ok r =>
            obtain ⟨err, st1⟩ := r
            simp only [iteratePendingStops, hU, hC, hdue, if_true, hstop] at h
            simp only [stopScanChains, scannedTime, scannedChainID, hU, Option.map_some', hC,
              hdue, if_true, List.contains_cons, Bool.or_eq_false_iff, beq_eq_false_iff_ne,
              ne_eq] at hw
            have hcC : c ≠ C := fun hc => hw.1 hc.symm
            rw [ih _ st' h hw.2]
            simp only [DeletePendingStopProposal]
            rw [Store.get_delete_other _ _ _ (hpend _ _)]
            apply StopConsumerChain_get_key k st c false true err st1 hstop
            rw [opWrites_ChainToClientKey]
            simp [rebindsClient, hcC]
        · simp only [iteratePendingStops, hU, hC, hdue, if_false, Except.ok.injEq] at h
          rw [h]

/-- A call that returns and does not replace or remove the client binding of
the chain `C`, in the sense of `changesClient`, leaves `GetConsumerClientId(C)`. -/
theorem runOp_keepsClient (k : Keeper) (ctx : Context) (st st' : State) (op : KeeperOp)
    (C : Bytes) (h : runOp k ctx st op = .ok st')
    (hw : changesClient k ctx st C op = false) :
    GetConsumerClientId st'.store C = GetConsumerClientId st.store C := by
  have hstatic : rebindsClient C op = false →
      GetConsumerClientId st'.store C = GetConsumerClientId st.store C := by
    intro hs
    unfold GetConsumerClientId
    rw [runOp_get k ctx st st' op (ChainToClientKey C) h
      (by rw [opWrites_ChainToClientKey]; exact hs)]
  have hset : ∀ (c clientID : Bytes),
      (c = C && decide (GetConsumerClientId st.store C ≠ (clientID, true))) = false →
      GetConsumerClientId (st.store.set (ChainToClientKey c) clientID) C
        = GetConsumerClientId st.store C := by
    intro c clientID hcw
    by_cases hc : c = C
    · subst hc
      simp only [decide_True, Bool.true_and, decide_not, Bool.not_eq_false',
        decide_eq_true_eq] at hcw
      rw [hcw]
      simp [GetConsumerClientId, Store.get_set_same]
    · unfold GetConsumerClientId
      rw [Store.get_set_other]
      simp only [ChainToClientKey, ne_eq, List.cons.injEq, true_and]
      exact fun h => hc h.symm
  cases op
  case SetConsumerClientId c clientID =>
    simp only [runOp, Except.ok.injEq] at h
    subst h
    exact hset c clientID hw
  case SetConsumerClient c clientID =>
    simp only [runOp, Except.ok.injEq] at h
    subst h
    exact hset c clientID hw
  case CreateConsumerClient c initialHeight lock =>
    simp only [runOp] at h
    obtain ⟨r, hr, hst⟩ := Except_map_ok _ _ _ h
    obtain ⟨err, st2⟩ := r
    simp only at hst
    subst hst
    exact createRebinds_keeps k ctx st C c initialHeight lock err _ hr hw
  case CreateConsumerChainProposal p =>
    simp only [runOp] at h
    obtain ⟨r, hr, hst⟩ := Except_map_ok _ _ _ h
    obtain ⟨err, st2⟩ := r
    simp only at hst
    subst hst
    unfold CreateConsumerChainProposal at hr
    by_cases hdue : ctx.BlockTime > p.SpawnTime
    · simp only [hdue, if_true] at hr
      simp only [changesClient, hdue, decide_True, Bool.true_and] at hw
      exact createRebinds_keeps k ctx st C p.ChainId p.InitialHeight _ err _ hr hw
    · simp only [hdue, if_false, Except.ok.injEq, Prod.mk.injEq] at hr
      rw [← hr.2]
      have hget : (SetPendingClientInfo k st.store p).2.get (ChainToClientKey C)
          = st.store.get (ChainToClientKey C) := by
        unfold SetPendingClientInfo
        split
        · rfl
        · apply Store.get_set_other
          intro hk
          obtain ⟨rest, hrest⟩ := PendingClientKey_head p.SpawnTime p.ChainId
          rw [hrest] at hk
          simp [ChainToClientKey, ChainToClientBytePrefix] at hk
      show GetConsumerClientId (SetPendingClientInfo k st.store p).2 C = _
      unfold GetConsumerClientId
      rw [hget]
  case StopConsumerChainProposal c stopTime =>
    simp only [runOp] at h
    obtain ⟨r, hr, hst⟩ := Except_map_ok _ _ _ h
    obtain ⟨err, st2⟩ := r
    simp only at hst
    subst hst
    unfold StopConsumerChainProposal at hr
    by_cases hdue : ctx.BlockTime > stopTime
    · simp only [hdue, if_true] at hr
      simp only [changesClient, hdue, decide_True, Bool.and_true, decide_eq_false_iff_not] at hw
      unfold GetConsumerClientId
      rw [StopConsumerChain_get_key k st c false true err _ hr (ChainToClientKey C)
        (by rw [opWrites_ChainToClientKey]; simp [rebindsClient, hw])]
    · simp only [hdue, if_false, Except.ok.injEq, Prod.mk.injEq] at hr
      rw [← hr.2]
      unfold GetConsumerClientId
      simp only [SetPendingStopProposal]
      rw [Store.get_set_other]
      intro hk
      obtain ⟨rest, hrest⟩ := PendingStopProposalKey_head stopTime c
      rw [hrest] at hk
      simp [ChainToClientKey, ChainToClientBytePrefix] at hk
  case IteratePendingClientInfo =>
    exact iteratePendingClients_keeps k ctx C _ st st' h hw
  case IteratePendingStopProposal =>
    unfold GetConsumerClientId
    rw [iteratePendingStops_keeps k ctx C _ st st' h hw]
  all_goals exact hstatic hw

/-- A sequence of calls that returns and of which no call replaces or removes
the client binding of the chain `C` leaves `GetConsumerClientId(C)`. -/
theorem runOps_keepsClient (C : Bytes) :
    ∀ (steps : List (Keeper × Context × KeeperOp)) (st st' : State),
      runOps steps st = .ok st' → keepsClient C steps st = true →
      GetConsumerClientId st'.store C = GetConsumerClientId st.store C := by
  intro steps
  induction steps with
  | nil =>
    intro st st' h _
    simp only [runOps, Except.ok.injEq] at h
    rw [h]
  | cons s rest ih =>
    intro st st' h hw
    obtain ⟨k, ctx, op⟩ := s
    cases hop : runOp k ctx st op with
    | error e =>
      simp only [runOps, hop] at h
      cases h
    | ok st1 =>
      simp only [runOps, hop] at h
      simp only [keepsClient, hop, Bool.and_eq_true, Bool.not_eq_true'] at hw
      rw [ih st1 st' h hw.2]
      exact runOp_keepsClient k ctx st st1 op C hop hw.1

/-- C23, as the code has it: the client ID of a chain `C` is the one last
bound to it. A sequence of keeper calls that returns leaves
`GetConsumerClientId(C) = (id, true)` when no call of it replaces or removes
the binding of `C` in the state and block it runs in (`keepsClient`): no
setter of the binding of `C` with another ID, no deleter of it, no
`CreateConsumerClient` for `C` for which the client keeper creates a client
with another ID and no `StopConsumerChain` for `C`, called directly, through a
proposal that is due or by a scan. A proposal for `C` that is queued, a scan
that goes through no entry for `C` and a `CreateConsumerClient` for `C` whose
client creation fails are calls of such a sequence. Afterwards
`SetConsumerClientId(C, id2)` replaces the ID by `id2`, and so does a
`CreateConsumerClient` for `C` for which the client keeper creates the client
`id2`. -/
theorem GetConsumerClientId_last_bound (steps : List (Keeper × Context × KeeperOp))
    (st st' : State) (C id : Bytes)
    (hid : GetConsumerClientId st.store C = (id, true))
    (hrun : runOps steps st = .ok st')
    (hsteps : keepsClient C steps st = true) :
    GetConsumerClientId st'.store C = (id, true) ∧
    (∀ id2, GetConsumerClientId (SetConsumerClientId st'.store C id2) C = (id2, true)) ∧
    (∀ (k : Keeper) (ctx : Context) (initialHeight : Height) (lock : Bool) (id2 : Bytes)
        (err : Option Error) (st2 : State),
      k.CreateClient (newClientState k C initialHeight) (newConsensusState ctx) = .ok id2 →
      CreateConsumerClient k ctx st' C initialHeight lock = .ok (err, st2) →
      GetConsumerClientId st2.store C = (id2, true)) := by
  refine ⟨?_, ?_, ?_⟩
  · rw [runOps_keepsClient C steps st st' hrun hsteps]
    exact hid
  · intro id2
    simp [GetConsumerClientId, SetConsumerClientId, Store.get_set_same]
  · intro k ctx initialHeight lock id2 err st2 hcreate hres
    exact CreateConsumerClient_binds k ctx st' C initialHeight lock err st2 id2 hcreate hres

/-- C23 on a concrete run, `keptSteps` from the state in which
`07-tendermint-0` is registered for `consu`: a queued addition and a queued
removal of `consu`, the two scans, a refused client creation for `consu`, the
setter with the bound ID, a scan that creates a client for another chain ID,
and calls for other chains leave the client `07-tendermint-0` of `consu`; then
`SetConsumerClientId` replaces it. The run leaves the two queued proposals and
a second registered chain, and has asked the client keeper three times. -/
theorem GetConsumerClientId_last_bound_witness :
    runOps keptSteps registeredState = .ok keptState ∧
    keepsClient (ascii "consu") keptSteps registeredState = true ∧
    GetConsumerClientId keptState.store (ascii "consu")
      = (ascii "07-tendermint-0", true) ∧
    GetConsumerClientId
        (SetConsumerClientId keptState.store (ascii "consu") (ascii "07-tendermint-1"))
        (ascii "consu")
      = (ascii "07-tendermint-1", true) ∧
    keptState.store.get (PendingClientKey 200000000000 (ascii "consu"))
      = some (Wire.proposal.put futureProposal) ∧
    GetPendingStopProposal keptState.store (ascii "consu") 200000000000 = true ∧
    GetAllRegisteredConsumerChainIDs keptState.store
      = [PutUint64 200000000000, ascii "consu"] ∧
    keptState.calls.length = 3 :=
  ⟨by decide, by decide,
    (GetConsumerClientId_last_bound keptSteps registeredState keptState
      (ascii "consu") (ascii "07-tendermint-0") (by decide) (by decide) (by decide)).1,
    (GetConsumerClientId_last_bound keptSteps registeredState keptState
      (ascii "consu") (ascii "07-tendermint-0") (by decide) (by decide) (by decide)).2.1
        (ascii "07-tendermint-1"),
    by decide, by decide, by decide, by decide⟩

/-- C23 does not hold as stated: with the client `07-tendermint-0` registered
for `consu`, `SetConsumerClientId` with another ID replaces the ID, and so does
a second `CreateConsumerClient` for `consu`, for which the client keeper
creates the client `07-tendermint-1`. -/
theorem ConsumerClientId_overwritten :
    GetConsumerClientId registeredState.store (ascii "consu")
      = (ascii "07-tendermint-0", true) ∧
    GetConsumerClientId
        (SetConsumerClientId registeredState.store (ascii "consu") (ascii "07-tendermint-1"))
        (ascii "consu")
      = (ascii "07-tendermint-1", true) ∧
    (CreateConsumerClient testKeeper testCtx emptyState (ascii "consu")
        { RevisionNumber := 0, RevisionHeight := 1 } false).map
      (fun r => (r.1, GetConsumerClientId r.2.store (ascii "consu")))
      = .ok (none, (ascii "07-tendermint-0", true)) ∧
    ((CreateConsumerClient testKeeper testCtx emptyState (ascii "consu")
        { RevisionNumber := 0, RevisionHeight := 1 } false).bind
      (fun r => CreateConsumerClient secondClientKeeper testCtx r.2 (ascii "consu")
        { RevisionNumber := 0, RevisionHeight := 1 } false)).map
      (fun r => (r.1, GetConsumerClientId r.2.store (ascii "consu")))
      = .ok (none, (ascii "07-tendermint-1", true)) := by
  decide

/-! ## The consumer genesis the provider makes -/

/-- The loop over the last validator powers, when it returns: one update per
entry, in order, with the power of the entry and the consensus key of its
validator. -/
theorem makeUpdates_ok (k : Keeper) :
    ∀ (powers : List (Bytes × Int)) (updates : List ValidatorUpdate),
      makeUpdates k powers = .ok updates →
      List.Forall₂ (fun p u => u.Power = p.2 ∧
        ∃ val, k.GetValidator p.1 = some val ∧ val.TmConsPublicKey = .ok u.PubKey)
        powers updates := by
  intro powers
  induction powers with
  | nil =>
    intro updates h
    simp only [makeUpdates, Except.ok.injEq] at h
    subst h
    exact List.Forall₂.nil
  | cons p rest ih =>
    intro updates h
    obtain ⟨addr, power⟩ := p
    simp only [makeUpdates] at h
    cases hval : k.GetValidator addr with
    | none => simp [hval] at h
    | some val =>
      simp only [hval] at h
      cases hpk : val.TmConsPublicKey with
      | error e => simp [hpk] at h
      | ok pk =>
        simp only [hpk] at h
        cases hrest : makeUpdates k rest with
        | error e => simp [hrest] at h
        | ok us =>
          simp only [hrest, Except.ok.injEq] at h
          subst h
          exact List.Forall₂.cons ⟨rfl, val, hval, hpk⟩ (ih us hrest)

/-- The loop over the last validator powers returns when the staking keeper
has every listed validator and every consensus key converts. -/
theorem makeUpdates_total (k : Keeper) :
    ∀ (powers : List (Bytes × Int)),
      (∀ p ∈ powers, ∃ val pk, k.GetValidator p.1 = some val ∧ val.TmConsPublicKey = .ok pk) →
      ∃ updates, makeUpdates k powers = .ok updates := by
  intro powers
  induction powers with
  | nil =>
    intro _
    exact ⟨[], rfl⟩
  | cons p rest ih =>
    intro h
    obtain ⟨addr, power⟩ := p
    obtain ⟨val, pk, hval, hpk⟩ := h (addr, power) (List.mem_cons_self _ _)
    obtain ⟨us, hus⟩ := ih (fun q hq => h q (List.mem_cons_of_mem _ hq))
    simp only at hval
    simp only [makeUpdates, hval, hpk, hus]
    exact ⟨_, rfl⟩

/-- The loop over the last validator powers panics when the staking keeper
does not have a listed validator. -/
theorem makeUpdates_missing (k : Keeper) :
    ∀ (powers : List (Bytes × Int)) (p : Bytes × Int), p ∈ powers →
      k.GetValidator p.1 = none → ∃ e, makeUpdates k powers = .error e := by
  intro powers
  induction powers with
  | nil =>
    intro p hp
    cases hp
  | cons q rest ih =>
    intro p hp hnone
    obtain ⟨addr, power⟩ := q
    simp only [makeUpdates]
    cases hval : k.GetValidator addr with
    | none => exact ⟨_, rfl⟩
    | some val =>
      simp only
      cases hpk : val.TmConsPublicKey with
      | error e => exact ⟨_, rfl⟩
      | ok pk =>
        simp only
        rcases List.mem_cons.1 hp with h1 | h1
        · subst h1
          rw [hnone] at hval
          cases hval
        · obtain ⟨e, he⟩ := ih p h1 hnone
          rw [he]
          exact ⟨_, rfl⟩

/-- C33: the genesis `MakeConsumerGenesis` returns without an error has
`Enabled` and `NewChain` set, the template client with the chain ID and the
height of the provider, `U / 2` as trusting period and `U` as unbonding period
for the unbonding time `U` of the staking keeper (Go's integer division), the
self consensus state, and as initial validator set one update per entry of
the last validator powers, in their order, with the power of the entry and
the consensus key of its validator. The method returns an error when the self
consensus state is not available; with the consensus state available it
returns a genesis when every listed validator is found and its key converts,
and panics when a listed validator is not found. -/
theorem MakeConsumerGenesis_snapshot (k : Keeper) (ctx : Context) :
    (∀ gen, MakeConsumerGenesis k ctx = .ok (gen, none) →
      gen.Enabled = true ∧ gen.NewChain = true ∧
      gen.ProviderClientState = some
        { k.TemplateClient with
          ChainId := ctx.ChainID,
          LatestHeight := { RevisionNumber := ctx.Revision, RevisionHeight := ctx.BlockHeight },
          TrustingPeriod := Int.tdiv k.UnbondingTime 2,
          UnbondingPeriod := k.UnbondingTime } ∧
      (0 ≤ k.UnbondingTime → Int.tdiv k.UnbondingTime 2 = k.UnbondingTime / 2) ∧
      k.GetSelfConsensusState
          { RevisionNumber := ctx.Revision, RevisionHeight := ctx.BlockHeight }
        = .ok (gen.ProviderConsensusState.getD (newConsensusState ctx)) ∧
      gen.ProviderConsensusState.isSome = true ∧
      gen.InitialValSet.length = k.LastValidatorPowers.length ∧
      List.Forall₂ (fun p u => u.Power = p.2 ∧
        ∃ val, k.GetValidator p.1 = some val ∧ val.TmConsPublicKey = .ok u.PubKey)
        k.LastValidatorPowers gen.InitialValSet) ∧
    (∀ e, k.GetSelfConsensusState
          { RevisionNumber := ctx.Revision, RevisionHeight := ctx.BlockHeight } = .error e →
      ∃ gen err, MakeConsumerGenesis k ctx = .ok (gen, some err)) ∧
    (∀ cs, k.GetSelfConsensusState
          { RevisionNumber := ctx.Revision, RevisionHeight := ctx.BlockHeight } = .ok cs →
      (∀ p ∈ k.LastValidatorPowers,
        ∃ val pk, k.GetValidator p.1 = some val ∧ val.TmConsPublicKey = .ok pk) →
      ∃ gen, MakeConsumerGenesis k ctx = .ok (gen, none)) ∧
    (∀ cs p, k.GetSelfConsensusState
          { RevisionNumber := ctx.Revision, RevisionHeight := ctx.BlockHeight } = .ok cs →
      p ∈ k.LastValidatorPowers → k.GetValidator p.1 = none →
      ∃ e, MakeConsumerGenesis k ctx = .error e) := by
  refine ⟨?_, ?_, ?_, ?_⟩
  · intro gen h
    unfold MakeConsumerGenesis at h
    simp only at h
    cases hcs : k.GetSelfConsensusState
        { RevisionNumber := ctx.Revision, RevisionHeight := ctx.BlockHeight } with
    | error e => simp [hcs] at h
    | ok cs =>
      simp only [hcs] at h
      cases hup : makeUpdates k k.LastValidatorPowers with
      | error e => simp [hup] at h
      | ok updates =>
        simp only [hup, Except.ok.injEq, Prod.mk.injEq, and_true] at h
        subst h
        have hall := makeUpdates_ok k _ _ hup
        exact ⟨rfl, rfl, rfl, fun hU => Int.tdiv_eq_ediv hU (by decide), rfl, rfl,
          hall.length_eq.symm, hall⟩
  · intro e he
    exact ⟨zeroGenesis, .ErrConsensusStateNotFound, by simp only [MakeConsumerGenesis, he]⟩
  · intro cs hcs hall
    obtain ⟨updates, hup⟩ := makeUpdates_total k _ hall
    simp only [MakeConsumerGenesis, hcs, hup]
    exact ⟨_, rfl⟩
  · intro cs p hcs hp hnone
    obtain ⟨e, he⟩ := makeUpdates_missing k _ p hp hnone
    exact ⟨e, by simp only [MakeConsumerGenesis, hcs, he]⟩

theorem stakingKeeper_validators :
    ∀ p ∈ stakingKeeper.LastValidatorPowers,
      ∃ val pk, stakingKeeper.GetValidator p.1 = some val ∧ val.TmConsPublicKey = .ok pk := by
  intro p hp
  simp only [stakingKeeper, List.mem_cons, List.mem_singleton, List.not_mem_nil, or_false] at hp
  rcases hp with h | h
  · subst h
    exact ⟨_, _, rfl, rfl⟩
  · subst h
    exact ⟨_, _, rfl, rfl⟩

/-- C33 on concrete keepers: two validators with the powers 10 and 20; no self
consensus state; a listed validator the staking keeper does not have. -/
theorem MakeConsumerGenesis_snapshot_witness :
    (MakeConsumerGenesis stakingKeeper testCtx).map (fun r => (r.1.InitialValSet, r.2))
      = .ok ([{ PubKey := ascii "pk1", Power := 10 }, { PubKey := ascii "pk2", Power := 20 }],
          none) ∧
    (∃ gen, MakeConsumerGenesis stakingKeeper testCtx = .ok (gen, none)) ∧
    (∃ gen err, MakeConsumerGenesis noConsensusKeeper testCtx = .ok (gen, some err)) ∧
    (∃ e, MakeConsumerGenesis missingValidatorKeeper testCtx = .error e) :=
  ⟨by decide,
    (MakeConsumerGenesis_snapshot stakingKeeper testCtx).2.2.1
      { Timestamp := 0, Root := [], NextValidatorsHash := [] } rfl
      stakingKeeper_validators,
    (MakeConsumerGenesis_snapshot noConsensusKeeper testCtx).2.1 .ErrConsensusStateNotFound rfl,
    (MakeConsumerGenesis_snapshot missingValidatorKeeper testCtx).2.2.2
      { Timestamp := 0, Root := [], NextValidatorsHash := [] } (ascii "val3", 30) rfl
      (by decide) rfl⟩

/-! ## What a failed client creation leaves -/

/-- C37, as the code has it: `CreateConsumerClient` returns an error in two
cases only. When the client keeper refuses the client, the error is returned
and the store is as it was. When the client keeper creates the client with
some ID and `MakeConsumerGenesis` then returns an error, that error is
returned after the chain has been bound to the new client ID: the store is the
one before the call with that binding set, so every other key has the value
it had and neither the genesis nor the unbonding-lock flag of the chain is
written. -/
theorem CreateConsumerClient_error_store (k : Keeper) (ctx : Context) (st : State)
    (chainID : Bytes) (initialHeight : Height) (lock : Bool) :
    (∀ e, k.CreateClient (newClientState k chainID initialHeight) (newConsensusState ctx)
        = .error e →
      ∃ st', CreateConsumerClient k ctx st chainID initialHeight lock = .ok (some e, st') ∧
        st'.store = st.store) ∧
    (∀ clientID gen e,
      k.CreateClient (newClientState k chainID initialHeight) (newConsensusState ctx)
        = .ok clientID →
      MakeConsumerGenesis k ctx = .ok (gen, some e) →
      ∃ st', CreateConsumerClient k ctx st chainID initialHeight lock = .ok (some e, st') ∧
        st'.store = st.store.set (ChainToClientKey chainID) clientID ∧
        GetConsumerClientId st'.store chainID = (clientID, true) ∧
        (∀ key, key ≠ ChainToClientKey chainID → st'.store.get key = st.store.get key) ∧
        GetConsumerGenesis k st'.store chainID = GetConsumerGenesis k st.store chainID ∧
        GetLockUnbondingOnTimeout st'.store chainID
          = GetLockUnbondingOnTimeout st.store chainID) ∧
    (∀ e st', CreateConsumerClient k ctx st chainID initialHeight lock = .ok (some e, st') →
      k.CreateClient (newClientState k chainID initialHeight) (newConsensusState ctx)
          = .error e ∨
        ∃ clientID gen,
          k.CreateClient (newClientState k chainID initialHeight) (newConsensusState ctx)
            = .ok clientID ∧
          MakeConsumerGenesis k ctx = .ok (gen, some e)) := by
  have hkey2 : ConsumerGenesisKey chainID ≠ ChainToClientKey chainID := by
    simp [ChainToClientKey, ConsumerGenesisKey, ChainToClientBytePrefix,
      ConsumerGenesisBytePrefix]
  have hkey3 : LockUnbondingOnTimeoutKey chainID ≠ ChainToClientKey chainID := by
    simp [ChainToClientKey, LockUnbondingOnTimeoutKey, ChainToClientBytePrefix,
      LockUnbondingOnTimeoutBytePrefix]
  refine ⟨?_, ?_, ?_⟩
  · intro e hc
    simp only [CreateConsumerClient, hc]
    exact ⟨_, rfl, rfl⟩
  · intro clientID gen e hc hg
    simp only [CreateConsumerClient, hc, hg]
    refine ⟨_, rfl, rfl, ?_, ?_, ?_, ?_⟩
    · simp [GetConsumerClientId, SetConsumerClient, SetConsumerClientId, Store.get_set_same]
    · intro key hkey
      simp only [SetConsumerClient, SetConsumerClientId]
      exact Store.get_set_other _ _ _ _ hkey
    · simp only [GetConsumerGenesis, SetConsumerClient, SetConsumerClientId,
        Store.get_set_other _ _ _ _ hkey2]
    · simp only [GetLockUnbondingOnTimeout, SetConsumerClient, SetConsumerClientId,
        Store.get_set_other _ _ _ _ hkey3]
  · intro e st' h
    unfold CreateConsumerClient at h
    simp only at h
    cases hc : k.CreateClient (newClientState k chainID initialHeight)
        (newConsensusState ctx) with
    | error e1 =>
      simp only [hc, Except.ok.injEq, Prod.mk.injEq, Option.some.injEq] at h
      left
      rw [h.1]
    | ok clientID =>
      simp only [hc] at h
      right
      cases hg : MakeConsumerGenesis k ctx with
      | error e1 => simp [hg] at h
      | ok r =>
        obtain ⟨gen, e1⟩ := r
        cases e1 with
        | none => simp [hg] at h
        | some e2 =>
          simp only [hg, Except.ok.injEq, Prod.mk.injEq, Option.some.injEq] at h
          rw [h.1]
          exact ⟨clientID, gen, rfl, rfl⟩

/-- C37 on concrete keepers: a client keeper that refuses the client leaves the
empty store; with a client keeper that creates the client `07-tendermint-0`
and has no self consensus state the call returns an error and leaves the chain
`consu` bound to that client. -/
theorem CreateConsumerClient_error_store_witness :
    (∃ st', CreateConsumerClient failingClientKeeper testCtx emptyState (ascii "consu")
        pastProposal.InitialHeight false = .ok (some (.external "invalid client state"), st') ∧
      st'.store = emptyState.store) ∧
    (∃ st', CreateConsumerClient noConsensusKeeper testCtx emptyState (ascii "consu")
        pastProposal.InitialHeight false = .ok (some .ErrConsensusStateNotFound, st') ∧
      st'.store = emptyState.store.set (ChainToClientKey (ascii "consu"))
        (ascii "07-tendermint-0") ∧
      GetConsumerClientId st'.store (ascii "consu") = (ascii "07-tendermint-0", true) ∧
      (∀ key, key ≠ ChainToClientKey (ascii "consu") →
        st'.store.get key = emptyState.store.get key) ∧
      GetConsumerGenesis noConsensusKeeper st'.store (ascii "consu")
        = GetConsumerGenesis noConsensusKeeper emptyState.store (ascii "consu") ∧
      GetLockUnbondingOnTimeout st'.store (ascii "consu")
        = GetLockUnbondingOnTimeout emptyState.store (ascii "consu")) :=
  ⟨(CreateConsumerClient_error_store failingClientKeeper testCtx emptyState (ascii "consu")
      pastProposal.InitialHeight false).1 (.external "invalid client state") rfl,
    (CreateConsumerClient_error_store noConsensusKeeper testCtx emptyState (ascii "consu")
      pastProposal.InitialHeight false).2.1 (ascii "07-tendermint-0") zeroGenesis
        .ErrConsensusStateNotFound rfl rfl⟩

/-- C37 does not hold as stated: with a client keeper that creates the client
and has no self consensus state, `CreateConsumerClient` for the chain `consu`
on the empty store returns the error of `MakeConsumerGenesis`, and the store
it leaves holds the client binding of `consu`, which had none before. -/
theorem CreateConsumerClient_not_atomic :
    GetConsumerClientId emptyState.store (ascii "consu") = ([], false) ∧
    CreateConsumerClient noConsensusKeeper testCtx emptyState (ascii "consu")
        pastProposal.InitialHeight false
      = .ok (some .ErrConsensusStateNotFound,
          { store := [(ChainToClientKey (ascii "consu"), ascii "07-tendermint-0")],
            calls := [.CreateClient
              (newClientState noConsensusKeeper (ascii "consu") pastProposal.InitialHeight)
              (newConsensusState testCtx)],
            events := [] }) ∧
    GetConsumerClientId [(ChainToClientKey (ascii "consu"), ascii "07-tendermint-0")]
        (ascii "consu")
      = (ascii "07-tendermint-0", true) := by
  decide

/-! ## The key of a pending entry, split at the separator -/

theorem Split_no_sep (sep : Nat) (s : Bytes) (hs : sep ∉ s) : Split sep s = [s] := by
  induction s with
  | nil => rfl
  | cons b s ih =>
    have hb : b ≠ sep := fun h => hs (h ▸ List.mem_cons_self _ _)
    have hs' : sep ∉ s := fun h => hs (List.mem_cons_of_mem _ h)
    simp [Split, hb, ih hs']

theorem toUint64_lt (t : Int) : toUint64 t < 2 ^ 64 := by
  unfold toUint64
  have h1 : 0 ≤ t % 2 ^ 64 := Int.emod_nonneg _ (by decide)
  have h2 : t % 2 ^ 64 < 2 ^ 64 := Int.emod_lt_of_pos _ (by decide)
  omega

theorem toInt64_toUint64 (t : Int) (h1 : -2 ^ 63 ≤ t) (h2 : t < 2 ^ 63) :
    toInt64 (toUint64 t) = t := by
  unfold toInt64 toUint64
  have h3 : 0 ≤ t % 2 ^ 64 := Int.emod_nonneg _ (by decide)
  have h4 : t % 2 ^ 64 < 2 ^ 64 := Int.emod_lt_of_pos _ (by decide)
  by_cases ht : 0 ≤ t
  · have h5 : t % 2 ^ 64 = t := Int.emod_eq_of_lt ht (by omega)
    rw [h5]
    have h6 : t.toNat % 2 ^ 64 = t.toNat := Nat.mod_eq_of_lt (by omega)
    rw [h6]
    split
    · omega
    · omega
  · have h5 : t % 2 ^ 64 = t + 2 ^ 64 := by
      have := Int.add_emod_self (a := t) (b := 2 ^ 64)
      rw [← this]
      exact Int.emod_eq_of_lt (by omega) (by omega)
    rw [h5]
    have h6 : (t + 2 ^ 64).toNat % 2 ^ 64 = (t + 2 ^ 64).toNat := Nat.mod_eq_of_lt (by omega)
    rw [h6]
    split
    · omega
    · omega

/-- What the split of the scans gives for a key of the form `<8-byte
big-endian time>/<chainID>` when no time byte is the separator and the chain
ID does not contain it: the time and the chain ID the key was built from. -/
theorem scannedKey_roundtrip (t : Int) (chainID : Bytes) (h1 : -2 ^ 63 ≤ t) (h2 : t < 2 ^ 63)
    (ht : slash ∉ PutUint64 (toUint64 t)) (hc : slash ∉ chainID) :
    scannedTime (PutUint64 (toUint64 t) ++ [slash] ++ chainID) = some t ∧
    scannedChainID (PutUint64 (toUint64 t) ++ [slash] ++ chainID) = some chainID := by
  have hsplit : Split slash (PutUint64 (toUint64 t) ++ [slash] ++ chainID)
      = [PutUint64 (toUint64 t), chainID] := by
    rw [List.append_assoc, List.singleton_append, Split_append_sep slash _ _ ht,
      Split_no_sep slash chainID hc]
  unfold scannedTime scannedChainID
  rw [hsplit]
  simp [Uint64_PutUint64 _ (toUint64_lt t), toInt64_toUint64 t h1 h2]

/-- C34 fails for the split the scans perform. The key built for the spawn time
`2024-01-01T04:00:00Z`, whose fourth time byte is `0x2F`, and the chain
`consu` splits into three elements: element 0 holds three bytes, on which
`binary.BigEndian.Uint64` panics, and element 1 holds the last four time
bytes. The key built for a time without such a byte and the chain ID
`cosmos/hub` gives the time back and `cosmos` as chain ID. -/
theorem scannedKey_separator :
    PutUint64 (toUint64 1704081600000000000) = [23, 166, 29, 47, 196, 71, 128, 0] ∧
    Split slash (PutUint64 (toUint64 1704081600000000000) ++ [slash] ++ ascii "consu")
      = [[23, 166, 29], [196, 71, 128, 0], ascii "consu"] ∧
    scannedTime (PutUint64 (toUint64 1704081600000000000) ++ [slash] ++ ascii "consu")
      = none ∧
    scannedChainID (PutUint64 (toUint64 1704081600000000000) ++ [slash] ++ ascii "consu")
      = some [196, 71, 128, 0] ∧
    Split slash (PutUint64 (toUint64 50000000000) ++ [slash] ++ ascii "cosmos/hub")
      = [PutUint64 50000000000, ascii "cosmos", ascii "hub"] ∧
    scannedTime (PutUint64 (toUint64 50000000000) ++ [slash] ++ ascii "cosmos/hub")
      = some 50000000000 ∧
    scannedChainID (PutUint64 (toUint64 50000000000) ++ [slash] ++ ascii "cosmos/hub")
      = some (ascii "cosmos") := by
  decide

/-! ## The order of the time keys -/

/-- C35, as the code has it: the order of two 8-byte big-endian fields is the
order of the unsigned numbers they hold; it is the order of the times the
scans decode from them, `int64` of the number, when both times are at or after
the epoch and when both are before it, and a field of a time before the epoch
comes after every field of a time at or after the epoch. In terms of the
times: the encoding of `UnixNano` keeps the order of two times at or after
the epoch. -/
theorem PutUint64_time_order (u1 u2 : Nat) (h1 : u1 < 2 ^ 64) (h2 : u2 < 2 ^ 64) :
    (PutUint64 u1 < PutUint64 u2 ↔ u1 < u2) ∧
    (Uint64 (PutUint64 u1) = some u1 ∧ Uint64 (PutUint64 u2) = some u2) ∧
    (u1 < 2 ^ 63 → u2 < 2 ^ 63 →
      (PutUint64 u1 < PutUint64 u2 ↔ toInt64 u1 < toInt64 u2)) ∧
    (2 ^ 63 ≤ u1 → 2 ^ 63 ≤ u2 →
      (PutUint64 u1 < PutUint64 u2 ↔ toInt64 u1 < toInt64 u2)) ∧
    (u1 < 2 ^ 63 → 2 ^ 63 ≤ u2 →
      PutUint64 u1 < PutUint64 u2 ∧ toInt64 u2 < 0 ∧ 0 ≤ toInt64 u1) ∧
    (∀ t1 t2 : Int, 0 ≤ t1 → t1 < 2 ^ 63 → 0 ≤ t2 → t2 < 2 ^ 63 →
      (PutUint64 (toUint64 t1) < PutUint64 (toUint64 t2) ↔ t1 < t2)) := by
  have hm1 : u1 % 2 ^ 64 = u1 := Nat.mod_eq_of_lt h1
  have hm2 : u2 % 2 ^ 64 = u2 := Nat.mod_eq_of_lt h2
  refine ⟨PutUint64_lt_iff u1 u2 h1 h2, ⟨Uint64_PutUint64 u1 h1, Uint64_PutUint64 u2 h2⟩,
    ?_, ?_, ?_, ?_⟩
  · intro a1 a2
    rw [PutUint64_lt_iff u1 u2 h1 h2]
    unfold toInt64
    rw [hm1, hm2, if_pos a1, if_pos a2]
    omega
  · intro a1 a2
    rw [PutUint64_lt_iff u1 u2 h1 h2]
    unfold toInt64
    rw [hm1, hm2, if_neg (by omega), if_neg (by omega)]
    omega
  · intro a1 a2
    refine ⟨(PutUint64_lt_iff u1 u2 h1 h2).2 (by omega), ?_, ?_⟩
    · unfold toInt64
      rw [hm2, if_neg (by omega)]
      omega
    · unfold toInt64
      rw [hm1, if_pos a1]
      omega
  · intro t1 t2 a1 b1 a2 b2
    rw [PutUint64_lt_iff _ _ (toUint64_lt t1) (toUint64_lt t2)]
    unfold toUint64
    rw [Int.emod_eq_of_lt a1 (by omega), Int.emod_eq_of_lt a2 (by omega)]
    omega

/-- C35 on concrete times: 50 and 100 seconds after the epoch, and the last
nanosecond of the signed range against the first number above it. -/
theorem PutUint64_time_order_witness :
    (PutUint64 (toUint64 50000000000) < PutUint64 (toUint64 100000000000) ↔
      (50000000000 : Int) < 100000000000) ∧
    (PutUint64 (2 ^ 63 - 1) < PutUint64 (2 ^ 63) ∧ toInt64 (2 ^ 63) < 0 ∧
      0 ≤ toInt64 (2 ^ 63 - 1)) :=
  ⟨(PutUint64_time_order 0 0 (by decide) (by decide)).2.2.2.2.2 50000000000 100000000000
      (by decide) (by decide) (by decide) (by decide),
    (PutUint64_time_order (2 ^ 63 - 1) (2 ^ 63) (by decide) (by decide)).2.2.2.2.1
      (by decide) (by decide)⟩

/-- C35 does not hold as stated: the field of the epoch, eight zero bytes, is
smaller than the field of the nanosecond before the epoch, eight bytes `0xFF`,
and the time decoded from the first, 0, is after the time decoded from the
second, -1. -/
theorem PutUint64_before_epoch :
    PutUint64 (toUint64 0) = [0, 0, 0, 0, 0, 0, 0, 0] ∧
    PutUint64 (toUint64 (-1)) = [255, 255, 255, 255, 255, 255, 255, 255] ∧
    PutUint64 (toUint64 0) < PutUint64 (toUint64 (-1)) ∧
    (Uint64 (PutUint64 (toUint64 0))).map toInt64 = some 0 ∧
    (Uint64 (PutUint64 (toUint64 (-1)))).map toInt64 = some (-1) ∧
    ¬ ((0 : Int) < -1) := by
  decide

/-! ## The pending additions after the scan -/

/-- `CreateConsumerClient`, when it returns, leaves the entries the iterator
over the pending additions yields. -/
theorem CreateConsumerClient_pending (k : Keeper) (ctx : Context) (st : State)
    (chainID : Bytes) (initialHeight : Height) (lock : Bool) (err : Option Error) (st' : State)
    (hres : CreateConsumerClient k ctx st chainID initialHeight lock = .ok (err, st')) :
    st'.store.prefixIterator ( PendingClientKeyPrefix ++ [slash])
      = st.store.prefixIterator ( PendingClientKeyPrefix ++ [slash]) := by
  have hp : ∀ (b : Nat) (rest : Bytes), b ≠ 112 →
      ( PendingClientKeyPrefix ++ [slash]).isPrefixOf (b :: rest) = false := by
    intro b rest hb
    exact isPrefixOf_head_ne 112 b _ rest (fun h => hb h.symm)
  have hgen : ∀ (s : Store) (g : GenesisState),
      (SetConsumerGenesis k s chainID g).2.prefixIterator ( PendingClientKeyPrefix ++ [slash])
        = s.prefixIterator ( PendingClientKeyPrefix ++ [slash]) := by
    intro s g
    unfold SetConsumerGenesis
    split
    · rfl
    · exact Store.prefixIterator_set _ _ _ _ (hp _ _ (by decide))
  unfold CreateConsumerClient at hres
  simp only at hres
  split at hres
  · injection hres with hres
    injection hres with _ hst
    subst hst
    rfl
  · split at hres
    · cases hres
    · injection hres with hres
      injection hres with _ hst
      subst hst
      exact Store.prefixIterator_set _ _ _ _ (hp _ _ (by decide))
    · injection hres with hres
      injection hres with _ hst
      subst hst
      simp only
      split
      · simp only [SetLockUnbondingOnTimeout, LockUnbondingOnTimeoutKey]
        rw [Store.prefixIterator_set _ _ _ _ (hp _ _ (by decide)), hgen]
        exact Store.prefixIterator_set _ _ _ _ (hp _ _ (by decide))
      · rw [hgen]
        exact Store.prefixIterator_set _ _ _ _ (hp _ _ (by decide))

/-- The scan of the pending additions, when it returns, leaves every pending
addition in the store: it has no statement that deletes one. -/
theorem IteratePendingClientInfo_keeps_pending (k : Keeper) (ctx : Context) (st st' : State)
    (h : IteratePendingClientInfo k ctx st = .ok st') :
    st'.store.prefixIterator ( PendingClientKeyPrefix ++ [slash])
      = st.store.prefixIterator ( PendingClientKeyPrefix ++ [slash]) := by
  have hloop : ∀ (entries : List (Bytes × Bytes)) (s s' : State),
      iteratePendingClients k ctx entries s = .ok s' →
      s'.store.prefixIterator ( PendingClientKeyPrefix ++ [slash])
        = s.store.prefixIterator ( PendingClientKeyPrefix ++ [slash]) := by
    intro entries
    induction entries with
    | nil =>
      intro s s' h
      simp only [iteratePendingClients, Except.ok.injEq] at h
      rw [h]
    | cons e rest ih =>
      intro s s' h
      obtain ⟨suffixKey, value⟩ := e
      simp only [iteratePendingClients] at h
      split at h
      · cases h
      · split at h
        · cases h
        · split at h
          · split at h
            · cases h
            · split at h
              · cases h
              · rename_i hcreate
                rw [ih _ _ h]
                exact CreateConsumerClient_pending k ctx s _ _ _ _ _ hcreate
          · simp only [Except.ok.injEq] at h
            rw [h]
  exact hloop _ st st' h

/-- C36 fails for the scan as it is. In a block 100 seconds after the epoch the
scan leaves the pending addition of `consu`, whose spawn time is 50 seconds
after the epoch, in the store, and makes no call. In a block in which the scan
does process entries it creates a client and leaves the entry, and a second
scan in the same block creates a client again: the pending entries after the
two scans are the one entry of the start, and the client keeper has been asked
twice for a client. -/
theorem IteratePendingClientInfo_entry_kept :
    duePendingState.store
      = [(PendingClientKey 50000000000 (ascii "consu"), Wire.proposal.put pastProposal)] ∧
    IteratePendingClientInfo testKeeper testCtx duePendingState = .ok duePendingState ∧
    (IteratePendingClientInfo testKeeper lateCtx duePendingState).map
      (fun s => (s.store.prefixIterator ( PendingClientKeyPrefix ++ [slash]), s.calls.length))
      = .ok (duePendingState.store, 1) ∧
    ((IteratePendingClientInfo testKeeper lateCtx duePendingState).bind
        (IteratePendingClientInfo testKeeper lateCtx)).map
      (fun s => (s.store.prefixIterator ( PendingClientKeyPrefix ++ [slash]), s.calls.length))
      = .ok (duePendingState.store, 2) := by
  decide

/-! ## The proposed consumer chains -/

theorem ProposedConsumerChainKey_ne (a b : Nat) (ha : a < 2 ^ 64) (hb : b < 2 ^ 64)
    (h : a ≠ b) : ProposedConsumerChainKey a ≠ ProposedConsumerChainKey b := by
  intro hk
  apply h
  apply PutUint64_injective a b ha hb
  simpa [ProposedConsumerChainKey] using hk

theorem ParseProposedConsumerChainKey_key (p : Nat) (hp : p < 2 ^ 64) :
    ParseProposedConsumerChainKey ProposedConsumerChainByteKey (ProposedConsumerChainKey p)
      = .ok p := by
  have hne : PutUint64 p ≠ [] := by simp [PutUint64]
  simp only [ParseProposedConsumerChainKey, ProposedConsumerChainKey, ne_eq, not_true,
    if_false, BigEndianToUint64, hne, Uint64_PutUint64 p hp]

theorem proposedEntriesOf_apply (store : Store) (c : ProposedCall) (hc : c.proposalID < 2 ^ 64)
    (hs : proposedEntriesOf store) : proposedEntriesOf (c.apply store) := by
  intro e he
  have hmem := (List.mem_filter.1 he).1
  have hpre := (List.mem_filter.1 he).2
  cases c with
  | set chainID p =>
    rcases Store.mem_set _ _ _ _ hmem with h1 | h1
    · exact ⟨p, hc, by rw [h1]⟩
    · exact hs e (List.mem_filter.2 ⟨h1, hpre⟩)
  | delete p =>
    exact hs e (List.mem_filter.2 ⟨(List.mem_filter.1 hmem).1, hpre⟩)

theorem applyProposedCalls_inv (calls : List ProposedCall)
    (hcalls : ∀ c ∈ calls, c.proposalID < 2 ^ 64) :
    ∀ store : Store, store.WF → proposedEntriesOf store →
      (applyProposedCalls store calls).WF ∧
      proposedEntriesOf (applyProposedCalls store calls) := by
  induction calls with
  | nil =>
    intro store hwf hs
    exact ⟨hwf, hs⟩
  | cons c rest ih =>
    intro store hwf hs
    have hc := hcalls c (List.mem_cons_self _ _)
    apply ih (fun c' hc' => hcalls c' (List.mem_cons_of_mem _ hc')) _ _
      (proposedEntriesOf_apply store c hc hs)
    cases c with
    | set chainID p => exact Store.WF_set _ _ _ hwf
    | delete p => exact Store.WF_delete _ _ hwf

/-- The loop of `GetAllProposedConsumerChainIDs` over entries with keys of
`ProposedConsumerChainKey`: it returns the pair of each entry, and when the
keys ascend the proposal IDs ascend. -/
theorem collectProposedChains_spec :
    ∀ entries : List (Bytes × Bytes),
      (∀ e ∈ entries, ∃ p, p < 2 ^ 64 ∧ e.1 = ProposedConsumerChainKey p) →
      ∃ L, collectProposedChains entries = .ok L ∧
        L.length = entries.length ∧
        (∀ c p, ({ ChainID := c, ProposalID := p } : ProposedChain) ∈ L ↔
          p < 2 ^ 64 ∧ (ProposedConsumerChainKey p, c) ∈ entries) ∧
        ((entries.map Prod.fst).Pairwise (· < ·) →
          (L.map (fun x => x.ProposalID)).Pairwise (· < ·)) := by
  intro entries
  induction entries with
  | nil =>
    intro _
    exact ⟨[], rfl, rfl, by simp, fun _ => List.Pairwise.nil⟩
  | cons e rest ih =>
    intro hall
    obtain ⟨p0, hp0, he⟩ := hall e (List.mem_cons_self _ _)
    obtain ⟨L, hL, hlen, hmem, hsorted⟩ := ih (fun e' he' => hall e' (List.mem_cons_of_mem _ he'))
    obtain ⟨key, value⟩ := e
    simp only at he
    subst he
    refine ⟨{ ChainID := value, ProposalID := p0 } :: L, ?_, ?_, ?_, ?_⟩
    · simp only [collectProposedChains, ParseProposedConsumerChainKey_key p0 hp0, hL]
    · simp [hlen]
    · intro c p
      simp only [List.mem_cons, ProposedChain.mk.injEq, Prod.mk.injEq, hmem]
      constructor
      · rintro (⟨h1, h2⟩ | ⟨h1, h2⟩)
        · subst h1
          subst h2
          exact ⟨hp0, Or.inl ⟨rfl, rfl⟩⟩
        · exact ⟨h1, Or.inr h2⟩
      · rintro ⟨h1, (⟨h2, h3⟩ | h2)⟩
        · left
          refine ⟨h3, ?_⟩
          by_contra hne
          exact ProposedConsumerChainKey_ne p p0 h1 hp0 hne h2
        · exact Or.inr ⟨h1, h2⟩
    · intro hp
      simp only [List.map_cons, List.pairwise_cons] at hp ⊢
      refine ⟨?_, hsorted hp.2⟩
      intro x hx
      obtain ⟨y, hy, hyx⟩ := List.mem_map.1 hx
      obtain ⟨yc, yp⟩ := y
      simp only at hyx
      subst hyx
      obtain ⟨h1, h3⟩ := (hmem yc yp).1 hy
      have hlt := hp.1 _ (List.mem_map_of_mem Prod.fst h3)
      simp only [ProposedConsumerChainKey] at hlt
      exact (PutUint64_lt_iff p0 yp hp0 h1).1 ((cons_lt_cons_same _ _ _).1 hlt)

/-- In a store whose entries under the namespace have keys of
`ProposedConsumerChainKey`, `GetAllProposedConsumerChainIDs` returns the pairs
by ascending proposal ID, and it returns a pair exactly when the chain ID is
stored under the key of the proposal ID. -/
theorem GetAllProposedConsumerChainIDs_spec (store : Store) (hwf : store.WF)
    (hs : proposedEntriesOf store) :
    ∃ L, GetAllProposedConsumerChainIDs store = .ok L ∧
      (L.map (fun x => x.ProposalID)).Pairwise (· < ·) ∧
      ∀ c p, ({ ChainID := c, ProposalID := p } : ProposedChain) ∈ L ↔
        p < 2 ^ 64 ∧ store.get (ProposedConsumerChainKey p) = some c := by
  obtain ⟨L, hL, _, hmem, hsorted⟩ := collectProposedChains_spec _ hs
  refine ⟨L, hL, hsorted (Store.prefixIterator_sorted store _ hwf), ?_⟩
  intro c p
  rw [hmem c p, Store.get_eq_some_iff store _ _ hwf]
  simp only [Store.prefixIterator, List.mem_filter, and_congr_right_iff]
  intro _
  constructor
  · exact fun hx => hx.1
  · intro hx
    exact ⟨hx, by simp [ProposedConsumerChainKey, List.isPrefixOf]⟩

/-- After a sequence of calls the value stored for a proposal ID is what the
calls for that ID leave of it. -/
theorem applyProposedCalls_get (id : Nat) (hid : id < 2 ^ 64) :
    ∀ (calls : List ProposedCall) (store : Store) (acc : Option Bytes),
      (∀ c ∈ calls, c.proposalID < 2 ^ 64) →
      store.get (ProposedConsumerChainKey id) = acc →
      (applyProposedCalls store calls).get (ProposedConsumerChainKey id)
        = calls.foldl (ProposedCall.track id) acc := by
  intro calls
  induction calls with
  | nil =>
    intro store acc _ h
    exact h
  | cons c rest ih =>
    intro store acc hcalls h
    have h1 := hcalls c (List.mem_cons_self _ _)
    simp only [applyProposedCalls, List.foldl_cons]
    apply ih _ _ (fun c' hc' => hcalls c' (List.mem_cons_of_mem _ hc'))
    cases c with
    | set chainID p =>
      simp only [ProposedCall.proposalID] at h1
      by_cases hc : p = id
      · subst hc
        simp only [ProposedCall.apply, ProposedCall.track, if_true, SetProposedConsumerChain]
        exact Store.get_set_same _ _ _
      · simp only [ProposedCall.apply, ProposedCall.track, hc, if_false,
          SetProposedConsumerChain]
        rw [Store.get_set_other _ _ _ _
          (ProposedConsumerChainKey_ne id p hid h1 (fun h' => hc h'.symm))]
        exact h
    | delete p =>
      simp only [ProposedCall.proposalID] at h1
      by_cases hc : p = id
      · subst hc
        simp only [ProposedCall.apply, ProposedCall.track, if_true,
          DeleteProposedConsumerChainInStore]
        exact Store.get_delete_same _ _
      · simp only [ProposedCall.apply, ProposedCall.track, hc, if_false,
          DeleteProposedConsumerChainInStore]
        rw [Store.get_delete_other _ _ _
          (ProposedConsumerChainKey_ne id p hid h1 (fun h' => hc h'.symm))]
        exact h

/-- C31: after any sequence of `SetProposedConsumerChain` and
`DeleteProposedConsumerChainInStore` calls on a store that holds no proposed
chain, `GetAllProposedConsumerChainIDs` returns, by ascending proposal ID and
one per proposal ID, exactly the pairs of a chain ID and a proposal ID for
which the chain ID is the one last set for the proposal ID with no delete of
that ID after it, the empty chain ID included; `GetProposedConsumerChain` reads
the same; and a delete of the proposal ID `p` leaves no entry for `p` and, for
every other proposal ID, what `GetProposedConsumerChain` read before. (The
proposal IDs are 64-bit numbers.) -/
theorem GetAllProposedConsumerChainIDs_exact (store : Store) (calls : List ProposedCall)
    (hwf : store.WF)
    (hempty : store.prefixIterator [ ProposedConsumerChainByteKey] = [])
    (hcalls : ∀ c ∈ calls, c.proposalID < 2 ^ 64) :
    (∃ L, GetAllProposedConsumerChainIDs (applyProposedCalls store calls) = .ok L ∧
      (L.map (fun x => x.ProposalID)).Pairwise (· < ·) ∧
      (L.map (fun x => x.ProposalID)).Nodup ∧
      (∀ c p, p < 2 ^ 64 →
        (({ ChainID := c, ProposalID := p } : ProposedChain) ∈ L ↔
          lastProposed calls p = some c)) ∧
      (∀ x ∈ L, x.ProposalID < 2 ^ 64)) ∧
    (∀ p, p < 2 ^ 64 →
      GetProposedConsumerChain (applyProposedCalls store calls) p
        = match lastProposed calls p with
          | some c => (c, true)
          | none => ([], false)) ∧
    (∀ (s : Store) (p : Nat),
      GetProposedConsumerChain (DeleteProposedConsumerChainInStore s p) p = ([], false) ∧
      ∀ q, p < 2 ^ 64 → q < 2 ^ 64 → q ≠ p →
        GetProposedConsumerChain (DeleteProposedConsumerChainInStore s p) q
          = GetProposedConsumerChain s q) := by
  have hs0 : proposedEntriesOf store := by
    intro e he
    rw [hempty] at he
    exact absurd he (List.not_mem_nil _)
  have hnone : ∀ id, store.get (ProposedConsumerChainKey id) = none := by
    intro id
    cases hg : store.get (ProposedConsumerChainKey id) with
    | none => rfl
    | some v =>
      have hmem := (Store.get_eq_some_iff store _ _ hwf).1 hg
      have : (ProposedConsumerChainKey id, v)
          ∈ store.prefixIterator [ ProposedConsumerChainByteKey] :=
        List.mem_filter.2 ⟨hmem, by simp [ProposedConsumerChainKey, List.isPrefixOf]⟩
      rw [hempty] at this
      exact absurd this (List.not_mem_nil _)
  obtain ⟨hwf', hs'⟩ := applyProposedCalls_inv calls hcalls store hwf hs0
  obtain ⟨L, hL, hsorted, hmem⟩ := GetAllProposedConsumerChainIDs_spec _ hwf' hs'
  have hget : ∀ p, p < 2 ^ 64 →
      (applyProposedCalls store calls).get (ProposedConsumerChainKey p)
        = lastProposed calls p :=
    fun p hp => applyProposedCalls_get p hp calls store none hcalls (hnone p)
  refine ⟨⟨L, hL, hsorted, ?_, ?_, ?_⟩, ?_, ?_⟩
  · exact (List.Pairwise.imp (fun h => Nat.ne_of_lt h) hsorted)
  · intro c p hp
    rw [hmem c p, hget p hp]
    exact ⟨fun h => h.2, fun h => ⟨hp, h⟩⟩
  · intro x hx
    obtain ⟨c, p⟩ := x
    exact ((hmem c p).1 hx).1
  · intro p hp
    have h := hget p hp
    cases hl : lastProposed calls p with
    | none =>
      rw [hl] at h
      simp only [GetProposedConsumerChain, h]
    | some c =>
      rw [hl] at h
      simp only [GetProposedConsumerChain, h]
  · intro s p
    constructor
    · simp [GetProposedConsumerChain, DeleteProposedConsumerChainInStore,
        Store.get_delete_same]
    · intro q hp hq hne
      simp only [GetProposedConsumerChain, DeleteProposedConsumerChainInStore]
      rw [Store.get_delete_other _ _ _ (ProposedConsumerChainKey_ne q p hq hp hne)]

/-- C31 on the calls of the tests: after `proposedCalls` on the empty store the
proposal 2 has the chain ID set last and the proposal 3 the empty chain ID;
the proposals 1 and 12, deleted, have no entry. -/
theorem GetAllProposedConsumerChainIDs_exact_witness :
    GetAllProposedConsumerChainIDs (applyProposedCalls [] proposedCalls)
      = .ok [{ ChainID := ascii "two", ProposalID := 2 }, { ChainID := [], ProposalID := 3 }] ∧
    (∃ L, GetAllProposedConsumerChainIDs (applyProposedCalls [] proposedCalls) = .ok L ∧
      (L.map (fun x => x.ProposalID)).Pairwise (· < ·) ∧
      (L.map (fun x => x.ProposalID)).Nodup ∧
      (∀ c p, p < 2 ^ 64 →
        (({ ChainID := c, ProposalID := p } : ProposedChain) ∈ L ↔
          lastProposed proposedCalls p = some c)) ∧
      (∀ x ∈ L, x.ProposalID < 2 ^ 64)) ∧
    GetProposedConsumerChain (applyProposedCalls [] proposedCalls) 3 = ([], true) ∧
    GetProposedConsumerChain (applyProposedCalls [] proposedCalls) 1 = ([], false) :=
  ⟨by decide,
    (GetAllProposedConsumerChainIDs_exact [] proposedCalls (by decide) rfl (by decide)).1,
    (GetAllProposedConsumerChainIDs_exact [] proposedCalls (by decide) rfl (by decide)).2.1 3
      (by decide),
    (GetAllProposedConsumerChainIDs_exact [] proposedCalls (by decide) rfl (by decide)).2.1 1
      (by decide)⟩

/-! ## The query of the consumer validators -/

/-- The loop of `GetConsumerValSet` returns one validator per entry, in the
order of the entries, when the value of every entry unmarshals. -/
theorem decodeConsumerValidators_ok (cdc : Codec ConsumerValidator) :
    ∀ (entries : List (Bytes × Bytes)),
      (∀ e ∈ entries, ∃ v, cdc.unmarshal e.2 = .ok v) →
      ∃ vals, decodeConsumerValidators cdc entries = .ok vals ∧
        List.Forall₂ (fun e v => cdc.unmarshal e.2 = .ok v) entries vals := by
  intro entries
  induction entries with
  | nil =>
    intro _
    exact ⟨[], rfl, List.Forall₂.nil⟩
  | cons e rest ih =>
    intro h
    obtain ⟨key, value⟩ := e
    obtain ⟨v, hv⟩ := h (key, value) (List.mem_cons_self _ _)
    obtain ⟨vals, hvals, hall⟩ := ih (fun e' he' => h e' (List.mem_cons_of_mem _ he'))
    simp only at hv
    refine ⟨v :: vals, ?_, List.Forall₂.cons hv hall⟩
    simp only [decodeConsumerValidators, hv, hvals]

/-- C32: `QueryConsumerValidators` returns an error, of the code
`InvalidArgument`, when the request is nil, when the chain ID is empty and when
the chain has no client ID, and in no other case; with a request for a chain
that has a client ID it returns no error and the stored consumer validator set
of the chain, `GetConsumerValSet`, validator by validator in its order, each
with the provider consensus address (as a string), the consumer public key and
the power of the stored validator; the stored set is read when the stored
entries of the chain unmarshal. The method is a function of the store and
returns no store. -/
theorem QueryConsumerValidators_spec (cdc : Codec ConsumerValidator)
    (addrString : Bytes → Bytes) (store : Store) (req : Option QueryConsumerValidatorsRequest) :
    (req = none →
      QueryConsumerValidators cdc addrString store req
        = .ok (.error { code := .InvalidArgument, msg := ascii "empty request" })) ∧
    (∀ r, req = some r → r.ChainId = [] →
      QueryConsumerValidators cdc addrString store req
        = .ok (.error { code := .InvalidArgument, msg := ascii "empty chainId" })) ∧
    (∀ r, req = some r → r.ChainId ≠ [] → (GetConsumerClientId store r.ChainId).2 = false →
      QueryConsumerValidators cdc addrString store req
        = .ok (.error { code := .InvalidArgument,
                        msg := ascii "no started consumer chain: " ++ r.ChainId })) ∧
    (∀ r vals, req = some r → r.ChainId ≠ [] →
      (GetConsumerClientId store r.ChainId).2 = true →
      GetConsumerValSet cdc store r.ChainId = .ok vals →
      ∃ resp, QueryConsumerValidators cdc addrString store req = .ok (.ok resp) ∧
        resp.Validators.length = vals.length ∧
        List.Forall₂ (fun v q => q.ProviderAddress = addrString v.ProviderConsAddr ∧
          q.ConsumerKey = v.ConsumerPublicKey ∧ q.Power = v.Power) vals resp.Validators) ∧
    (∀ r, req = some r →
      (∀ e ∈ store.prefixIterator (ConsumerValidatorChainKey r.ChainId),
        ∃ v, cdc.unmarshal e.2 = .ok v) →
      ∃ vals, GetConsumerValSet cdc store r.ChainId = .ok vals ∧
        List.Forall₂ (fun e v => cdc.unmarshal e.2 = .ok v)
          (store.prefixIterator (ConsumerValidatorChainKey r.ChainId)) vals) ∧
    (∀ resp, QueryConsumerValidators cdc addrString store req = .ok (.ok resp) →
      ∃ r, req = some r ∧ r.ChainId ≠ [] ∧ (GetConsumerClientId store r.ChainId).2 = true) := by
  refine ⟨?_, ?_, ?_, ?_, ?_, ?_⟩
  · intro h
    subst h
    rfl
  · intro r h hc
    subst h
    simp only [QueryConsumerValidators, hc, if_true]
  · intro r h hc hfound
    subst h
    cases hg : GetConsumerClientId store r.ChainId with
    | mk id found =>
      rw [hg] at hfound
      simp only at hfound
      subst hfound
      simp only [QueryConsumerValidators, hc, if_false, hg]
  · intro r vals h hc hfound hvals
    subst h
    cases hg : GetConsumerClientId store r.ChainId with
    | mk id found =>
      rw [hg] at hfound
      simp only at hfound
      subst hfound
      refine ⟨{ Validators := vals.map (queryValidator addrString) }, ?_, ?_, ?_⟩
      · simp only [QueryConsumerValidators, hc, if_false, hg, hvals]
      · simp
      · simp only [List.forall₂_map_right_iff]
        exact List.forall₂_same.2 (fun v _ => ⟨rfl, rfl, rfl⟩)
  · intro r _ hall
    exact decodeConsumerValidators_ok cdc _ hall
  · intro resp h
    cases req with
    | none => simp [QueryConsumerValidators] at h
    | some r =>
      refine ⟨r, rfl, ?_⟩
      simp only [QueryConsumerValidators] at h
      by_cases hc : r.ChainId = []
      · simp [hc] at h
      · refine ⟨hc, ?_⟩
        simp only [hc, if_false] at h
        cases hg : GetConsumerClientId store r.ChainId with
        | mk id found =>
          cases found with
          | true => rfl
          | false => simp [hg] at h

/-- C32 on the inputs of `TestQueryConsumerValidators`: a chain that has not
started, a nil request, an empty chain ID, and the chain `chainID` with its
client and two validators. -/
theorem QueryConsumerValidators_spec_witness :
    QueryConsumerValidators (Wire.codec Wire.consumerValidator) testAddrString []
        (some { ChainId := ascii "chainID" })
      = .ok (.error { code := .InvalidArgument,
                      msg := ascii "no started consumer chain: " ++ ascii "chainID" }) ∧
    QueryConsumerValidators (Wire.codec Wire.consumerValidator) testAddrString valSetStore none
      = .ok (.error { code := .InvalidArgument, msg := ascii "empty request" }) ∧
    QueryConsumerValidators (Wire.codec Wire.consumerValidator) testAddrString valSetStore
        (some { ChainId := [] })
      = .ok (.error { code := .InvalidArgument, msg := ascii "empty chainId" }) ∧
    QueryConsumerValidators (Wire.codec Wire.consumerValidator) testAddrString valSetStore
        (some { ChainId := ascii "chainID" })
      = .ok (.ok { Validators :=
          [{ ProviderAddress := testAddrString (ascii "providerAddr1"),
             ConsumerKey := ascii "key1", Power := 1 },
           { ProviderAddress := testAddrString (ascii "providerAddr2"),
             ConsumerKey := ascii "key2", Power := 2 }] }) ∧
    (∃ resp, QueryConsumerValidators (Wire.codec Wire.consumerValidator) testAddrString
        valSetStore (some { ChainId := ascii "chainID" }) = .ok (.ok resp) ∧
      resp.Validators.length = [consumerValidator1, consumerValidator2].length ∧
      List.Forall₂ (fun v q => q.ProviderAddress = testAddrString v.ProviderConsAddr ∧
        q.ConsumerKey = v.ConsumerPublicKey ∧ q.Power = v.Power)
        [consumerValidator1, consumerValidator2] resp.Validators) :=
  ⟨(QueryConsumerValidators_spec (Wire.codec Wire.consumerValidator) testAddrString []
      (some { ChainId := ascii "chainID" })).2.2.1 { ChainId := ascii "chainID" } rfl
      (by decide) (by decide),
    (QueryConsumerValidators_spec (Wire.codec Wire.consumerValidator) testAddrString
      valSetStore none).1 rfl,
    (QueryConsumerValidators_spec (Wire.codec Wire.consumerValidator) testAddrString
      valSetStore (some { ChainId := [] })).2.1 { ChainId := [] } rfl rfl,
    by decide,
    (QueryConsumerValidators_spec (Wire.codec Wire.consumerValidator) testAddrString
      valSetStore (some { ChainId := ascii "chainID" })).2.2.2.1 { ChainId := ascii "chainID" }
      [consumerValidator1, consumerValidator2] rfl (by decide) (by decide) (by decide)⟩

/-! ## The cross-chain validators of the consumer -/

theorem CrossChainValidatorKey_ne {a b : Bytes} (h : a ≠ b) :
    CrossChainValidatorKey a ≠ CrossChainValidatorKey b := by
  simpa [CrossChainValidatorKey] using h

/-- What `GetCCValidator` returns in a store whose validators unmarshal. -/
theorem GetCCValidator_stored (k : consumer.Keeper) (store : Store) (addr bz : Bytes)
    (v : CrossChainValidator) (hget : store.get (CrossChainValidatorKey addr) = some bz)
    (hv : k.cdc.unmarshal bz = .ok v) : GetCCValidator k store addr = .ok (v, true) := by
  simp only [GetCCValidator, hget, hv]

theorem GetCCValidator_absent (k : consumer.Keeper) (store : Store) (addr : Bytes)
    (hget : store.get (CrossChainValidatorKey addr) = none) :
    GetCCValidator k store addr = .ok ({ Address := [], Power := 0, Pubkey := [] }, false) := by
  simp only [GetCCValidator, hget]

theorem GetCCValidator_found (k : consumer.Keeper) (store : Store) (addr : Bytes)
    (v : CrossChainValidator) (h : GetCCValidator k store addr = .ok (v, true)) :
    ∃ bz, store.get (CrossChainValidatorKey addr) = some bz ∧ k.cdc.unmarshal bz = .ok v := by
  unfold GetCCValidator at h
  cases hget : store.get (CrossChainValidatorKey addr) with
  | none => simp [hget] at h
  | some bz =>
    simp only [hget] at h
    cases hv : k.cdc.unmarshal bz with
    | error e => simp [hv] at h
    | ok v' =>
      simp only [hv, Except.ok.injEq, Prod.mk.injEq, and_true] at h
      exact ⟨bz, rfl, h ▸ hv⟩

/-- The step of `ApplyCCValidatorChanges` for a change whose address is not
stored: a panic for a power below 1 and for a key that does not convert,
otherwise the new validator is stored and the hook is called. -/
theorem applyCCValidatorChange_new (k : consumer.Keeper) (st : consumer.State)
    (change : ValidatorUpdate) (addr : Bytes) (htot : k.cdc.Total)
    (haddr : k.GetChangePubKeyAddress change = .ok addr)
    (hget : st.store.get (CrossChainValidatorKey addr) = none) :
    ((change.Power < 1 ∨ ¬ keyConverts k change) →
      ∃ e, applyCCValidatorChange k st change = .error e) ∧
    (1 ≤ change.Power → keyConverts k change →
      ∃ pkAny bz,
        k.cdc.marshal { Address := addr, Power := change.Power, Pubkey := pkAny } = .ok bz ∧
        applyCCValidatorChange k st change
          = .ok { store := st.store.set (CrossChainValidatorKey addr) bz,
                  calls := st.calls ++ [.AfterValidatorBonded addr] }) := by
  have hg := GetCCValidator_absent k st.store addr hget
  constructor
  · intro hbad
    unfold applyCCValidatorChange
    simp only [haddr, hg]
    by_cases hp : change.Power < 1
    · rw [if_pos hp]
      exact ⟨_, rfl⟩
    · rw [if_neg hp]
      have hconv : ¬ keyConverts k change := by
        rcases hbad with h | h
        · exact absurd h hp
        · exact h
      cases hpk : k.FromTmProtoPublicKey change.PubKey with
      | error e => exact ⟨_, rfl⟩
      | ok pk =>
        simp only
        cases hany : k.packAny pk with
        | error e =>
          simp only [NewCCValidator, hany]
          exact ⟨_, rfl⟩
        | ok pkAny => exact absurd ⟨pk, pkAny, hpk, hany⟩ hconv
  · intro hp hconv
    obtain ⟨pk, pkAny, hpk, hany⟩ := hconv
    obtain ⟨bz, hbz⟩ := htot { Address := addr, Power := change.Power, Pubkey := pkAny }
    refine ⟨pkAny, bz, hbz, ?_⟩
    unfold applyCCValidatorChange
    simp only [haddr, hg, hpk, NewCCValidator, hany, SetCCValidator, hbz, AfterValidatorBonded]
    rw [if_neg (by omega)]

/-- The step of `ApplyCCValidatorChanges` for a change whose address is
stored: the validator is deleted for a power below 1, and stored again with
the power of the change otherwise. -/
theorem applyCCValidatorChange_stored (k : consumer.Keeper) (st : consumer.State)
    (change : ValidatorUpdate) (addr : Bytes) (old : CrossChainValidator)
    (htot : k.cdc.Total)
    (haddr : k.GetChangePubKeyAddress change = .ok addr)
    (hg : GetCCValidator k st.store addr = .ok (old, true)) :
    (change.Power < 1 →
      applyCCValidatorChange k st change
        = .ok { st with store := st.store.delete (CrossChainValidatorKey addr) }) ∧
    (1 ≤ change.Power →
      ∃ bz, k.cdc.marshal { old with Power := change.Power } = .ok bz ∧
        applyCCValidatorChange k st change
          = .ok { st with store := st.store.set (CrossChainValidatorKey old.Address) bz }) := by
  constructor
  · intro hp
    unfold applyCCValidatorChange
    simp only [haddr, hg, DeleteCCValidator]
    rw [if_pos hp]
  · intro hp
    obtain ⟨bz, hbz⟩ := htot { old with Power := change.Power }
    refine ⟨bz, hbz, ?_⟩
    unfold applyCCValidatorChange
    simp only [haddr, hg, SetCCValidator, hbz]
    rw [if_neg (by omega)]

theorem count_AfterValidatorBonded_append (calls : List consumer.Call) (a b : Bytes) :
    (calls ++ [consumer.Call.AfterValidatorBonded a]).count (consumer.Call.AfterValidatorBonded b)
      = calls.count (consumer.Call.AfterValidatorBonded b) + if a = b then 1 else 0 := by
  rw [List.count_append]
  by_cases h : a = b
  · subst h
    simp
  · have h' : consumer.Call.AfterValidatorBonded a ≠ .AfterValidatorBonded b := by
      intro hc
      injection hc with hc
      exact h hc
    simp [h, List.count_cons, h']

/-- One step of `ApplyCCValidatorChanges` in a store whose validators are
stored under their own address: when it panics, the address of the change is
not stored and the power is below 1 or the key does not convert; when it
returns, the change is applied to its address, every other address has the
validator and the hook calls it had, and the store is again one whose
validators are stored under their own address. -/
theorem applyCCValidatorChange_effect (k : consumer.Keeper) (st : consumer.State)
    (change : ValidatorUpdate) (addr : Bytes) (hrt : k.cdc.RoundTrip) (htot : k.cdc.Total)
    (hown : ccValidatorsUnderOwnAddress k st.store)
    (haddr : k.GetChangePubKeyAddress change = .ok addr) :
    (∀ e, applyCCValidatorChange k st change = .error e →
      st.store.get (CrossChainValidatorKey addr) = none ∧
        (change.Power < 1 ∨ ¬ keyConverts k change)) ∧
    (∀ st', applyCCValidatorChange k st change = .ok st' →
      ccValidatorsUnderOwnAddress k st'.store ∧
      changeApplied k st st' change addr ∧
      (st.store.get (CrossChainValidatorKey addr) = none → keyConverts k change) ∧
      (∀ b, b ≠ addr →
        st'.store.get (CrossChainValidatorKey b) = st.store.get (CrossChainValidatorKey b) ∧
        st'.calls.count (.AfterValidatorBonded b)
          = st.calls.count (.AfterValidatorBonded b))) := by
  cases hget : st.store.get (CrossChainValidatorKey addr) with
  | none =>
    have hnew := applyCCValidatorChange_new k st change addr htot haddr hget
    by_cases hbad : change.Power < 1 ∨ ¬ keyConverts k change
    · obtain ⟨e, he⟩ := hnew.1 hbad
      constructor
      · intro _ _
        exact ⟨rfl, hbad⟩
      · intro st' hst'
        rw [he] at hst'
        cases hst'
    · have hp : 1 ≤ change.Power := by
        by_contra h
        exact hbad (Or.inl (by omega))
      have hconv : keyConverts k change := by
        by_contra h
        exact hbad (Or.inr h)
      obtain ⟨pkAny, bz, hbz, hstep⟩ := hnew.2 hp hconv
      constructor
      · intro e he
        rw [hstep] at he
        cases he
      · intro st' hst'
        rw [hstep] at hst'
        injection hst' with hst'
        subst hst'
        refine ⟨?_, ⟨?_, ?_⟩, fun _ => hconv, ?_⟩
        · intro b bz' hb
          by_cases hba : b = addr
          · subst hba
            simp only [Store.get_set_same, Option.some.injEq] at hb
            subst hb
            exact ⟨_, hrt _ _ hbz, rfl⟩
          · simp only at hb
            rw [Store.get_set_other _ _ _ _ (CrossChainValidatorKey_ne hba)] at hb
            exact hown b bz' hb
        · intro old hold
          obtain ⟨bz0, h0, _⟩ := GetCCValidator_found k st.store addr old hold
          rw [hget] at h0
          cases h0
        · intro _
          refine ⟨hp, ?_, ?_⟩
          · simp only [count_AfterValidatorBonded_append, if_true]
          · exact ⟨_, GetCCValidator_stored k _ addr bz _ (Store.get_set_same _ _ _)
              (hrt _ _ hbz), rfl, rfl⟩
        · intro b hb
          constructor
          · simp only
            exact Store.get_set_other _ _ _ _ (CrossChainValidatorKey_ne hb)
          · simp only [count_AfterValidatorBonded_append,
              if_neg (fun h : addr = b => hb h.symm), Nat.add_zero]
  | some bz0 =>
    obtain ⟨old, hold, holdaddr⟩ := hown addr bz0 hget
    have hg := GetCCValidator_stored k st.store addr bz0 old hget hold
    have hst := applyCCValidatorChange_stored k st change addr old htot haddr hg
    constructor
    · intro e he
      by_cases hp : change.Power < 1
      · rw [hst.1 hp] at he
        cases he
      · obtain ⟨bz, _, hstep⟩ := hst.2 (by omega)
        rw [hstep] at he
        cases he
    · intro st' hst'
      by_cases hp : change.Power < 1
      · rw [hst.1 hp] at hst'
        injection hst' with hst'
        subst hst'
        refine ⟨?_, ⟨?_, ?_⟩, ?_, ?_⟩
        · intro b bz' hb
          simp only [Store.get_delete] at hb
          split at hb
          · cases hb
          · exact hown b bz' hb
        · intro old' _
          refine ⟨rfl, fun _ => Store.get_delete_same _ _, fun h1 => ?_⟩
          omega
        · intro hnone
          rw [hget] at hnone
          cases hnone
        · intro hnone
          cases hnone
        · intro b hb
          exact ⟨Store.get_delete_other _ _ _ (CrossChainValidatorKey_ne hb), rfl⟩
      · obtain ⟨bz, hbz, hstep⟩ := hst.2 (by omega)
        rw [holdaddr] at hstep
        rw [hstep] at hst'
        injection hst' with hst'
        subst hst'
        refine ⟨?_, ⟨?_, ?_⟩, ?_, ?_⟩
        · intro b bz' hb
          by_cases hba : b = addr
          · subst hba
            simp only [Store.get_set_same, Option.some.injEq] at hb
            subst hb
            exact ⟨_, hrt _ _ hbz, holdaddr⟩
          · simp only at hb
            rw [Store.get_set_other _ _ _ _ (CrossChainValidatorKey_ne hba)] at hb
            exact hown b bz' hb
        · intro old' hold'
          rw [hg] at hold'
          simp only [Except.ok.injEq, Prod.mk.injEq, and_true] at hold'
          subst hold'
          refine ⟨rfl, fun h1 => absurd h1 hp, fun _ => ?_⟩
          exact GetCCValidator_stored k _ addr bz _ (Store.get_set_same _ _ _) (hrt _ _ hbz)
        · intro hnone
          rw [hget] at hnone
          cases hnone
        · intro hnone
          cases hnone
        · intro b hb
          exact ⟨Store.get_set_other _ _ _ _ (CrossChainValidatorKey_ne hb), rfl⟩

theorem GetCCValidator_congr (k : consumer.Keeper) (s s' : Store) (addr : Bytes)
    (h : s'.get (CrossChainValidatorKey addr) = s.get (CrossChainValidatorKey addr)) :
    GetCCValidator k s' addr = GetCCValidator k s addr := by
  unfold GetCCValidator
  rw [h]

theorem changeApplied_congr (k : consumer.Keeper) (s1 s1' s2 s2' : consumer.State)
    (change : ValidatorUpdate) (addr : Bytes)
    (hb : s2.store.get (CrossChainValidatorKey addr)
      = s1.store.get (CrossChainValidatorKey addr))
    (hbc : s2.calls.count (consumer.Call.AfterValidatorBonded addr)
      = s1.calls.count (consumer.Call.AfterValidatorBonded addr))
    (ha : s2'.store.get (CrossChainValidatorKey addr)
      = s1'.store.get (CrossChainValidatorKey addr))
    (hac : s2'.calls.count (consumer.Call.AfterValidatorBonded addr)
      = s1'.calls.count (consumer.Call.AfterValidatorBonded addr))
    (h : changeApplied k s1 s1' change addr) : changeApplied k s2 s2' change addr := by
  unfold changeApplied at h ⊢
  rw [GetCCValidator_congr k _ _ addr hb, GetCCValidator_congr k _ _ addr ha, hb, ha, hbc, hac]
  exact h

/-- `ApplyCCValidatorChanges` on changes with pairwise distinct addresses, in
a store whose validators are stored under their own address. -/
theorem ApplyCCValidatorChanges_distinct_aux (k : consumer.Keeper) (hrt : k.cdc.RoundTrip)
    (htot : k.cdc.Total) :
    ∀ (changes : List ValidatorUpdate) (addrs : List Bytes),
      List.Forall₂ (fun c a => k.GetChangePubKeyAddress c = .ok a) changes addrs →
      ∀ st : consumer.State, addrs.Nodup → ccValidatorsUnderOwnAddress k st.store →
      (∀ e, ApplyCCValidatorChanges k st changes = .error e →
        ∃ p ∈ changes.zip addrs, st.store.get (CrossChainValidatorKey p.2) = none ∧
          (p.1.Power < 1 ∨ ¬ keyConverts k p.1)) ∧
      (∀ st', ApplyCCValidatorChanges k st changes = .ok st' →
        ccValidatorsUnderOwnAddress k st'.store ∧
        (∀ p ∈ changes.zip addrs, changeApplied k st st' p.1 p.2 ∧
          (st.store.get (CrossChainValidatorKey p.2) = none → keyConverts k p.1)) ∧
        (∀ b, b ∉ addrs →
          st'.store.get (CrossChainValidatorKey b) = st.store.get (CrossChainValidatorKey b) ∧
          st'.calls.count (consumer.Call.AfterValidatorBonded b)
            = st.calls.count (consumer.Call.AfterValidatorBonded b))) := by
  intro changes addrs hall
  induction hall with
  | nil =>
    intro st _ hown
    constructor
    · intro e he
      simp [ApplyCCValidatorChanges] at he
    · intro st' hst'
      simp only [ApplyCCValidatorChanges, Except.ok.injEq] at hst'
      subst hst'
      exact ⟨hown, fun p hp => by simp at hp, fun b _ => ⟨rfl, rfl⟩⟩
  | @cons c a cs as hca _ ih =>
    intro st hnodup hown
    have ha : a ∉ as := (List.nodup_cons.1 hnodup).1
    have has : as.Nodup := (List.nodup_cons.1 hnodup).2
    have heff := applyCCValidatorChange_effect k st c a hrt htot hown hca
    have hmem2 : ∀ p ∈ cs.zip as, p.2 ≠ a := by
      intro p hp h
      have := (List.of_mem_zip hp).2
      rw [h] at this
      exact ha this
    cases hstep : applyCCValidatorChange k st c with
    | error e0 =>
      constructor
      · intro e _
        exact ⟨(c, a), by simp, heff.1 e0 hstep⟩
      · intro st' hst'
        simp [ApplyCCValidatorChanges, hstep] at hst'
    | ok st1 =>
      obtain ⟨hown1, happ, hconv, hframe1⟩ := heff.2 st1 hstep
      obtain ⟨ih1, ih2⟩ := ih st1 has hown1
      have hrun : ApplyCCValidatorChanges k st (c :: cs) = ApplyCCValidatorChanges k st1 cs := by
        simp only [ApplyCCValidatorChanges, hstep]
      rw [hrun]
      constructor
      · intro e he
        obtain ⟨p, hp, hnone, hbad⟩ := ih1 e he
        refine ⟨p, by simp [hp], ?_, hbad⟩
        rw [← (hframe1 p.2 (hmem2 p hp)).1]
        exact hnone
      · intro st' hst'
        obtain ⟨hown', happ', hframe'⟩ := ih2 st' hst'
        refine ⟨hown', ?_, ?_⟩
        · intro p hp
          simp only [List.zip_cons_cons, List.mem_cons] at hp
          rcases hp with hp | hp
          · subst hp
            exact ⟨changeApplied_congr k st st1 st st' c a rfl rfl (hframe' a ha).1
              (hframe' a ha).2 happ, hconv⟩
          · have hne := hmem2 p hp
            obtain ⟨h1, h2⟩ := happ' p hp
            refine ⟨changeApplied_congr k st1 st' st st' p.1 p.2 (hframe1 p.2 hne).1.symm
              (hframe1 p.2 hne).2.symm rfl rfl h1, ?_⟩
            intro hnone
            apply h2
            rw [(hframe1 p.2 hne).1]
            exact hnone
        · intro b hb
          have hba : b ≠ a := fun h => hb (h ▸ List.mem_cons_self _ _)
          have hbas : b ∉ as := fun h => hb (List.mem_cons_of_mem _ h)
          exact ⟨(hframe' b hbas).1.trans (hframe1 b hba).1,
            (hframe' b hbas).2.trans (hframe1 b hba).2⟩

/-- C38: for changes whose addresses are pairwise distinct, on a store whose
cross-chain validators are stored under their own address, when
`ApplyCCValidatorChanges` returns: each address whose change has a power of at
least 1 is stored with that power, a validator that was stored keeping its
other fields and one that was not being created with one call of the bonded
hook; each address whose change has a power below 1 is not stored; and every
address that no change names has the validator and the hook calls it had. The
call panics exactly when some change names an address that is not stored and
has a power below 1 or a public key that does not convert. (The codec is
assumed to marshal every validator and to unmarshal what it marshalled, and
`GetChangePubKeyAddress` to return the address of every change.) -/
theorem ApplyCCValidatorChanges_distinct (k : consumer.Keeper) (st : consumer.State)
    (changes : List ValidatorUpdate) (addrs : List Bytes)
    (hrt : k.cdc.RoundTrip) (htot : k.cdc.Total)
    (hown : ccValidatorsUnderOwnAddress k st.store)
    (haddr : List.Forall₂ (fun c a => k.GetChangePubKeyAddress c = .ok a) changes addrs)
    (hnodup : addrs.Nodup) :
    ((∃ e, ApplyCCValidatorChanges k st changes = .error e) ↔
      ∃ p ∈ changes.zip addrs, st.store.get (CrossChainValidatorKey p.2) = none ∧
        (p.1.Power < 1 ∨ ¬ keyConverts k p.1)) ∧
    (∀ st', ApplyCCValidatorChanges k st changes = .ok st' →
      (∀ p ∈ changes.zip addrs,
        (1 ≤ p.1.Power →
          ∃ v, GetCCValidator k st'.store p.2 = .ok (v, true) ∧ v.Power = p.1.Power ∧
            v.Address = p.2) ∧
        (p.1.Power < 1 →
          (∃ old, GetCCValidator k st.store p.2 = .ok (old, true)) ∧
          GetCCValidator k st'.store p.2
            = .ok ({ Address := [], Power := 0, Pubkey := [] }, false)) ∧
        (∀ old, GetCCValidator k st.store p.2 = .ok (old, true) → 1 ≤ p.1.Power →
          GetCCValidator k st'.store p.2 = .ok ({ old with Power := p.1.Power }, true)) ∧
        (∀ old, GetCCValidator k st.store p.2 = .ok (old, true) →
          st'.calls.count (consumer.Call.AfterValidatorBonded p.2)
            = st.calls.count (consumer.Call.AfterValidatorBonded p.2)) ∧
        (st.store.get (CrossChainValidatorKey p.2) = none →
          st'.calls.count (consumer.Call.AfterValidatorBonded p.2)
            = st.calls.count (consumer.Call.AfterValidatorBonded p.2) + 1)) ∧
      (∀ b, b ∉ addrs →
        GetCCValidator k st'.store b = GetCCValidator k st.store b ∧
        st'.calls.count (consumer.Call.AfterValidatorBonded b)
          = st.calls.count (consumer.Call.AfterValidatorBonded b))) := by
  obtain ⟨haux1, haux2⟩ :=
    ApplyCCValidatorChanges_distinct_aux k hrt htot changes addrs haddr st hnodup hown
  refine ⟨⟨?_, ?_⟩, ?_⟩
  · rintro ⟨e, he⟩
    exact haux1 e he
  · rintro ⟨p, hp, hnone, hbad⟩
    cases hres : ApplyCCValidatorChanges k st changes with
    | error e => exact ⟨e, rfl⟩
    | ok st' =>
      exfalso
      obtain ⟨_, happ, _⟩ := haux2 st' hres
      obtain ⟨h1, h2⟩ := happ p hp
      rcases hbad with hb | hb
      · have := (h1.2 hnone).1
        omega
      · exact hb (h2 hnone)
  · intro st' hres
    obtain ⟨hown', happ, hframe⟩ := haux2 st' hres
    refine ⟨?_, ?_⟩
    · intro p hp
      obtain ⟨⟨hstored, hnew⟩, _⟩ := happ p hp
      refine ⟨?_, ?_, ?_, ?_, ?_⟩
      · intro hpow
        cases hget : st.store.get (CrossChainValidatorKey p.2) with
        | none =>
          obtain ⟨_, _, v, hv, hva, hvp⟩ := hnew hget
          exact ⟨v, hv, hvp, hva⟩
        | some bz =>
          obtain ⟨old, hold, holda⟩ := hown p.2 bz hget
          have hg := GetCCValidator_stored k st.store p.2 bz old hget hold
          exact ⟨_, (hstored old hg).2.2 hpow, rfl, holda⟩
      · intro hpow
        cases hget : st.store.get (CrossChainValidatorKey p.2) with
        | none =>
          have := (hnew hget).1
          omega
        | some bz =>
          obtain ⟨old, hold, _⟩ := hown p.2 bz hget
          have hg := GetCCValidator_stored k st.store p.2 bz old hget hold
          exact ⟨⟨old, hg⟩, GetCCValidator_absent k _ _ ((hstored old hg).2.1 hpow)⟩
      · intro old hg hpow
        exact (hstored old hg).2.2 hpow
      · intro old hg
        exact (hstored old hg).1
      · intro hnone
        exact (hnew hnone).2.1
    · intro b hb
      exact ⟨GetCCValidator_congr k _ _ b (hframe b hb).1, (hframe b hb).2⟩

theorem testConsumerKeeper_cdc :
    testConsumerKeeper.cdc.RoundTrip ∧ testConsumerKeeper.cdc.Total :=
  ⟨Wire.codec_roundTrip (Wire.iso_lawful (Wire.pair_lawful Wire.bytes_lawful
      (Wire.pair_lawful Wire.int_lawful Wire.bytes_lawful)) _ _ (fun _ => rfl)),
    Wire.codec_total _⟩

/-- The two entries of `ccState`. -/
theorem ccState_stored (addr bz : Bytes)
    (h : ccState.store.get (CrossChainValidatorKey addr) = some bz) :
    (addr = ascii "addr-pk1" ∧
      bz = Wire.ccValidator.put
        { Address := ascii "addr-pk1", Power := 5, Pubkey := ascii "pk1" }) ∨
    (addr = ascii "addr-pk2" ∧
      bz = Wire.ccValidator.put
        { Address := ascii "addr-pk2", Power := 7, Pubkey := ascii "pk2" }) := by
  by_cases h1 : addr = ascii "addr-pk1"
  · subst h1
    left
    refine ⟨rfl, ?_⟩
    have h0 : ccState.store.get (CrossChainValidatorKey (ascii "addr-pk1"))
        = some (Wire.ccValidator.put
          { Address := ascii "addr-pk1", Power := 5, Pubkey := ascii "pk1" }) := by decide
    rw [h0] at h
    exact (Option.some.inj h).symm
  · by_cases h2 : addr = ascii "addr-pk2"
    · subst h2
      right
      refine ⟨rfl, ?_⟩
      have h0 : ccState.store.get (CrossChainValidatorKey (ascii "addr-pk2"))
          = some (Wire.ccValidator.put
            { Address := ascii "addr-pk2", Power := 7, Pubkey := ascii "pk2" }) := by decide
      rw [h0] at h
      exact (Option.some.inj h).symm
    · exfalso
      have k1 : CrossChainValidatorKey addr ≠ CrossChainValidatorKey (ascii "addr-pk1") :=
        CrossChainValidatorKey_ne h1
      have k2 : CrossChainValidatorKey addr ≠ CrossChainValidatorKey (ascii "addr-pk2") :=
        CrossChainValidatorKey_ne h2
      simp only [ccState, Store.get, k1, k2, if_false] at h
      cases h

theorem ccState_underOwnAddress : ccValidatorsUnderOwnAddress testConsumerKeeper ccState.store := by
  intro addr bz h
  rcases ccState_stored addr bz h with ⟨h1, h2⟩ | ⟨h1, h2⟩
  · subst h1
    subst h2
    exact ⟨{ Address := ascii "addr-pk1", Power := 5, Pubkey := ascii "pk1" }, by decide, rfl⟩
  · subst h1
    subst h2
    exact ⟨{ Address := ascii "addr-pk2", Power := 7, Pubkey := ascii "pk2" }, by decide, rfl⟩

/-- C38 on concrete changes: in `ccState` the power of `pk1` becomes 9, `pk2`
is removed and `pk3` is created with power 3 and one call of the hook; a change
of power 0 for an address that is not stored is a panic. -/
theorem ApplyCCValidatorChanges_distinct_witness :
    ApplyCCValidatorChanges testConsumerKeeper ccState ccChanges = .ok ccChangedState ∧
    (∀ p ∈ ccChanges.zip [ascii "addr-pk1", ascii "addr-pk2", ascii "addr-pk3"],
      (1 ≤ p.1.Power →
        ∃ v, GetCCValidator testConsumerKeeper ccChangedState.store p.2 = .ok (v, true) ∧
          v.Power = p.1.Power ∧ v.Address = p.2) ∧
      (p.1.Power < 1 →
        (∃ old, GetCCValidator testConsumerKeeper ccState.store p.2 = .ok (old, true)) ∧
        GetCCValidator testConsumerKeeper ccChangedState.store p.2
          = .ok ({ Address := [], Power := 0, Pubkey := [] }, false)) ∧
      (∀ old, GetCCValidator testConsumerKeeper ccState.store p.2 = .ok (old, true) →
        1 ≤ p.1.Power →
        GetCCValidator testConsumerKeeper ccChangedState.store p.2
          = .ok ({ old with Power := p.1.Power }, true)) ∧
      (∀ old, GetCCValidator testConsumerKeeper ccState.store p.2 = .ok (old, true) →
        ccChangedState.calls.count (consumer.Call.AfterValidatorBonded p.2)
          = ccState.calls.count (consumer.Call.AfterValidatorBonded p.2)) ∧
      (ccState.store.get (CrossChainValidatorKey p.2) = none →
        ccChangedState.calls.count (consumer.Call.AfterValidatorBonded p.2)
          = ccState.calls.count (consumer.Call.AfterValidatorBonded p.2) + 1)) ∧
    (∃ e, ApplyCCValidatorChanges testConsumerKeeper ccState
      [{ PubKey := ascii "pk4", Power := 0 }] = .error e) :=
  ⟨by decide,
    ((ApplyCCValidatorChanges_distinct testConsumerKeeper ccState ccChanges
      [ascii "addr-pk1", ascii "addr-pk2", ascii "addr-pk3"] testConsumerKeeper_cdc.1
      testConsumerKeeper_cdc.2 ccState_underOwnAddress
      (List.Forall₂.cons rfl (List.Forall₂.cons rfl (List.Forall₂.cons rfl List.Forall₂.nil)))
      (by decide)).2 ccChangedState (by decide)).1,
    (ApplyCCValidatorChanges_distinct testConsumerKeeper ccState
      [{ PubKey := ascii "pk4", Power := 0 }] [ascii "addr-pk4"] testConsumerKeeper_cdc.1
      testConsumerKeeper_cdc.2 ccState_underOwnAddress
      (List.Forall₂.cons rfl List.Forall₂.nil) (by decide)).1.2
      ⟨({ PubKey := ascii "pk4", Power := 0 }, ascii "addr-pk4"), by decide, by decide,
        Or.inl (by decide)⟩⟩

/-! ## The powers of the cross-chain validators -/

/-- One step of `ApplyCCValidatorChanges` that returns keeps the power of
every stored cross-chain validator at 1 or above. -/
theorem applyCCValidatorChange_positive (k : consumer.Keeper) (hrt : k.cdc.RoundTrip)
    (st st' : consumer.State) (change : ValidatorUpdate)
    (hpos : ∀ addr v, GetCCValidator k st.store addr = .ok (v, true) → 1 ≤ v.Power)
    (hres : applyCCValidatorChange k st change = .ok st') :
    ∀ addr v, GetCCValidator k st'.store addr = .ok (v, true) → 1 ≤ v.Power := by
  have hset : ∀ (w : CrossChainValidator) (store' : Store), 1 ≤ w.Power →
      SetCCValidator k st.store w = .ok store' →
      ∀ addr v, GetCCValidator k store' addr = .ok (v, true) → 1 ≤ v.Power := by
    intro w store' hw hs addr v hv
    unfold SetCCValidator at hs
    cases hm : k.cdc.marshal w with
    | error e => simp [hm] at hs
    | ok bz =>
      simp only [hm, Except.ok.injEq] at hs
      subst hs
      by_cases ha : addr = w.Address
      · subst ha
        rw [GetCCValidator_stored k _ w.Address bz w (Store.get_set_same _ _ _)
          (hrt _ _ hm)] at hv
        simp only [Except.ok.injEq, Prod.mk.injEq, and_true] at hv
        rw [← hv]
        exact hw
      · rw [GetCCValidator_congr k st.store _ addr
          (Store.get_set_other _ _ _ _ (CrossChainValidatorKey_ne ha))] at hv
        exact hpos addr v hv
  unfold applyCCValidatorChange at hres
  cases haddr : k.GetChangePubKeyAddress change with
  | error e => simp [haddr] at hres
  | ok a =>
    simp only [haddr] at hres
    cases hg : GetCCValidator k st.store a with
    | error e => simp [hg] at hres
    | ok r =>
      obtain ⟨val, found⟩ := r
      cases found with
      | false =>
        simp only [hg] at hres
        by_cases hp : change.Power < 1
        · rw [if_pos hp] at hres
          cases hres
        · rw [if_neg hp] at hres
          cases hpk : k.FromTmProtoPublicKey change.PubKey with
          | error e => simp [hpk] at hres
          | ok pk =>
            simp only [hpk, NewCCValidator] at hres
            cases hany : k.packAny pk with
            | error e => simp [hany] at hres
            | ok pkAny =>
              simp only [hany] at hres
              cases hs : SetCCValidator k st.store
                  { Address := a, Power := change.Power, Pubkey := pkAny } with
              | error e => simp [hs] at hres
              | ok store' =>
                simp only [hs, Except.ok.injEq, AfterValidatorBonded] at hres
                subst hres
                exact hset _ store' (by simp only; omega) hs
      | true =>
        simp only [hg] at hres
        by_cases hp : change.Power < 1
        · rw [if_pos hp] at hres
          simp only [Except.ok.injEq] at hres
          subst hres
          intro addr v hv
          simp only [DeleteCCValidator] at hv
          by_cases ha : addr = a
          · subst ha
            rw [GetCCValidator_absent k _ addr (Store.get_delete_same _ _)] at hv
            simp at hv
          · rw [GetCCValidator_congr k st.store _ addr
              (Store.get_delete_other _ _ _ (CrossChainValidatorKey_ne ha))] at hv
            exact hpos addr v hv
        · rw [if_neg hp] at hres
          cases hs : SetCCValidator k st.store { val with Power := change.Power } with
          | error e => simp [hs] at hres
          | ok store' =>
            simp only [hs, Except.ok.injEq] at hres
            subst hres
            exact hset _ store' (by simp only; omega) hs

/-- C39: when every stored cross-chain validator has a power of at least 1
and `ApplyCCValidatorChanges` returns, every stored cross-chain validator has
a power of at least 1 afterwards, for every list of changes, with repeated
addresses or not. (The codec is assumed to unmarshal what it marshalled.) -/
theorem ApplyCCValidatorChanges_positive (k : consumer.Keeper) (hrt : k.cdc.RoundTrip)
    (changes : List ValidatorUpdate) (st st' : consumer.State)
    (hpos : ∀ addr v, GetCCValidator k st.store addr = .ok (v, true) → 1 ≤ v.Power)
    (hres : ApplyCCValidatorChanges k st changes = .ok st') :
    ∀ addr v, GetCCValidator k st'.store addr = .ok (v, true) → 1 ≤ v.Power := by
  induction changes generalizing st with
  | nil =>
    simp only [ApplyCCValidatorChanges, Except.ok.injEq] at hres
    subst hres
    exact hpos
  | cons c cs ih =>
    simp only [ApplyCCValidatorChanges] at hres
    cases hstep : applyCCValidatorChange k st c with
    | error e => simp [hstep] at hres
    | ok st1 =>
      simp only [hstep] at hres
      exact ih st1 (applyCCValidatorChange_positive k hrt st st1 c hpos hstep) hres

theorem ccState_positive :
    ∀ addr v, GetCCValidator testConsumerKeeper ccState.store addr = .ok (v, true) →
      1 ≤ v.Power := by
  intro addr v hv
  obtain ⟨bz, hget, hbz⟩ := GetCCValidator_found testConsumerKeeper _ addr v hv
  rcases ccState_stored addr bz hget with ⟨h1, h2⟩ | ⟨h1, h2⟩
  · subst h2
    have h0 : testConsumerKeeper.cdc.unmarshal (Wire.ccValidator.put
        { Address := ascii "addr-pk1", Power := 5, Pubkey := ascii "pk1" })
        = .ok { Address := ascii "addr-pk1", Power := 5, Pubkey := ascii "pk1" } := by decide
    rw [h0] at hbz
    injection hbz with hbz
    rw [← hbz]
    decide
  · subst h2
    have h0 : testConsumerKeeper.cdc.unmarshal (Wire.ccValidator.put
        { Address := ascii "addr-pk2", Power := 7, Pubkey := ascii "pk2" })
        = .ok { Address := ascii "addr-pk2", Power := 7, Pubkey := ascii "pk2" } := by decide
    rw [h0] at hbz
    injection hbz with hbz
    rw [← hbz]
    decide

/-- C39 on changes that name the addresses `addr-pk3` and `addr-pk1` twice. -/
theorem ApplyCCValidatorChanges_positive_witness :
    ApplyCCValidatorChanges testConsumerKeeper ccState ccRepeatedChanges
      = .ok ccRepeatedState ∧
    ∀ addr v, GetCCValidator testConsumerKeeper ccRepeatedState.store addr = .ok (v, true) →
      1 ≤ v.Power :=
  ⟨by decide,
    ApplyCCValidatorChanges_positive testConsumerKeeper testConsumerKeeper_cdc.1
      ccRepeatedChanges ccState ccRepeatedState ccState_positive (by decide)⟩

/-! ## The historical entries of the consumer -/

theorem toUint64_natCast (i : Nat) (h : i < 2 ^ 64) : toUint64 (i : Int) = i := by
  unfold toUint64
  rw [Int.emod_eq_of_lt (by omega) (by omega)]
  omega

theorem GetHistoricalInfoKey_ne (i j : Nat) (hi : i < 2 ^ 64) (hj : j < 2 ^ 64) (h : i ≠ j) :
    GetHistoricalInfoKey (i : Int) ≠ GetHistoricalInfoKey (j : Int) := by
  intro hk
  apply h
  apply PutUint64_injective i j hi hj
  simpa [GetHistoricalInfoKey, toUint64_natCast i hi, toUint64_natCast j hj] using hk

theorem GetHistoricalInfo_none (k : consumer.Keeper) (store : Store) (height : Int)
    (h : store.get (GetHistoricalInfoKey height) = none) :
    GetHistoricalInfo k store height = .ok none := by
  simp only [GetHistoricalInfo, h]

theorem GetHistoricalInfo_some (k : consumer.Keeper) (store : Store) (height : Int)
    (bz : Bytes) (hi : HistoricalInfo) (h : store.get (GetHistoricalInfoKey height) = some bz)
    (hbz : k.histCodec.unmarshal bz = .ok hi) :
    GetHistoricalInfo k store height = .ok (some hi) := by
  simp only [GetHistoricalInfo, h, hbz]

/-- The pruning loop, started at the height `i`, in a store whose entries at
the heights up to `i` unmarshal: it returns; it leaves every key that is not
the key of a height up to `i`, and the cross-chain validators; it deletes the
entries of the heights from `i` downward as long as there is one; and it leaves
the entries at and below a height without an entry. -/
theorem pruneHistoricalInfo_spec (k : consumer.Keeper) :
    ∀ (i : Nat) (store : Store), i < 2 ^ 64 →
      (∀ j : Nat, j ≤ i → ∀ bz, store.get (GetHistoricalInfoKey (j : Int)) = some bz →
        ∃ hi, k.histCodec.unmarshal bz = .ok hi) →
      ∃ store', pruneHistoricalInfo k i store = .ok store' ∧
        (∀ key, (∀ j : Nat, j ≤ i → key ≠ GetHistoricalInfoKey (j : Int)) →
          store'.get key = store.get key) ∧
        store'.prefixIterator [ CrossChainValidatorBytePrefix]
          = store.prefixIterator [ CrossChainValidatorBytePrefix] ∧
        (∀ j : Nat, j ≤ i →
          (∀ m : Nat, j ≤ m → m ≤ i →
            (store.get (GetHistoricalInfoKey (m : Int))).isSome = true) →
          store'.get (GetHistoricalInfoKey (j : Int)) = none) ∧
        (∀ g : Nat, g ≤ i → store.get (GetHistoricalInfoKey (g : Int)) = none →
          ∀ j : Nat, j ≤ g →
            store'.get (GetHistoricalInfoKey (j : Int))
              = store.get (GetHistoricalInfoKey (j : Int))) := by
  have hcc : ∀ (s : Store) (height : Int),
      (s.delete (GetHistoricalInfoKey height)).prefixIterator [ CrossChainValidatorBytePrefix]
        = s.prefixIterator [ CrossChainValidatorBytePrefix] := by
    intro s height
    apply Store.prefixIterator_delete
    exact isPrefixOf_head_ne _ _ _ _ (by decide)
  intro i
  induction i with
  | zero =>
    intro store _ hdec
    cases hget : store.get (GetHistoricalInfoKey ((0 : Nat) : Int)) with
    | none =>
      refine ⟨store, ?_, fun _ _ => rfl, rfl, ?_, fun _ _ _ _ _ => rfl⟩
      · simp only [pruneHistoricalInfo]
        rw [show (0 : Int) = ((0 : Nat) : Int) from rfl,
          GetHistoricalInfo_none k store _ hget]
      · intro j hj hrun
        have hj0 : j = 0 := by omega
        subst hj0
        have := hrun 0 (le_refl _) (le_refl _)
        rw [hget] at this
        cases this
    | some bz =>
      obtain ⟨hi, hhi⟩ := hdec 0 (le_refl _) bz hget
      refine ⟨store.delete (GetHistoricalInfoKey ((0 : Nat) : Int)), ?_, ?_, hcc _ _, ?_, ?_⟩
      · simp only [pruneHistoricalInfo]
        rw [show (0 : Int) = ((0 : Nat) : Int) from rfl,
          GetHistoricalInfo_some k store _ bz hi hget hhi]
        rfl
      · intro key hkey
        exact Store.get_delete_other _ _ _ (hkey 0 (le_refl _))
      · intro j hj _
        have hj0 : j = 0 := by omega
        subst hj0
        exact Store.get_delete_same _ _
      · intro g hg hnone
        have hg0 : g = 0 := by omega
        subst hg0
        rw [hget] at hnone
        cases hnone
  | succ i ih =>
    intro store hi2 hdec
    cases hget : store.get (GetHistoricalInfoKey ((i + 1 : Nat) : Int)) with
    | none =>
      refine ⟨store, ?_, fun _ _ => rfl, rfl, ?_, fun _ _ _ _ _ => rfl⟩
      · simp only [pruneHistoricalInfo]
        rw [GetHistoricalInfo_none k store _ hget]
      · intro j hj hrun
        have := hrun (i + 1) hj (le_refl _)
        rw [hget] at this
        cases this
    | some bz =>
      obtain ⟨hi, hhi⟩ := hdec (i + 1) (le_refl _) bz hget
      have hother : ∀ j : Nat, j ≤ i →
          (store.delete (GetHistoricalInfoKey ((i + 1 : Nat) : Int))).get
              (GetHistoricalInfoKey (j : Int))
            = store.get (GetHistoricalInfoKey (j : Int)) := by
        intro j hj
        exact Store.get_delete_other _ _ _
          (GetHistoricalInfoKey_ne j (i + 1) (by omega) hi2 (by omega))
      obtain ⟨store', hrun', hA, hD, hB, hC⟩ :=
        ih (store.delete (GetHistoricalInfoKey ((i + 1 : Nat) : Int))) (by omega) (by
          intro j hj bz' hbz'
          rw [hother j hj] at hbz'
          exact hdec j (by omega) bz' hbz')
      refine ⟨store', ?_, ?_, ?_, ?_, ?_⟩
      · simp only [pruneHistoricalInfo]
        rw [GetHistoricalInfo_some k store _ bz hi hget hhi]
        exact hrun'
      · intro key hkey
        rw [hA key (fun j hj => hkey j (by omega))]
        exact Store.get_delete_other _ _ _ (hkey (i + 1) (le_refl _))
      · rw [hD]
        exact hcc _ _
      · intro j hj hrun
        by_cases hji : j = i + 1
        · subst hji
          rw [hA _ (fun m hm => GetHistoricalInfoKey_ne (i + 1) m hi2 (by omega) (by omega))]
          exact Store.get_delete_same _ _
        · apply hB j (by omega)
          intro m hjm hmi
          rw [hother m hmi]
          exact hrun m hjm (by omega)
      · intro g hg hnone j hjg
        have hgi : g ≤ i := by
          by_contra hc
          have : g = i + 1 := by omega
          subst this
          rw [hget] at hnone
          cases hnone
        rw [hC g hgi (by rw [hother g hgi]; exact hnone) j hjg]
        exact hother j (by omega)

/-- C40: with `HistoricalEntries = n > 0` and the block height `h`,
`TrackHistoricalInfo` returns and the store it leaves has an entry at the
height `h`. The pruning loop deletes the entries from the height `h - n`
downward as long as there is one, stops at the first height without an entry,
leaving what is at and below it, and leaves the heights between `h - n` and
`h`. So when the heights with an entry were the range from some height `a` to
`h - 1`, afterwards they are the heights from `a` to `h` that are above
`h - n`: a range of at most `n` heights that ends at `h`. (The stored entries
are assumed to unmarshal, the entry of the block to marshal and the keys of the
cross-chain validators to convert: otherwise the call panics; `h < 2^63`.) -/
theorem TrackHistoricalInfo_prunes (k : consumer.Keeper) (n : Nat) (ctx : Context)
    (store : Store) (hn : 0 < n) (hh : ctx.BlockHeight < 2 ^ 63)
    (hrt : k.histCodec.RoundTrip) (htot : k.histCodec.Total)
    (hdec : ∀ j : Nat, j < ctx.BlockHeight →
      ∀ bz, store.get (GetHistoricalInfoKey (j : Int)) = some bz →
        ∃ hi, k.histCodec.unmarshal bz = .ok hi)
    (hvals : ∃ ccVals lastVals, GetAllCCValidator k store = .ok ccVals ∧
      lastValidators k ccVals = .ok lastVals) :
    ∃ store', TrackHistoricalInfo k n ctx store = .ok store' ∧
      (∃ hi, GetHistoricalInfo k store' (ctx.BlockHeight : Int) = .ok (some hi)) ∧
      (∀ j : Nat, (j : Int) ≤ (ctx.BlockHeight : Int) - (n : Int) →
        (∀ m : Nat, j ≤ m → (m : Int) ≤ (ctx.BlockHeight : Int) - (n : Int) →
          (store.get (GetHistoricalInfoKey (m : Int))).isSome = true) →
        store'.get (GetHistoricalInfoKey (j : Int)) = none) ∧
      (∀ g : Nat, (g : Int) ≤ (ctx.BlockHeight : Int) - (n : Int) →
        store.get (GetHistoricalInfoKey (g : Int)) = none →
        ∀ j : Nat, j ≤ g →
          store'.get (GetHistoricalInfoKey (j : Int))
            = store.get (GetHistoricalInfoKey (j : Int))) ∧
      (∀ j : Nat, j < 2 ^ 63 → (ctx.BlockHeight : Int) - (n : Int) < (j : Int) →
        j ≠ ctx.BlockHeight →
        store'.get (GetHistoricalInfoKey (j : Int))
          = store.get (GetHistoricalInfoKey (j : Int))) ∧
      (∀ a : Nat, a ≤ ctx.BlockHeight →
        (∀ j : Nat, j < 2 ^ 63 →
          ((store.get (GetHistoricalInfoKey (j : Int))).isSome = true ↔
            a ≤ j ∧ j < ctx.BlockHeight)) →
        ∀ j : Nat, j < 2 ^ 63 →
          ((store'.get (GetHistoricalInfoKey (j : Int))).isSome = true ↔
            a ≤ j ∧ (ctx.BlockHeight : Int) - (n : Int) < (j : Int) ∧
              j ≤ ctx.BlockHeight)) := by
  obtain ⟨ccVals, lastVals, hcc, hlast⟩ := hvals
  -- the pruning loop
  have hprune : ∃ store1,
      (if (ctx.BlockHeight : Int) - (n : Int) < 0 then (Except.ok store : Except String Store)
        else pruneHistoricalInfo k ((ctx.BlockHeight : Int) - (n : Int)).toNat store)
        = .ok store1 ∧
      (∀ j : Nat, j < 2 ^ 63 → (ctx.BlockHeight : Int) - (n : Int) < (j : Int) →
        store1.get (GetHistoricalInfoKey (j : Int))
          = store.get (GetHistoricalInfoKey (j : Int))) ∧
      store1.prefixIterator [ CrossChainValidatorBytePrefix]
        = store.prefixIterator [ CrossChainValidatorBytePrefix] ∧
      (∀ j : Nat, (j : Int) ≤ (ctx.BlockHeight : Int) - (n : Int) →
        (∀ m : Nat, j ≤ m → (m : Int) ≤ (ctx.BlockHeight : Int) - (n : Int) →
          (store.get (GetHistoricalInfoKey (m : Int))).isSome = true) →
        store1.get (GetHistoricalInfoKey (j : Int)) = none) ∧
      (∀ g : Nat, (g : Int) ≤ (ctx.BlockHeight : Int) - (n : Int) →
        store.get (GetHistoricalInfoKey (g : Int)) = none →
        ∀ j : Nat, j ≤ g →
          store1.get (GetHistoricalInfoKey (j : Int))
            = store.get (GetHistoricalInfoKey (j : Int))) := by
    by_cases hneg : (ctx.BlockHeight : Int) - (n : Int) < 0
    · rw [if_pos hneg]
      refine ⟨store, rfl, fun _ _ _ => rfl, rfl, ?_, ?_⟩
      · intro j hj _
        omega
      · intro g hg _
        omega
    · rw [if_neg hneg]
      have hi : ((ctx.BlockHeight : Int) - (n : Int)).toNat < 2 ^ 64 := by omega
      obtain ⟨store1, hrun, hA, hD, hB, hC⟩ :=
        pruneHistoricalInfo_spec k _ store hi (fun j hj bz hbz => hdec j (by omega) bz hbz)
      refine ⟨store1, hrun, ?_, hD, ?_, ?_⟩
      · intro j hj hlt
        apply hA
        intro m hm
        exact GetHistoricalInfoKey_ne j m (by omega) (by omega) (by omega)
      · intro j hj hrunj
        exact hB j (by omega) (fun m hjm hm => hrunj m hjm (by omega))
      · intro g hg hnone j hjg
        exact hC g (by omega) hnone j hjg
  obtain ⟨store1, hrun, hA, hD, hB, hC⟩ := hprune
  have hcc1 : GetAllCCValidator k store1 = .ok ccVals := by
    unfold GetAllCCValidator at hcc ⊢
    rw [hD]
    exact hcc
  obtain ⟨bz, hbz⟩ := htot { Header := ctx, Valset := k.SortValidators lastVals }
  have hne : ¬ n = 0 := by omega
  have hother : ∀ j : Nat, j < 2 ^ 63 → j ≠ ctx.BlockHeight →
      (store1.set (GetHistoricalInfoKey (ctx.BlockHeight : Int)) bz).get
          (GetHistoricalInfoKey (j : Int))
        = store1.get (GetHistoricalInfoKey (j : Int)) := by
    intro j hj hjh
    exact Store.get_set_other _ _ _ _
      (GetHistoricalInfoKey_ne j ctx.BlockHeight (by omega) (by omega) hjh)
  refine ⟨store1.set (GetHistoricalInfoKey (ctx.BlockHeight : Int)) bz, ?_, ?_, ?_, ?_, ?_, ?_⟩
  · unfold TrackHistoricalInfo
    simp only [hrun, hne, if_false, hcc1, hlast, SetHistoricalInfo, hbz]
  · exact ⟨_, GetHistoricalInfo_some k _ _ bz _ (Store.get_set_same _ _ _) (hrt _ _ hbz)⟩
  · intro j hj hrunj
    rw [hother j (by omega) (by omega)]
    exact hB j hj hrunj
  · intro g hg hnone j hjg
    rw [hother j (by omega) (by omega)]
    exact hC g hg hnone j hjg
  · intro j hj hlt hjh
    rw [hother j hj hjh]
    exact hA j hj hlt
  · intro a ha hrange j hj
    by_cases hjh : j = ctx.BlockHeight
    · subst hjh
      rw [Store.get_set_same]
      simp only [Option.isSome_some, true_iff]
      omega
    · rw [hother j hj hjh]
      by_cases hlt : (ctx.BlockHeight : Int) - (n : Int) < (j : Int)
      · rw [hA j hj hlt, hrange j hj]
        omega
      · have hle : (j : Int) ≤ (ctx.BlockHeight : Int) - (n : Int) := by omega
        have hnone : store1.get (GetHistoricalInfoKey (j : Int)) = none := by
          by_cases haj : a ≤ j
          · apply hB j hle
            intro m hjm hm
            exact (hrange m (by omega)).2 ⟨by omega, by omega⟩
          · have h0 : store.get (GetHistoricalInfoKey (j : Int)) = none := by
              cases hg : store.get (GetHistoricalInfoKey (j : Int)) with
              | none => rfl
              | some v =>
                have := (hrange j hj).1 (by rw [hg]; rfl)
                omega
            rw [hC j hle h0 j (le_refl _)]
            exact h0
        rw [hnone]
        simp only [Option.isSome_none, Bool.false_eq_true, false_iff]
        omega

theorem testConsumerKeeper_histCodec :
    testConsumerKeeper.histCodec.RoundTrip ∧ testConsumerKeeper.histCodec.Total :=
  ⟨Wire.codec_roundTrip (Wire.iso_lawful (Wire.pair_lawful
      (Wire.iso_lawful (Wire.pair_lawful Wire.int_lawful (Wire.pair_lawful Wire.nat_lawful
        (Wire.pair_lawful Wire.bytes_lawful (Wire.pair_lawful Wire.nat_lawful
          Wire.bytes_lawful)))) _ _ (fun _ => rfl))
      (Wire.list_lawful (Wire.iso_lawful (Wire.pair_lawful Wire.bytes_lawful
        (Wire.pair_lawful Wire.bool_lawful Wire.int_lawful)) _ _ (fun _ => rfl))))
      _ _ (fun _ => rfl)),
    Wire.codec_total _⟩

/-- The historical entries of `histStore`: the heights 5 to 9. -/
theorem histStore_get (j : Nat) (hj : j < 2 ^ 63) :
    histStore.get (GetHistoricalInfoKey (j : Int))
      = if 5 ≤ j ∧ j < 10 then some (histEntry j).2 else none := by
  by_cases h : 5 ≤ j ∧ j < 10
  · rw [if_pos h]
    obtain ⟨h1, h2⟩ := h
    interval_cases j <;> decide
  · rw [if_neg h]
    have hne : ∀ i : Nat, 5 ≤ i → i < 10 →
        GetHistoricalInfoKey (j : Int) ≠ GetHistoricalInfoKey (i : Int) := by
      intro i h1 h2
      exact GetHistoricalInfoKey_ne j i (by omega) (by omega) (by omega)
    have hcc : ∀ addr, GetHistoricalInfoKey (j : Int) ≠ CrossChainValidatorKey addr := by
      intro addr hk
      simp [GetHistoricalInfoKey, CrossChainValidatorKey, HistoricalInfoBytePrefix,
        CrossChainValidatorBytePrefix] at hk
    simp only [histStore, ccState, histEntry, List.cons_append, List.nil_append, Store.get,
      hcc, if_false]
    rw [if_neg (hne 5 (by omega) (by omega)), if_neg (hne 6 (by omega) (by omega)),
      if_neg (hne 7 (by omega) (by omega)), if_neg (hne 8 (by omega) (by omega)),
      if_neg (hne 9 (by omega) (by omega))]

theorem histStore_decodes (j : Nat) (hj : j < testCtx.BlockHeight) (bz : Bytes)
    (h : histStore.get (GetHistoricalInfoKey (j : Int)) = some bz) :
    ∃ hi, testConsumerKeeper.histCodec.unmarshal bz = .ok hi := by
  have hj' : j < 10 := hj
  rw [histStore_get j (by omega)] at h
  split at h
  · injection h with h
    subst h
    exact ⟨_, testConsumerKeeper_histCodec.1 _ _ rfl⟩
  · cases h

/-- C40 on `histStore`, with three historical entries at the height 10: the
entries of the heights 5, 6 and 7 are deleted, and the heights with an entry
are 8, 9 and 10. -/
theorem TrackHistoricalInfo_prunes_witness :
    TrackHistoricalInfo testConsumerKeeper 3 testCtx histStore = .ok histPrunedStore ∧
    ∃ store', TrackHistoricalInfo testConsumerKeeper 3 testCtx histStore = .ok store' ∧
      (∃ hi, GetHistoricalInfo testConsumerKeeper store' (testCtx.BlockHeight : Int)
        = .ok (some hi)) ∧
      ∀ j : Nat, j < 2 ^ 63 →
        ((store'.get (GetHistoricalInfoKey (j : Int))).isSome = true ↔
          5 ≤ j ∧ (testCtx.BlockHeight : Int) - ((3 : Nat) : Int) < (j : Int) ∧
            j ≤ testCtx.BlockHeight) :=
  ⟨by decide,
    Exists.imp
      (fun _ h => ⟨h.1, h.2.1, h.2.2.2.2.2 5 (by decide) (fun j hj => by
        rw [histStore_get j hj]
        split
        · rename_i hc
          simpa [testCtx] using hc
        · rename_i hc
          simpa [testCtx] using hc)⟩)
      (TrackHistoricalInfo_prunes testConsumerKeeper 3 testCtx histStore (by decide) (by decide)
        testConsumerKeeper_histCodec.1 testConsumerKeeper_histCodec.2 histStore_decodes
        ⟨[{ Address := ascii "addr-pk1", Power := 5, Pubkey := ascii "pk1" },
          { Address := ascii "addr-pk2", Power := 7, Pubkey := ascii "pk2" }],
         [{ ConsensusPubkey := ascii "pk1", Bonded := true, Tokens := 5000000 },
          { ConsensusPubkey := ascii "pk2", Bonded := true, Tokens := 7000000 }],
         by decide, by decide⟩)⟩

/-! ## The walk of StopConsumerChain, whatever the staking keeper answers -/

theorem waitingOpsKept_refl (k : Keeper) (chainID : Bytes) (st : State) :
    waitingOpsKept k chainID st st :=
  fun _ _ _ hget _ => ⟨Or.inl hget, rfl⟩

theorem withoutChain_waiting (op : UnbondingOp) (chainID : Bytes)
    (h : (removeStringFromSlice op.UnbondingConsumerChains chainID).1 ≠ []) :
    (removeStringFromSlice (withoutChain op chainID).UnbondingConsumerChains chainID).1 ≠ [] := by
  simp only [withoutChain, removeStringFromSlice_idem]
  exact h

theorem waitingOpsKept_trans {k : Keeper} {chainID : Bytes} {s₁ s₂ s₃ : State}
    (h₁ : waitingOpsKept k chainID s₁ s₂) (h₂ : waitingOpsKept k chainID s₂ s₃) :
    waitingOpsKept k chainID s₁ s₃ := by
  intro id op hid hget hmulti
  obtain ⟨hrec, hcount⟩ := h₁ id op hid hget hmulti
  rcases hrec with hrec | hrec
  · obtain ⟨hrec2, hcount2⟩ := h₂ id op hid hrec hmulti
    exact ⟨hrec2, hcount2.trans hcount⟩
  · obtain ⟨hrec2, hcount2⟩ := h₂ id _ hid hrec (withoutChain_waiting op chainID hmulti)
    refine ⟨Or.inr ?_, hcount2.trans hcount⟩
    rcases hrec2 with h | h
    · exact h
    · rw [h, withoutChain_idem]

/-- Two states with the same records of unbonding operations and the same
count of calls of `UnbondingCanComplete`. -/
theorem waitingOpsKept_of_eq (k : Keeper) (chainID : Bytes) (st st' : State)
    (hget : ∀ id, GetUnbondingOp k st'.store id = GetUnbondingOp k st.store id)
    (hcount : ∀ id, st'.calls.count (.UnbondingCanComplete id)
      = st.calls.count (.UnbondingCanComplete id)) :
    waitingOpsKept k chainID st st' :=
  fun id _ _ hg _ => ⟨Or.inl (by rw [hget id]; exact hg), hcount id⟩

/-- The loop over the operations of one VSC ID returns, whatever the staking
keeper answers, when the stored bytes of the listed operations unmarshal and
every operation is stored under its own ID; it leaves these two properties, and
it keeps every operation that waits for another chain, without a call of
`UnbondingCanComplete` for it. -/
theorem releaseUnbondingOps_any (k : Keeper) (chainID : Bytes)
    (hrt : k.unbondingOpCodec.RoundTrip) (htot : k.unbondingOpCodec.Total)
    (S : List Nat) (hS : ∀ id ∈ S, id < 2 ^ 64) :
    ∀ (ids : List Nat) (err : Option Error) (st : State),
      (∀ id ∈ ids, id ∈ S) →
      opsUnderOwnId k st.store →
      opsDecode k st.store S →
      ∃ r, releaseUnbondingOps k chainID ids (err, st) = .ok r ∧
        opsUnderOwnId k r.2.2.store ∧ opsDecode k r.2.2.store S ∧
        waitingOpsKept k chainID st r.2.2 := by
  intro ids
  induction ids with
  | nil =>
    intro err st _ hown hdec
    exact ⟨(true, (err, st)), rfl, hown, hdec, waitingOpsKept_refl k chainID st⟩
  | cons h rest ih =>
    intro err st hsub hown hdec
    have hhS : h ∈ S := hsub h (List.mem_cons_self _ _)
    have hh : h < 2 ^ 64 := hS h hhS
    have hsub' : ∀ id ∈ rest, id ∈ S := fun id hid => hsub id (List.mem_cons_of_mem _ hid)
    obtain ⟨rh, hget⟩ := hdec h hhS
    obtain ⟨oph, found⟩ := rh
    cases found with
    | false =>
      refine ⟨(false, (some (.ErrUnbondingOpNotFound h), st)), ?_, hown, hdec,
        waitingOpsKept_refl k chainID st⟩
      rw [releaseUnbondingOps]
      simp only [hget]
    | true =>
      have hId : oph.Id = h := hown h oph hh hget
      by_cases hlen : (removeStringFromSlice oph.UnbondingConsumerChains chainID).1.length = 0
      · -- the wait-set is emptied: the staking keeper is asked
        have hnil : (removeStringFromSlice oph.UnbondingConsumerChains chainID).1 = [] :=
          List.length_eq_zero.1 hlen
        have hother : ∀ id op, GetUnbondingOp k st.store id = .ok (op, true) →
            (removeStringFromSlice op.UnbondingConsumerChains chainID).1 ≠ [] → id ≠ h := by
          intro id op hg hmulti heq
          subst heq
          rw [hget] at hg
          injection hg with hg
          injection hg with hop _
          subst hop
          exact hmulti hnil
        cases hacc : k.UnbondingCanComplete h with
        | some e =>
          refine ⟨(false, (some e,
            { st with calls := st.calls ++ [.UnbondingCanComplete h] })), ?_, hown, hdec, ?_⟩
          · rw [releaseUnbondingOps]
            simp only [hget, hlen, if_true, hId, hacc]
          · intro id op hid hg hmulti
            exact ⟨Or.inl hg, count_append_other _ _ _ (hother id op hg hmulti)⟩
        | none =>
          have hown1 : opsUnderOwnId k (st.store.delete (UnbondingOpKey h)) := by
            intro id op hid hg
            by_cases hidh : id = h
            · subst hidh
              simp [GetUnbondingOp, Store.get_delete_same] at hg
            · rw [GetUnbondingOp_delete_other k _ h id hh hid hidh] at hg
              exact hown id op hid hg
          have hdec1 : opsDecode k (st.store.delete (UnbondingOpKey h)) S := by
            intro id hid
            by_cases hidh : id = h
            · subst hidh
              exact ⟨({ Id := 0, UnbondingConsumerChains := [] }, false),
                by simp only [GetUnbondingOp, Store.get_delete_same]⟩
            · rw [GetUnbondingOp_delete_other k _ h id hh (hS id hid) hidh]
              exact hdec id hid
          obtain ⟨r, hrun, hownr, hdecr, hkept⟩ := ih none
            { store := st.store.delete (UnbondingOpKey h),
              calls := st.calls ++ [.UnbondingCanComplete h], events := st.events }
            hsub' hown1 hdec1
          refine ⟨r, ?_, hownr, hdecr, ?_⟩
          · rw [releaseUnbondingOps]
            simp only [hget, hlen, if_true, hId, hacc, DeleteUnbondingOp]
            exact hrun
          · intro id op hid hg hmulti
            have hidh : id ≠ h := hother id op hg hmulti
            obtain ⟨hrec, hcount⟩ := hkept id op hid
              (by
                show GetUnbondingOp k (st.store.delete (UnbondingOpKey h)) id = _
                rw [GetUnbondingOp_delete_other k _ h id hh hid hidh]
                exact hg)
              hmulti
            exact ⟨hrec, hcount.trans (count_append_other _ _ _ hidh)⟩
      · -- the wait-set is not emptied: the shrunk operation is stored
        obtain ⟨bz, hbz⟩ := htot (withoutChain oph chainID)
        have hbz' := hbz
        simp only [withoutChain, hId] at hbz'
        have hself : GetUnbondingOp k (st.store.set (UnbondingOpKey h) bz) h
            = .ok (withoutChain oph chainID, true) :=
          GetUnbondingOp_set_same k _ bz h _ hrt hbz
        have hown1 : opsUnderOwnId k (st.store.set (UnbondingOpKey h) bz) := by
          intro id op hid hg
          by_cases hidh : id = h
          · subst hidh
            rw [hself] at hg
            injection hg with hg
            injection hg with hop _
            subst hop
            exact hId
          · rw [GetUnbondingOp_set_other k _ bz h id hh hid hidh] at hg
            exact hown id op hid hg
        have hdec1 : opsDecode k (st.store.set (UnbondingOpKey h) bz) S := by
          intro id hid
          by_cases hidh : id = h
          · subst hidh
            exact ⟨_, hself⟩
          · rw [GetUnbondingOp_set_other k _ bz h id hh (hS id hid) hidh]
            exact hdec id hid
        obtain ⟨r, hrun, hownr, hdecr, hkept⟩ := ih err
          { st with store := st.store.set (UnbondingOpKey h) bz } hsub' hown1 hdec1
        refine ⟨r, ?_, hownr, hdecr, ?_⟩
        · rw [releaseUnbondingOps]
          simp only [hget, hlen, if_false, SetUnbondingOp, hbz', hId]
          exact hrun
        · have hmultih : (removeStringFromSlice oph.UnbondingConsumerChains chainID).1 ≠ [] :=
            fun hnil => hlen (by rw [hnil]; rfl)
          have hstep : waitingOpsKept k chainID st
              { st with store := st.store.set (UnbondingOpKey h) bz } := by
            intro id op hid hg hmulti
            refine ⟨?_, rfl⟩
            by_cases hidh : id = h
            · subst hidh
              rw [hget] at hg
              injection hg with hg
              injection hg with hop _
              subst hop
              exact Or.inr hself
            · left
              show GetUnbondingOp k (st.store.set (UnbondingOpKey h) bz) id = _
              rw [GetUnbondingOp_set_other k _ bz h id hh hid hidh]
              exact hg
          exact waitingOpsKept_trans hstep hkept

/-- The walk of `StopConsumerChain` over a decoded index returns, whatever the
staking keeper answers, when the stored bytes of the listed operations
unmarshal and every operation is stored under its own ID; it keeps every
operation that waits for another chain, without a call of
`UnbondingCanComplete` for it. -/
theorem walkIndex_stopCallback_any (k : Keeper) (chainID : Bytes)
    (hrt : k.unbondingOpCodec.RoundTrip) (htot : k.unbondingOpCodec.Total)
    (S : List Nat) (hS : ∀ id ∈ S, id < 2 ^ 64) :
    ∀ (idx : List (Nat × List Nat)) (err : Option Error) (st : State),
      (∀ id ∈ indexedIds idx, id ∈ S) →
      opsUnderOwnId k st.store →
      opsDecode k st.store S →
      ∃ r, walkIndex (stopCallback k chainID) idx (err, st) = .ok r ∧
        opsUnderOwnId k r.2.store ∧ opsDecode k r.2.store S ∧
        waitingOpsKept k chainID st r.2 := by
  intro idx
  induction idx with
  | nil =>
    intro err st _ hown hdec
    exact ⟨(err, st), rfl, hown, hdec, waitingOpsKept_refl k chainID st⟩
  | cons e rest ih =>
    intro err st hsub hown hdec
    obtain ⟨vscID, ids⟩ := e
    rw [indexedIds_cons] at hsub
    obtain ⟨r1, hrun1, hown1, hdec1, hkept1⟩ := releaseUnbondingOps_any k chainID hrt htot S hS
      ids err st (fun id hid => hsub id (List.mem_append_left _ hid)) hown hdec
    obtain ⟨flag, err1, st1⟩ := r1
    cases flag with
    | false =>
      refine ⟨(err1, st1), ?_, hown1, hdec1, hkept1⟩
      simp only [walkIndex, stopCallback, hrun1]
    | true =>
      have hget : ∀ id, GetUnbondingOp k (DeleteUnbondingOpIndex st1.store chainID vscID) id
          = GetUnbondingOp k st1.store id :=
        fun id => GetUnbondingOp_DeleteUnbondingOpIndex k st1.store chainID vscID id
      obtain ⟨r, hrun, hownr, hdecr, hkept⟩ := ih err1
        { st1 with store := DeleteUnbondingOpIndex st1.store chainID vscID }
        (fun id hid => hsub id (List.mem_append_right _ hid))
        (fun id op hid hg => hown1 id op hid (by rw [← hget id]; exact hg))
        (fun id hid => by
          obtain ⟨r', hr'⟩ := hdec1 id hid
          exact ⟨r', by rw [← hr']; exact hget id⟩)
      refine ⟨r, ?_, hownr, hdecr, ?_⟩
      · simp only [walkIndex, stopCallback, hrun1]
        exact hrun
      · exact waitingOpsKept_trans hkept1
          (waitingOpsKept_trans
            (waitingOpsKept_of_eq k chainID st1
              { st1 with store := DeleteUnbondingOpIndex st1.store chainID vscID }
              hget (fun _ => rfl))
            hkept)

theorem walkPasses_nil (k : Keeper) (chainID : Bytes) (store : Store) :
    walkPasses k chainID store [] :=
  ⟨List.nodup_nil, fun _ h => absurd h (List.not_mem_nil _)⟩

/-- The property `walkPasses` in a store with the same records for the listed
operations. -/
theorem walkPasses_congr (k : Keeper) (chainID : Bytes) (s s' : Store) (ids : List Nat)
    (h : walkPasses k chainID s ids)
    (hget : ∀ id ∈ ids, GetUnbondingOp k s' id = GetUnbondingOp k s id) :
    walkPasses k chainID s' ids := by
  refine ⟨h.1, fun id hid => ?_⟩
  obtain ⟨hlt, op, hg, hId, hacc⟩ := h.2 id hid
  exact ⟨hlt, op, by rw [hget id hid]; exact hg, hId, hacc⟩

theorem walkPasses_append (k : Keeper) (chainID : Bytes) (store : Store) (a b : List Nat)
    (h : walkPasses k chainID store (a ++ b)) :
    walkPasses k chainID store a ∧ walkPasses k chainID store b ∧ ∀ x ∈ a, x ∉ b := by
  obtain ⟨hnd, hall⟩ := h
  obtain ⟨ha, hb, hdisj⟩ := List.nodup_append.1 hnd
  exact ⟨⟨ha, fun id hid => hall id (List.mem_append_left _ hid)⟩,
    ⟨hb, fun id hid => hall id (List.mem_append_right _ hid)⟩,
    fun x hx hxb => hdisj hx hxb⟩

/-- The loop of the callback over operations the walk gets through: the loop
runs to its end without error; it leaves the index and the operations that are
not listed as they were; each listed operation whose wait-set becomes empty is
completed once and its record deleted; each listed operation that waits for
another chain is stored with its wait-set without `chainID` and is not
completed. -/
theorem releaseUnbondingOps_reach (k : Keeper) (chainID : Bytes)
    (hrt : k.unbondingOpCodec.RoundTrip) (htot : k.unbondingOpCodec.Total) :
    ∀ (ids : List Nat) (st : State),
      walkPasses k chainID st.store ids →
      ∃ st', releaseUnbondingOps k chainID ids (none, st) = .ok (true, (none, st')) ∧
        (∀ c, st'.store.prefixIterator (UnbondingOpIndexChainKey c)
          = st.store.prefixIterator (UnbondingOpIndexChainKey c)) ∧
        (∀ id, id < 2 ^ 64 → id ∉ ids →
          st'.store.get (UnbondingOpKey id) = st.store.get (UnbondingOpKey id)) ∧
        (∀ id, id ∉ ids → st'.calls.count (.UnbondingCanComplete id)
          = st.calls.count (.UnbondingCanComplete id)) ∧
        (∀ id ∈ ids, ∀ op, GetUnbondingOp k st.store id = .ok (op, true) →
          (removeStringFromSlice op.UnbondingConsumerChains chainID).1 = [] →
          st'.store.get (UnbondingOpKey id) = none ∧
          st'.calls.count (.UnbondingCanComplete id)
            = st.calls.count (.UnbondingCanComplete id) + 1) ∧
        (∀ id ∈ ids, ∀ op, GetUnbondingOp k st.store id = .ok (op, true) →
          (removeStringFromSlice op.UnbondingConsumerChains chainID).1 ≠ [] →
          GetUnbondingOp k st'.store id = .ok (withoutChain op chainID, true) ∧
          st'.calls.count (.UnbondingCanComplete id)
            = st.calls.count (.UnbondingCanComplete id)) := by
  intro ids
  induction ids with
  | nil =>
    intro st _
    exact ⟨st, rfl, fun _ => rfl, fun _ _ _ => rfl, fun _ _ => rfl,
      fun id hid => absurd hid (List.not_mem_nil id),
      fun id hid => absurd hid (List.not_mem_nil id)⟩
  | cons id rest ih =>
    intro st hpass
    obtain ⟨hnd, hall⟩ := hpass
    have hnotin : id ∉ rest := (List.nodup_cons.1 hnd).1
    have hnd' : rest.Nodup := (List.nodup_cons.1 hnd).2
    obtain ⟨hlt, op, hget, hid, hacc⟩ := hall id (List.mem_cons_self _ _)
    have hltr : ∀ j ∈ rest, j < 2 ^ 64 := fun j hj => (hall j (List.mem_cons_of_mem _ hj)).1
    have hne : ∀ j ∈ rest, j ≠ id := fun j hj h => hnotin (h ▸ hj)
    have hpass' : ∀ s' : Store,
        (∀ j ∈ rest, GetUnbondingOp k s' j = GetUnbondingOp k st.store j) →
        walkPasses k chainID s' rest := fun s' hs' =>
      walkPasses_congr k chainID st.store s' rest
        ⟨hnd', fun j hj => hall j (List.mem_cons_of_mem _ hj)⟩ hs'
    by_cases hlen : (removeStringFromSlice op.UnbondingConsumerChains chainID).1.length = 0
    · -- the wait-set is empty: the operation is completed and deleted
      have hnil := List.length_eq_zero.1 hlen
      have hgetr : ∀ j ∈ rest, GetUnbondingOp k (st.store.delete (UnbondingOpKey id)) j
          = GetUnbondingOp k st.store j :=
        fun j hj => GetUnbondingOp_delete_other k _ id j hlt (hltr j hj) (hne j hj)
      obtain ⟨st', hrun, h1, h2, h3, h4, h5⟩ := ih
        { store := st.store.delete (UnbondingOpKey id),
          calls := st.calls ++ [.UnbondingCanComplete id], events := st.events }
        (hpass' _ hgetr)
      refine ⟨st', ?_, ?_, ?_, ?_, ?_, ?_⟩
      · rw [releaseUnbondingOps]
        simp only [hget, hlen, if_true, hid, hacc hnil, DeleteUnbondingOp]
        exact hrun
      · intro c
        rw [h1 c]
        exact Store.prefixIterator_delete _ _ _ (isPrefixOf_head_ne _ _ _ _ (by decide))
      · intro j hj hjn
        rw [h2 j hj (fun h => hjn (List.mem_cons_of_mem _ h))]
        exact Store.get_delete_other _ _ _
          (UnbondingOpKey_ne j id hj hlt (fun h => hjn (h ▸ List.mem_cons_self _ _)))
      · intro j hjn
        rw [h3 j (fun h => hjn (List.mem_cons_of_mem _ h))]
        exact count_append_other _ _ _ (fun h => hjn (h ▸ List.mem_cons_self _ _))
      · intro j hj opj hgetj hempty
        rcases List.mem_cons.1 hj with hj | hj
        · subst hj
          refine ⟨?_, ?_⟩
          · rw [h2 j hlt hnotin]
            exact Store.get_delete_same _ _
          · rw [h3 j hnotin]
            exact count_append_same _ _
        · obtain ⟨hg, hc⟩ := h4 j hj opj (by rw [hgetr j hj]; exact hgetj) hempty
          refine ⟨hg, ?_⟩
          rw [hc]
          simp only [Nat.add_right_cancel_iff]
          exact count_append_other _ _ _ (hne j hj)
      · intro j hj opj hgetj hmulti
        rcases List.mem_cons.1 hj with hj | hj
        · subst hj
          rw [hget] at hgetj
          injection hgetj with hgetj
          injection hgetj with hop _
          subst hop
          exact absurd hnil hmulti
        · obtain ⟨hg, hc⟩ := h5 j hj opj (by rw [hgetr j hj]; exact hgetj) hmulti
          refine ⟨hg, ?_⟩
          rw [hc]
          exact count_append_other _ _ _ (hne j hj)
    · -- the wait-set is not empty: the shrunk operation is stored
      obtain ⟨bz, hbz⟩ := htot (withoutChain op chainID)
      have hbz' := hbz
      simp only [withoutChain, hid] at hbz'
      have hself : GetUnbondingOp k (st.store.set (UnbondingOpKey id) bz) id
          = .ok (withoutChain op chainID, true) :=
        GetUnbondingOp_set_same k _ bz id _ hrt hbz
      have hgetr : ∀ j ∈ rest, GetUnbondingOp k (st.store.set (UnbondingOpKey id) bz) j
          = GetUnbondingOp k st.store j :=
        fun j hj => GetUnbondingOp_set_other k _ bz id j hlt (hltr j hj) (hne j hj)
      obtain ⟨st', hrun, h1, h2, h3, h4, h5⟩ := ih
        { st with store := st.store.set (UnbondingOpKey id) bz } (hpass' _ hgetr)
      refine ⟨st', ?_, ?_, ?_, ?_, ?_, ?_⟩
      · rw [releaseUnbondingOps]
        simp only [hget, hlen, if_false, SetUnbondingOp, hbz', hid]
        exact hrun
      · intro c
        rw [h1 c]
        exact Store.prefixIterator_set _ _ _ _ (isPrefixOf_head_ne _ _ _ _ (by decide))
      · intro j hj hjn
        rw [h2 j hj (fun h => hjn (List.mem_cons_of_mem _ h))]
        exact Store.get_set_other _ _ _ _
          (UnbondingOpKey_ne j id hj hlt (fun h => hjn (h ▸ List.mem_cons_self _ _)))
      · intro j hjn
        exact h3 j (fun h => hjn (List.mem_cons_of_mem _ h))
      · intro j hj opj hgetj hempty
        rcases List.mem_cons.1 hj with hj | hj
        · subst hj
          rw [hget] at hgetj
          injection hgetj with hgetj
          injection hgetj with hop _
          subst hop
          rw [hempty] at hlen
          exact absurd rfl hlen
        · exact h4 j hj opj (by rw [hgetr j hj]; exact hgetj) hempty
      · intro j hj opj hgetj hmulti
        rcases List.mem_cons.1 hj with hj | hj
        · subst hj
          rw [hget] at hgetj
          injection hgetj with hgetj
          injection hgetj with hop _
          subst hop
          refine ⟨?_, h3 j hnotin⟩
          rw [GetUnbondingOp_congr k (st.store.set (UnbondingOpKey j) bz) _ j (h2 j hlt hnotin)]
          exact hself
        · exact h5 j hj opj (by rw [hgetr j hj]; exact hgetj) hmulti

/-- The walk of `StopConsumerChain` over a decoded index whose operations it
gets through: the walk runs to its end without error; an operation that is not
listed keeps its record; each listed operation whose wait-set becomes empty is
completed once and its record deleted; each listed operation that waits for
another chain is stored with its wait-set without `chainID` and is not
completed. -/
theorem walkIndex_stopCallback_reach (k : Keeper) (chainID : Bytes)
    (hrt : k.unbondingOpCodec.RoundTrip) (htot : k.unbondingOpCodec.Total) :
    ∀ (idx : List (Nat × List Nat)) (st : State),
      walkPasses k chainID st.store (indexedIds idx) →
      ∃ st', walkIndex (stopCallback k chainID) idx (none, st) = .ok (none, st') ∧
        (∀ id, id < 2 ^ 64 → id ∉ indexedIds idx →
          st'.store.get (UnbondingOpKey id) = st.store.get (UnbondingOpKey id)) ∧
        (∀ id, id ∉ indexedIds idx → st'.calls.count (.UnbondingCanComplete id)
          = st.calls.count (.UnbondingCanComplete id)) ∧
        (∀ id ∈ indexedIds idx, ∀ op, GetUnbondingOp k st.store id = .ok (op, true) →
          (removeStringFromSlice op.UnbondingConsumerChains chainID).1 = [] →
          st'.store.get (UnbondingOpKey id) = none ∧
          st'.calls.count (.UnbondingCanComplete id)
            = st.calls.count (.UnbondingCanComplete id) + 1) ∧
        (∀ id ∈ indexedIds idx, ∀ op, GetUnbondingOp k st.store id = .ok (op, true) →
          (removeStringFromSlice op.UnbondingConsumerChains chainID).1 ≠ [] →
          GetUnbondingOp k st'.store id = .ok (withoutChain op chainID, true) ∧
          st'.calls.count (.UnbondingCanComplete id)
            = st.calls.count (.UnbondingCanComplete id)) := by
  intro idx
  induction idx with
  | nil =>
    intro st _
    exact ⟨st, rfl, fun _ _ _ => rfl, fun _ _ => rfl,
      fun id hid => absurd hid (List.not_mem_nil id),
      fun id hid => absurd hid (List.not_mem_nil id)⟩
  | cons e rest ih =>
    intro st hpass
    obtain ⟨vscID, ids⟩ := e
    rw [indexedIds_cons] at hpass
    obtain ⟨hp1, hp2, hdisj⟩ := walkPasses_append k chainID st.store _ _ hpass
    obtain ⟨st1, hrun1, _, a2, a3, a4, a5⟩ := releaseUnbondingOps_reach k chainID hrt htot ids st hp1
    have hdel : ∀ id, (DeleteUnbondingOpIndex st1.store chainID vscID).get (UnbondingOpKey id)
        = st1.store.get (UnbondingOpKey id) := by
      intro id
      apply Store.get_delete_other
      simp [UnbondingOpKey, UnbondingOpIndexKey, UnbondingOpIndexChainKey,
        UnbondingOpBytePrefix, UnbondingOpIndexBytePrefix]
    have hnotin : ∀ j ∈ indexedIds rest, j ∉ ids := fun j hj hj' => hdisj j hj' hj
    have hgetr : ∀ j ∈ indexedIds rest,
        GetUnbondingOp k (DeleteUnbondingOpIndex st1.store chainID vscID) j
          = GetUnbondingOp k st.store j :=
      fun j hj => GetUnbondingOp_congr k st.store _ j
        ((hdel j).trans (a2 j (hp2.2 j hj).1 (hnotin j hj)))
    obtain ⟨st', hrun, b1, b2, b3, b4⟩ := ih
      { st1 with store := DeleteUnbondingOpIndex st1.store chainID vscID }
      (walkPasses_congr k chainID st.store _ _ hp2 hgetr)
    refine ⟨st', ?_, ?_, ?_, ?_, ?_⟩
    · simp only [walkIndex, stopCallback, hrun1]
      exact hrun
    · intro j hj hjn
      rw [indexedIds_cons] at hjn
      rw [b1 j hj (fun h => hjn (List.mem_append_right _ h)), hdel j,
        a2 j hj (fun h => hjn (List.mem_append_left _ h))]
    · intro j hjn
      rw [indexedIds_cons] at hjn
      rw [b2 j (fun h => hjn (List.mem_append_right _ h))]
      exact a3 j (fun h => hjn (List.mem_append_left _ h))
    · intro j hj opj hgetj hempty
      rw [indexedIds_cons] at hj
      rcases List.mem_append.1 hj with hj | hj
      · obtain ⟨hg, hc⟩ := a4 j hj opj hgetj hempty
        have hjr : j ∉ indexedIds rest := fun h => hdisj j hj h
        refine ⟨?_, ?_⟩
        · rw [b1 j (hp1.2 j hj).1 hjr, hdel j]
          exact hg
        · rw [b2 j hjr]
          exact hc
      · obtain ⟨hg, hc⟩ := b3 j hj opj (by rw [hgetr j hj]; exact hgetj) hempty
        refine ⟨hg, ?_⟩
        rw [hc]
        simp only [Nat.add_right_cancel_iff]
        exact a3 j (hnotin j hj)
    · intro j hj opj hgetj hmulti
      rw [indexedIds_cons] at hj
      rcases List.mem_append.1 hj with hj | hj
      · obtain ⟨hg, hc⟩ := a5 j hj opj hgetj hmulti
        have hjr : j ∉ indexedIds rest := fun h => hdisj j hj h
        refine ⟨?_, ?_⟩
        · rw [GetUnbondingOp_congr k st1.store _ j ((b1 j (hp1.2 j hj).1 hjr).trans (hdel j))]
          exact hg
        · rw [b2 j hjr]
          exact hc
      · obtain ⟨hg, hc⟩ := b4 j hj opj (by rw [hgetr j hj]; exact hgetj) hmulti
        refine ⟨hg, ?_⟩
        rw [hc]
        exact a3 j (hnotin j hj)

theorem withoutChain_filter (op : UnbondingOp) (C : Bytes) :
    withoutChain op C
      = { op with UnbondingConsumerChains :=
            op.UnbondingConsumerChains.filter (fun y => y ≠ C) } := by
  simp only [withoutChain, removeStringFromSlice]
  have hf : op.UnbondingConsumerChains.filter (fun y => decide (C ≠ y))
      = op.UnbondingConsumerChains.filter (fun y => decide (y ≠ C)) := by
    apply List.filter_congr
    intro y _
    by_cases hy : y = C
    · simp [hy]
    · have hy2 : ¬ C = y := fun h => hy h.symm
      simp [hy, hy2]
  rw [hf]

theorem waits_for_other (op : UnbondingOp) (C : Bytes)
    (h : ∃ other ∈ op.UnbondingConsumerChains, other ≠ C) :
    (removeStringFromSlice op.UnbondingConsumerChains C).1 ≠ [] := by
  obtain ⟨other, hmem, hne⟩ := h
  intro hnil
  have : other ∈ (removeStringFromSlice op.UnbondingConsumerChains C).1 := by
    simp only [removeStringFromSlice, List.mem_filter, decide_eq_true_eq]
    exact ⟨hmem, fun h => hne h.symm⟩
  rw [hnil] at this
  exact absurd this (List.not_mem_nil _)

/-- `StopConsumerChain(C, lockUbd = false, _)` returns, with an error or
without, when the slash acks of the chain unmarshal, the index of the chain
decodes, the stored bytes of the listed operations unmarshal and every
operation is stored under its own ID; it keeps every operation that waits for
another chain, without a call of `UnbondingCanComplete` for it. -/
theorem StopConsumerChain_any (k : Keeper) (st : State) (C : Bytes) (closeChan : Bool)
    (idx : List (Nat × List Nat)) (L : List Bytes)
    (hrt : k.unbondingOpCodec.RoundTrip) (htot : k.unbondingOpCodec.Total)
    (hown : opsUnderOwnId k st.store)
    (hacks : GetSlashAcks k st.store C = .ok L)
    (hidx : GetAllUnbondingOpIndexes k st.store C = .ok idx)
    (hids : ∀ id ∈ indexedIds idx, id < 2 ^ 64)
    (hdec : opsDecode k st.store (indexedIds idx)) :
    ∃ r, StopConsumerChain k st C false closeChan = .ok r ∧ waitingOpsKept k C st r.2 := by
  obtain ⟨st5, hsame, hcount5, hstart⟩ := StopConsumerChain_start k st C closeChan _ L hacks hidx
  have hget5 : ∀ id, GetUnbondingOp k st5.store id = GetUnbondingOp k st.store id :=
    fun id => GetUnbondingOp_congr k st.store _ id (hsame.1 id)
  obtain ⟨r, hrun, _, _, hkept⟩ := walkIndex_stopCallback_any k C hrt htot (indexedIds idx) hids
    idx none st5 (fun _ h => h)
    (fun id op hid hg => hown id op hid (by rw [← hget5 id]; exact hg))
    (fun id hid => by
      obtain ⟨r', hr'⟩ := hdec id hid
      exact ⟨r', by rw [hget5 id]; exact hr'⟩)
  exact ⟨r, hstart.trans hrun,
    waitingOpsKept_trans (waitingOpsKept_of_eq k C st st5 hget5 hcount5) hkept⟩

/-- `StopConsumerChain(C, lockUbd = false, _)` and an operation `m` that waits
for another chain and that the walk reaches: the index of `C` lists `m` in the
entry of the VSC ID `v`, after the operations `idsPre` of that entry and the
entries `idxPre`, and the walk gets through the operations listed up to `m`.
The call returns, with an error or without, and leaves `m` stored with its
wait-set without `C` and not completed. -/
theorem StopConsumerChain_reaches (k : Keeper) (st : State) (C : Bytes) (closeChan : Bool)
    (idxPre idxPost : List (Nat × List Nat)) (v : Nat) (idsPre idsPost : List Nat) (m : Nat)
    (opm : UnbondingOp) (L : List Bytes)
    (hrt : k.unbondingOpCodec.RoundTrip) (htot : k.unbondingOpCodec.Total)
    (hown : opsUnderOwnId k st.store)
    (hacks : GetSlashAcks k st.store C = .ok L)
    (hidx : GetAllUnbondingOpIndexes k st.store C
      = .ok (idxPre ++ (v, idsPre ++ m :: idsPost) :: idxPost))
    (hids : ∀ id ∈ indexedIds (idxPre ++ (v, idsPre ++ m :: idsPost) :: idxPost), id < 2 ^ 64)
    (hdec : opsDecode k st.store (indexedIds (idxPre ++ (v, idsPre ++ m :: idsPost) :: idxPost)))
    (hpass : walkPasses k C st.store (indexedIds idxPre ++ (idsPre ++ [m])))
    (hm : GetUnbondingOp k st.store m = .ok (opm, true))
    (hmulti : (removeStringFromSlice opm.UnbondingConsumerChains C).1 ≠ []) :
    ∃ r, StopConsumerChain k st C false closeChan = .ok r ∧
      GetUnbondingOp k r.2.store m = .ok (withoutChain opm C, true) ∧
      r.2.calls.count (.UnbondingCanComplete m) = st.calls.count (.UnbondingCanComplete m) := by
  obtain ⟨st5, hsame, hcount5, hstart⟩ := StopConsumerChain_start k st C closeChan _ L hacks hidx
  have hget5 : ∀ id, GetUnbondingOp k st5.store id = GetUnbondingOp k st.store id :=
    fun id => GetUnbondingOp_congr k st.store _ id (hsame.1 id)
  have hown5 : opsUnderOwnId k st5.store :=
    fun id op hid hg => hown id op hid (by rw [← hget5 id]; exact hg)
  have hdec5 : opsDecode k st5.store
      (indexedIds (idxPre ++ (v, idsPre ++ m :: idsPost) :: idxPost)) := by
    intro id hid
    obtain ⟨r', hr'⟩ := hdec id hid
    exact ⟨r', by rw [hget5 id]; exact hr'⟩
  have hall : indexedIds (idxPre ++ (v, idsPre ++ m :: idsPost) :: idxPost)
      = indexedIds idxPre ++ ((idsPre ++ [m]) ++ idsPost ++ indexedIds idxPost) := by
    rw [indexedIds_append, indexedIds_cons]
    simp
  have hpass5 := walkPasses_congr k C st.store st5.store _ hpass (fun id _ => hget5 id)
  obtain ⟨hpA, hpB, hdisj⟩ := walkPasses_append k C st5.store _ _ hpass5
  have hmB : m ∈ idsPre ++ [m] := List.mem_append_right _ (List.mem_singleton_self m)
  have hmlt : m < 2 ^ 64 := (hpB.2 m hmB).1
  have hmA : m ∉ indexedIds idxPre := fun h => hdisj m h hmB
  -- the entries before the one that lists `m`
  obtain ⟨stA, hrunA, a1, a2, _, _⟩ := walkIndex_stopCallback_reach k C hrt htot idxPre st5 hpA
  obtain ⟨rA, hrA, hownA, hdecA, _⟩ := walkIndex_stopCallback_any k C hrt htot _ hids idxPre none
    st5 (fun id hid => by rw [hall]; exact List.mem_append_left _ hid) hown5 hdec5
  rw [hrunA] at hrA
  injection hrA with hrA
  subst hrA
  -- the operations of the entry up to `m`
  have hpB' : walkPasses k C stA.store (idsPre ++ [m]) :=
    walkPasses_congr k C st5.store stA.store _ hpB (fun id hid =>
      GetUnbondingOp_congr k st5.store _ id
        (a1 id (hpB.2 id hid).1 (fun h => hdisj id h hid)))
  obtain ⟨stC, hrunC, _, _, c3, _, c5⟩ := releaseUnbondingOps_reach k C hrt htot _ stA hpB'
  obtain ⟨rC, hrC, hownC, hdecC, _⟩ := releaseUnbondingOps_any k C hrt htot _ hids (idsPre ++ [m])
    none stA
    (fun id hid => by
      rw [hall]
      exact List.mem_append_right _
        (List.mem_append_left _ (List.mem_append_left _ hid)))
    hownA hdecA
  rw [hrunC] at hrC
  injection hrC with hrC
  subst hrC
  have hmA' : GetUnbondingOp k stA.store m = .ok (opm, true) := by
    rw [GetUnbondingOp_congr k st5.store _ m (a1 m hmlt hmA), hget5]
    exact hm
  obtain ⟨hmC, hcountC⟩ := c5 m hmB opm hmA' hmulti
  have hcountC' : stC.calls.count (.UnbondingCanComplete m)
      = st.calls.count (.UnbondingCanComplete m) := by
    rw [hcountC, a2 m hmA, hcount5 m]
  -- the operations the entry lists after `m`
  obtain ⟨r1, hr1, hown1, hdec1, hkept1⟩ := releaseUnbondingOps_any k C hrt htot _ hids idsPost
    none stC
    (fun id hid => by
      rw [hall]
      exact List.mem_append_right _
        (List.mem_append_left _ (List.mem_append_right _ hid)))
    hownC hdecC
  have hrel : releaseUnbondingOps k C (idsPre ++ m :: idsPost) (none, stA) = .ok r1 := by
    have hsplit : idsPre ++ m :: idsPost = (idsPre ++ [m]) ++ idsPost := by simp
    rw [hsplit, releaseUnbondingOps_append k C _ idsPost stA _ hrunC]
    exact hr1
  -- the entries after the one that lists `m`
  have hrest : ∃ r, walkIndex (stopCallback k C) ((v, idsPre ++ m :: idsPost) :: idxPost)
      (none, stA) = .ok r ∧ waitingOpsKept k C stC r.2 := by
    obtain ⟨flag, err1, st1⟩ := r1
    cases flag with
    | false =>
      refine ⟨(err1, st1), ?_, hkept1⟩
      simp only [walkIndex, stopCallback, hrel]
    | true =>
      have hgetD : ∀ id, GetUnbondingOp k (DeleteUnbondingOpIndex st1.store C v) id
          = GetUnbondingOp k st1.store id :=
        fun id => GetUnbondingOp_DeleteUnbondingOpIndex k st1.store C v id
      obtain ⟨r2, hr2, _, _, hkept2⟩ := walkIndex_stopCallback_any k C hrt htot _ hids idxPost
        err1 { st1 with store := DeleteUnbondingOpIndex st1.store C v }
        (fun id hid => by
          rw [hall]
          exact List.mem_append_right _ (List.mem_append_right _ hid))
        (fun id op hid hg => hown1 id op hid (by rw [← hgetD id]; exact hg))
        (fun id hid => by
          obtain ⟨r', hr'⟩ := hdec1 id hid
          exact ⟨r', by rw [← hr']; exact hgetD id⟩)
      refine ⟨r2, ?_, ?_⟩
      · simp only [walkIndex, stopCallback, hrel]
        exact hr2
      · exact waitingOpsKept_trans hkept1
          (waitingOpsKept_trans
            (waitingOpsKept_of_eq k C st1
              { st1 with store := DeleteUnbondingOpIndex st1.store C v }
              hgetD (fun _ => rfl))
            hkept2)
  obtain ⟨r, hr, hkept⟩ := hrest
  refine ⟨r, ?_, ?_, ?_⟩
  · rw [hstart, walkIndex_stopCallback_append k C idxPre _ st5 stA hrunA]
    exact hr
  · obtain ⟨hrec, _⟩ := hkept m _ hmlt hmC (withoutChain_waiting opm C hmulti)
    rcases hrec with h | h
    · exact h
    · rw [h, withoutChain_idem]
  · obtain ⟨_, hc⟩ := hkept m _ hmlt hmC (withoutChain_waiting opm C hmulti)
    rw [hc, hcountC']

/-- C15, as amended, for `StopConsumerChain(C, lockUbd = false, _)` and the
operations the index of `C` lists that wait for a chain other than `C`, the
operations being stored under their own IDs. (1) A call that returns no error
leaves each of them persisted with the wait-set it had without `C`, makes no
call of `UnbondingCanComplete` for it, and leaves no index entry of `C`. (2)
Every call returns, with an error or without, when the stored bytes unmarshal,
and makes no call of `UnbondingCanComplete` for any of them; each is persisted
with the wait-set it had or with that wait-set without `C`. (3) An operation
`m` of them that the walk reaches is persisted with its wait-set without `C`,
also when the call returns an error for a later operation: the index lists `m`
after the operations `idsPre` of its entry and the entries `idxPre`, and the
operations listed up to `m` are listed once, have a record and, where they wait
for `C` only, are accepted by the staking keeper (`walkPasses`). (4) With
`lockUbd = true` the call returns no error whenever the slash acks of the chain
unmarshal, whatever the unbonding operations and the index hold, and it leaves
them as they were and makes no call of `UnbondingCanComplete`. -/
theorem StopConsumerChain_shrinks_waitsets (k : Keeper) (st : State) (C : Bytes)
    (closeChan : Bool) :
    (∀ (idx : List (Nat × List Nat)) (st' : State),
      k.unbondingOpCodec.RoundTrip →
      opsUnderOwnId k st.store →
      indexKeysOf st.store C →
      GetAllUnbondingOpIndexes k st.store C = .ok idx →
      (∀ id ∈ indexedIds idx, id < 2 ^ 64) →
      StopConsumerChain k st C false closeChan = .ok (none, st') →
      (∀ id ∈ indexedIds idx, ∀ op, GetUnbondingOp k st.store id = .ok (op, true) →
        (∃ other ∈ op.UnbondingConsumerChains, other ≠ C) →
        GetUnbondingOp k st'.store id
          = .ok ({ op with UnbondingConsumerChains :=
                    op.UnbondingConsumerChains.filter (fun y => y ≠ C) }, true) ∧
        st'.calls.count (.UnbondingCanComplete id)
          = st.calls.count (.UnbondingCanComplete id)) ∧
      st'.store.prefixIterator (UnbondingOpIndexChainKey C) = []) ∧
    (∀ (idx : List (Nat × List Nat)) (L : List Bytes),
      k.unbondingOpCodec.RoundTrip →
      k.unbondingOpCodec.Total →
      opsUnderOwnId k st.store →
      GetSlashAcks k st.store C = .ok L →
      GetAllUnbondingOpIndexes k st.store C = .ok idx →
      (∀ id ∈ indexedIds idx, id < 2 ^ 64) →
      opsDecode k st.store (indexedIds idx) →
      ∃ err st', StopConsumerChain k st C false closeChan = .ok (err, st') ∧
        ∀ id ∈ indexedIds idx, ∀ op, GetUnbondingOp k st.store id = .ok (op, true) →
          (∃ other ∈ op.UnbondingConsumerChains, other ≠ C) →
          st'.calls.count (.UnbondingCanComplete id)
            = st.calls.count (.UnbondingCanComplete id) ∧
          (GetUnbondingOp k st'.store id = .ok (op, true) ∨
            GetUnbondingOp k st'.store id
              = .ok ({ op with UnbondingConsumerChains :=
                        op.UnbondingConsumerChains.filter (fun y => y ≠ C) }, true))) ∧
    (∀ (idxPre idxPost : List (Nat × List Nat)) (v : Nat) (idsPre idsPost : List Nat) (m : Nat)
        (opm : UnbondingOp) (L : List Bytes),
      k.unbondingOpCodec.RoundTrip →
      k.unbondingOpCodec.Total →
      opsUnderOwnId k st.store →
      GetSlashAcks k st.store C = .ok L →
      GetAllUnbondingOpIndexes k st.store C
        = .ok (idxPre ++ (v, idsPre ++ m :: idsPost) :: idxPost) →
      (∀ id ∈ indexedIds (idxPre ++ (v, idsPre ++ m :: idsPost) :: idxPost), id < 2 ^ 64) →
      opsDecode k st.store (indexedIds (idxPre ++ (v, idsPre ++ m :: idsPost) :: idxPost)) →
      walkPasses k C st.store (indexedIds idxPre ++ (idsPre ++ [m])) →
      GetUnbondingOp k st.store m = .ok (opm, true) →
      (∃ other ∈ opm.UnbondingConsumerChains, other ≠ C) →
      ∃ err st', StopConsumerChain k st C false closeChan = .ok (err, st') ∧
        GetUnbondingOp k st'.store m
          = .ok ({ opm with UnbondingConsumerChains :=
                    opm.UnbondingConsumerChains.filter (fun y => y ≠ C) }, true) ∧
        st'.calls.count (.UnbondingCanComplete m)
          = st.calls.count (.UnbondingCanComplete m)) ∧
    (∀ L, GetSlashAcks k st.store C = .ok L →
      ∃ st', StopConsumerChain k st C true closeChan = .ok (none, st') ∧
        sameUnbonding st.store st'.store ∧
        ∀ id, st'.calls.count (.UnbondingCanComplete id)
          = st.calls.count (.UnbondingCanComplete id)) := by
  refine ⟨?_, ?_, ?_, ?_⟩
  · intro idx st' hrt hown hkeys hidx hids hres
    obtain ⟨st5, hsame, hcount, hwalk⟩ := StopConsumerChain_walk k st C closeChan _ hres
    have hown5 : opsUnderOwnId k st5.store := by
      intro id op hid hg
      rw [GetUnbondingOp_congr k st.store _ id (hsame.1 id)] at hg
      exact hown id op hid hg
    have hkeys5 : indexKeysOf st5.store C := by
      intro e he
      rw [hsame.2 C] at he
      exact hkeys e he
    have hdecode : decodeIndexEntries k C
        (st5.store.prefixIterator (UnbondingOpIndexChainKey C)) = .ok idx := by
      rw [hsame.2 C]
      exact hidx
    refine ⟨?_, IterateOverUnbondingOpIndex_clears k C st5 st' hkeys5 hwalk⟩
    unfold IterateOverUnbondingOpIndex at hwalk
    rw [iterateIndexEntries_eq_walkIndex k C _ _ idx _ hdecode] at hwalk
    obtain ⟨_, hshr⟩ := walkIndex_stopCallback_shrinks k C hrt idx st5 st' hids hown5 hwalk
    intro id hid op hget hother
    obtain ⟨other, hmem, hne⟩ := hother
    have hmulti : (removeStringFromSlice op.UnbondingConsumerChains C).1 ≠ [] := by
      intro hnil
      have : other ∈ (removeStringFromSlice op.UnbondingConsumerChains C).1 := by
        simp only [removeStringFromSlice, List.mem_filter, decide_eq_true_eq]
        exact ⟨hmem, fun h => hne h.symm⟩
      rw [hnil] at this
      exact absurd this (List.not_mem_nil _)
    obtain ⟨a, b⟩ := hshr id op (hids id hid)
      (by rw [GetUnbondingOp_congr k st.store _ id (hsame.1 id)]; exact hget) hmulti
    refine ⟨?_, b.trans (hcount id)⟩
    rw [a]
    simp only [hid, if_true, withoutChain, removeStringFromSlice]
    have hf : op.UnbondingConsumerChains.filter (fun y => decide (C ≠ y))
        = op.UnbondingConsumerChains.filter (fun y => decide (y ≠ C)) := by
      apply List.filter_congr
      intro y _
      by_cases hy : y = C
      · simp [hy]
      · have hy2 : ¬ C = y := fun h => hy h.symm
        simp [hy, hy2]
    rw [hf]
  · intro idx L hrt htot hown hacks hidx hids hdec
    obtain ⟨r, hr, hkept⟩ := StopConsumerChain_any k st C closeChan idx L hrt htot hown hacks
      hidx hids hdec
    refine ⟨r.1, r.2, hr, ?_⟩
    intro id hid op hget hother
    obtain ⟨hrec, hcount⟩ := hkept id op (hids id hid) hget (waits_for_other op C hother)
    refine ⟨hcount, ?_⟩
    rw [← withoutChain_filter]
    exact hrec
  · intro idxPre idxPost v idsPre idsPost m opm L hrt htot hown hacks hidx hids hdec hpass hm
      hother
    obtain ⟨r, hr, hrec, hcount⟩ := StopConsumerChain_reaches k st C closeChan idxPre idxPost v
      idsPre idsPost m opm L hrt htot hown hacks hidx hids hdec hpass hm
      (waits_for_other opm C hother)
    refine ⟨r.1, r.2, hr, ?_, hcount⟩
    rw [← withoutChain_filter]
    exact hrec
  · intro L hacks
    have hacks4 : GetSlashAcks k (stopCleanup k st C closeChan).store C = .ok L := by
      unfold GetSlashAcks at hacks ⊢
      unfold SlashAcksKey at hacks ⊢
      rw [stopCleanup_get_other k st C closeChan SlashAcksBytePrefix C (by decide) (by decide)
        (by decide) (by decide) (by decide)]
      exact hacks
    obtain ⟨store5, hempty, hsame5⟩ := EmptySlashAcks_sameUnbonding k _ C L hacks4
    refine ⟨{ stopCleanup k st C closeChan with store := store5 }, ?_, ?_, ?_⟩
    · simp only [StopConsumerChain, hempty, if_true]
    · exact sameUnbonding_trans (stopCleanup_sameUnbonding k st C closeChan) hsame5
    · intro id
      exact stopCleanup_count k st C closeChan id

/-- The walk of `StopConsumerChain` for `consu` on `unbondingState` gets
through the operations 7 and 9 with a staking keeper that refuses the
operation 4. -/
theorem unbondingState_walkPasses :
    walkPasses refusingKeeper (ascii "consu") unbondingState.store [7, 9] := by
  refine ⟨by decide, fun id hid => ?_⟩
  have h : id = 7 ∨ id = 9 := by simpa using hid
  rcases h with h | h <;> subst h
  · exact ⟨by decide, { Id := 7, UnbondingConsumerChains := [ascii "consu"] }, by decide, rfl,
      fun _ => by decide⟩
  · exact ⟨by decide, { Id := 9, UnbondingConsumerChains := [ascii "consu", ascii "other"] },
      by decide, rfl, fun _ => by decide⟩

theorem unbondingState_opsDecode :
    opsDecode refusingKeeper unbondingState.store (indexedIds [(1, [7, 9]), (2, [4])]) := by
  intro id hid
  obtain ⟨_, op, h, _⟩ := unbondingState_found id hid
  exact ⟨(op, true), h⟩

/-- C15, as amended, on a concrete input: the state `unbondingState`, whose
index lists the operation 9, which waits for `consu` and `other`, after the
operation 7 and before the operation 4. With a staking keeper that accepts
every completion the call returns no error; with one that refuses the
operation 4 the call returns its error and has shrunk the operation 9, which
it reached before. -/
theorem StopConsumerChain_shrinks_waitsets_witness :
    StopConsumerChain testKeeper unbondingState (ascii "consu") false true
      = .ok (none, releasedState) ∧
    (GetUnbondingOp testKeeper releasedState.store 9
        = .ok ({ Id := 9,
                 UnbondingConsumerChains :=
                   [ascii "consu", ascii "other"].filter (fun y => y ≠ ascii "consu") }, true) ∧
      releasedState.calls.count (.UnbondingCanComplete 9)
        = unbondingState.calls.count (.UnbondingCanComplete 9)) ∧
    releasedState.store.prefixIterator (UnbondingOpIndexChainKey (ascii "consu")) = [] ∧
    StopConsumerChain refusingKeeper unbondingState (ascii "consu") false true
      = .ok (some (.external "refused"), abortedState) ∧
    (∃ err st', StopConsumerChain refusingKeeper unbondingState (ascii "consu") false true
        = .ok (err, st') ∧
      ∀ id ∈ indexedIds [(1, [7, 9]), (2, [4])], ∀ op,
        GetUnbondingOp refusingKeeper unbondingState.store id = .ok (op, true) →
        (∃ other ∈ op.UnbondingConsumerChains, other ≠ ascii "consu") →
        st'.calls.count (.UnbondingCanComplete id)
          = unbondingState.calls.count (.UnbondingCanComplete id) ∧
        (GetUnbondingOp refusingKeeper st'.store id = .ok (op, true) ∨
          GetUnbondingOp refusingKeeper st'.store id
            = .ok ({ op with UnbondingConsumerChains :=
                      op.UnbondingConsumerChains.filter (fun y => y ≠ ascii "consu") },
                true))) ∧
    (∃ err st', StopConsumerChain refusingKeeper unbondingState (ascii "consu") false true
        = .ok (err, st') ∧
      GetUnbondingOp refusingKeeper st'.store 9
        = .ok ({ Id := 9,
                 UnbondingConsumerChains :=
                   [ascii "consu", ascii "other"].filter (fun y => y ≠ ascii "consu") }, true) ∧
      st'.calls.count (.UnbondingCanComplete 9)
        = unbondingState.calls.count (.UnbondingCanComplete 9)) ∧
    ∃ st', StopConsumerChain testKeeper unbondingState (ascii "consu") true true
        = .ok (none, st') ∧
      sameUnbonding unbondingState.store st'.store ∧
      ∀ id, st'.calls.count (.UnbondingCanComplete id)
        = unbondingState.calls.count (.UnbondingCanComplete id) :=
  ⟨by decide,
    ((StopConsumerChain_shrinks_waitsets testKeeper unbondingState (ascii "consu") true).1
      [(1, [7, 9]), (2, [4])] releasedState testKeeper_unbondingOpRoundTrip
      unbondingState_opsUnderOwnId unbondingState_indexKeysOf (by decide)
      (fun id hid => (unbondingState_found id hid).1) (by decide)).1 9 (by decide)
      { Id := 9, UnbondingConsumerChains := [ascii "consu", ascii "other"] } (by decide)
      ⟨ascii "other", by decide, by decide⟩,
    ((StopConsumerChain_shrinks_waitsets testKeeper unbondingState (ascii "consu") true).1
      [(1, [7, 9]), (2, [4])] releasedState testKeeper_unbondingOpRoundTrip
      unbondingState_opsUnderOwnId unbondingState_indexKeysOf (by decide)
      (fun id hid => (unbondingState_found id hid).1) (by decide)).2,
    by decide,
    (StopConsumerChain_shrinks_waitsets refusingKeeper unbondingState (ascii "consu")
      true).2.1
      [(1, [7, 9]), (2, [4])] [] testKeeper_unbondingOpRoundTrip refusingKeeper_unbondingOpCodec
      unbondingState_opsUnderOwnId (by decide) (by decide)
      (fun id hid => (unbondingState_found id hid).1) unbondingState_opsDecode,
    (StopConsumerChain_shrinks_waitsets refusingKeeper unbondingState (ascii "consu")
      true).2.2.1
      [] [(2, [4])] 1 [7] [] 9
      { Id := 9, UnbondingConsumerChains := [ascii "consu", ascii "other"] } []
      testKeeper_unbondingOpRoundTrip refusingKeeper_unbondingOpCodec
      unbondingState_opsUnderOwnId (by decide) (by decide)
      (fun id hid => (unbondingState_found id hid).1) unbondingState_opsDecode
      unbondingState_walkPasses (by decide) ⟨ascii "other", by decide, by decide⟩,
    (StopConsumerChain_shrinks_waitsets testKeeper unbondingState (ascii "consu") true).2.2.2
      [] (by decide)⟩

/-! ## StopConsumerChain again, when the failed call released nothing of the entry -/

/-- The call of `StopConsumerChain` in which the staking keeper refuses the
completion of the operation `f`, when the walk gets through the operations the
index lists before `f`: the call returns the error of the staking keeper; the
record of `f` is as it was; each operation listed before `f` that waited for
`C` only has no record and was completed once, each one that waits for another
chain is stored with its wait-set without `C`; no other record is changed; the
index loses the entries before that of `f` and no other. -/
theorem StopConsumerChain_refused (k : Keeper) (st : State) (C : Bytes) (closeChan : Bool)
    (idxPre idxPost : List (Nat × List Nat)) (v : Nat) (idsPre idsPost : List Nat) (f : Nat)
    (opf : UnbondingOp) (e : Error) (L : List Bytes)
    (hrt : k.unbondingOpCodec.RoundTrip) (htot : k.unbondingOpCodec.Total)
    (hacks : GetSlashAcks k st.store C = .ok L)
    (hidx : GetAllUnbondingOpIndexes k st.store C
      = .ok (idxPre ++ (v, idsPre ++ f :: idsPost) :: idxPost))
    (hpass : walkPasses k C st.store (indexedIds idxPre ++ idsPre))
    (hfpre : f ∉ indexedIds idxPre ++ idsPre) (hflt : f < 2 ^ 64)
    (hf : GetUnbondingOp k st.store f = .ok (opf, true)) (hfId : opf.Id = f)
    (hfempty : (removeStringFromSlice opf.UnbondingConsumerChains C).1 = [])
    (hrej : k.UnbondingCanComplete f = some e) :
    ∃ st', StopConsumerChain k st C false closeChan = .ok (some e, st') ∧
      GetUnbondingOp k st'.store f = .ok (opf, true) ∧
      (∀ id ∈ indexedIds idxPre ++ idsPre, ∀ op,
        GetUnbondingOp k st.store id = .ok (op, true) →
        (removeStringFromSlice op.UnbondingConsumerChains C).1 = [] →
        st'.store.get (UnbondingOpKey id) = none ∧
        st'.calls.count (.UnbondingCanComplete id)
          = st.calls.count (.UnbondingCanComplete id) + 1) ∧
      (∀ id ∈ indexedIds idxPre ++ idsPre, ∀ op,
        GetUnbondingOp k st.store id = .ok (op, true) →
        (removeStringFromSlice op.UnbondingConsumerChains C).1 ≠ [] →
        GetUnbondingOp k st'.store id = .ok (withoutChain op C, true)) ∧
      (∀ id, id < 2 ^ 64 → id ∉ indexedIds idxPre ++ idsPre →
        st'.store.get (UnbondingOpKey id) = st.store.get (UnbondingOpKey id)) ∧
      (∀ c, st'.store.prefixIterator (UnbondingOpIndexChainKey c)
        = (st.store.prefixIterator (UnbondingOpIndexChainKey c)).filter
            (fun x => decide (x.1 ∉ idxPre.map (fun y => UnbondingOpIndexKey C y.1)))) := by
  obtain ⟨st5, hsame, hcount5, hstart⟩ := StopConsumerChain_start k st C closeChan _ L hacks hidx
  have hget5 : ∀ id, GetUnbondingOp k st5.store id = GetUnbondingOp k st.store id :=
    fun id => GetUnbondingOp_congr k st.store _ id (hsame.1 id)
  have hpass5 := walkPasses_congr k C st.store st5.store _ hpass (fun id _ => hget5 id)
  obtain ⟨hpA, hpB, hdisj⟩ := walkPasses_append k C st5.store _ _ hpass5
  have hfA : f ∉ indexedIds idxPre := fun h => hfpre (List.mem_append_left _ h)
  have hfB : f ∉ idsPre := fun h => hfpre (List.mem_append_right _ h)
  -- the entries before the one that lists `f`
  obtain ⟨stA, hrunA, a1, a2, a3, a4⟩ := walkIndex_stopCallback_reach k C hrt htot idxPre st5 hpA
  have hidxA := walkIndex_stopCallback_index k C idxPre st5 stA hrunA
  have hgetA : ∀ id, id < 2 ^ 64 → id ∉ indexedIds idxPre →
      GetUnbondingOp k stA.store id = GetUnbondingOp k st.store id := by
    intro id hlt hid
    rw [GetUnbondingOp_congr k st5.store _ id (a1 id hlt hid), hget5]
  -- the operations the entry lists before `f`
  have hpB' : walkPasses k C stA.store idsPre :=
    walkPasses_congr k C st5.store stA.store _ hpB (fun id hid =>
      GetUnbondingOp_congr k st5.store _ id
        (a1 id (hpB.2 id hid).1 (fun h => hdisj id h hid)))
  obtain ⟨stB, hrunB, b0, b1, b2, b3, b4⟩ := releaseUnbondingOps_reach k C hrt htot idsPre stA hpB'
  have hfB' : GetUnbondingOp k stB.store f = .ok (opf, true) := by
    rw [GetUnbondingOp_congr k stA.store _ f (b1 f hflt hfB), hgetA f hflt hfA]
    exact hf
  have hrel : releaseUnbondingOps k C (idsPre ++ f :: idsPost) (none, stA)
      = .ok (false, (some e,
          { stB with calls := stB.calls ++ [.UnbondingCanComplete f] })) := by
    rw [releaseUnbondingOps_append k C idsPre _ stA _ hrunB, releaseUnbondingOps]
    simp only [hfB', hfempty, List.length_nil, if_true, hfId, hrej]
  have hrun : walkIndex (stopCallback k C)
      (idxPre ++ (v, idsPre ++ f :: idsPost) :: idxPost) (none, st5)
      = .ok (some e, { stB with calls := stB.calls ++ [.UnbondingCanComplete f] }) := by
    rw [walkIndex_stopCallback_append k C idxPre _ st5 stA hrunA, walkIndex]
    simp only [stopCallback, hrel]
  refine ⟨_, hstart.trans hrun, hfB', ?_, ?_, ?_, ?_⟩
  · intro id hid op hget hempty
    have hidf : id ≠ f := fun h => hfpre (h ▸ hid)
    show stB.store.get _ = none ∧ (stB.calls ++ [Call.UnbondingCanComplete f]).count _ = _
    rw [count_append_other _ _ _ hidf]
    rcases List.mem_append.1 hid with hA | hB
    · have hlt : id < 2 ^ 64 := (hpA.2 id hA).1
      obtain ⟨hg, hc⟩ := a3 id hA op (by rw [hget5]; exact hget) hempty
      have hnB : id ∉ idsPre := fun h => hdisj id hA h
      exact ⟨(b1 id hlt hnB).trans hg, by rw [b2 id hnB, hc, hcount5 id]⟩
    · have hlt : id < 2 ^ 64 := (hpB.2 id hB).1
      have hnA : id ∉ indexedIds idxPre := fun h => hdisj id h hB
      obtain ⟨hg, hc⟩ := b3 id hB op (by rw [hgetA id hlt hnA]; exact hget) hempty
      exact ⟨hg, by rw [hc, a2 id hnA, hcount5 id]⟩
  · intro id hid op hget hmulti
    show GetUnbondingOp k stB.store id = _
    rcases List.mem_append.1 hid with hA | hB
    · have hlt : id < 2 ^ 64 := (hpA.2 id hA).1
      obtain ⟨hg, _⟩ := a4 id hA op (by rw [hget5]; exact hget) hmulti
      have hnB : id ∉ idsPre := fun h => hdisj id hA h
      rw [GetUnbondingOp_congr k stA.store _ id (b1 id hlt hnB)]
      exact hg
    · have hlt : id < 2 ^ 64 := (hpB.2 id hB).1
      have hnA : id ∉ indexedIds idxPre := fun h => hdisj id h hB
      exact (b4 id hB op (by rw [hgetA id hlt hnA]; exact hget) hmulti).1
  · intro id hlt hid
    show stB.store.get _ = _
    rw [b1 id hlt (fun h => hid (List.mem_append_right _ h)),
      a1 id hlt (fun h => hid (List.mem_append_left _ h)), hsame.1 id]
  · intro c
    show stB.store.prefixIterator _ = _
    rw [b0 c, hidxA c, hsame.2 c]

/-- `StopConsumerChain(C, lockUbd = false, _)` when the walk gets through every
operation the index of `C` lists: the call returns no error; each listed
operation that waited for `C` only is completed once and its record deleted;
each listed operation that waits for another chain is stored with its wait-set
without `C` and is not completed; an operation that is not listed keeps its
record. -/
theorem StopConsumerChain_passes (k : Keeper) (st : State) (C : Bytes) (closeChan : Bool)
    (idx : List (Nat × List Nat)) (L : List Bytes)
    (hrt : k.unbondingOpCodec.RoundTrip) (htot : k.unbondingOpCodec.Total)
    (hacks : GetSlashAcks k st.store C = .ok L)
    (hidx : GetAllUnbondingOpIndexes k st.store C = .ok idx)
    (hpass : walkPasses k C st.store (indexedIds idx)) :
    ∃ st', StopConsumerChain k st C false closeChan = .ok (none, st') ∧
      (∀ id, id < 2 ^ 64 → id ∉ indexedIds idx →
        st'.store.get (UnbondingOpKey id) = st.store.get (UnbondingOpKey id)) ∧
      (∀ id, id ∉ indexedIds idx → st'.calls.count (.UnbondingCanComplete id)
        = st.calls.count (.UnbondingCanComplete id)) ∧
      (∀ id ∈ indexedIds idx, ∀ op, GetUnbondingOp k st.store id = .ok (op, true) →
        (removeStringFromSlice op.UnbondingConsumerChains C).1 = [] →
        st'.store.get (UnbondingOpKey id) = none ∧
        st'.calls.count (.UnbondingCanComplete id)
          = st.calls.count (.UnbondingCanComplete id) + 1) ∧
      (∀ id ∈ indexedIds idx, ∀ op, GetUnbondingOp k st.store id = .ok (op, true) →
        (removeStringFromSlice op.UnbondingConsumerChains C).1 ≠ [] →
        GetUnbondingOp k st'.store id = .ok (withoutChain op C, true) ∧
        st'.calls.count (.UnbondingCanComplete id)
          = st.calls.count (.UnbondingCanComplete id)) := by
  obtain ⟨st5, hsame, hcount5, hstart⟩ := StopConsumerChain_start k st C closeChan _ L hacks hidx
  have hget5 : ∀ id, GetUnbondingOp k st5.store id = GetUnbondingOp k st.store id :=
    fun id => GetUnbondingOp_congr k st.store _ id (hsame.1 id)
  obtain ⟨st', hrun, a1, a2, a3, a4⟩ := walkIndex_stopCallback_reach k C hrt htot idx st5
    (walkPasses_congr k C st.store st5.store _ hpass (fun id _ => hget5 id))
  refine ⟨st', hstart.trans hrun, ?_, ?_, ?_, ?_⟩
  · intro id hlt hid
    rw [a1 id hlt hid, hsame.1 id]
  · intro id hid
    rw [a2 id hid, hcount5 id]
  · intro id hid op hget hempty
    obtain ⟨hg, hc⟩ := a3 id hid op (by rw [hget5]; exact hget) hempty
    exact ⟨hg, by rw [hc, hcount5 id]⟩
  · intro id hid op hget hmulti
    obtain ⟨hg, hc⟩ := a4 id hid op (by rw [hget5]; exact hget) hmulti
    exact ⟨hg, by rw [hc, hcount5 id]⟩

/-- C17, as amended: the staking keeper refuses the completion of the
operation `f`, and the failed call released no operation of the index entry of
`f`: the operations `idsPre` that the entry lists before `f` wait for another
chain, so that the failed call stored them with their wait-sets without `C`.
Every operation the index of `C` lists is stored under its own ID and is listed
once, and the operations of the entries before that of `f` that wait for `C`
only are accepted. Then the first `StopConsumerChain(C, false, _)` returns the
error of the staking keeper, and a second call on the state it left, with a
staking keeper that accepts every completion, returns no error: each operation
of the remaining entries that waits for `C` only is completed once in the
second call and its record deleted; each operation the failed call released
stays deleted and is not completed again; each operation of `idsPre` stays
stored with its wait-set without `C` and is not completed. -/
theorem StopConsumerChain_retry (k : Keeper) (st : State) (C : Bytes) (closeChan : Bool)
    (idxPre idxPost : List (Nat × List Nat)) (v : Nat) (idsPre idsPost : List Nat) (f : Nat)
    (opf : UnbondingOp) (e : Error) (L : List Bytes)
    (hrt : k.unbondingOpCodec.RoundTrip)
    (htot : k.unbondingOpCodec.Total)
    (hwf : st.store.WF)
    (hkeys : indexKeysOf st.store C)
    (hacks : GetSlashAcks k st.store C = .ok L)
    (hidx : GetAllUnbondingOpIndexes k st.store C
      = .ok (idxPre ++ (v, idsPre ++ f :: idsPost) :: idxPost))
    (hnd : (indexedIds (idxPre ++ (v, idsPre ++ f :: idsPost) :: idxPost)).Nodup)
    (hfound : ∀ id ∈ indexedIds (idxPre ++ (v, idsPre ++ f :: idsPost) :: idxPost),
      id < 2 ^ 64 ∧ ∃ op, GetUnbondingOp k st.store id = .ok (op, true) ∧ op.Id = id)
    (hacc : ∀ id ∈ indexedIds idxPre, ∀ op, GetUnbondingOp k st.store id = .ok (op, true) →
      (removeStringFromSlice op.UnbondingConsumerChains C).1 = [] →
      k.UnbondingCanComplete id = none)
    (hwait : ∀ id ∈ idsPre, ∀ op, GetUnbondingOp k st.store id = .ok (op, true) →
      (removeStringFromSlice op.UnbondingConsumerChains C).1 ≠ [])
    (hf : GetUnbondingOp k st.store f = .ok (opf, true))
    (hfempty : (removeStringFromSlice opf.UnbondingConsumerChains C).1 = [])
    (hrej : k.UnbondingCanComplete f = some e) :
    ∃ st1 st2,
      StopConsumerChain k st C false closeChan = .ok (some e, st1) ∧
      StopConsumerChain { k with UnbondingCanComplete := fun _ => none } st1 C false closeChan
        = .ok (none, st2) ∧
      (∀ id ∈ indexedIds ((v, idsPre ++ f :: idsPost) :: idxPost), ∀ op,
        GetUnbondingOp k st.store id = .ok (op, true) →
        (removeStringFromSlice op.UnbondingConsumerChains C).1 = [] →
        st2.store.get (UnbondingOpKey id) = none ∧
        st2.calls.count (.UnbondingCanComplete id)
          = st1.calls.count (.UnbondingCanComplete id) + 1) ∧
      (∀ id ∈ indexedIds idxPre, ∀ op,
        GetUnbondingOp k st.store id = .ok (op, true) →
        (removeStringFromSlice op.UnbondingConsumerChains C).1 = [] →
        st2.store.get (UnbondingOpKey id) = none ∧
        st2.calls.count (.UnbondingCanComplete id)
          = st.calls.count (.UnbondingCanComplete id) + 1) ∧
      (∀ id ∈ idsPre, ∀ op,
        GetUnbondingOp k st.store id = .ok (op, true) →
        GetUnbondingOp k st1.store id = .ok (withoutChain op C, true) ∧
        GetUnbondingOp k st2.store id = .ok (withoutChain op C, true) ∧
        st2.calls.count (.UnbondingCanComplete id)
          = st1.calls.count (.UnbondingCanComplete id)) := by
  have hall : indexedIds (idxPre ++ (v, idsPre ++ f :: idsPost) :: idxPost)
      = indexedIds idxPre ++ indexedIds ((v, idsPre ++ f :: idsPost) :: idxPost) :=
    indexedIds_append _ _
  have hremain : indexedIds ((v, idsPre ++ f :: idsPost) :: idxPost)
      = idsPre ++ (f :: (idsPost ++ indexedIds idxPost)) := by
    rw [indexedIds_cons]
    simp
  rw [hall] at hnd hfound
  obtain ⟨hndA, hndR, hdisj⟩ := List.nodup_append.1 hnd
  have hndR' := hndR
  rw [hremain] at hndR'
  obtain ⟨hndB, hndF, hdisjB⟩ := List.nodup_append.1 hndR'
  have hfR : f ∈ indexedIds ((v, idsPre ++ f :: idsPost) :: idxPost) := by
    rw [hremain]
    exact List.mem_append_right _ (List.mem_cons_self _ _)
  have hBR : ∀ id ∈ idsPre, id ∈ indexedIds ((v, idsPre ++ f :: idsPost) :: idxPost) := by
    intro id hid
    rw [hremain]
    exact List.mem_append_left _ hid
  have hfA : f ∉ indexedIds idxPre := fun h => hdisj h hfR
  have hfB : f ∉ idsPre := fun h => hdisjB h (List.mem_cons_self _ _)
  have hfpre : f ∉ indexedIds idxPre ++ idsPre := by
    intro h
    rcases List.mem_append.1 h with h | h
    · exact hfA h
    · exact hfB h
  obtain ⟨hflt, opf', hf', hfId'⟩ := hfound f (List.mem_append_right _ hfR)
  have hfId : opf.Id = f := by
    rw [hf] at hf'
    injection hf' with hf'
    injection hf' with hop _
    rw [hop]
    exact hfId'
  have hpass : walkPasses k C st.store (indexedIds idxPre ++ idsPre) := by
    refine ⟨List.nodup_append.2 ⟨hndA, hndB, fun x hx hxB => hdisj hx (hBR x hxB)⟩, ?_⟩
    intro id hid
    rcases List.mem_append.1 hid with h | h
    · obtain ⟨hlt, op, hg, hId⟩ := hfound id (List.mem_append_left _ h)
      exact ⟨hlt, op, hg, hId, hacc id h op hg⟩
    · obtain ⟨hlt, op, hg, hId⟩ := hfound id (List.mem_append_right _ (hBR id h))
      exact ⟨hlt, op, hg, hId, fun hempty => absurd hempty (hwait id h op hg)⟩
  obtain ⟨st1, hfail, _, hrel1, hshr1, hframe1, hidx1⟩ :=
    StopConsumerChain_refused k st C closeChan idxPre idxPost v idsPre idsPost f opf e L
      hrt htot hacks hidx hpass hfpre hflt hf hfId hfempty hrej
  -- the state the failed call left, as the second call finds it
  have hacks1 : GetSlashAcks k st1.store C = .ok [] := by
    obtain ⟨L', store5, hempty, hframe⟩ := StopConsumerChain_ok k st C false closeChan
      (some e) st1 hfail
    have hdr := EmptySlashAcks_drained k _ C L' store5 hempty
    unfold GetSlashAcks at hdr ⊢
    unfold SlashAcksKey at hdr ⊢
    rw [hframe.1 SlashAcksBytePrefix C (by decide) (by decide)]
    exact hdr
  have hiter1 : GetAllUnbondingOpIndexes k st1.store C
      = .ok ((v, idsPre ++ f :: idsPost) :: idxPost) := by
    unfold GetAllUnbondingOpIndexes at hidx ⊢
    rw [hidx1 C]
    obtain ⟨e1, e2, hsplit, hd1, hd2⟩ := decodeIndexEntries_append k C idxPre _ _ hidx
    have hk1 : idxPre.map (fun x => UnbondingOpIndexKey C x.1) = e1.map Prod.fst :=
      decodeIndexEntries_keys k C e1 idxPre hd1
        (fun en hen => hkeys en (by rw [hsplit]; exact List.mem_append_left _ hen))
    have hnodup : ((e1 ++ e2).map Prod.fst).Nodup := by
      rw [← hsplit]
      exact (Store.prefixIterator_sorted _ _ hwf).imp (fun hab => ne_of_lt hab)
    rw [hk1, hsplit, filter_not_mem_keys e1 e2 hnodup]
    exact hd2
  have hget1 : ∀ id ∈ indexedIds ((v, idsPre ++ f :: idsPost) :: idxPost), id ∉ idsPre →
      GetUnbondingOp k st1.store id = GetUnbondingOp k st.store id := by
    intro id hid hnB
    apply GetUnbondingOp_congr
    apply hframe1 id (hfound id (List.mem_append_right _ hid)).1
    intro h
    rcases List.mem_append.1 h with h | h
    · exact hdisj h hid
    · exact hnB h
  have hget1B : ∀ id ∈ idsPre, ∀ op, GetUnbondingOp k st.store id = .ok (op, true) →
      GetUnbondingOp k st1.store id = .ok (withoutChain op C, true) :=
    fun id hid op hg => hshr1 id (List.mem_append_right _ hid) op hg (hwait id hid op hg)
  have hpass1 : walkPasses { k with UnbondingCanComplete := fun _ => none } C st1.store
      (indexedIds ((v, idsPre ++ f :: idsPost) :: idxPost)) := by
    refine ⟨hndR, fun id hid => ?_⟩
    obtain ⟨hlt, op, hg, hId⟩ := hfound id (List.mem_append_right _ hid)
    by_cases hB : id ∈ idsPre
    · exact ⟨hlt, withoutChain op C, hget1B id hB op hg, hId, fun _ => rfl⟩
    · exact ⟨hlt, op, (hget1 id hid hB).trans hg, hId, fun _ => rfl⟩
  have hiter2 : GetAllUnbondingOpIndexes { k with UnbondingCanComplete := fun _ => none }
      st1.store C = .ok ((v, idsPre ++ f :: idsPost) :: idxPost) := by
    unfold GetAllUnbondingOpIndexes at hiter1 ⊢
    rw [decodeIndexEntries_congr k { k with UnbondingCanComplete := fun _ => none } C rfl]
    exact hiter1
  obtain ⟨st2, hrun2, c1, c2, c3, c4⟩ := StopConsumerChain_passes
    { k with UnbondingCanComplete := fun _ => none } st1 C closeChan
    ((v, idsPre ++ f :: idsPost) :: idxPost) [] hrt htot hacks1 hiter2 hpass1
  refine ⟨st1, st2, hfail, hrun2, ?_, ?_, ?_⟩
  · intro id hid op hget hempty
    have hnB : id ∉ idsPre := fun h => hwait id h op hget hempty
    exact c3 id hid op ((hget1 id hid hnB).trans hget) hempty
  · intro id hid op hget hempty
    have hlt : id < 2 ^ 64 := (hfound id (List.mem_append_left _ hid)).1
    have hnR : id ∉ indexedIds ((v, idsPre ++ f :: idsPost) :: idxPost) := fun h => hdisj hid h
    obtain ⟨hg, hc⟩ := hrel1 id (List.mem_append_left _ hid) op hget hempty
    exact ⟨(c1 id hlt hnR).trans hg, (c2 id hnR).trans hc⟩
  · intro id hid op hget
    have h1 := hget1B id hid op hget
    obtain ⟨hg, hc⟩ := c4 id (hBR id hid) _ h1
      (withoutChain_waiting op C (hwait id hid op hget))
    have hg' : GetUnbondingOp k st2.store id
        = .ok (withoutChain (withoutChain op C) C, true) := hg
    refine ⟨h1, ?_, hc⟩
    rw [hg', withoutChain_idem]

/-- Every operation the index of `consu` lists in `waitingBatchState` is stored
under its ID. -/
theorem waitingBatchState_found :
    ∀ id ∈ indexedIds ([(1, [7])] ++ (2, [9] ++ 4 :: []) :: []), id < 2 ^ 64 ∧
      ∃ op, GetUnbondingOp pickyKeeper waitingBatchState.store id = .ok (op, true) ∧
        op.Id = id := by
  intro id hid
  have h : id = 7 ∨ id = 9 ∨ id = 4 := by simpa [indexedIds] using hid
  rcases h with h | h | h <;> subst h
  · exact ⟨by decide, { Id := 7, UnbondingConsumerChains := [ascii "consu"] }, by decide, rfl⟩
  · exact ⟨by decide, { Id := 9, UnbondingConsumerChains := [ascii "consu", ascii "other"] },
      by decide, rfl⟩
  · exact ⟨by decide, { Id := 4, UnbondingConsumerChains := [ascii "consu"] }, by decide, rfl⟩

/-- The index entries of the chain `consu` in `waitingBatchState` have keys of
`UnbondingOpIndexKey`. -/
theorem waitingBatchState_indexKeysOf :
    indexKeysOf waitingBatchState.store (ascii "consu") := by
  intro e he
  have hiter : waitingBatchState.store.prefixIterator (UnbondingOpIndexChainKey (ascii "consu"))
      = [indexEntry (ascii "consu") 1 [7], indexEntry (ascii "consu") 2 [9, 4]] := by
    decide
  rw [hiter] at he
  simp only [List.mem_cons, List.mem_singleton, List.not_mem_nil, or_false] at he
  rcases he with he | he
  · exact ⟨1, by decide, by rw [he]; rfl⟩
  · exact ⟨2, by decide, by rw [he]; rfl⟩

/-- The operation 9 of `waitingBatchState` waits for the chain `other`. -/
theorem waitingBatchState_waits :
    ∀ id ∈ [9], ∀ op, GetUnbondingOp pickyKeeper waitingBatchState.store id = .ok (op, true) →
      (removeStringFromSlice op.UnbondingConsumerChains (ascii "consu")).1 ≠ [] := by
  intro id hid op hg
  have h : id = 9 := by simpa using hid
  subst h
  have h9 : GetUnbondingOp pickyKeeper waitingBatchState.store 9
      = .ok ({ Id := 9, UnbondingConsumerChains := [ascii "consu", ascii "other"] }, true) := by
    decide
  rw [h9] at hg
  injection hg with hg
  injection hg with hop _
  subst hop
  decide

/-- C17, as amended, on a concrete input: the state `waitingBatchState` and a
staking keeper that accepts the operation 7 only. The first call releases 7,
stores 9 without `consu` and is refused at 4, which the index lists after 9 in
one entry. The second call, with a staking keeper that accepts every
completion, completes 4 and returns no error. -/
theorem StopConsumerChain_retry_witness :
    (StopConsumerChain pickyKeeper waitingBatchState (ascii "consu") false true
        = .ok (some (.external "refused"), waitingAbortedState) ∧
      StopConsumerChain { pickyKeeper with UnbondingCanComplete := fun _ => none }
          waitingAbortedState (ascii "consu") false true
        = .ok (none, waitingRetriedState)) ∧
    ∃ st1 st2,
      StopConsumerChain pickyKeeper waitingBatchState (ascii "consu") false true
        = .ok (some (.external "refused"), st1) ∧
      StopConsumerChain { pickyKeeper with UnbondingCanComplete := fun _ => none } st1
          (ascii "consu") false true
        = .ok (none, st2) ∧
      (∀ id ∈ indexedIds ((2, [9] ++ 4 :: []) :: []), ∀ op,
        GetUnbondingOp pickyKeeper waitingBatchState.store id = .ok (op, true) →
        (removeStringFromSlice op.UnbondingConsumerChains (ascii "consu")).1 = [] →
        st2.store.get (UnbondingOpKey id) = none ∧
        st2.calls.count (.UnbondingCanComplete id)
          = st1.calls.count (.UnbondingCanComplete id) + 1) ∧
      (∀ id ∈ indexedIds [(1, [7])], ∀ op,
        GetUnbondingOp pickyKeeper waitingBatchState.store id = .ok (op, true) →
        (removeStringFromSlice op.UnbondingConsumerChains (ascii "consu")).1 = [] →
        st2.store.get (UnbondingOpKey id) = none ∧
        st2.calls.count (.UnbondingCanComplete id)
          = waitingBatchState.calls.count (.UnbondingCanComplete id) + 1) ∧
      (∀ id ∈ [9], ∀ op,
        GetUnbondingOp pickyKeeper waitingBatchState.store id = .ok (op, true) →
        GetUnbondingOp pickyKeeper st1.store id
          = .ok (withoutChain op (ascii "consu"), true) ∧
        GetUnbondingOp pickyKeeper st2.store id
          = .ok (withoutChain op (ascii "consu"), true) ∧
        st2.calls.count (.UnbondingCanComplete id)
          = st1.calls.count (.UnbondingCanComplete id)) :=
  ⟨⟨by decide, by decide⟩,
    StopConsumerChain_retry pickyKeeper waitingBatchState (ascii "consu") true
      [(1, [7])] [] 2 [9] [] 4 { Id := 4, UnbondingConsumerChains := [ascii "consu"] }
      (.external "refused") [] testKeeper_unbondingOpRoundTrip testKeeper_unbondingOpCodec
      (by decide) waitingBatchState_indexKeysOf (by decide) (by decide) (by decide)
      waitingBatchState_found
      (fun id hid _ _ _ => by
        have h : id = 7 := by simpa [indexedIds] using hid
        subst h
        rfl)
      waitingBatchState_waits (by decide) (by decide) (by decide)⟩

end CCV
